import Mathlib

/-!
# ORB-SLAM2 front end: `Frame.cc` and `Initializer.cc`

A shallow embedding of the grid index, the stereo matcher, the frustum test, the
RGB-D depth binding and the image bounds of `src/Frame.cc`, and of the sampling, the
model selection, the hypothesis selection, the scoring of a model, the normalisation,
the triangulation, the cheirality test, the linear system of the homography, the
Faugeras parameters of its decomposition, the choice of the winning hypothesis and the
decomposition of the essential matrix of `src/Initializer.cc`, with the properties of
the specification stated over it.

Modelling conventions.

* `float` values are exact rationals (`ℚ`): rounding error, overflow and the
  conversion of an out-of-range `float` to `int` are not modelled, except where a
  property depends on the rounding: in the ratio `RH` and its comparison with `0.40`
  (`selectModel`), in the product `0.7*maxGood` (`ReconstructF`) and in the
  back-projection of a keypoint and its projection (`UnprojectStereo`,
  `isInFrustumRounded`) every operation is followed by the IEEE 754 rounding of its
  result, `roundFloat` or `roundDouble`.  Where the
  source divides by a zero that it can really meet (`mbf/minZ` with `mb = 0`,
  `1.0f/PcZ`, `PO.dot(Pn)/dist`, `SH/(SH+SF)`, the projective denominators of the
  scoring, `1.0/p3dC1.at<float>(2)`, `normal1.dot(normal2)/(dist1*dist2)`) the
  quotient and what is computed from it are extended values of `XFloat`.
* `cv::SVD::compute`, `cv::SVDecomp`, `cv::norm`, `cv::undistortPoints`, `sqrt` and
  `acos` are library code: they are parameters of the functions that call them; so
  are, where rounding is modelled, the `cv::Mat` expression `A*x + c` and
  `cv::Mat::dot`.
* `int` and `size_t` values are `Int` and `Nat`; no embedded loop counter can
  overflow on inputs that fit in memory.
* A read or write outside a `std::vector`, and a failed OpenCV range assertion,
  end the computation with a `Fault`.
* `FRAME_GRID_COLS`, `FRAME_GRID_ROWS` (macros of `Frame.h`), `ORBmatcher::TH_HIGH`,
  `ORBmatcher::TH_LOW` and `ORBmatcher::DescriptorDistance` are declared outside the
  embedded files and are parameters of the model.
-/

namespace ORB_SLAM2

/-! ## Data model -/

/-- The fields of `cv::KeyPoint` that `Frame.cc` reads: `pt.x`, `pt.y`, `octave`. -/
structure KeyPoint where
  ptx : ℚ
  pty : ℚ
  octave : Int
  deriving DecidableEq

/-- Ways in which the embedded code leaves defined behaviour. -/
inductive Fault where
  /-- `mvKeysUn[vCell[j]]` read past the end (`GetFeaturesInArea`). -/
  | keypointIndex
  /-- `mvScaleFactors[...]` or `mvInvScaleFactors[...]` read past the end. -/
  | scaleIndex
  /-- `vRowIndices[...]` accessed outside `[0, nRows)`. -/
  | rowIndex
  /-- `mvImagePyramid[...]` read past the end. -/
  | pyramidIndex
  /-- `rowRange`/`colRange` outside the image: OpenCV assertion failure. -/
  | patchRange
  /-- `vDistIdx[vDistIdx.size()/2]` read on an empty vector. -/
  | medianIndex
  /-- `mvuRight[...]` or `mvDepth[...]` accessed past the end. -/
  | resultIndex
  /-- `imDepth.at<float>(v,u)` read outside the depth image. -/
  | depthPixel
  /-- `vAvailableIndices[randi]` read outside the vector, or `back()` of an empty one
  (`Initializer::Initialize`). -/
  | sampleIndex
  /-- `vR[bestSolutionIdx]` read with `bestSolutionIdx = -1` (`ReconstructH`). -/
  | solutionIndex
  /-- `vbMatchesInliers[i]` read past the end (`CheckRT`). -/
  | maskIndex
  /-- `vCosParallax[idx]` read outside the vector (`CheckRT`). -/
  | parallaxIndex
  deriving DecidableEq, Repr

/-- The static members of `Frame` that the grid code reads, together with the grid
dimensions `FRAME_GRID_COLS` and `FRAME_GRID_ROWS` of `Frame.h`. -/
structure FrameStatics where
  FRAME_GRID_COLS : Nat
  FRAME_GRID_ROWS : Nat
  mnMinX : ℚ
  mnMaxX : ℚ
  mnMinY : ℚ
  mnMaxY : ℚ
  mfGridElementWidthInv : ℚ
  mfGridElementHeightInv : ℚ

/-- The member `mGrid[FRAME_GRID_COLS][FRAME_GRID_ROWS]`: one index list per cell.
Only cells inside `[0,COLS) × [0,ROWS)` are ever read or written by the embedded code. -/
abbrev Grid := Int → Int → List Nat

/-- The grid of a freshly constructed `Frame`: every cell is an empty vector. -/
def emptyGrid : Grid := fun _ _ => []

/-- The C library `round`: nearest integer, halfway cases away from zero. -/
def cround (q : ℚ) : Int := if 0 ≤ q then ⌊q + 1 / 2⌋ else ⌈q - 1 / 2⌉

/-! ## Grid index -/

/-- `Frame::PosInGrid`: the returned flag and the two output parameters. -/
def PosInGrid (s : FrameStatics) (kp : KeyPoint) : Bool × Int × Int :=
  let posX := cround ((kp.ptx - s.mnMinX) * s.mfGridElementWidthInv)
  let posY := cround ((kp.pty - s.mnMinY) * s.mfGridElementHeightInv)
  if posX < 0 ∨ posX ≥ (s.FRAME_GRID_COLS : Int) ∨ posY < 0 ∨ posY ≥ (s.FRAME_GRID_ROWS : Int) then
    (false, posX, posY)
  else
    (true, posX, posY)

/-- `mGrid[cx][cy].push_back(i)`. -/
def gridPush (g : Grid) (cx cy : Int) (i : Nat) : Grid :=
  fun a b => if a = cx ∧ b = cy then g a b ++ [i] else g a b

/-- The loop `for(int i=0;i<N;i++)` of `AssignFeaturesToGrid`, from index `i` on, over
the keypoints `mvKeysUn[i], mvKeysUn[i+1], ...` still to visit. -/
def assignLoop (s : FrameStatics) : Nat → List KeyPoint → Grid → Grid
  | _, [], g => g
  | i, kp :: rest, g =>
    match PosInGrid s kp with
    | (true, nGridPosX, nGridPosY) => assignLoop s (i + 1) rest (gridPush g nGridPosX nGridPosY i)
    | (false, _, _) => assignLoop s (i + 1) rest g

/-- `Frame::AssignFeaturesToGrid` on the undistorted keypoints `mvKeysUn` (`N` is their
number) and the current grid.  The `reserve` calls have no observable effect. -/
def AssignFeaturesToGrid (s : FrameStatics) (mvKeysUn : List KeyPoint) (mGrid : Grid) : Grid :=
  assignLoop s 0 mvKeysUn mGrid

/-- The integers `lo, lo+1, ..., hi` visited by `for(int k = lo; k<=hi; k++)`. -/
def intRange (lo hi : Int) : List Int :=
  (List.range (hi + 1 - lo).toNat).map (fun (k : Nat) => lo + (k : Int))

/-- The level test and the window test of `GetFeaturesInArea` on one keypoint. -/
def keyAccepted (x y r : ℚ) (minLevel maxLevel : Int) (bCheckLevels : Bool)
    (kpUn : KeyPoint) : Bool :=
  if bCheckLevels ∧ kpUn.octave < minLevel then false
  else if bCheckLevels ∧ maxLevel ≥ 0 ∧ kpUn.octave > maxLevel then false
  else decide (|kpUn.ptx - x| < r ∧ |kpUn.pty - y| < r)

/-- The innermost loop of `GetFeaturesInArea` over one cell `vCell`, appending to
the result `vIndices`. -/
def scanCell (mvKeysUn : List KeyPoint) (x y r : ℚ) (minLevel maxLevel : Int)
    (bCheckLevels : Bool) : List Nat → List Nat → Except Fault (List Nat)
  | [], vIndices => .ok vIndices
  | j :: rest, vIndices =>
    match mvKeysUn[j]? with
    | none => .error Fault.keypointIndex
    | some kpUn =>
      if keyAccepted x y r minLevel maxLevel bCheckLevels kpUn then
        scanCell mvKeysUn x y r minLevel maxLevel bCheckLevels rest (vIndices ++ [j])
      else
        scanCell mvKeysUn x y r minLevel maxLevel bCheckLevels rest vIndices

/-- The two nested cell loops of `GetFeaturesInArea`, over the cells in visiting order. -/
def scanCells (mvKeysUn : List KeyPoint) (mGrid : Grid) (x y r : ℚ) (minLevel maxLevel : Int)
    (bCheckLevels : Bool) : List (Int × Int) → List Nat → Except Fault (List Nat)
  | [], vIndices => .ok vIndices
  | c :: rest, vIndices =>
    match scanCell mvKeysUn x y r minLevel maxLevel bCheckLevels (mGrid c.1 c.2) vIndices with
    | .error e => .error e
    | .ok v => scanCells mvKeysUn mGrid x y r minLevel maxLevel bCheckLevels rest v

/-- The cells `(ix, iy)` in the order the nested loops visit them. -/
def cellsInOrder (nMinCellX nMaxCellX nMinCellY nMaxCellY : Int) : List (Int × Int) :=
  (intRange nMinCellX nMaxCellX).flatMap
    (fun ix => (intRange nMinCellY nMaxCellY).map (fun iy => (ix, iy)))

/-- `Frame::GetFeaturesInArea`. -/
def GetFeaturesInArea (s : FrameStatics) (mvKeysUn : List KeyPoint) (mGrid : Grid)
    (x y r : ℚ) (minLevel maxLevel : Int) : Except Fault (List Nat) :=
  let nMinCellX : Int := max 0 ⌊(x - s.mnMinX - r) * s.mfGridElementWidthInv⌋
  if nMinCellX ≥ (s.FRAME_GRID_COLS : Int) then .ok [] else
  let nMaxCellX : Int := min ((s.FRAME_GRID_COLS : Int) - 1) ⌈(x - s.mnMinX + r) * s.mfGridElementWidthInv⌉
  if nMaxCellX < 0 then .ok [] else
  let nMinCellY : Int := max 0 ⌊(y - s.mnMinY - r) * s.mfGridElementHeightInv⌋
  if nMinCellY ≥ (s.FRAME_GRID_ROWS : Int) then .ok [] else
  let nMaxCellY : Int := min ((s.FRAME_GRID_ROWS : Int) - 1) ⌈(y - s.mnMinY + r) * s.mfGridElementHeightInv⌉
  if nMaxCellY < 0 then .ok [] else
  let bCheckLevels : Bool := decide (minLevel > 0) || decide (maxLevel ≥ 0)
  scanCells mvKeysUn mGrid x y r minLevel maxLevel bCheckLevels
    (cellsInOrder nMinCellX nMaxCellX nMinCellY nMaxCellY) []

/-- The test of `GetFeaturesInArea` on a stored index `j`: the keypoint `mvKeysUn[j]`
exists and passes `keyAccepted`. -/
def indexAccepted (mvKeysUn : List KeyPoint) (x y r : ℚ) (minLevel maxLevel : Int)
    (bCheckLevels : Bool) (j : Nat) : Bool :=
  match mvKeysUn[j]? with
  | some kpUn => keyAccepted x y r minLevel maxLevel bCheckLevels kpUn
  | none => false

/-! ## Stereo matcher -/

/-- A `float` that may be infinite or NaN.  Used for `maxD = mbf/minZ` and
`minU = uL - maxD` only; every other quantity of the model is finite. -/
inductive XFloat where
  | fin (q : ℚ)
  | posInf
  | negInf
  | nan
  deriving DecidableEq

/-- IEEE division `a / b` of finite values (a zero divisor is `+0.0`). -/
def XFloat.div (a b : ℚ) : XFloat :=
  if b ≠ 0 then XFloat.fin (a / b)
  else if 0 < a then XFloat.posInf
  else if a < 0 then XFloat.negInf
  else XFloat.nan

/-- IEEE subtraction `u - m` of a finite `u`. -/
def XFloat.rsub (u : ℚ) : XFloat → XFloat
  | XFloat.fin q => XFloat.fin (u - q)
  | XFloat.posInf => XFloat.negInf
  | XFloat.negInf => XFloat.posInf
  | XFloat.nan => XFloat.nan

/-- IEEE comparison `q < m` for a finite `q`. -/
def XFloat.ltX (q : ℚ) : XFloat → Bool
  | XFloat.fin m => decide (q < m)
  | XFloat.posInf => true
  | XFloat.negInf => false
  | XFloat.nan => false

/-- IEEE comparison `q >= m` for a finite `q`. -/
def XFloat.geX (q : ℚ) : XFloat → Bool
  | XFloat.fin m => decide (q ≥ m)
  | XFloat.posInf => false
  | XFloat.negInf => true
  | XFloat.nan => false

/-- A level of `mvImagePyramid`: an 8-bit `cv::Mat` with its size and its pixels
`px row col`. -/
structure Image where
  rows : Nat
  cols : Nat
  px : Nat → Nat → Int

/-- The members of `Frame`, and the state of its collaborators, that the stereo
matcher and the stereo constructor read or write.  `leftPyramid` and `rightPyramid`
are `mpORBextractorLeft->mvImagePyramid` and `mpORBextractorRight->mvImagePyramid`;
`DescriptorDistance iL iR` is `ORBmatcher::DescriptorDistance` of row `iL` of
`mDescriptors` and row `iR` of `mDescriptorsRight`; `mvKeysUn` holds what
`UndistortKeyPoints` (OpenCV) produced; `N` is `mvKeys.length`. -/
structure Frame where
  mbf : ℚ
  mb : ℚ
  mvKeys : List KeyPoint
  mvKeysRight : List KeyPoint
  mvKeysUn : List KeyPoint
  mvuRight : List ℚ
  mvDepth : List ℚ
  mGrid : Grid
  mvScaleFactors : List ℚ
  mvInvScaleFactors : List ℚ
  leftPyramid : List Image
  rightPyramid : List Image
  TH_HIGH : Int
  TH_LOW : Int
  DescriptorDistance : Nat → Nat → Int

/-- The constant `INT_MAX` of a 32-bit `int`. -/
def INT_MAX : Int := 2147483647

/-- Conversion of a `float` to an integer type: truncation towards zero. -/
def ctrunc (q : ℚ) : Int := if 0 ≤ q then ⌊q⌋ else ⌈q⌉

/-- Element `i` of a `std::vector` indexed by a signed value; `none` outside the vector. -/
def listAt {α : Type} (l : List α) (i : Int) : Option α :=
  if 0 ≤ i then l[i.toNat]? else none

/-- The `vRowIndices[yi].push_back(iR)` on row `yi` of the row table. -/
def rowPush : List (List Nat) → Nat → Nat → List (List Nat)
  | [], _, _ => []
  | row :: t, 0, iR => (row ++ [iR]) :: t
  | row :: t, yi + 1, iR => row :: rowPush t yi iR

/-- The loop `for(int yi=minr;yi<=maxr;yi++)` over the rows of one right keypoint. -/
def rowTableAdd (iR : Nat) : List Int → List (List Nat) → Except Fault (List (List Nat))
  | [], vRowIndices => .ok vRowIndices
  | yi :: rest, vRowIndices =>
    if 0 ≤ yi ∧ yi < (vRowIndices.length : Int) then
      rowTableAdd iR rest (rowPush vRowIndices yi.toNat iR)
    else .error Fault.rowIndex

/-- Step 1 of `ComputeStereoMatches`: the loop over the right keypoints that fills
`vRowIndices`, from index `iR` on. -/
def buildRowTable (mvScaleFactors : List ℚ) :
    Nat → List KeyPoint → List (List Nat) → Except Fault (List (List Nat))
  | _, [], vRowIndices => .ok vRowIndices
  | iR, kp :: rest, vRowIndices =>
    match listAt mvScaleFactors kp.octave with
    | none => .error Fault.scaleIndex
    | some sf =>
      let kpY := kp.pty
      let r := 2 * sf
      let maxr : Int := ⌈kpY + r⌉
      let minr : Int := ⌊kpY - r⌋
      match rowTableAdd iR (intRange minr maxr) vRowIndices with
      | .error e => .error e
      | .ok t => buildRowTable mvScaleFactors (iR + 1) rest t

/-- Step 2.1: the loop over `vCandidates` that keeps the right keypoint with the
smallest descriptor distance in `(bestDist, bestIdxR)`. -/
def preselect (f : Frame) (iL : Nat) (levelL : Int) (minU : XFloat) (maxU : ℚ) :
    List Nat → Int × Nat → Except Fault (Int × Nat)
  | [], best => .ok best
  | iR :: rest, (bestDist, bestIdxR) =>
    match f.mvKeysRight[iR]? with
    | none => .error Fault.keypointIndex
    | some kpR =>
      if kpR.octave < levelL - 1 ∨ kpR.octave > levelL + 1 then
        preselect f iL levelL minU maxU rest (bestDist, bestIdxR)
      else
        let uR := kpR.ptx
        if XFloat.geX uR minU ∧ uR ≤ maxU then
          let dist := f.DescriptorDistance iL iR
          if dist < bestDist then preselect f iL levelL minU maxU rest (dist, iR)
          else preselect f iL levelL minU maxU rest (bestDist, bestIdxR)
        else preselect f iL levelL minU maxU rest (bestDist, bestIdxR)

/-- The window `rowRange(r0, r1).colRange(c0, c1)` of an image, as a function of the
offsets inside the window; OpenCV asserts that both ranges lie inside the image. -/
def patch (im : Image) (r0 r1 c0 c1 : Int) : Except Fault (Nat → Nat → Int) :=
  if 0 ≤ r0 ∧ r0 ≤ r1 ∧ r1 ≤ (im.rows : Int) ∧ 0 ≤ c0 ∧ c0 ≤ c1 ∧ c1 ≤ (im.cols : Int) then
    .ok (fun i j => im.px (r0.toNat + i) (c0.toNat + j))
  else .error Fault.patchRange

/-- `cv::norm(IL, IR, cv::NORM_L1)` of two `(2w+1) × (2w+1)` windows, each after
subtraction of its centre pixel `at(w, w)`. -/
def normL1 (w : Nat) (IL IR : Nat → Nat → Int) : Int :=
  ((List.range (2 * w + 1)).map (fun i =>
    ((List.range (2 * w + 1)).map (fun j =>
      |(IL i j - IL w w) - (IR i j - IR w w)|)).sum)).sum

/-- Step 2.2: the sliding-window loop `for(int incR=-L; incR<=+L; incR++)`, with the
state `(bestDist, bestincR, vDists)`.  The distances are sums of absolute differences
of integer pixel values: the `float`s of `vDists` hold integers. -/
def slideLoop (IL : Nat → Nat → Int) (imR : Image) (scaledvL scaleduR0 : Int) :
    List Int → Int × Int × List Int → Except Fault (Int × Int × List Int)
  | [], st => .ok st
  | incR :: rest, (bestDist, bestincR, vDists) =>
    match patch imR (scaledvL - 5) (scaledvL + 5 + 1)
        (scaleduR0 + incR - 5) (scaleduR0 + incR + 5 + 1) with
    | .error e => .error e
    | .ok IR =>
      let dist : Int := normL1 5 IL IR
      let vDists1 := vDists.set (5 + incR).toNat dist
      if dist < bestDist then slideLoop IL imR scaledvL scaleduR0 rest (dist, incR, vDists1)
      else slideLoop IL imR scaledvL scaleduR0 rest (bestDist, bestincR, vDists1)

/-- The depth step: the range test on the disparity, the clamp of a non-positive
disparity, and the values stored in `(mvDepth[iL], mvuRight[iL])`; `none` when the
disparity is out of range. -/
def depthStep (mbf minD : ℚ) (maxD : XFloat) (uL bestuR : ℚ) : Option (ℚ × ℚ) :=
  let disparity := uL - bestuR
  if disparity ≥ minD ∧ XFloat.ltX disparity maxD then
    if disparity ≤ 0 then
      some (mbf / (1 / 100), uL - 1 / 100)
    else
      some (mbf / disparity, bestuR)
  else none

/-- Steps 2.2 and 2.3 for one left keypoint whose descriptor match `bestIdxR` passed
the threshold: SAD search, parabola fit and depth.  The result is
`(mvDepth[iL], mvuRight[iL], bestDist)`, or `none` where the source does `continue`. -/
def sadRefine (f : Frame) (minD : ℚ) (maxD : XFloat) (kpL : KeyPoint) (bestIdxR : Nat) :
    Except Fault (Option (ℚ × ℚ × Int)) :=
  match f.mvKeysRight[bestIdxR]? with
  | none => .error Fault.keypointIndex
  | some kpR0 =>
  let uR0 := kpR0.ptx
  match listAt f.mvInvScaleFactors kpL.octave with
  | none => .error Fault.scaleIndex
  | some scaleFactor =>
  let scaleduL : Int := cround (kpL.ptx * scaleFactor)
  let scaledvL : Int := cround (kpL.pty * scaleFactor)
  let scaleduR0 : Int := cround (uR0 * scaleFactor)
  let w : Int := 5
  match listAt f.leftPyramid kpL.octave with
  | none => .error Fault.pyramidIndex
  | some imL =>
  match patch imL (scaledvL - w) (scaledvL + w + 1) (scaleduL - w) (scaleduL + w + 1) with
  | .error e => .error e
  | .ok IL =>
  let L : Int := 5
  let iniu : Int := scaleduR0 + L - w
  let endu : Int := scaleduR0 + L + w + 1
  if iniu < 0 then .ok none else
  match listAt f.rightPyramid kpL.octave with
  | none => .error Fault.pyramidIndex
  | some imR =>
  if endu ≥ (imR.cols : Int) then .ok none else
  match slideLoop IL imR scaledvL scaleduR0 (intRange (-L) L)
      (INT_MAX, 0, List.replicate 11 0) with
  | .error e => .error e
  | .ok (bestDist, bestincR, vDists) =>
  if bestincR = -L ∨ bestincR = L then .ok none else
  let dist1 : ℚ := ((vDists.getD (L + bestincR - 1).toNat 0 : Int) : ℚ)
  let dist2 : ℚ := ((vDists.getD (L + bestincR).toNat 0 : Int) : ℚ)
  let dist3 : ℚ := ((vDists.getD (L + bestincR + 1).toNat 0 : Int) : ℚ)
  let deltaR : ℚ := (dist1 - dist3) / (2 * (dist1 + dist3 - 2 * dist2))
  if deltaR < -1 ∨ deltaR > 1 then .ok none else
  match listAt f.mvScaleFactors kpL.octave with
  | none => .error Fault.scaleIndex
  | some sf =>
  let bestuR : ℚ := sf * ((scaleduR0 : ℚ) + (bestincR : ℚ) + deltaR)
  match depthStep f.mbf minD maxD kpL.ptx bestuR with
  | none => .ok none
  | some (depth, uRight) => .ok (some (depth, uRight, bestDist))

/-- The body of the loop over the left keypoints for keypoint `iL`. -/
def matchLeft (f : Frame) (vRowIndices : List (List Nat)) (minD : ℚ) (maxD : XFloat)
    (thOrbDist : Int) (iL : Nat) (kpL : KeyPoint) : Except Fault (Option (ℚ × ℚ × Int)) :=
  let levelL := kpL.octave
  let vL := kpL.pty
  let uL := kpL.ptx
  match listAt vRowIndices (ctrunc vL) with
  | none => .error Fault.rowIndex
  | some vCandidates =>
    if vCandidates.isEmpty then .ok none else
    let minU := XFloat.rsub uL maxD
    let maxU := uL - minD
    if maxU < 0 then .ok none else
    match preselect f iL levelL minU maxU vCandidates (f.TH_HIGH, 0) with
    | .error e => .error e
    | .ok (bestDist, bestIdxR) =>
      if bestDist < thOrbDist then sadRefine f minD maxD kpL bestIdxR
      else .ok none

/-- Step 2: the loop `for(int iL=0; iL<N; iL++)`, from index `iL` on, with the state
`(mvuRight, mvDepth, vDistIdx)`. -/
def matchLoop (f : Frame) (vRowIndices : List (List Nat)) (minD : ℚ) (maxD : XFloat)
    (thOrbDist : Int) :
    Nat → List KeyPoint → List ℚ × List ℚ × List (Int × Nat) →
      Except Fault (List ℚ × List ℚ × List (Int × Nat))
  | _, [], st => .ok st
  | iL, kpL :: rest, (mvuRight, mvDepth, vDistIdx) =>
    match matchLeft f vRowIndices minD maxD thOrbDist iL kpL with
    | .error e => .error e
    | .ok none => matchLoop f vRowIndices minD maxD thOrbDist (iL + 1) rest
        (mvuRight, mvDepth, vDistIdx)
    | .ok (some (depth, bestuR, bestDist)) =>
      matchLoop f vRowIndices minD maxD thOrbDist (iL + 1) rest
        (mvuRight.set iL bestuR, mvDepth.set iL depth, vDistIdx ++ [(bestDist, iL)])

/-- The order of `std::pair<int,int>`: by `first`, then by `second`. -/
def pairLE (a b : Int × Nat) : Prop := a.1 < b.1 ∨ (a.1 = b.1 ∧ a.2 ≤ b.2)

instance pairLE_decidable : DecidableRel pairLE :=
  fun a b => inferInstanceAs (Decidable (a.1 < b.1 ∨ (a.1 = b.1 ∧ a.2 ≤ b.2)))

/-- The call `sort(vDistIdx.begin(), vDistIdx.end())`. -/
def sortPairs (vDistIdx : List (Int × Nat)) : List (Int × Nat) :=
  List.insertionSort pairLE vDistIdx

/-- The backward loop of step 3 over the sorted pairs, last pair first: stop at the
first pair below `thDist`, reset the others. -/
def rejectLoop (thDist : ℚ) : List (Int × Nat) → List ℚ → List ℚ →
    Except Fault (List ℚ × List ℚ)
  | [], mvuRight, mvDepth => .ok (mvuRight, mvDepth)
  | p :: rest, mvuRight, mvDepth =>
    if (p.1 : ℚ) < thDist then .ok (mvuRight, mvDepth)
    else if p.2 < mvuRight.length ∧ p.2 < mvDepth.length then
      rejectLoop thDist rest (mvuRight.set p.2 (-1)) (mvDepth.set p.2 (-1))
    else .error Fault.resultIndex

/-- Step 3 of `ComputeStereoMatches`: sort, median, threshold and rejection. -/
def outlierPass (vDistIdx : List (Int × Nat)) (mvuRight mvDepth : List ℚ) :
    Except Fault (List ℚ × List ℚ) :=
  let sorted := sortPairs vDistIdx
  match sorted[sorted.length / 2]? with
  | none => .error Fault.medianIndex
  | some p =>
    let median : ℚ := (p.1 : ℚ)
    let thDist : ℚ := 3 / 2 * (7 / 5) * median
    rejectLoop thDist sorted.reverse mvuRight mvDepth

/-- `Frame::ComputeStereoMatches`. -/
def ComputeStereoMatches (f : Frame) : Except Fault Frame :=
  let N := f.mvKeys.length
  let mvuRight : List ℚ := List.replicate N (-1)
  let mvDepth : List ℚ := List.replicate N (-1)
  let thOrbDist : Int := (f.TH_HIGH + f.TH_LOW).tdiv 2
  match f.leftPyramid[0]? with
  | none => .error Fault.pyramidIndex
  | some im0 =>
    let nRows := im0.rows
    match buildRowTable f.mvScaleFactors 0 f.mvKeysRight (List.replicate nRows []) with
    | .error e => .error e
    | .ok vRowIndices =>
      let minZ := f.mb
      let minD : ℚ := 0
      let maxD : XFloat := XFloat.div f.mbf minZ
      match matchLoop f vRowIndices minD maxD thOrbDist 0 f.mvKeys (mvuRight, mvDepth, []) with
      | .error e => .error e
      | .ok (ru, dep, vDistIdx) =>
        match outlierPass vDistIdx ru dep with
        | .error e => .error e
        | .ok (ru1, dep1) => .ok { f with mvuRight := ru1, mvDepth := dep1 }

/-- The stereo constructor `Frame::Frame(imLeft, imRight, ...)` from the point where
both extractions have joined: `f` holds their results and `mvKeysUn` holds what
`UndistortKeyPoints` yields on them, `s` and `fx` are the static members (already
set, or set by the initial computations of this very call, which come after the
stereo matching).  The member initialiser list sets `mb(0)`. -/
def stereoFrame (f : Frame) (s : FrameStatics) (fx : ℚ) : Except Fault Frame :=
  let f1 : Frame := { f with mb := 0 }
  if f1.mvKeys.isEmpty then .ok f1 else
  match ComputeStereoMatches f1 with
  | .error e => .error e
  | .ok f2 =>
    let f3 : Frame := { f2 with mb := f2.mbf / fx }
    .ok { f3 with mGrid := AssignFeaturesToGrid s f3.mvKeysUn f3.mGrid }

/-! ## Example inputs

A 640 × 480 image without distortion and the grid of `Frame.h` (64 × 48 cells):
the bounds are `(0, 640, 0, 480)` and both cell-size inverses are `1/10`. -/

/-- Static members after the initial computations on a 640 × 480 undistorted image. -/
def vgaStatics : FrameStatics :=
  { FRAME_GRID_COLS := 64, FRAME_GRID_ROWS := 48,
    mnMinX := 0, mnMaxX := 640, mnMinY := 0, mnMaxY := 480,
    mfGridElementWidthInv := 1 / 10, mfGridElementHeightInv := 1 / 10 }

/-- A keypoint in the middle of the image. -/
def kpCentre : KeyPoint := { ptx := 320, pty := 240, octave := 0 }

/-- A keypoint inside the image, 4 pixels from its right border. -/
def kpNearRight : KeyPoint := { ptx := 636, pty := 100, octave := 0 }

/-- A keypoint one pixel to the left of the image. -/
def kpLeftOutside : KeyPoint := { ptx := -1, pty := 100, octave := 0 }

/-- Six collected matches with best SADs `1, 1, 1, 1, 1, 10` for the left keypoints
`0, ..., 5`. -/
def sadExample : List (Int × Nat) := [(1, 0), (1, 1), (1, 2), (1, 3), (1, 4), (10, 5)]

/-- The `mvuRight` values given to the six keypoints of `sadExample`. -/
def uRightExample : List ℚ := [10, 11, 12, 13, 14, 15]

/-- The `mvDepth` values given to the six keypoints of `sadExample`. -/
def depthExample : List ℚ := [1, 2, 3, 4, 5, 6]

/-- A 640 × 480 image whose columns carry the pattern `min(255, (c - c0)²)`, with
`bump` added to the single pixel `(200, c0)`. -/
def patternImage (c0 : Int) (bump : Int) : Image :=
  { rows := 480, cols := 640,
    px := fun r c => min 255 (((c : Int) - c0) ^ 2) + (if r = 200 ∧ (c : Int) = c0 then bump else 0) }

/-- A stereo frame after extraction: one left keypoint `(uL, 200)` and the given right
keypoints, all at level 0 of a one-level pyramid (scale factor 1), descriptor
distance 0, thresholds `TH_HIGH = 100`, `TH_LOW = 50`, `bf = 50`, and the given value
of the member `mb`. -/
def stereoScene (mb uL : ℚ) (imL imR : Image) (right : List KeyPoint) : Frame :=
  { mbf := 50, mb := mb,
    mvKeys := [{ ptx := uL, pty := 200, octave := 0 }],
    mvKeysRight := right,
    mvKeysUn := [{ ptx := uL, pty := 200, octave := 0 }],
    mvuRight := [], mvDepth := [], mGrid := emptyGrid,
    mvScaleFactors := [1], mvInvScaleFactors := [1],
    leftPyramid := [imL], rightPyramid := [imR],
    TH_HIGH := 100, TH_LOW := 50, DescriptorDistance := fun _ _ => 0 }

/-- The scenario of the specification: left keypoint `(300, 200)`, right keypoint
`(260, 200)`, identical patches around them. -/
def perfectScene (mb : ℚ) : Frame :=
  stereoScene mb 300 (patternImage 300 0) (patternImage 260 0)
    [{ ptx := 260, pty := 200, octave := 0 }]

/-- Left keypoint `(600, 200)` and right keypoint `(50, 200)`: disparity 550; the
right patch differs from the left one in its centre pixel. -/
def closeScene (mb : ℚ) : Frame :=
  stereoScene mb 600 (patternImage 600 0) (patternImage 50 1)
    [{ ptx := 50, pty := 200, octave := 0 }]

/-- One left keypoint and no right keypoint at all. -/
def lonelyScene (mb : ℚ) : Frame :=
  stereoScene mb 300 (patternImage 300 0) (patternImage 260 0) []

/-- The row table of a 480-row image with one right keypoint at `y = 200`, level 0:
rows 198 to 202 hold its index 0. -/
def rowTable200 : List (List Nat) :=
  List.replicate 198 [] ++ List.replicate 5 [0] ++ List.replicate 277 []

/-! ## Floating-point rounding

Where a property depends on the rounding of a `float` or `double` operation, the
operation is the exact one followed by the IEEE 754 rounding to nearest, with ties to
even, of its result. -/

/-- Rounding to the nearest integer, a tie going to the even neighbour. -/
def roundTiesEven (x : ℚ) : Int :=
  if x - ⌊x⌋ < 1 / 2 then ⌊x⌋
  else if 1 / 2 < x - ⌊x⌋ then ⌊x⌋ + 1
  else if ⌊x⌋ % 2 = 0 then ⌊x⌋ else ⌊x⌋ + 1

/-- IEEE 754 rounding to nearest of the exact result `x` of an operation in the binary
format with `p` significant bits and least exponent `emin`: with `e` the exponent of
`x`, or `emin` for a subnormal result, the result is the multiple of `2^(e-(p-1))`
nearest to `x`.  Overflow to an infinity is not modelled. -/
def roundBinary (p : Nat) (emin : Int) (x : ℚ) : ℚ :=
  (roundTiesEven (x / 2 ^ (max (Int.log 2 |x|) emin - ((p : Int) - 1))) : ℚ)
    * 2 ^ (max (Int.log 2 |x|) emin - ((p : Int) - 1))

/-- Rounding to `float` (binary32). -/
def roundFloat (x : ℚ) : ℚ := roundBinary 24 (-126) x

/-- Rounding to `double` (binary64); `roundDouble q` is also the value of a decimal
literal `q` of type `double`. -/
def roundDouble (x : ℚ) : ℚ := roundBinary 53 (-1022) x

/-- The rounding of the finite value of an operation; an infinity or a NaN is kept. -/
def XFloat.map (f : ℚ → ℚ) : XFloat → XFloat
  | XFloat.fin q => XFloat.fin (f q)
  | XFloat.posInf => XFloat.posInf
  | XFloat.negInf => XFloat.negInf
  | XFloat.nan => XFloat.nan

/-! ## Pose, frustum test, RGB-D depth and undistortion

`cv::norm` and `cv::undistortPoints` (OpenCV) and `MapPoint::PredictScale` are
declared outside the embedded files and are parameters.  In `isInFrustum` the
divisions `1.0f/PcZ` and `PO.dot(Pn)/dist` can meet a zero divisor, so the values
derived from them are `XFloat`s.  The frustum test is embedded twice: `isInFrustum`
over exact arithmetic, for the properties that no rounding can change, and
`isInFrustumRounded`, with the rounding of every operation, for the round trip through
`UnprojectStereo`. -/

/-- A 3-vector of `float`s (3 × 1 `cv::Mat`). -/
abbrev Vec3 := Fin 3 → ℚ

/-- A 3 × 3 matrix of `float`s. -/
abbrev Mat3 := Matrix (Fin 3) (Fin 3) ℚ

/-- IEEE negation. -/
def XFloat.neg : XFloat → XFloat
  | XFloat.fin q => XFloat.fin (-q)
  | XFloat.posInf => XFloat.negInf
  | XFloat.negInf => XFloat.posInf
  | XFloat.nan => XFloat.nan

/-- IEEE product `finite * x`: zero times an infinity is NaN. -/
def XFloat.scale (a : ℚ) : XFloat → XFloat
  | XFloat.fin q => XFloat.fin (a * q)
  | XFloat.posInf => if 0 < a then XFloat.posInf else if a < 0 then XFloat.negInf else XFloat.nan
  | XFloat.negInf => if 0 < a then XFloat.negInf else if a < 0 then XFloat.posInf else XFloat.nan
  | XFloat.nan => XFloat.nan

/-- IEEE sum: infinities of opposite sign add up to NaN. -/
def XFloat.add : XFloat → XFloat → XFloat
  | XFloat.fin a, XFloat.fin b => XFloat.fin (a + b)
  | XFloat.nan, _ => XFloat.nan
  | _, XFloat.nan => XFloat.nan
  | XFloat.posInf, XFloat.negInf => XFloat.nan
  | XFloat.negInf, XFloat.posInf => XFloat.nan
  | XFloat.posInf, _ => XFloat.posInf
  | _, XFloat.posInf => XFloat.posInf
  | XFloat.negInf, _ => XFloat.negInf
  | _, XFloat.negInf => XFloat.negInf

/-- IEEE difference. -/
def XFloat.sub (x y : XFloat) : XFloat := XFloat.add x (XFloat.neg y)

/-- IEEE comparison `x < q` with a finite `q`: false on NaN. -/
def XFloat.ltQ : XFloat → ℚ → Bool
  | XFloat.fin a, q => decide (a < q)
  | XFloat.negInf, _ => true
  | XFloat.posInf, _ => false
  | XFloat.nan, _ => false

/-- IEEE comparison `x > q` with a finite `q`: false on NaN. -/
def XFloat.gtQ : XFloat → ℚ → Bool
  | XFloat.fin a, q => decide (a > q)
  | XFloat.posInf, _ => true
  | XFloat.negInf, _ => false
  | XFloat.nan, _ => false

/-- The static members `fx, fy, cx, cy, invfx, invfy` of `Frame`. -/
structure CameraStatics where
  fx : ℚ
  fy : ℚ
  cx : ℚ
  cy : ℚ
  invfx : ℚ
  invfy : ℚ

/-- The assignments to `fx, ..., invfy` in the initial computations of the `Frame`
constructors, from the entries of `K`. -/
def cameraStaticsOfK (fx fy cx cy : ℚ) : CameraStatics :=
  { fx := fx, fy := fy, cx := cx, cy := cy, invfx := 1 / fx, invfy := 1 / fy }

/-- The pose members `mRcw`, `mRwc`, `mtcw`, `mOw` of `Frame`. -/
structure Pose where
  mRcw : Mat3
  mRwc : Mat3
  mtcw : Vec3
  mOw : Vec3

/-- `Frame::SetPose` followed by `Frame::UpdatePoseMatrices`, on the 4 × 4 matrix `Tcw`. -/
def SetPose (Tcw : Matrix (Fin 4) (Fin 4) ℚ) : Pose :=
  let mRcw : Mat3 := fun i j => Tcw (Fin.castSucc i) (Fin.castSucc j)
  let mtcw : Vec3 := fun i => Tcw (Fin.castSucc i) 3
  { mRcw := mRcw,
    mRwc := Matrix.transpose mRcw,
    mtcw := mtcw,
    mOw := Matrix.mulVec (-(Matrix.transpose mRcw)) mtcw }

/-- What `isInFrustum` reads from and writes to a `MapPoint`: world position, mean
viewing direction (`GetNormal`), the two distance bounds, `PredictScale` as a
function of the distance, and the tracking fields. -/
structure MapPoint where
  worldPos : Vec3
  normal : Vec3
  minDistanceInvariance : ℚ
  maxDistanceInvariance : ℚ
  PredictScale : ℚ → Int
  mbTrackInView : Bool
  mTrackProjX : XFloat
  mTrackProjXR : XFloat
  mTrackProjY : XFloat
  mnTrackScaleLevel : Int
  mTrackViewCos : XFloat

/-- `Frame::isInFrustum` over exact arithmetic: the returned flag and the map point
after the call.  `norm` is `cv::norm` on 3-vectors. -/
def isInFrustum (s : FrameStatics) (k : CameraStatics) (pose : Pose) (mbf : ℚ)
    (norm : Vec3 → ℚ) (pMP : MapPoint) (viewingCosLimit : ℚ) : Bool × MapPoint :=
  let pMP0 : MapPoint := { pMP with mbTrackInView := false }
  let P : Vec3 := pMP0.worldPos
  let Pc : Vec3 := Matrix.mulVec pose.mRcw P + pose.mtcw
  let PcX := Pc 0
  let PcY := Pc 1
  let PcZ := Pc 2
  if PcZ < 0 then (false, pMP0) else
  let invz : XFloat := XFloat.div 1 PcZ
  let u : XFloat := XFloat.add (XFloat.scale (k.fx * PcX) invz) (XFloat.fin k.cx)
  let v : XFloat := XFloat.add (XFloat.scale (k.fy * PcY) invz) (XFloat.fin k.cy)
  if XFloat.ltQ u s.mnMinX || XFloat.gtQ u s.mnMaxX then (false, pMP0) else
  if XFloat.ltQ v s.mnMinY || XFloat.gtQ v s.mnMaxY then (false, pMP0) else
  let maxDistance := pMP0.maxDistanceInvariance
  let minDistance := pMP0.minDistanceInvariance
  let PO : Vec3 := P - pose.mOw
  let dist : ℚ := norm PO
  if dist < minDistance ∨ dist > maxDistance then (false, pMP0) else
  let Pn : Vec3 := pMP0.normal
  let viewCos : XFloat := XFloat.div (Matrix.dotProduct PO Pn) dist
  if XFloat.ltQ viewCos viewingCosLimit then (false, pMP0) else
  let nPredictedLevel : Int := pMP0.PredictScale dist
  (true, { pMP0 with
    mbTrackInView := true,
    mTrackProjX := u,
    mTrackProjXR := XFloat.sub u (XFloat.scale mbf invz),
    mTrackProjY := v,
    mnTrackScaleLevel := nPredictedLevel,
    mTrackViewCos := viewCos })

/-- The vector `PO = P-mOw` of `isInFrustum`, a difference of `float` matrices. -/
def frustumPO (pose : Pose) (P : Vec3) : Vec3 := fun i => roundFloat (P i - pose.mOw i)

/-- The `float` `dist = cv::norm(PO)` of `isInFrustum`: the `double` that `cv::norm`
returns, converted to `float`. -/
def frustumDist (norm : Vec3 → ℚ) (pose : Pose) (P : Vec3) : ℚ :=
  roundFloat (norm (frustumPO pose P))

/-- The `float` `viewCos = PO.dot(Pn)/dist` of `isInFrustum`: `dot` is `cv::Mat::dot`,
which returns a `double`; the quotient is a `double`, converted to `float`. -/
def frustumViewCos (dot : Vec3 → Vec3 → ℚ) (norm : Vec3 → ℚ) (pose : Pose) (P Pn : Vec3) :
    XFloat :=
  XFloat.map roundFloat
    (XFloat.map roundDouble (XFloat.div (dot (frustumPO pose P) Pn) (frustumDist norm pose P)))

/-- `Frame::isInFrustum` with the rounding of every `float` operation: the returned
flag and the map point after the call.  `gemm A x c` is the `cv::Mat` expression
`A*x + c`, `dot` is `cv::Mat::dot` and `norm` is `cv::norm` on 3-vectors.  The
definition `isInFrustum` above is the same code over exact arithmetic. -/
def isInFrustumRounded (gemm : Mat3 → Vec3 → Vec3 → Vec3) (dot : Vec3 → Vec3 → ℚ)
    (norm : Vec3 → ℚ) (s : FrameStatics) (k : CameraStatics) (pose : Pose) (mbf : ℚ)
    (pMP : MapPoint) (viewingCosLimit : ℚ) : Bool × MapPoint :=
  let pMP0 : MapPoint := { pMP with mbTrackInView := false }
  let P : Vec3 := pMP0.worldPos
  let Pc : Vec3 := gemm pose.mRcw P pose.mtcw
  let PcX := Pc 0
  let PcY := Pc 1
  let PcZ := Pc 2
  if PcZ < 0 then (false, pMP0) else
  let invz : XFloat := XFloat.map roundFloat (XFloat.div 1 PcZ)
  let u : XFloat := XFloat.map roundFloat (XFloat.add
    (XFloat.map roundFloat (XFloat.scale (roundFloat (k.fx * PcX)) invz)) (XFloat.fin k.cx))
  let v : XFloat := XFloat.map roundFloat (XFloat.add
    (XFloat.map roundFloat (XFloat.scale (roundFloat (k.fy * PcY)) invz)) (XFloat.fin k.cy))
  if XFloat.ltQ u s.mnMinX || XFloat.gtQ u s.mnMaxX then (false, pMP0) else
  if XFloat.ltQ v s.mnMinY || XFloat.gtQ v s.mnMaxY then (false, pMP0) else
  let maxDistance := pMP0.maxDistanceInvariance
  let minDistance := pMP0.minDistanceInvariance
  let dist : ℚ := frustumDist norm pose P
  if dist < minDistance ∨ dist > maxDistance then (false, pMP0) else
  let Pn : Vec3 := pMP0.normal
  let viewCos : XFloat := frustumViewCos dot norm pose P Pn
  if XFloat.ltQ viewCos viewingCosLimit then (false, pMP0) else
  let nPredictedLevel : Int := pMP0.PredictScale dist
  (true, { pMP0 with
    mbTrackInView := true,
    mTrackProjX := u,
    mTrackProjXR := XFloat.map roundFloat
      (XFloat.sub u (XFloat.map roundFloat (XFloat.scale mbf invz))),
    mTrackProjY := v,
    mnTrackScaleLevel := nPredictedLevel,
    mTrackViewCos := viewCos })

/-- A whole `cv::KeyPoint`: the fields of `KeyPoint` and `size`, `angle`, `response`,
`class_id`. -/
structure CvKeyPoint extends KeyPoint where
  size : ℚ
  angle : ℚ
  response : ℚ
  class_id : Int

/-- `Frame::UndistortKeyPoints`: the new `mvKeysUn`.  `k1` is `mDistCoef.at<float>(0)`
and `undistortPoints` is `cv::undistortPoints` with the frame's `mK` and `mDistCoef`,
which returns one point for each point it is given. -/
def UndistortKeyPoints (k1 : ℚ) (undistortPoints : List (ℚ × ℚ) → List (ℚ × ℚ))
    (mvKeys : List CvKeyPoint) : List CvKeyPoint :=
  if k1 = 0 then mvKeys
  else
    let mat := undistortPoints (mvKeys.map (fun kp => (kp.ptx, kp.pty)))
    List.zipWith
      (fun (kp : CvKeyPoint) (p : ℚ × ℚ) =>
        ({ kp with ptx := p.1, pty := p.2 } : CvKeyPoint))
      mvKeys mat

/-- An instance of `cv::norm` on 3-vectors: the Euclidean norm, exact whenever the
sum of the squares is the square of a rational. -/
def euclidNorm (v : Vec3) : ℚ := Rat.sqrt (v 0 * v 0 + v 1 * v 1 + v 2 * v 2)

/-- A 640 × 480 pinhole camera with focal length 500 and centre `(320, 240)`. -/
def vgaCamera : CameraStatics := cameraStaticsOfK 500 500 320 240

/-- A map point at `P` seen along the z axis, with the invariance interval
`[minD, maxD]`, level 0 predicted at every distance, and cleared tracking fields. -/
def mapPointAt (P : Vec3) (minD maxD : ℚ) : MapPoint :=
  { worldPos := P, normal := ![0, 0, 1],
    minDistanceInvariance := minD, maxDistanceInvariance := maxD,
    PredictScale := fun _ => 0,
    mbTrackInView := false,
    mTrackProjX := XFloat.fin 0, mTrackProjXR := XFloat.fin 0, mTrackProjY := XFloat.fin 0,
    mnTrackScaleLevel := 0, mTrackViewCos := XFloat.fin 0 }

/-- One pass of the body of the loop `for(size_t j=0; j<8; j++)` of
`Initializer::Initialize`, on the state `(mvSets[it], vAvailableIndices)`; `RandomInt`
is this call of `DUtils::Random::RandomInt`, as a function of its two arguments. -/
def drawIndex (RandomInt : Int → Int → Int) (j : Nat) (st : List Nat × List Nat) :
    Except Fault (List Nat × List Nat) :=
  let (set, vAvailableIndices) := st
  let randi : Int := RandomInt 0 ((vAvailableIndices.length : Int) - 1)
  if 0 ≤ randi ∧ randi < (vAvailableIndices.length : Int) then
    match vAvailableIndices[randi.toNat]?, vAvailableIndices.getLast? with
    | some idx, some back =>
      .ok (set.set j idx, (vAvailableIndices.set randi.toNat back).dropLast)
    | _, _ => .error Fault.sampleIndex
  else .error Fault.sampleIndex

/-- The loop `for(size_t j=0; j<8; j++)` from `j` on, with `n` passes left; `rand j`
is the `j`-th call of `RandomInt` in this iteration. -/
def drawLoop (rand : Nat → Int → Int → Int) : Nat → Nat → List Nat × List Nat →
    Except Fault (List Nat × List Nat)
  | 0, _, st => .ok st
  | n + 1, j, st =>
    match drawIndex (rand j) j st with
    | .error e => .error e
    | .ok st1 => drawLoop rand n (j + 1) st1

/-- The loop `for(int it=0; it<mMaxIterations; it++)` of `Initializer::Initialize`
over the iterations `its`: the rows of `mvSets` that it fills.  Each row starts as
`vector<size_t>(8,0)` and `vAvailableIndices` as `vAllIndices = 0, ..., N-1`. -/
def minimalSets (rand : Nat → Nat → Int → Int → Int) (N : Nat) :
    List Nat → Except Fault (List (List Nat))
  | [] => .ok []
  | it :: its =>
    match drawLoop (rand it) 8 0 (List.replicate 8 0, List.range N) with
    | .error e => .error e
    | .ok st =>
      match minimalSets rand N its with
      | .error e => .error e
      | .ok sets => .ok (st.1 :: sets)

/-- The part of `Initializer::Initialize` that fills `mvSets`, for `N` matched pairs. -/
def sampleSets (rand : Nat → Nat → Int → Int → Int) (N mMaxIterations : Nat) :
    Except Fault (List (List Nat)) :=
  minimalSets rand N (List.range mMaxIterations)

/-- The state of a RANSAC loop: the three output parameters of `FindHomography` and
`FindFundamental`; `M` is the type of the model matrix. -/
structure Ransac (M : Type) where
  vbMatchesInliers : List Bool
  score : ℚ
  model : M

/-- The end of the loop body of `FindHomography` and `FindFundamental`:
`if(currentScore>score)` the current model, mask and score are kept. -/
def keepBest {M : Type} (st : Ransac M) (cur : Ransac M) : Ransac M :=
  if cur.score > st.score then
    { vbMatchesInliers := cur.vbMatchesInliers, score := cur.score, model := cur.model }
  else st

/-- `Initializer::FindHomography`.  `iteration it` is what iteration `it` computes:
`H21i`, the mask `vbCurrentInliers` and `currentScore`; `H21` is the output parameter
at entry. -/
def FindHomography {M : Type} (mvMatches12 : List (Nat × Nat)) (mMaxIterations : Nat)
    (iteration : Nat → Ransac M) (H21 : M) : Ransac M :=
  let N := mvMatches12.length
  ((List.range mMaxIterations).map iteration).foldl keepBest
    { vbMatchesInliers := List.replicate N false, score := 0, model := H21 }

/-- `Initializer::FindFundamental`.  Here `N` is the size of the output vector
`vbMatchesInliers` at entry. -/
def FindFundamental {M : Type} (vbMatchesInliers : List Bool) (mMaxIterations : Nat)
    (iteration : Nat → Ransac M) (F21 : M) : Ransac M :=
  let N := vbMatchesInliers.length
  ((List.range mMaxIterations).map iteration).foldl keepBest
    { vbMatchesInliers := List.replicate N false, score := 0, model := F21 }

/-- The two reconstructions that `Initializer::Initialize` can attempt. -/
inductive ModelChoice where
  | fromHomography
  | fromFundamental
  deriving DecidableEq, Repr

/-- The end of `Initializer::Initialize`: the `float` quotient `RH = SH/(SH+SF)` of the
`float` scores, its comparison with the `double` literal `0.40`, and the choice between
`ReconstructH` and `ReconstructF`, whose results are `rH` and `rF`. -/
def selectModel {ρ : Type} (SH SF : ℚ) (rH rF : ρ) : ModelChoice × ρ :=
  let RH : XFloat := XFloat.map roundFloat (XFloat.div SH (roundFloat (SH + SF)))
  if XFloat.gtQ RH (roundDouble (40 / 100)) then (ModelChoice.fromHomography, rH)
  else (ModelChoice.fromFundamental, rF)

/-- The outputs of one call of `Initializer::CheckRT`: the returned number of good
points, the parallax, the triangulated points and their flags. -/
structure CheckRTResult where
  nGood : Nat
  parallax : ℚ
  vP3D : List Vec3
  vbTriangulated : List Bool

/-- The output parameters `R21`, `t21`, `vP3D`, `vbTriangulated` of `ReconstructF` and
`ReconstructH` when they return true. -/
structure Reconstruction where
  R21 : Mat3
  t21 : Vec3
  vP3D : List Vec3
  vbTriangulated : List Bool

/-- The first loop of `ReconstructF` and `ReconstructH`: the number `N` of true
entries of `vbMatchesInliers`. -/
def countInliers (vbMatchesInliers : List Bool) : Nat :=
  vbMatchesInliers.foldl (fun N b => if b then N + 1 else N) 0

/-- The `double` product `0.7*maxGood` with which `ReconstructF` compares the counts:
the literal `0.7` and the product are rounded to `double` (the conversion of the `int`
operands to `double` is exact). -/
def similarBound (maxGood : Nat) : ℚ := roundDouble (roundDouble (7 / 10) * (maxGood : ℚ))

/-- `Initializer::ReconstructF`, after `DecomposeE` has produced `R1`, `R2` and `t`;
`CheckRT R t` stands for the call of `CheckRT` on the motion `(R, t)` with the other
arguments of the source.  `none` is the return value false.  The comparisons with
`0.7*maxGood` are made with the `double` product `similarBound maxGood`; the integer
part of the `double` product `0.9*N` is that of the exact product for every `int` `N`
(`double_ninety_floor`), and is written with the exact product. -/
def ReconstructF (vbMatchesInliers : List Bool) (R1 R2 : Mat3) (t : Vec3)
    (CheckRT : Mat3 → Vec3 → CheckRTResult) (minParallax : ℚ) (minTriangulated : Int) :
    Option Reconstruction :=
  let N := countInliers vbMatchesInliers
  let t1 := t
  let t2 := -t
  let c1 := CheckRT R1 t1
  let c2 := CheckRT R2 t1
  let c3 := CheckRT R1 t2
  let c4 := CheckRT R2 t2
  let nGood1 := c1.nGood
  let nGood2 := c2.nGood
  let nGood3 := c3.nGood
  let nGood4 := c4.nGood
  let maxGood := max nGood1 (max nGood2 (max nGood3 nGood4))
  let nMinGood : Int := max (ctrunc ((9 / 10 : ℚ) * (N : ℚ))) minTriangulated
  let nsimilar : Nat := 0
  let nsimilar := if (nGood1 : ℚ) > similarBound maxGood then nsimilar + 1 else nsimilar
  let nsimilar := if (nGood2 : ℚ) > similarBound maxGood then nsimilar + 1 else nsimilar
  let nsimilar := if (nGood3 : ℚ) > similarBound maxGood then nsimilar + 1 else nsimilar
  let nsimilar := if (nGood4 : ℚ) > similarBound maxGood then nsimilar + 1 else nsimilar
  if (maxGood : Int) < nMinGood ∨ nsimilar > 1 then none
  else if maxGood = nGood1 then
    if c1.parallax > minParallax then
      some { R21 := R1, t21 := t1, vP3D := c1.vP3D, vbTriangulated := c1.vbTriangulated }
    else none
  else if maxGood = nGood2 then
    if c2.parallax > minParallax then
      some { R21 := R2, t21 := t1, vP3D := c2.vP3D, vbTriangulated := c2.vbTriangulated }
    else none
  else if maxGood = nGood3 then
    if c3.parallax > minParallax then
      some { R21 := R1, t21 := t2, vP3D := c3.vP3D, vbTriangulated := c3.vbTriangulated }
    else none
  else if maxGood = nGood4 then
    if c4.parallax > minParallax then
      some { R21 := R2, t21 := t2, vP3D := c4.vP3D, vbTriangulated := c4.vbTriangulated }
    else none
  else none

/-- The variables that the candidate loop of `ReconstructH` updates. -/
structure BestTrack where
  bestGood : Nat
  secondBestGood : Nat
  bestSolutionIdx : Int
  bestParallax : ℚ
  bestP3D : List Vec3
  bestTriangulated : List Bool

/-- The values of the tracking variables before the candidate loop. -/
def BestTrack.init : BestTrack :=
  { bestGood := 0, secondBestGood := 0, bestSolutionIdx := -1, bestParallax := -1,
    bestP3D := [], bestTriangulated := [] }

/-- The body of the candidate loop of `ReconstructH` after the call of `CheckRT` for
candidate `i` has returned `c`. -/
def trackStep (st : BestTrack) (i : Nat) (c : CheckRTResult) : BestTrack :=
  if c.nGood > st.bestGood then
    { secondBestGood := st.bestGood,
      bestGood := c.nGood,
      bestSolutionIdx := (i : Int),
      bestParallax := c.parallax,
      bestP3D := c.vP3D,
      bestTriangulated := c.vbTriangulated }
  else if c.nGood > st.secondBestGood then
    { st with secondBestGood := c.nGood }
  else st

/-- The candidate loop of `ReconstructH` from candidate `i` on, over the `CheckRT`
results of the remaining candidates. -/
def trackLoop : Nat → List CheckRTResult → BestTrack → BestTrack
  | _, [], st => st
  | i, c :: cs, st => trackLoop (i + 1) cs (trackStep st i c)

/-- `Initializer::ReconstructH`, after the SVD has produced the singular values `d1`,
`d2`, `d3` and, when the singular-value test passes, the eight candidate motions
`(vR[i], vt[i])`.  `CheckRT R t` is as in `ReconstructF`; `none` is the return value
false. -/
def ReconstructH (vbMatchesInliers : List Bool) (d1 d2 d3 : ℚ)
    (vR : Fin 8 → Mat3) (vt : Fin 8 → Vec3)
    (CheckRT : Mat3 → Vec3 → CheckRTResult) (minParallax : ℚ) (minTriangulated : Int) :
    Except Fault (Option Reconstruction) :=
  let N := countInliers vbMatchesInliers
  if XFloat.ltQ (XFloat.div d1 d2) (100001 / 100000)
      || XFloat.ltQ (XFloat.div d2 d3) (100001 / 100000) then .ok none
  else
    let st := trackLoop 0 (List.ofFn (fun i : Fin 8 => CheckRT (vR i) (vt i))) BestTrack.init
    if (st.secondBestGood : ℚ) < (75 / 100 : ℚ) * (st.bestGood : ℚ) ∧
        st.bestParallax ≥ minParallax ∧
        (st.bestGood : Int) > minTriangulated ∧
        (st.bestGood : ℚ) > (9 / 10 : ℚ) * (N : ℚ) then
      if h : 0 ≤ st.bestSolutionIdx ∧ st.bestSolutionIdx < 8 then
        .ok (some
          { R21 := vR ⟨st.bestSolutionIdx.toNat, by omega⟩,
            t21 := vt ⟨st.bestSolutionIdx.toNat, by omega⟩,
            vP3D := st.bestP3D,
            vbTriangulated := st.bestTriangulated })
      else .error Fault.solutionIndex
    else .ok none

/-- The four `CheckRT` results of `ReconstructF` in the order of the source:
`nGood1, ..., nGood4` with their parallaxes, points and flags. -/
def candidatesF (R1 R2 : Mat3) (t : Vec3) (CheckRT : Mat3 → Vec3 → CheckRTResult) :
    Fin 4 → CheckRTResult :=
  ![CheckRT R1 t, CheckRT R2 t, CheckRT R1 (-t), CheckRT R2 (-t)]

/-- The four motions tested by `ReconstructF`, in the order of the source:
`(R1, t1)`, `(R2, t1)`, `(R1, t2)`, `(R2, t2)` with `t1 = t` and `t2 = -t`. -/
def motionsF (R1 R2 : Mat3) (t : Vec3) : Fin 4 → Mat3 × Vec3 :=
  ![(R1, t), (R2, t), (R1, -t), (R2, -t)]

/-- The rotation by a half turn about the z axis. -/
def halfTurnZ : Mat3 := !![-1, 0, 0; 0, -1, 0; 0, 0, 1]

/-- A `CheckRT` that finds `n` good points with parallax `p` for the motion without
rotation along the positive z axis, and no good point for any other motion. -/
def checkRTExample (n : Nat) (p : ℚ) : Mat3 → Vec3 → CheckRTResult :=
  fun R t =>
    if R 0 0 = 1 ∧ t 2 = 1 then
      { nGood := n, parallax := p, vP3D := [], vbTriangulated := [] }
    else { nGood := 0, parallax := 0, vP3D := [], vbTriangulated := [] }

/-- A `CheckRT` that finds `n` good points for the motion without rotation along the
positive z axis, `m` good points for the half turn about z with that translation, both
with parallax `p`, and no good point for any other motion. -/
def checkRTPair (n m : Nat) (p : ℚ) : Mat3 → Vec3 → CheckRTResult :=
  fun R t =>
    if R 0 0 = 1 ∧ t 2 = 1 then
      { nGood := n, parallax := p, vP3D := [], vbTriangulated := [] }
    else if R 0 0 = -1 ∧ t 2 = 1 then
      { nGood := m, parallax := p, vP3D := [], vbTriangulated := [] }
    else { nGood := 0, parallax := 0, vP3D := [], vbTriangulated := [] }

/-- The largest number of good points among `CheckRT` results, 0 when there is none:
the quantity called `maxGood` in the statements about `ReconstructH`. -/
def largestGood (l : List CheckRTResult) : Nat :=
  (l.map (fun c => c.nGood)).foldl max 0

/-- Eight candidate rotations of which only the third is the identity. -/
def exampleRotations : Fin 8 → Mat3 := fun i => if i = 2 then 1 else halfTurnZ

/-- A `CheckRT` result without any good point. -/
def noGoodPoint : CheckRTResult :=
  { nGood := 0, parallax := 0, vP3D := [], vbTriangulated := [] }

/-! ## Image bounds -/

/-- `Frame::ComputeImageBounds`: the values `(mnMinX, mnMaxX, mnMinY, mnMaxY)` it
sets.  `k1` is `mDistCoef.at<float>(0)`, `cols` and `rows` are the image size, and
`undistortCorners` is `cv::undistortPoints` with the frame's `mK` and `mDistCoef` on
the 4 × 2 matrix of corners. -/
def ComputeImageBounds (k1 : ℚ) (undistortCorners : (Fin 4 → ℚ × ℚ) → (Fin 4 → ℚ × ℚ))
    (cols rows : Nat) : ℚ × ℚ × ℚ × ℚ :=
  if k1 ≠ 0 then
    let mat : Fin 4 → ℚ × ℚ := ![(0, 0), ((cols : ℚ), 0), (0, (rows : ℚ)), ((cols : ℚ), (rows : ℚ))]
    let mat := undistortCorners mat
    let mnMinX := min (mat 0).1 (mat 2).1
    let mnMaxX := max (mat 1).1 (mat 3).1
    let mnMinY := min (mat 0).2 (mat 1).2
    let mnMaxY := max (mat 2).2 (mat 3).2
    (mnMinX, mnMaxX, mnMinY, mnMaxY)
  else (0, (cols : ℚ), 0, (rows : ℚ))

/-- Undistorted corners of a 640 × 480 image of which the top right one lies to the
left of both left corners. -/
def foldedCorners : (Fin 4 → ℚ × ℚ) → (Fin 4 → ℚ × ℚ) :=
  fun _ => ![(0, 0), (-5, 0), (0, 480), (640, 480)]

/-! ## Initializer: the two-view geometry

The singular value decompositions (`cv::SVD::compute`, `cv::SVDecomp`) are computed by
OpenCV; they enter the model as parameters that return the matrices the source reads. -/

/-- The matrix `W` of `DecomposeE`: the rotation by a quarter turn about the z axis. -/
def quarterTurnZ : Mat3 := !![0, -1, 0; 1, 0, 0; 0, 0, 1]

/-- `Initializer::DecomposeE`: the outputs `(R1, R2, t)`.  `SVDcompute` is
`cv::SVD::compute` on `E` and returns `(u, w, vt)`; `norm` is `cv::norm`.  The
components of `t` are quotients by the norm and so extended values. -/
def DecomposeE (SVDcompute : Mat3 → Mat3 × Vec3 × Mat3) (norm : Vec3 → ℚ) (E : Mat3) :
    Mat3 × Mat3 × (Fin 3 → XFloat) :=
  let (u, _, vt) := SVDcompute E
  let t : Vec3 := fun i => u i 2
  let nt := norm t
  let t : Fin 3 → XFloat := fun i => XFloat.div (t i) nt
  let W : Mat3 := quarterTurnZ
  let R1 := u * W * vt
  let R1 := if Matrix.det R1 < 0 then -R1 else R1
  let R2 := u * Matrix.transpose W * vt
  let R2 := if Matrix.det R2 < 0 then -R2 else R2
  (R1, R2, t)

/-- IEEE product of two extended values. -/
def XFloat.mul : XFloat → XFloat → XFloat
  | XFloat.fin a, y => XFloat.scale a y
  | x, XFloat.fin b => XFloat.scale b x
  | XFloat.nan, _ => XFloat.nan
  | _, XFloat.nan => XFloat.nan
  | XFloat.posInf, XFloat.posInf => XFloat.posInf
  | XFloat.negInf, XFloat.negInf => XFloat.posInf
  | XFloat.posInf, XFloat.negInf => XFloat.negInf
  | XFloat.negInf, XFloat.posInf => XFloat.negInf

/-- A 3 × 4 projection matrix. -/
abbrev Mat34 := Matrix (Fin 3) (Fin 4) ℚ

/-- A 4 × 4 matrix of `float`s. -/
abbrev Mat4 := Matrix (Fin 4) (Fin 4) ℚ

/-- The matrix `A` that `Initializer::Triangulate` builds from the two keypoints and
the two projection matrices. -/
def triangulationMatrix (kp1 kp2 : KeyPoint) (P1 P2 : Mat34) : Mat4 :=
  Matrix.of ![fun j => kp1.ptx * P1 2 j - P1 0 j,
              fun j => kp1.pty * P1 2 j - P1 1 j,
              fun j => kp2.ptx * P2 2 j - P2 0 j,
              fun j => kp2.pty * P2 2 j - P2 1 j]

/-- `Initializer::Triangulate`: the output `x3D`.  `SVDcompute` is `cv::SVD::compute`
on `A` and returns `vt`; the coordinates are quotients by the fourth component of the
last row of `vt`. -/
def Triangulate (SVDcompute : Mat4 → Mat4) (kp1 kp2 : KeyPoint) (P1 P2 : Mat34) :
    Fin 3 → XFloat :=
  let A := triangulationMatrix kp1 kp2 P1 P2
  let vt := SVDcompute A
  let x3D : Fin 4 → ℚ := fun j => vt 3 j
  fun i => XFloat.div (x3D (Fin.castSucc i)) (x3D 3)

/-- The projection matrix `[I | 0]`. -/
def canonicalP : Mat34 := !![1, 0, 0, 0; 0, 1, 0, 0; 0, 0, 1, 0]

/-- The projection matrix `[I | (1, 0, 0)]`. -/
def shiftedP : Mat34 := !![1, 0, 0, 1; 0, 1, 0, 0; 0, 0, 1, 0]

/-- A decomposition whose `vt` has the last row `(0, 0, 2, 2)`. -/
def svdExample : Mat4 → Mat4 :=
  fun _ => !![1, 0, 0, 0; 0, 1, 0, 0; 0, 0, 1, -1; 0, 0, 2, 2]

/-! ## Initializer: scoring of a model

`CheckHomography` and `CheckFundamental` are the same loop over the matches with two
different error measures: the loop is `scoreLoop`, and the statements that each of
them writes out twice, once for each direction, are `transferChiSquare` and
`epipolarChiSquare`. -/

/-- The normalised transfer error of `CheckHomography` for one direction: the point
`(u, v)` is mapped by `h`, compared with `(u0, v0)`, and the squared distance is
multiplied by `invSigmaSquare`. -/
def transferChiSquare (h : Mat3) (invSigmaSquare : XFloat) (u0 v0 u v : ℚ) : XFloat :=
  let winv : XFloat := XFloat.div 1 (h 2 0 * u + h 2 1 * v + h 2 2)
  let ut : XFloat := XFloat.scale (h 0 0 * u + h 0 1 * v + h 0 2) winv
  let vt : XFloat := XFloat.scale (h 1 0 * u + h 1 1 * v + h 1 2) winv
  let squareDist : XFloat :=
    XFloat.add (XFloat.mul (XFloat.rsub u0 ut) (XFloat.rsub u0 ut))
      (XFloat.mul (XFloat.rsub v0 vt) (XFloat.rsub v0 vt))
  XFloat.mul squareDist invSigmaSquare

/-- The normalised epipolar error of `CheckFundamental` for one direction: the line
`(a, b, c) = F*(u, v, 1)`, the numerator `a*u0 + b*v0 + c`, the squared distance
`num*num/(a*a+b*b)` and its product with `invSigmaSquare`. -/
def epipolarChiSquare (F : Mat3) (invSigmaSquare : XFloat) (u v u0 v0 : ℚ) : XFloat :=
  let a := F 0 0 * u + F 0 1 * v + F 0 2
  let b := F 1 0 * u + F 1 1 * v + F 1 2
  let c := F 2 0 * u + F 2 1 * v + F 2 2
  let num := a * u0 + b * v0 + c
  let squareDist : XFloat := XFloat.div (num * num) (a * a + b * b)
  XFloat.mul squareDist invSigmaSquare

/-- The test of one direction: `if(chiSquare>th) bIn = false; else score += thScore -
chiSquare;` on the state `(score, bIn)`. -/
def scoreDirection (th thScore : ℚ) (chiSquare : XFloat) (st : XFloat × Bool) :
    XFloat × Bool :=
  if XFloat.gtQ chiSquare th then (st.1, false)
  else (XFloat.add st.1 (XFloat.rsub thScore chiSquare), st.2)

/-- The loop `for(int i=0; i<N; i++)` of `CheckHomography` and `CheckFundamental` over
the matches still to visit, on the state `(score, vbMatchesInliers)`; the flags
already written are the entries of `vbMatchesInliers`. -/
def scoreLoop (th thScore : ℚ) (chi1 chi2 : KeyPoint → KeyPoint → XFloat)
    (mvKeys1 mvKeys2 : List KeyPoint) :
    List (Nat × Nat) → XFloat × List Bool → Except Fault (XFloat × List Bool)
  | [], st => .ok st
  | m :: rest, (score, vbMatchesInliers) =>
    match mvKeys1[m.1]?, mvKeys2[m.2]? with
    | some kp1, some kp2 =>
      let st := scoreDirection th thScore (chi1 kp1 kp2) (score, true)
      let st := scoreDirection th thScore (chi2 kp1 kp2) st
      scoreLoop th thScore chi1 chi2 mvKeys1 mvKeys2 rest (st.1, vbMatchesInliers ++ [st.2])
    | _, _ => .error Fault.keypointIndex

/-- `Initializer::CheckHomography`: the returned score and the flags
`vbMatchesInliers`. -/
def CheckHomography (H21 H12 : Mat3) (mvKeys1 mvKeys2 : List KeyPoint)
    (mvMatches12 : List (Nat × Nat)) (sigma : ℚ) : Except Fault (XFloat × List Bool) :=
  let th : ℚ := 5991 / 1000
  let invSigmaSquare : XFloat := XFloat.div 1 (sigma * sigma)
  scoreLoop th th
    (fun kp1 kp2 => transferChiSquare H12 invSigmaSquare kp1.ptx kp1.pty kp2.ptx kp2.pty)
    (fun kp1 kp2 => transferChiSquare H21 invSigmaSquare kp2.ptx kp2.pty kp1.ptx kp1.pty)
    mvKeys1 mvKeys2 mvMatches12 (XFloat.fin 0, [])

/-- `Initializer::CheckFundamental`: the returned score and the flags
`vbMatchesInliers`. -/
def CheckFundamental (F21 : Mat3) (mvKeys1 mvKeys2 : List KeyPoint)
    (mvMatches12 : List (Nat × Nat)) (sigma : ℚ) : Except Fault (XFloat × List Bool) :=
  let th : ℚ := 3841 / 1000
  let thScore : ℚ := 5991 / 1000
  let invSigmaSquare : XFloat := XFloat.div 1 (sigma * sigma)
  scoreLoop th thScore
    (fun kp1 kp2 => epipolarChiSquare F21 invSigmaSquare kp1.ptx kp1.pty kp2.ptx kp2.pty)
    (fun kp1 kp2 =>
      epipolarChiSquare (Matrix.transpose F21) invSigmaSquare kp2.ptx kp2.pty kp1.ptx kp1.pty)
    mvKeys1 mvKeys2 mvMatches12 (XFloat.fin 0, [])

/-- The squared distance between `(u0, v0)` and the image of `(u, v)` under the
homography `h`, when the projective denominator is not zero. -/
def transferDist2 (h : Mat3) (u0 v0 u v : ℚ) : ℚ :=
  (u0 - (h 0 0 * u + h 0 1 * v + h 0 2) / (h 2 0 * u + h 2 1 * v + h 2 2)) ^ 2
    + (v0 - (h 1 0 * u + h 1 1 * v + h 1 2) / (h 2 0 * u + h 2 1 * v + h 2 2)) ^ 2

/-- The squared distance between `(u0, v0)` and the line `F*(u, v, 1)`, when the line
is not at infinity: `(x0^T F x)^2 / (a^2 + b^2)`. -/
def epipolarDist2 (F : Mat3) (u v u0 v0 : ℚ) : ℚ :=
  ((F 0 0 * u + F 0 1 * v + F 0 2) * u0 + (F 1 0 * u + F 1 1 * v + F 1 2) * v0
      + (F 2 0 * u + F 2 1 * v + F 2 2)) ^ 2
    / ((F 0 0 * u + F 0 1 * v + F 0 2) ^ 2 + (F 1 0 * u + F 1 1 * v + F 1 2) ^ 2)

/-- The part of the score that one direction with statistic `c` adds. -/
def directionScore (th thScore c : ℚ) : ℚ := if c ≤ th then thScore - c else 0

/-- The fundamental matrix of a pure translation along x: the epipolar lines are the
image rows. -/
def translationF : Mat3 := !![0, 0, 0; 0, 0, -1; 0, 1, 0]

/-! ## Initializer: cheirality test -/

/-- The order in which a sorted `vector<float>` is arranged: the numbers by size
between the two infinities.  `std::sort` leaves the place of a NaN unspecified; the
model puts it last. -/
def XFloat.sortLE : XFloat → XFloat → Bool
  | XFloat.negInf, _ => true
  | XFloat.fin _, XFloat.negInf => false
  | XFloat.fin a, XFloat.fin b => decide (a ≤ b)
  | XFloat.fin _, _ => true
  | XFloat.posInf, XFloat.posInf => true
  | XFloat.posInf, XFloat.nan => true
  | XFloat.posInf, _ => false
  | XFloat.nan, XFloat.nan => true
  | XFloat.nan, _ => false

/-- `sort(vCosParallax.begin(),vCosParallax.end())`. -/
def sortCos (vCosParallax : List XFloat) : List XFloat :=
  vCosParallax.insertionSort (fun a b => XFloat.sortLE a b = true)

/-- The end of `Initializer::CheckRT`: the value given to `parallax`.  `acosDeg c` is
`acos(c)*180/CV_PI`, computed by the C library. -/
def selectParallax (acosDeg : XFloat → XFloat) (nGood : Nat) (vCosParallax : List XFloat) :
    Except Fault XFloat :=
  if nGood > 0 then
    let sorted := sortCos vCosParallax
    let idx : Int := min 50 ((sorted.length : Int) - 1)
    match listAt sorted idx with
    | some c => .ok (acosDeg c)
    | none => .error Fault.parallaxIndex
  else .ok (XFloat.fin 0)

/-- The squared reprojection error that `CheckRT` computes for the point `p`, in camera
coordinates, against the keypoint `kp`; the source writes it out for each image. -/
def squareReprojError (fx fy cx cy : ℚ) (p : Vec3) (kp : KeyPoint) : XFloat :=
  let invZ : XFloat := XFloat.div 1 (p 2)
  let imx : XFloat := XFloat.add (XFloat.scale (fx * p 0) invZ) (XFloat.fin cx)
  let imy : XFloat := XFloat.add (XFloat.scale (fy * p 1) invZ) (XFloat.fin cy)
  XFloat.add
    (XFloat.mul (XFloat.sub imx (XFloat.fin kp.ptx)) (XFloat.sub imx (XFloat.fin kp.ptx)))
    (XFloat.mul (XFloat.sub imy (XFloat.fin kp.pty)) (XFloat.sub imy (XFloat.fin kp.pty)))

/-- The cosine of the parallax angle of the point `p` seen from the camera centres
`O1` and `O2`, as `CheckRT` computes it; `norm` is `cv::norm`. -/
def cosParallaxOf (norm : Vec3 → ℚ) (O1 O2 p : Vec3) : XFloat :=
  let normal1 : Vec3 := p - O1
  let dist1 := norm normal1
  let normal2 : Vec3 := p - O2
  let dist2 := norm normal2
  XFloat.div (Matrix.dotProduct normal1 normal2) (dist1 * dist2)

/-- The variables that the loop of `CheckRT` updates. -/
structure CheckRTState where
  nGood : Nat
  vP3D : List Vec3
  vbGood : List Bool
  vCosParallax : List XFloat

/-- The projection matrix `K[I|0]` of the first camera in `CheckRT`. -/
def projectionOne (K : Mat3) : Mat34 :=
  fun r c => if h : c.val < 3 then K r (Fin.mk c.val h) else 0

/-- The projection matrix `K[R|t]` of the second camera in `CheckRT`. -/
def projectionTwo (K R : Mat3) (t : Vec3) : Mat34 :=
  let Rt : Mat34 := fun r c => if h : c.val < 3 then R r (Fin.mk c.val h) else t r
  K * Rt

/-- The body of the loop of `CheckRT` for the match `m` at position `i`.
`SVDcompute` is the decomposition inside `Triangulate`. -/
def checkRTMatch (SVDcompute : Mat4 → Mat4) (norm : Vec3 → ℚ) (R : Mat3) (t : Vec3)
    (vKeys1 vKeys2 : List KeyPoint) (vbMatchesInliers : List Bool) (K : Mat3) (th2 : ℚ)
    (i : Nat) (m : Nat × Nat) (st : CheckRTState) : Except Fault CheckRTState :=
  let fx := K 0 0
  let fy := K 1 1
  let cx := K 0 2
  let cy := K 1 2
  let P1 := projectionOne K
  let O1 : Vec3 := 0
  let P2 := projectionTwo K R t
  let O2 : Vec3 := Matrix.mulVec (-(Matrix.transpose R)) t
  match vbMatchesInliers[i]? with
  | none => .error Fault.maskIndex
  | some false => .ok st
  | some true =>
    match vKeys1[m.1]?, vKeys2[m.2]? with
    | some kp1, some kp2 =>
      let p3dC1 := Triangulate SVDcompute kp1 kp2 P1 P2
      match p3dC1 0, p3dC1 1, p3dC1 2 with
      | XFloat.fin x, XFloat.fin y, XFloat.fin z =>
        let p3dC1 : Vec3 := ![x, y, z]
        let cosParallax := cosParallaxOf norm O1 O2 p3dC1
        if p3dC1 2 ≤ 0 ∧ XFloat.ltQ cosParallax (99998 / 100000) = true then .ok st
        else
          let p3dC2 : Vec3 := Matrix.mulVec R p3dC1 + t
          if p3dC2 2 ≤ 0 ∧ XFloat.ltQ cosParallax (99998 / 100000) = true then .ok st
          else
            let squareError1 := squareReprojError fx fy cx cy p3dC1 kp1
            if XFloat.gtQ squareError1 th2 = true then .ok st
            else
              let squareError2 := squareReprojError fx fy cx cy p3dC2 kp2
              if XFloat.gtQ squareError2 th2 = true then .ok st
              else
                .ok { nGood := st.nGood + 1,
                      vP3D := st.vP3D.set m.1 p3dC1,
                      vbGood :=
                        if XFloat.ltQ cosParallax (99998 / 100000) = true then
                          st.vbGood.set m.1 true
                        else st.vbGood,
                      vCosParallax := st.vCosParallax ++ [cosParallax] }
      | _, _, _ => .ok { st with vbGood := st.vbGood.set m.1 false }
    | _, _ => .error Fault.keypointIndex

/-- The loop `for(size_t i=0, iend=vMatches12.size();i<iend;i++)` of `CheckRT` from
position `i` on. -/
def checkRTLoop (SVDcompute : Mat4 → Mat4) (norm : Vec3 → ℚ) (R : Mat3) (t : Vec3)
    (vKeys1 vKeys2 : List KeyPoint) (vbMatchesInliers : List Bool) (K : Mat3) (th2 : ℚ) :
    Nat → List (Nat × Nat) → CheckRTState → Except Fault CheckRTState
  | _, [], st => .ok st
  | i, m :: rest, st =>
    match checkRTMatch SVDcompute norm R t vKeys1 vKeys2 vbMatchesInliers K th2 i m st with
    | .error e => .error e
    | .ok st1 =>
      checkRTLoop SVDcompute norm R t vKeys1 vKeys2 vbMatchesInliers K th2 (i + 1) rest st1

/-- `Initializer::CheckRT`: the return value `nGood` and the outputs `vP3D`, `vbGood`
and `parallax`.  `vP3D` is the output vector at entry. -/
def CheckRT (SVDcompute : Mat4 → Mat4) (norm : Vec3 → ℚ) (acosDeg : XFloat → XFloat)
    (R : Mat3) (t : Vec3) (vKeys1 vKeys2 : List KeyPoint) (vMatches12 : List (Nat × Nat))
    (vbMatchesInliers : List Bool) (K : Mat3) (vP3D : List Vec3) (th2 : ℚ) :
    Except Fault (Nat × List Vec3 × List Bool × XFloat) :=
  let vbGood := List.replicate vKeys1.length false
  let vP3D := (vP3D ++ List.replicate (vKeys1.length - vP3D.length) 0).take vKeys1.length
  match checkRTLoop SVDcompute norm R t vKeys1 vKeys2 vbMatchesInliers K th2 0 vMatches12
      { nGood := 0, vP3D := vP3D, vbGood := vbGood, vCosParallax := [] } with
  | .error e => .error e
  | .ok st =>
    match selectParallax acosDeg st.nGood st.vCosParallax with
    | .error e => .error e
    | .ok parallax => .ok (st.nGood, st.vP3D, st.vbGood, parallax)


/-- A decomposition whose `vt` has the last row `(0, 0, 4, 1)`: the null vector of the
matrix `A` of a point at depth 4 on the optical axis of the first camera. -/
def svdDepthFour : Mat4 → Mat4 :=
  fun _ => !![1, 0, 0, 0; 0, 1, 0, 0; 0, 0, 1, -4; 0, 0, 4, 1]

/-- A decomposition whose `vt` has the last row `(0, 0, 0, 1)`: the null vector of the
matrix `A` when the keypoint of the second image lies on the epipole. -/
def svdEpipole : Mat4 → Mat4 :=
  fun _ => !![1, 0, 0, 0; 0, 1, 0, 0; 0, 0, 1, 0; 0, 0, 0, 1]

/-- Fifty-one cosines `0, 1/100, ..., 50/100`, in ascending order. -/
def cosineRamp : List XFloat :=
  (List.range 51).map (fun (i : Nat) => XFloat.fin ((i : ℚ) / 100))

/-! ## Initializer: the homography estimate -/

/-- The loop of `Initializer::ComputeH21` that fills the rows of `A`, from point `i`
on, over the remaining points of `vP1`: two rows for each point. -/
def rowsOfH (vP2 : List (ℚ × ℚ)) : Nat → List (ℚ × ℚ) → Except Fault (List (Fin 9 → ℚ))
  | _, [] => .ok []
  | i, p1 :: rest =>
    match vP2[i]? with
    | none => .error Fault.keypointIndex
    | some p2 =>
      let u1 := p1.1
      let v1 := p1.2
      let u2 := p2.1
      let v2 := p2.2
      match rowsOfH vP2 (i + 1) rest with
      | .error e => .error e
      | .ok rows =>
        .ok (![0, 0, 0, -u1, -v1, -1, v2 * u1, v2 * v1, v2]
          :: ![u1, v1, 1, 0, 0, 0, -u2 * u1, -u2 * v1, -u2] :: rows)

/-- `Initializer::ComputeH21`.  `SVDecomp` is the call of `cv::SVDecomp` on the
`2N × 9` matrix `A` given by its rows, and returns `vt`; the result is
`vt.row(8).reshape(0, 3)`. -/
def ComputeH21 (SVDecomp : List (Fin 9 → ℚ) → Matrix (Fin 9) (Fin 9) ℚ)
    (vP1 vP2 : List (ℚ × ℚ)) : Except Fault Mat3 :=
  match rowsOfH vP2 0 vP1 with
  | .error e => .error e
  | .ok A =>
    let vt := SVDecomp A
    .ok (fun i j => vt 8 (Fin.mk (3 * i.val + j.val) (by omega)))

/-- The entries of a 3 × 3 matrix row after row: the vector `h` of the statements
about `ComputeH21`. -/
def rowMajor (H : Mat3) : Fin 9 → ℚ :=
  ![H 0 0, H 0 1, H 0 2, H 1 0, H 1 1, H 1 2, H 2 0, H 2 1, H 2 2]

/-- The image of the point `p` under the homography `H`, when the third homogeneous
coordinate is not zero. -/
def imageUnder (H : Mat3) (p : ℚ × ℚ) : ℚ × ℚ :=
  ((H 0 0 * p.1 + H 0 1 * p.2 + H 0 2) / (H 2 0 * p.1 + H 2 1 * p.2 + H 2 2),
   (H 1 0 * p.1 + H 1 1 * p.2 + H 1 2) / (H 2 0 * p.1 + H 2 1 * p.2 + H 2 2))

/-- A decomposition whose `vt` has the last row `(2, 0, 6, 0, 2, 10, 0, 0, 2)`. -/
def svdShift : List (Fin 9 → ℚ) → Matrix (Fin 9) (Fin 9) ℚ :=
  fun _ i j => if i = 8 then ![2, 0, 6, 0, 2, 10, 0, 0, 2] j else 0

/-- The translation by `(3, 5)` as a homography. -/
def shiftH : Mat3 := !![1, 0, 3; 0, 1, 5; 0, 0, 1]

/-- The eight rows that `ComputeH21` builds for the corners of the unit square and
their images under the translation by `(3, 5)`. -/
def unitSquareRows : List (Fin 9 → ℚ) :=
  [![0, 0, 0, 0, 0, -1, 0, 0, 5], ![0, 0, 1, 0, 0, 0, 0, 0, -3],
   ![0, 0, 0, -1, 0, -1, 5, 0, 5], ![1, 0, 1, 0, 0, 0, -4, 0, -4],
   ![0, 0, 0, 0, -1, -1, 0, 6, 6], ![0, 1, 1, 0, 0, 0, 0, -3, -3],
   ![0, 0, 0, -1, -1, -1, 6, 6, 6], ![1, 1, 1, 0, 0, 0, -4, -4, -4]]

/-! ## Initializer: the motion hypotheses of a homography

The part of `ReconstructH` between the test on the singular values and the candidate
loop: the eight hypotheses of the method of Faugeras.  The quotients of this part are
those of `ℚ`; for singular values `d1 > d2 > d3 > 0`, the case of the statements, no
divisor is zero, and other singular values are outside the model. -/

/-- The scalars that `ReconstructH` computes from the singular values. -/
structure FaugerasScalars where
  aux1 : ℚ
  aux3 : ℚ
  aux_stheta : ℚ
  ctheta : ℚ
  aux_sphi : ℚ
  cphi : ℚ

/-- The computation of `aux1`, `aux3`, `aux_stheta`, `ctheta`, `aux_sphi` and `cphi`
in `ReconstructH`; `sqrt` is the function of the C library. -/
def faugerasScalars (sqrt : ℚ → ℚ) (d1 d2 d3 : ℚ) : FaugerasScalars :=
  { aux1 := sqrt ((d1 * d1 - d2 * d2) / (d1 * d1 - d3 * d3)),
    aux3 := sqrt ((d2 * d2 - d3 * d3) / (d1 * d1 - d3 * d3)),
    aux_stheta := sqrt ((d1 * d1 - d2 * d2) * (d2 * d2 - d3 * d3)) / ((d1 + d3) * d2),
    ctheta := (d2 * d2 + d1 * d3) / ((d1 + d3) * d2),
    aux_sphi := sqrt ((d1 * d1 - d2 * d2) * (d2 * d2 - d3 * d3)) / ((d1 - d3) * d2),
    cphi := (d1 * d3 - d2 * d2) / ((d1 - d3) * d2) }

/-- The array `x1[] = {aux1,aux1,-aux1,-aux1}`. -/
def FaugerasScalars.x1 (p : FaugerasScalars) : Fin 4 → ℚ :=
  ![p.aux1, p.aux1, -p.aux1, -p.aux1]

/-- The array `x3[] = {aux3,-aux3,aux3,-aux3}`. -/
def FaugerasScalars.x3 (p : FaugerasScalars) : Fin 4 → ℚ :=
  ![p.aux3, -p.aux3, p.aux3, -p.aux3]

/-- The array `stheta[] = {aux_stheta, -aux_stheta, -aux_stheta, aux_stheta}`. -/
def FaugerasScalars.stheta (p : FaugerasScalars) : Fin 4 → ℚ :=
  ![p.aux_stheta, -p.aux_stheta, -p.aux_stheta, p.aux_stheta]

/-- The array `sphi[] = {aux_sphi, -aux_sphi, -aux_sphi, aux_sphi}`. -/
def FaugerasScalars.sphi (p : FaugerasScalars) : Fin 4 → ℚ :=
  ![p.aux_sphi, -p.aux_sphi, -p.aux_sphi, p.aux_sphi]

/-- The matrix `Rp` of pass `i` of the first loop (the case `d' = d2`). -/
def RpTheta (p : FaugerasScalars) (i : Fin 4) : Mat3 :=
  !![p.ctheta, 0, -p.stheta i; 0, 1, 0; p.stheta i, 0, p.ctheta]

/-- The matrix `Rp` of pass `i` of the second loop (the case `d' = -d2`). -/
def RpPhi (p : FaugerasScalars) (i : Fin 4) : Mat3 :=
  !![p.cphi, 0, p.sphi i; 0, -1, 0; p.sphi i, 0, -p.cphi]

/-- The vector `tp` of pass `i` of the first loop, after `tp*=d1-d3`. -/
def tpTheta (p : FaugerasScalars) (d1 d3 : ℚ) (i : Fin 4) : Vec3 :=
  fun k => (![p.x1 i, 0, -p.x3 i] : Vec3) k * (d1 - d3)

/-- The vector `tp` of pass `i` of the second loop, after `tp*=d1+d3`. -/
def tpPhi (p : FaugerasScalars) (d1 d3 : ℚ) (i : Fin 4) : Vec3 :=
  fun k => (![p.x1 i, 0, p.x3 i] : Vec3) k * (d1 + d3)

/-- The eight rotations `vR` that `ReconstructH` pushes: `s*U*Rp*Vt`, first loop then
second loop. -/
def faugerasVR (sqrt : ℚ → ℚ) (U Vt : Mat3) (d1 d2 d3 : ℚ) : Fin 8 → Mat3 :=
  let s := Matrix.det U * Matrix.det Vt
  let p := faugerasScalars sqrt d1 d2 d3
  Fin.append (fun i : Fin 4 => s • (U * RpTheta p i * Vt))
    (fun i : Fin 4 => s • (U * RpPhi p i * Vt))

/-- The eight translations `vt` that `ReconstructH` pushes: `t/cv::norm(t)` with
`t = U*tp`. -/
def faugerasVt (sqrt : ℚ → ℚ) (norm : Vec3 → ℚ) (U : Mat3) (d1 d2 d3 : ℚ) :
    Fin 8 → (Fin 3 → XFloat) :=
  let p := faugerasScalars sqrt d1 d2 d3
  Fin.append
    (fun i : Fin 4 => fun k =>
      XFloat.div (Matrix.mulVec U (tpTheta p d1 d3 i) k) (norm (Matrix.mulVec U (tpTheta p d1 d3 i))))
    (fun i : Fin 4 => fun k =>
      XFloat.div (Matrix.mulVec U (tpPhi p d1 d3 i) k) (norm (Matrix.mulVec U (tpPhi p d1 d3 i))))

/-- The variable `maxGood` of `ReconstructF`:
`max(nGood1,max(nGood2,max(nGood3,nGood4)))`. -/
def maxGoodF (R1 R2 : Mat3) (t : Vec3) (CheckRT : Mat3 → Vec3 → CheckRTResult) : Nat :=
  max (CheckRT R1 t).nGood (max (CheckRT R2 t).nGood
    (max (CheckRT R1 (-t)).nGood (CheckRT R2 (-t)).nGood))

/-- A RANSAC iteration on a single match that finds no inlier: score 0. -/
def noInlierIteration : Nat → Ransac Mat3 :=
  fun _ => { vbMatchesInliers := [false], score := 0, model := 0 }

/-- The distance that pass `incR` of the sliding-window loop computes when its window
lies inside the right image. -/
def sadAt (IL : Nat → Nat → Int) (imR : Image) (scaledvL scaleduR0 incR : Int) : Int :=
  normL1 5 IL (fun i j => imR.px ((scaledvL - 5).toNat + i) ((scaleduR0 + incR - 5).toNat + j))

/-- The update of `(bestDist, bestincR, vDists)` by pass `incR` of the sliding-window
loop, as a function of the distances `d`. -/
def slideStep (d : Int → Int) (st : Int × Int × List Int) (incR : Int) :
    Int × Int × List Int :=
  if d incR < st.1 then (d incR, incR, st.2.2.set (5 + incR).toNat (d incR))
  else (st.1, st.2.1, st.2.2.set (5 + incR).toNat (d incR))

/-- Left keypoint `(300, 200)` and right keypoint `(5, 200)`, 5 pixels from the left
border of the right image, with identical patches around them. -/
def edgeScene (mb : ℚ) : Frame :=
  stereoScene mb 300 (patternImage 300 0) (patternImage 5 0)
    [{ ptx := 5, pty := 200, octave := 0 }]

/-- The candidates that the pre-selection loop compares with the left descriptor:
those of `vCandidates` whose keypoint has its octave in `[levelL-1, levelL+1]` and its
`u` in `[minU, maxU]`, in the order of `vCandidates`. -/
def eligibleCandidates (f : Frame) (levelL : Int) (minU : XFloat) (maxU : ℚ)
    (vCandidates : List Nat) : List Nat :=
  vCandidates.filter (fun iR =>
    match f.mvKeysRight[iR]? with
    | none => false
    | some kpR =>
      decide (¬ (kpR.octave < levelL - 1 ∨ kpR.octave > levelL + 1))
        && decide (XFloat.geX kpR.ptx minU ∧ kpR.ptx ≤ maxU))

/-- The update `if(dist<bestDist)` of `(bestDist, bestIdxR)` by the candidate `iR`, as a
function of the distances `d`. -/
def keepCloser (d : Nat → Int) (best : Int × Nat) (iR : Nat) : Int × Nat :=
  if d iR < best.1 then (d iR, iR) else best

/-- The loop of `Initializer::Initialize` that builds `mvMatches12` from the vector
`vMatches12` of the caller, from index `i` on: the pairs `(i, vMatches12[i])` with
`vMatches12[i] >= 0`. -/
def collectMatches : Nat → List Int → List (Nat × Nat)
  | _, [] => []
  | i, v :: rest =>
    if v ≥ 0 then (i, v.toNat) :: collectMatches (i + 1) rest
    else collectMatches (i + 1) rest

/-- The requirements of the statements on a point `X` stored for the match of the
keypoints `kp1` and `kp2`: positive depth in both cameras, and squared reprojection
errors in both images that are numbers not above `th2`. -/
def wellTriangulated (K R : Mat3) (t : Vec3) (th2 : ℚ) (kp1 kp2 : KeyPoint) (X : Vec3) :
    Prop :=
  0 < X 2 ∧ 0 < (Matrix.mulVec R X + t) 2 ∧
  (∃ e1 : ℚ, squareReprojError (K 0 0) (K 1 1) (K 0 2) (K 1 2) X kp1 = XFloat.fin e1 ∧
    e1 ≤ th2) ∧
  (∃ e2 : ℚ, squareReprojError (K 0 0) (K 1 1) (K 0 2) (K 1 2) (Matrix.mulVec R X + t) kp2
    = XFloat.fin e2 ∧ e2 ≤ th2)

/-- The facts that hold of the variables of the loop of `CheckRT` after the matches
`done` have been visited: the sizes of `vP3D` and `vbGood`; behind every true flag there
is one of these matches, with its point stored and well triangulated; and the counts. -/
def CheckRTInv (K R : Mat3) (t : Vec3) (th2 : ℚ) (vKeys1 vKeys2 : List KeyPoint)
    (vbMatchesInliers : List Bool) (done : List (Nat × Nat)) (st : CheckRTState) : Prop :=
  st.vP3D.length = vKeys1.length ∧ st.vbGood.length = vKeys1.length ∧
  (∀ k : Nat, st.vbGood[k]? = some true →
    ∃ (X : Vec3) (m : Nat × Nat) (kp1 kp2 : KeyPoint),
      st.vP3D[k]? = some X ∧ m ∈ done ∧ m.1 = k ∧
      vKeys1[m.1]? = some kp1 ∧ vKeys2[m.2]? = some kp2 ∧
      wellTriangulated K R t th2 kp1 kp2 X) ∧
  st.vbGood.count true ≤ st.nGood ∧
  st.nGood ≤ (vbMatchesInliers.take done.length).count true ∧
  st.vCosParallax.length = st.nGood

/-! ## Lemmas on rounding -/

theorem floor_le_cround (q : ℚ) : ⌊q⌋ ≤ cround q := by
  unfold cround
  split_ifs with h
  · exact Int.floor_mono (by linarith)
  · have h1 : ((⌊q⌋ - 1 : Int) : ℚ) < q - 1 / 2 := by
      have := Int.floor_le q
      push_cast
      linarith
    have := Int.lt_ceil.mpr h1
    omega

theorem cround_le_ceil (q : ℚ) : cround q ≤ ⌈q⌉ := by
  unfold cround
  split_ifs with h
  · have h1 : q + 1 / 2 < ((⌈q⌉ + 1 : Int) : ℚ) := by
      have := Int.le_ceil q
      push_cast
      linarith
    have := Int.floor_lt.mpr h1
    omega
  · exact Int.ceil_mono (by linarith)

theorem scan_range_covers (lo t hi : ℚ) (n : Nat) (h1 : lo ≤ t) (h2 : t ≤ hi)
    (h0 : 0 ≤ cround t) (hn : cround t < (n : Int)) :
    max 0 ⌊lo⌋ ≤ cround t ∧ cround t ≤ min ((n : Int) - 1) ⌈hi⌉ := by
  have a := floor_le_cround t
  have b := cround_le_ceil t
  have c : ⌊lo⌋ ≤ ⌊t⌋ := Int.floor_mono h1
  have d : ⌈t⌉ ≤ ⌈hi⌉ := Int.ceil_mono h2
  constructor
  · exact max_le h0 (le_trans c a)
  · exact le_min (by omega) (le_trans b d)

/-! ## Lemmas on floating-point rounding -/

/-- The exponent of a positive number from its binade. -/
theorem log2_eq (x : ℚ) (k : Int) (h1 : (2 : ℚ) ^ k ≤ x) (h2 : x < (2 : ℚ) ^ (k + 1)) :
    Int.log 2 x = k := by
  have hx : 0 < x := lt_of_lt_of_le (by positivity) h1
  have a : k ≤ Int.log 2 x :=
    (Int.zpow_le_iff_le_log (by norm_num) hx).mp (by exact_mod_cast h1)
  have b : Int.log 2 x < k + 1 :=
    (Int.lt_zpow_iff_log_lt (by norm_num) hx).mp (by exact_mod_cast h2)
  omega

/-- A positive number lies in the binade of its exponent. -/
theorem log2_bounds (x : ℚ) (hx : 0 < x) :
    (2 : ℚ) ^ (Int.log 2 x) ≤ x ∧ x < (2 : ℚ) ^ (Int.log 2 x + 1) := by
  have a := Int.zpow_log_le_self (b := 2) (by norm_num) hx
  have b := Int.lt_zpow_succ_log_self (b := 2) (by norm_num) x
  exact ⟨by exact_mod_cast a, by exact_mod_cast b⟩

/-- The rounded integer is the floor or the integer after it. -/
theorem roundTiesEven_floor (x : ℚ) :
    ⌊x⌋ ≤ roundTiesEven x ∧ roundTiesEven x ≤ ⌊x⌋ + 1 := by
  unfold roundTiesEven
  split_ifs <;> constructor <;> omega

/-- Rounding to an integer moves a number by at most one half. -/
theorem roundTiesEven_close (x : ℚ) :
    x - 1 / 2 ≤ (roundTiesEven x : ℚ) ∧ (roundTiesEven x : ℚ) ≤ x + 1 / 2 := by
  have hf1 : (⌊x⌋ : ℚ) ≤ x := Int.floor_le x
  have hf2 : x < (⌊x⌋ : ℚ) + 1 := Int.lt_floor_add_one x
  unfold roundTiesEven
  split_ifs with h1 h2 h3
  · constructor <;> linarith
  · constructor
    · push_cast; linarith
    · push_cast; linarith
  · constructor <;> linarith
  · constructor
    · push_cast; linarith
    · push_cast; linarith

/-- A number less than one half away from an integer rounds to it. -/
theorem roundTiesEven_near (x : ℚ) (n : Int) (h1 : (n : ℚ) - 1 / 2 < x)
    (h2 : x < (n : ℚ) + 1 / 2) : roundTiesEven x = n := by
  have hf1 : (⌊x⌋ : ℚ) ≤ x := Int.floor_le x
  have hf2 : x < (⌊x⌋ : ℚ) + 1 := Int.lt_floor_add_one x
  have hlo : n - 1 ≤ ⌊x⌋ := by
    rw [Int.le_floor]
    push_cast
    linarith
  have hhi : ⌊x⌋ ≤ n := by
    have : ⌊x⌋ < n + 1 := by
      rw [Int.floor_lt]
      push_cast
      linarith
    omega
  unfold roundTiesEven
  rcases (by omega : ⌊x⌋ = n ∨ ⌊x⌋ = n - 1) with h | h
  · rw [h, if_pos (by linarith)]
  · rw [h]
    push_cast
    rw [if_neg (by linarith), if_pos (by linarith)]
    ring

/-- An integer rounds to itself. -/
theorem roundTiesEven_intCast (n : Int) : roundTiesEven (n : ℚ) = n :=
  roundTiesEven_near _ n (by linarith) (by linarith)

/-- Zero rounds to zero in every format. -/
theorem roundBinary_zero (p : Nat) (emin : Int) : roundBinary p emin 0 = 0 := by
  unfold roundBinary
  rw [zero_div]
  have h := roundTiesEven_intCast 0
  rw [Int.cast_zero] at h
  rw [h, Int.cast_zero, zero_mul]

/-- The rounding of a number whose binade is known. -/
theorem roundBinary_eval (p : Nat) (emin : Int) (x : ℚ) (k : Int) (hk : emin ≤ k)
    (h1 : (2 : ℚ) ^ k ≤ |x|) (h2 : |x| < (2 : ℚ) ^ (k + 1)) :
    roundBinary p emin x
      = (roundTiesEven (x / 2 ^ (k - ((p : Int) - 1))) : ℚ) * 2 ^ (k - ((p : Int) - 1)) := by
  unfold roundBinary
  rw [log2_eq |x| k h1 h2, max_eq_left hk]

/-- The rounding of a number in a known binade that is less than half a unit in the
last place away from the multiple `n` of that unit. -/
theorem roundBinary_near (p : Nat) (emin : Int) (x : ℚ) (k n : Int) (hk : emin ≤ k)
    (h1 : (2 : ℚ) ^ k ≤ |x|) (h2 : |x| < (2 : ℚ) ^ (k + 1))
    (h3 : (n : ℚ) - 1 / 2 < x / 2 ^ (k - ((p : Int) - 1)))
    (h4 : x / 2 ^ (k - ((p : Int) - 1)) < (n : ℚ) + 1 / 2) :
    roundBinary p emin x = (n : ℚ) * 2 ^ (k - ((p : Int) - 1)) := by
  rw [roundBinary_eval p emin x k hk h1 h2, roundTiesEven_near _ n h3 h4]

/-- A multiple of the unit in the last place of its binade is not changed by the
rounding. -/
theorem roundBinary_exact (p : Nat) (emin : Int) (x : ℚ) (k n : Int) (hk : emin ≤ k)
    (h1 : (2 : ℚ) ^ k ≤ |x|) (h2 : |x| < (2 : ℚ) ^ (k + 1))
    (hn : x = (n : ℚ) * 2 ^ (k - ((p : Int) - 1))) :
    roundBinary p emin x = x := by
  have hpos : (0 : ℚ) < 2 ^ (k - ((p : Int) - 1)) := by positivity
  have hq : x / 2 ^ (k - ((p : Int) - 1)) = (n : ℚ) := by
    rw [hn]
    field_simp
  rw [roundBinary_near p emin x k n hk h1 h2 (by rw [hq]; linarith) (by rw [hq]; linarith)]
  exact hn.symm

/-- The rounding of a non-negative number is not negative. -/
theorem roundBinary_nonneg (p : Nat) (emin : Int) (x : ℚ) (hx : 0 ≤ x) :
    0 ≤ roundBinary p emin x := by
  unfold roundBinary
  have hpos : (0 : ℚ) < 2 ^ (max (Int.log 2 |x|) emin - ((p : Int) - 1)) := by positivity
  have hq : 0 ≤ x / 2 ^ (max (Int.log 2 |x|) emin - ((p : Int) - 1)) := by positivity
  have hfl : 0 ≤ ⌊x / 2 ^ (max (Int.log 2 |x|) emin - ((p : Int) - 1))⌋ := Int.floor_nonneg.mpr hq
  have hr : 0 ≤ roundTiesEven (x / 2 ^ (max (Int.log 2 |x|) emin - ((p : Int) - 1))) :=
    le_trans hfl (roundTiesEven_floor _).1
  have hrq : (0 : ℚ) ≤
      (roundTiesEven (x / 2 ^ (max (Int.log 2 |x|) emin - ((p : Int) - 1))) : ℚ) := by
    exact_mod_cast hr
  positivity

/-- The rounding of a number that is not positive is not positive. -/
theorem roundBinary_nonpos (p : Nat) (emin : Int) (x : ℚ) (hx : x ≤ 0) :
    roundBinary p emin x ≤ 0 := by
  unfold roundBinary
  have hpos : (0 : ℚ) < 2 ^ (max (Int.log 2 |x|) emin - ((p : Int) - 1)) := by positivity
  have hq : x / 2 ^ (max (Int.log 2 |x|) emin - ((p : Int) - 1)) ≤ 0 :=
    div_nonpos_of_nonpos_of_nonneg hx (le_of_lt hpos)
  have hc := (roundTiesEven_close
    (x / 2 ^ (max (Int.log 2 |x|) emin - ((p : Int) - 1)))).2
  have hr : roundTiesEven (x / 2 ^ (max (Int.log 2 |x|) emin - ((p : Int) - 1))) ≤ 0 := by
    have : (roundTiesEven (x / 2 ^ (max (Int.log 2 |x|) emin - ((p : Int) - 1))) : ℚ) < 1 := by
      linarith
    have : roundTiesEven (x / 2 ^ (max (Int.log 2 |x|) emin - ((p : Int) - 1))) < 1 := by
      exact_mod_cast this
    omega
  have hrq : (roundTiesEven (x / 2 ^ (max (Int.log 2 |x|) emin - ((p : Int) - 1))) : ℚ) ≤ 0 :=
    by exact_mod_cast hr
  exact mul_nonpos_of_nonpos_of_nonneg hrq (le_of_lt hpos)

/-- A positive number of exponent `e` rounds to no less than `2^e` when it is not
subnormal. -/
theorem roundBinary_ge_pow (p : Nat) (emin : Int) (x : ℚ) (hp : 1 ≤ p) (hx : 0 < x)
    (hn : emin ≤ Int.log 2 x) : (2 : ℚ) ^ (Int.log 2 x) ≤ roundBinary p emin x := by
  obtain ⟨hlo, _⟩ := log2_bounds x hx
  unfold roundBinary
  rw [abs_of_pos hx, max_eq_left hn]
  have hpos : (0 : ℚ) < 2 ^ (Int.log 2 x - ((p : Int) - 1)) := by positivity
  have hsplit : (2 : ℚ) ^ (Int.log 2 x)
      = (2 ^ (p - 1) : ℚ) * 2 ^ (Int.log 2 x - ((p : Int) - 1)) := by
    rw [← zpow_natCast, ← zpow_add₀ (two_ne_zero)]
    congr 1
    have : ((p - 1 : Nat) : Int) = (p : Int) - 1 := by omega
    omega
  have hq : ((2 ^ (p - 1) : Nat) : ℚ) ≤ x / 2 ^ (Int.log 2 x - ((p : Int) - 1)) := by
    rw [le_div_iff₀ hpos]
    push_cast
    rw [← hsplit]
    exact hlo
  have hfl : ((2 ^ (p - 1) : Nat) : Int) ≤ ⌊x / 2 ^ (Int.log 2 x - ((p : Int) - 1))⌋ := by
    rw [Int.le_floor]
    exact_mod_cast hq
  have hr := le_trans hfl (roundTiesEven_floor _).1
  have hrq : (2 ^ (p - 1) : ℚ)
      ≤ (roundTiesEven (x / 2 ^ (Int.log 2 x - ((p : Int) - 1))) : ℚ) := by
    exact_mod_cast hr
  rw [hsplit]
  exact mul_le_mul_of_nonneg_right hrq (le_of_lt hpos)

/-- A positive number rounds to no more than the end of its binade, or of the
subnormal range. -/
theorem roundBinary_le_pow (p : Nat) (emin : Int) (x : ℚ) (hp : 1 ≤ p) (hx : 0 < x) :
    roundBinary p emin x ≤ (2 : ℚ) ^ (max (Int.log 2 x) emin + 1) := by
  obtain ⟨_, hhi⟩ := log2_bounds x hx
  unfold roundBinary
  rw [abs_of_pos hx]
  have hpos : (0 : ℚ) < 2 ^ (max (Int.log 2 x) emin - ((p : Int) - 1)) := by positivity
  have hsplit : (2 : ℚ) ^ (max (Int.log 2 x) emin + 1)
      = (2 ^ p : ℚ) * 2 ^ (max (Int.log 2 x) emin - ((p : Int) - 1)) := by
    rw [← zpow_natCast, ← zpow_add₀ (two_ne_zero)]
    congr 1
    omega
  have hmono : (2 : ℚ) ^ (Int.log 2 x + 1) ≤ 2 ^ (max (Int.log 2 x) emin + 1) :=
    zpow_le_zpow_right₀ (by norm_num) (by omega)
  have hq : x / 2 ^ (max (Int.log 2 x) emin - ((p : Int) - 1)) < ((2 ^ p : Nat) : ℚ) := by
    rw [div_lt_iff₀ hpos]
    push_cast
    rw [← hsplit]
    exact lt_of_lt_of_le hhi hmono
  have hfl : ⌊x / 2 ^ (max (Int.log 2 x) emin - ((p : Int) - 1))⌋ < ((2 ^ p : Nat) : Int) := by
    rw [Int.floor_lt]
    exact_mod_cast hq
  have hr : roundTiesEven (x / 2 ^ (max (Int.log 2 x) emin - ((p : Int) - 1)))
      ≤ ((2 ^ p : Nat) : Int) := by
    have := (roundTiesEven_floor (x / 2 ^ (max (Int.log 2 x) emin - ((p : Int) - 1)))).2
    omega
  have hrq : (roundTiesEven (x / 2 ^ (max (Int.log 2 x) emin - ((p : Int) - 1))) : ℚ)
      ≤ (2 ^ p : ℚ) := by
    exact_mod_cast hr
  rw [hsplit]
  exact mul_le_mul_of_nonneg_right hrq (le_of_lt hpos)

/-- The relative error of the rounding of a positive number that is not subnormal is
at most `2^(-p)`. -/
theorem roundBinary_le_rel (p : Nat) (emin : Int) (x : ℚ) (hx : 0 < x)
    (hn : emin ≤ Int.log 2 x) :
    roundBinary p emin x ≤ x * (1 + 2 ^ (-(p : Int))) := by
  obtain ⟨hlo, _⟩ := log2_bounds x hx
  unfold roundBinary
  rw [abs_of_pos hx, max_eq_left hn]
  have hpos : (0 : ℚ) < 2 ^ (Int.log 2 x - ((p : Int) - 1)) := by positivity
  have hc := (roundTiesEven_close (x / 2 ^ (Int.log 2 x - ((p : Int) - 1)))).2
  have h1 : (roundTiesEven (x / 2 ^ (Int.log 2 x - ((p : Int) - 1))) : ℚ)
      * 2 ^ (Int.log 2 x - ((p : Int) - 1))
      ≤ (x / 2 ^ (Int.log 2 x - ((p : Int) - 1)) + 1 / 2)
        * 2 ^ (Int.log 2 x - ((p : Int) - 1)) :=
    mul_le_mul_of_nonneg_right hc (le_of_lt hpos)
  have h2 : (x / 2 ^ (Int.log 2 x - ((p : Int) - 1)) + 1 / 2)
      * 2 ^ (Int.log 2 x - ((p : Int) - 1))
      = x + 2 ^ (Int.log 2 x - ((p : Int) - 1)) / 2 := by
    field_simp
    ring
  have h3 : (2 : ℚ) ^ (Int.log 2 x - ((p : Int) - 1)) / 2
      = 2 ^ (Int.log 2 x) * 2 ^ (-(p : Int)) := by
    rw [← zpow_add₀ (two_ne_zero), div_eq_iff (two_ne_zero)]
    nth_rewrite 3 [← zpow_one (2 : ℚ)]
    rw [← zpow_add₀ (two_ne_zero)]
    congr 1
    omega
  have h4 : (2 : ℚ) ^ (Int.log 2 x) * 2 ^ (-(p : Int)) ≤ x * 2 ^ (-(p : Int)) :=
    mul_le_mul_of_nonneg_right hlo (by positivity)
  rw [h2, h3] at h1
  linarith

/-- The `double` literal `0.40`. -/
theorem double_040 : roundDouble (40 / 100) = 3602879701896397 / 9007199254740992 := by
  unfold roundDouble
  rw [roundBinary_near 53 (-1022) (40 / 100) (-2) 7205759403792794 (by norm_num)
    (by rw [abs_of_pos (by norm_num)]; norm_num) (by rw [abs_of_pos (by norm_num)]; norm_num)
    (by norm_num) (by norm_num)]
  norm_num

/-- The `double` literal `0.7`. -/
theorem double_07 : roundDouble (7 / 10) = 3152519739159347 / 4503599627370496 := by
  unfold roundDouble
  rw [roundBinary_near 53 (-1022) (7 / 10) (-1) 6305039478318694 (by norm_num)
    (by rw [abs_of_pos (by norm_num)]; norm_num) (by rw [abs_of_pos (by norm_num)]; norm_num)
    (by norm_num) (by norm_num)]
  norm_num

/-- A `float` exceeds the `double` literal `0.40` exactly when the number it was
rounded from exceeds `0.4` less half a unit in the last place of a `float`. -/
theorem roundFloat_gt_040 (q : ℚ) :
    roundFloat q > roundDouble (40 / 100) ↔ q > 26843545 / 67108864 := by
  rw [double_040]
  unfold roundFloat
  rcases le_or_lt q 0 with h0 | h0
  · have := roundBinary_nonpos 24 (-126) q h0
    constructor
    · intro h; linarith
    · intro h; linarith
  obtain ⟨hlo, hhi⟩ := log2_bounds q h0
  rcases lt_or_le q (1 / 4) with h1 | h1
  · have hl : Int.log 2 q < -2 :=
      (Int.lt_zpow_iff_log_lt (by norm_num) h0).mp (by norm_num; linarith)
    have hb := roundBinary_le_pow 24 (-126) q (by norm_num) h0
    have hm : (2 : ℚ) ^ (max (Int.log 2 q) (-126) + 1) ≤ 2 ^ (-2 : Int) :=
      zpow_le_zpow_right₀ (by norm_num) (by omega)
    have h2 : (2 : ℚ) ^ (-2 : Int) = 1 / 4 := by norm_num
    have h3 : roundBinary 24 (-126) q ≤ 1 / 4 := by
      rw [← h2]
      exact le_trans hb hm
    constructor
    · intro h; linarith
    · intro h; linarith
  rcases lt_or_le q (1 / 2) with h2 | h2
  · have habs : |q| = q := abs_of_pos h0
    rw [roundBinary_eval 24 (-126) q (-2) (by norm_num) (by rw [habs]; norm_num; linarith)
      (by rw [habs]; norm_num; linarith)]
    have hu : (2 : ℚ) ^ ((-2 : Int) - (((24 : Nat) : Int) - 1)) = 1 / 33554432 := by norm_num
    rw [hu]
    obtain ⟨f1, f2⟩ := roundTiesEven_floor (q / (1 / 33554432))
    have hf1 : (⌊q / (1 / 33554432)⌋ : ℚ) ≤ q / (1 / 33554432) := Int.floor_le _
    have hf2 : q / (1 / 33554432) < (⌊q / (1 / 33554432)⌋ : ℚ) + 1 := Int.lt_floor_add_one _
    have hq : q / (1 / 33554432) = q * 33554432 := by field_simp
    constructor
    · intro h
      have hr : (13421772 : ℚ) < (roundTiesEven (q / (1 / 33554432)) : ℚ) := by linarith
      have hr2 : (13421772 : Int) < roundTiesEven (q / (1 / 33554432)) := by exact_mod_cast hr
      by_contra hcon
      have hle : q * 33554432 ≤ 13421772 + 1 / 2 := by linarith
      have hfl : ⌊q / (1 / 33554432)⌋ ≤ 13421772 := by
        have : ⌊q / (1 / 33554432)⌋ < 13421772 + 1 := by
          rw [Int.floor_lt]
          push_cast
          linarith
        omega
      rcases (by omega : ⌊q / (1 / 33554432)⌋ ≤ 13421771 ∨ ⌊q / (1 / 33554432)⌋ = 13421772)
        with hc | hc
      · omega
      · unfold roundTiesEven at hr2
        rw [hc] at hr2
        push_cast at hr2
        split_ifs at hr2 with g1 g2
        · omega
        · linarith
        · omega
    · intro h
      have hfl : 13421772 ≤ ⌊q / (1 / 33554432)⌋ := by
        rw [Int.le_floor]
        push_cast
        linarith
      have hr2 : (13421773 : Int) ≤ roundTiesEven (q / (1 / 33554432)) := by
        rcases (by omega : 13421773 ≤ ⌊q / (1 / 33554432)⌋ ∨ ⌊q / (1 / 33554432)⌋ = 13421772)
          with hc | hc
        · omega
        · unfold roundTiesEven
          rw [hc]
          push_cast
          rw [if_neg (by linarith), if_pos (by linarith)]
      have hr : (13421773 : ℚ) ≤ (roundTiesEven (q / (1 / 33554432)) : ℚ) := by
        exact_mod_cast hr2
      linarith
  · have hl : -1 ≤ Int.log 2 q :=
      (Int.zpow_le_iff_le_log (by norm_num) h0).mp (by norm_num; linarith)
    have hb := roundBinary_ge_pow 24 (-126) q (by norm_num) h0 (by omega)
    have hm : (2 : ℚ) ^ (-1 : Int) ≤ 2 ^ (Int.log 2 q) :=
      zpow_le_zpow_right₀ (by norm_num) hl
    have h3 : (2 : ℚ) ^ (-1 : Int) = 1 / 2 := by norm_num
    have h4 : 1 / 2 ≤ roundBinary 24 (-126) q := by
      rw [← h3]
      exact le_trans hm hb
    constructor
    · intro _; linarith
    · intro _; linarith

/-- Integers below `2^24` in absolute value are `float`s; here the integer 5. -/
theorem roundFloat_5 : roundFloat 5 = 5 := by
  unfold roundFloat
  exact roundBinary_exact 24 (-126) 5 2 10485760 (by norm_num)
    (by rw [abs_of_pos (by norm_num)]; norm_num) (by rw [abs_of_pos (by norm_num)]; norm_num)
    (by norm_num)

/-- The product `0.7*0` is 0. -/
theorem similarBound_zero : similarBound 0 = 0 := by
  unfold similarBound roundDouble
  rw [Nat.cast_zero, mul_zero]
  exact roundBinary_zero 53 (-1022)

/-- The product `0.7*maxGood` is not negative. -/
theorem similarBound_nonneg (m : Nat) : 0 ≤ similarBound m := by
  unfold similarBound
  rw [double_07]
  unfold roundDouble
  exact roundBinary_nonneg 53 (-1022) _ (by positivity)

/-- The product `0.7*maxGood` is below `maxGood` when this is positive. -/
theorem similarBound_lt (m : Nat) (hm : 0 < m) : similarBound m < (m : ℚ) := by
  have hmq : (1 : ℚ) ≤ (m : ℚ) := by exact_mod_cast hm
  have hx : (0 : ℚ) < 3152519739159347 / 4503599627370496 * (m : ℚ) := by positivity
  have hl : -1 ≤ Int.log 2 ((3152519739159347 : ℚ) / 4503599627370496 * (m : ℚ)) :=
    (Int.zpow_le_iff_le_log (by norm_num) hx).mp (by norm_num; linarith)
  have hb := roundBinary_le_rel 53 (-1022) _ hx (by omega)
  unfold similarBound
  rw [double_07]
  unfold roundDouble
  have he : (1 : ℚ) + 2 ^ (-((53 : Nat) : Int)) = 9007199254740993 / 9007199254740992 := by
    norm_num
  rw [he] at hb
  have : (3152519739159347 : ℚ) / 4503599627370496 * (m : ℚ)
      * (9007199254740993 / 9007199254740992) < (m : ℚ) := by
    nlinarith
  linarith

/-- The `double` product `0.7*90` is below 63. -/
theorem similarBound_90 : similarBound 90 = 8866461766385663 / 140737488355328 := by
  unfold similarBound
  rw [double_07]
  unfold roundDouble
  rw [roundBinary_near 53 (-1022) _ 5 8866461766385663 (by norm_num)
    (by rw [abs_of_pos (by norm_num)]; norm_num) (by rw [abs_of_pos (by norm_num)]; norm_num)
    (by norm_num) (by norm_num)]
  norm_num

/-- The rounding to `double` of a positive number in a known binade. -/
theorem roundDouble_pos (x : ℚ) (k n : Int) (hk : -1022 ≤ k) (hx : 0 < x)
    (h1 : (2 : ℚ) ^ k ≤ x) (h2 : x < (2 : ℚ) ^ (k + 1))
    (h3 : (n : ℚ) - 1 / 2 < x / 2 ^ (k - 52)) (h4 : x / 2 ^ (k - 52) < (n : ℚ) + 1 / 2) :
    roundDouble x = (n : ℚ) * 2 ^ (k - 52) := by
  unfold roundDouble
  have e : k - (((53 : Nat) : Int) - 1) = k - 52 := by norm_num
  rw [roundBinary_near 53 (-1022) x k n hk (by rw [abs_of_pos hx]; exact h1)
    (by rw [abs_of_pos hx]; exact h2) (by rw [e]; exact h3) (by rw [e]; exact h4), e]

/-- Zero is a `float`. -/
theorem roundFloat_zero : roundFloat 0 = 0 := roundBinary_zero 24 (-126)

/-- A positive number that is not subnormal and is at least the integer `k` rounds to
no less than `k`, when the unit in the last place of the number is at most 1. -/
theorem roundBinary_ge_int (p : Nat) (emin : Int) (x : ℚ) (k : Nat) (hx : 0 < x)
    (hk : (k : ℚ) ≤ x) (hn : emin ≤ Int.log 2 x) (he : Int.log 2 x ≤ (p : Int) - 1) :
    (k : ℚ) ≤ roundBinary p emin x := by
  unfold roundBinary
  rw [abs_of_pos hx, max_eq_left hn]
  have hpos : (0 : ℚ) < 2 ^ (Int.log 2 x - ((p : Int) - 1)) := by positivity
  obtain ⟨m, hm⟩ : ∃ m : Nat, ((p : Int) - 1) - Int.log 2 x = (m : Int) :=
    ⟨(((p : Int) - 1) - Int.log 2 x).toNat, (Int.toNat_of_nonneg (by omega)).symm⟩
  have hu : (2 : ℚ) ^ (Int.log 2 x - ((p : Int) - 1)) = 1 / 2 ^ m := by
    have : Int.log 2 x - ((p : Int) - 1) = -(m : Int) := by omega
    rw [this, zpow_neg, zpow_natCast, one_div]
  have hq : ((k * 2 ^ m : Nat) : ℚ) ≤ x / 2 ^ (Int.log 2 x - ((p : Int) - 1)) := by
    rw [hu]
    push_cast
    rw [div_div_eq_mul_div, div_one]
    exact mul_le_mul_of_nonneg_right hk (by positivity)
  have hfl : ((k * 2 ^ m : Nat) : Int) ≤ ⌊x / 2 ^ (Int.log 2 x - ((p : Int) - 1))⌋ := by
    rw [Int.le_floor]
    exact_mod_cast hq
  have hr := le_trans hfl (roundTiesEven_floor _).1
  have hrq : ((k * 2 ^ m : Nat) : ℚ)
      ≤ (roundTiesEven (x / 2 ^ (Int.log 2 x - ((p : Int) - 1))) : ℚ) := by
    exact_mod_cast hr
  have h1 := mul_le_mul_of_nonneg_right hrq (le_of_lt hpos)
  have h2 : ((k * 2 ^ m : Nat) : ℚ) * 2 ^ (Int.log 2 x - ((p : Int) - 1)) = (k : ℚ) := by
    rw [hu]
    push_cast
    field_simp
  rw [h2] at h1
  exact h1

/-- The `double` literal `0.9`. -/
theorem double_09 : roundDouble (9 / 10) = 8106479329266893 / 9007199254740992 := by
  rw [roundDouble_pos (9 / 10) (-1) 8106479329266893 (by norm_num) (by norm_num) (by norm_num)
    (by norm_num) (by norm_num) (by norm_num)]
  norm_num

/-- The integer part of the `double` product `0.9*N` is that of `9*N/10`, for every
non-negative `int` `N`: the rounding of the literal and of the product moves the value
by less than `10^-6`, and never below an integer that `9*N/10` has reached. -/
theorem double_ninety_floor (N : Nat) (hN : N < 2 ^ 31) :
    ⌊roundDouble (roundDouble (9 / 10) * (N : ℚ))⌋ = ⌊(9 / 10 : ℚ) * (N : ℚ)⌋ := by
  rw [double_09]
  rcases Nat.eq_zero_or_pos N with h0 | hpos
  · subst h0
    unfold roundDouble
    rw [Nat.cast_zero, mul_zero, roundBinary_zero, mul_zero]
  have hNq : (1 : ℚ) ≤ (N : ℚ) := by exact_mod_cast hpos
  have hNq2 : (N : ℚ) < 2147483648 := by exact_mod_cast hN
  have hx : (0 : ℚ) < 8106479329266893 / 9007199254740992 * (N : ℚ) := by positivity
  have hl : -1 ≤ Int.log 2 ((8106479329266893 : ℚ) / 9007199254740992 * (N : ℚ)) :=
    (Int.zpow_le_iff_le_log (by norm_num) hx).mp (by norm_num; linarith)
  have hh : Int.log 2 ((8106479329266893 : ℚ) / 9007199254740992 * (N : ℚ)) < 31 :=
    (Int.lt_zpow_iff_log_lt (by norm_num) hx).mp (by norm_num; linarith)
  have hf1 : ((⌊(9 / 10 : ℚ) * (N : ℚ)⌋ : Int) : ℚ) ≤ (9 / 10 : ℚ) * (N : ℚ) := Int.floor_le _
  have hfnn : 0 ≤ ⌊(9 / 10 : ℚ) * (N : ℚ)⌋ := Int.floor_nonneg.mpr (by positivity)
  obtain ⟨k, hk⟩ : ∃ k : Nat, ⌊(9 / 10 : ℚ) * (N : ℚ)⌋ = (k : Int) :=
    ⟨⌊(9 / 10 : ℚ) * (N : ℚ)⌋.toNat, (Int.toNat_of_nonneg hfnn).symm⟩
  rw [hk] at hf1
  have hkq : ((k : Int) : ℚ) = (k : ℚ) := by norm_cast
  rw [hkq] at hf1
  have hfrac : (9 : ℚ) / 10 * (N : ℚ) ≤ (k : ℚ) + 9 / 10 := by
    have hlt : (9 : ℚ) / 10 * (N : ℚ) < (k : ℚ) + 1 := by
      have := Int.lt_floor_add_one ((9 / 10 : ℚ) * (N : ℚ))
      rw [hk, hkq] at this
      exact this
    have h9 : (9 * N : ℚ) < 10 * (k : ℚ) + 10 := by linarith
    have h9n : 9 * N < 10 * k + 10 := by exact_mod_cast h9
    have h9m : 9 * N ≤ 10 * k + 9 := by omega
    have h9q : (9 * N : ℚ) ≤ 10 * (k : ℚ) + 9 := by exact_mod_cast h9m
    linarith
  have hlow : (k : ℚ) ≤ roundDouble (8106479329266893 / 9007199254740992 * (N : ℚ)) := by
    unfold roundDouble
    exact roundBinary_ge_int 53 (-1022) _ k hx (by linarith) (by omega) (by
      have : ((53 : Nat) : Int) = 53 := rfl
      omega)
  have hup : roundDouble (8106479329266893 / 9007199254740992 * (N : ℚ)) < (k : ℚ) + 1 := by
    have hb := roundBinary_le_rel 53 (-1022) _ hx (by omega)
    have he : (1 : ℚ) + 2 ^ (-((53 : Nat) : Int)) = 9007199254740993 / 9007199254740992 := by
      norm_num
    rw [he] at hb
    unfold roundDouble
    have hkb : (k : ℚ) < 2147483648 := by linarith
    nlinarith
  rw [hk, Int.floor_eq_iff]
  exact ⟨by rw [hkq]; exact hlow, by rw [hkq]; exact hup⟩

/-- An `int` exceeds the `double` product `0.9*N` exactly when it exceeds `9*N/10`, for
every non-negative `int` `N`. -/
theorem double_ninety_gt (b : Int) (N : Nat) (hN : N < 2 ^ 31) :
    (b : ℚ) > roundDouble (roundDouble (9 / 10) * (N : ℚ)) ↔ (b : ℚ) > (9 / 10 : ℚ) * (N : ℚ) := by
  rw [gt_iff_lt, gt_iff_lt, ← Int.floor_lt, ← Int.floor_lt, double_ninety_floor N hN]

/-- The `double` product `0.75*b` is exact for every non-negative `int` `b`: `0.75` is
a `double` and `3*b/4` has fewer than 53 significant bits. -/
theorem double_three_quarters (b : Nat) (hb : b < 2 ^ 31) :
    roundDouble (roundDouble (75 / 100) * (b : ℚ)) = (75 / 100 : ℚ) * (b : ℚ) := by
  have h75 : roundDouble (75 / 100) = 75 / 100 := by
    rw [roundDouble_pos (75 / 100) (-1) 6755399441055744 (by norm_num) (by norm_num)
      (by norm_num) (by norm_num) (by norm_num) (by norm_num)]
    norm_num
  rw [h75]
  rcases Nat.eq_zero_or_pos b with h0 | hpos
  · subst h0
    unfold roundDouble
    rw [Nat.cast_zero, mul_zero, roundBinary_zero]
  have hbq : (1 : ℚ) ≤ (b : ℚ) := by exact_mod_cast hpos
  have hbq2 : (b : ℚ) < 2147483648 := by exact_mod_cast hb
  have hx : (0 : ℚ) < 75 / 100 * (b : ℚ) := by positivity
  have hl : -1 ≤ Int.log 2 ((75 : ℚ) / 100 * (b : ℚ)) :=
    (Int.zpow_le_iff_le_log (by norm_num) hx).mp (by norm_num; linarith)
  have hh : Int.log 2 ((75 : ℚ) / 100 * (b : ℚ)) < 31 :=
    (Int.lt_zpow_iff_log_lt (by norm_num) hx).mp (by norm_num; linarith)
  obtain ⟨m, hm⟩ : ∃ m : Nat, (50 : Int) - Int.log 2 ((75 : ℚ) / 100 * (b : ℚ)) = (m : Int) :=
    ⟨((50 : Int) - Int.log 2 ((75 : ℚ) / 100 * (b : ℚ))).toNat,
      (Int.toNat_of_nonneg (by omega)).symm⟩
  unfold roundDouble roundBinary
  rw [abs_of_pos hx, max_eq_left (by omega)]
  have hu : (2 : ℚ) ^ (Int.log 2 ((75 : ℚ) / 100 * (b : ℚ)) - (((53 : Nat) : Int) - 1))
      = 1 / (4 * 2 ^ m) := by
    have : Int.log 2 ((75 : ℚ) / 100 * (b : ℚ)) - (((53 : Nat) : Int) - 1)
        = -((m : Int) + 2) := by
      have : ((53 : Nat) : Int) = 53 := rfl
      omega
    rw [this, zpow_neg, zpow_add₀ (two_ne_zero), zpow_natCast, one_div]
    norm_num
    ring
  rw [hu]
  have hq : (75 : ℚ) / 100 * (b : ℚ) / (1 / (4 * 2 ^ m)) = ((3 * b * 2 ^ m : Nat) : Int) := by
    push_cast
    field_simp
    ring
  rw [hq, roundTiesEven_intCast]
  push_cast
  field_simp
  ring

/-! ## Lemmas on the grid -/

theorem PosInGrid_eq (s : FrameStatics) (kp : KeyPoint) :
    PosInGrid s kp =
      (decide (0 ≤ cround ((kp.ptx - s.mnMinX) * s.mfGridElementWidthInv) ∧
          cround ((kp.ptx - s.mnMinX) * s.mfGridElementWidthInv) < (s.FRAME_GRID_COLS : Int) ∧
          0 ≤ cround ((kp.pty - s.mnMinY) * s.mfGridElementHeightInv) ∧
          cround ((kp.pty - s.mnMinY) * s.mfGridElementHeightInv) < (s.FRAME_GRID_ROWS : Int)),
        cround ((kp.ptx - s.mnMinX) * s.mfGridElementWidthInv),
        cround ((kp.pty - s.mnMinY) * s.mfGridElementHeightInv)) := by
  unfold PosInGrid
  simp only []
  split_ifs with h
  · have : ¬ (0 ≤ cround ((kp.ptx - s.mnMinX) * s.mfGridElementWidthInv) ∧
          cround ((kp.ptx - s.mnMinX) * s.mfGridElementWidthInv) < (s.FRAME_GRID_COLS : Int) ∧
          0 ≤ cround ((kp.pty - s.mnMinY) * s.mfGridElementHeightInv) ∧
          cround ((kp.pty - s.mnMinY) * s.mfGridElementHeightInv) < (s.FRAME_GRID_ROWS : Int)) := by
      omega
    simp [this]
  · have : (0 ≤ cround ((kp.ptx - s.mnMinX) * s.mfGridElementWidthInv) ∧
          cround ((kp.ptx - s.mnMinX) * s.mfGridElementWidthInv) < (s.FRAME_GRID_COLS : Int) ∧
          0 ≤ cround ((kp.pty - s.mnMinY) * s.mfGridElementHeightInv) ∧
          cround ((kp.pty - s.mnMinY) * s.mfGridElementHeightInv) < (s.FRAME_GRID_ROWS : Int)) := by
      omega
    simp [this]

theorem assignLoop_count (s : FrameStatics) (v : Nat) (a b : Int) :
    ∀ (keys : List KeyPoint) (i : Nat) (g : Grid),
      (assignLoop s i keys g a b).count v =
        (g a b).count v +
          (if ∃ kp, keys[v - i]? = some kp ∧ i ≤ v ∧ PosInGrid s kp = (true, a, b) then 1 else 0) := by
  intro keys
  induction keys with
  | nil => intro i g; simp [assignLoop]
  | cons kp rest ih =>
    intro i g
    unfold assignLoop
    rcases hp : PosInGrid s kp with ⟨fl, px, py⟩
    cases fl
    · simp only []
      rw [ih]
      congr 1
      by_cases hv : v < i + 1
      · have : ¬ (i + 1 ≤ v) := by omega
        by_cases hvi : v = i
        · subst hvi
          simp [hp]
        · have : ¬ (i ≤ v) := by omega
          simp [*]
      · have e : v - i = (v - (i + 1)) + 1 := by omega
        rw [e]
        have : i ≤ v := by omega
        have : i + 1 ≤ v := by omega
        simp [*]
    · simp only []
      rw [ih]
      by_cases hv : v < i + 1
      · have h1 : ¬ (i + 1 ≤ v) := by omega
        by_cases hvi : v = i
        · subst hvi
          by_cases hc : a = px ∧ b = py
          · obtain ⟨rfl, rfl⟩ := hc
            simp [gridPush, hp]
          · have : ¬ PosInGrid s kp = (true, a, b) := by
              rw [hp]; intro h; apply hc
              simp only [Prod.mk.injEq, true_and] at h
              exact ⟨h.1.symm, h.2.symm⟩
            simp [gridPush, hc, this]
        · have h2 : ¬ (i ≤ v) := by omega
          by_cases hc : a = px ∧ b = py
          · simp [gridPush, hc, h1, h2, List.count_append, List.count_singleton, hvi]
          · simp [gridPush, hc, h1, h2]
      · have e : v - i = (v - (i + 1)) + 1 := by omega
        rw [e]
        have h1 : i ≤ v := by omega
        have h2 : i + 1 ≤ v := by omega
        have h3 : i ≠ v := by omega
        by_cases hc : a = px ∧ b = py
        · simp [gridPush, hc, h1, h2, List.count_append, List.count_singleton, h3]
        · simp [gridPush, hc, h1, h2]

theorem keyAccepted_sound (x y r : ℚ) (minLevel maxLevel : Int) (kp : KeyPoint)
    (h : keyAccepted x y r minLevel maxLevel
      (decide (minLevel > 0) || decide (maxLevel ≥ 0)) kp = true) :
    |kp.ptx - x| < r ∧ |kp.pty - y| < r ∧
      (0 ≤ kp.octave →
        (minLevel < 0 ∨ minLevel ≤ kp.octave) ∧ (maxLevel < 0 ∨ kp.octave ≤ maxLevel)) := by
  unfold keyAccepted at h
  split_ifs at h with h1 h2
  simp only [decide_eq_true_eq] at h
  refine ⟨h.1, h.2, fun ho => ?_⟩
  simp only [Bool.or_eq_true, decide_eq_true_eq, not_and, not_lt] at h1 h2
  constructor
  · by_cases hm : minLevel < 0
    · exact Or.inl hm
    · right
      by_cases hc : minLevel > 0 ∨ maxLevel ≥ 0
      · exact h1 hc
      · omega
  · by_cases hm : maxLevel < 0
    · exact Or.inl hm
    · right
      have := h2 (Or.inr (by omega)) (by omega)
      omega

theorem keyAccepted_complete (x y r : ℚ) (minLevel maxLevel : Int) (kp : KeyPoint)
    (ho : 0 ≤ kp.octave) (hx : |kp.ptx - x| < r) (hy : |kp.pty - y| < r)
    (hmin : minLevel < 0 ∨ minLevel ≤ kp.octave) (hmax : maxLevel < 0 ∨ kp.octave ≤ maxLevel) :
    keyAccepted x y r minLevel maxLevel
      (decide (minLevel > 0) || decide (maxLevel ≥ 0)) kp = true := by
  unfold keyAccepted
  have h1 : ¬ (((decide (minLevel > 0) || decide (maxLevel ≥ 0)) = true) ∧
      kp.octave < minLevel) := by
    intro h; omega
  have h2 : ¬ (((decide (minLevel > 0) || decide (maxLevel ≥ 0)) = true) ∧ maxLevel ≥ 0 ∧
      kp.octave > maxLevel) := by
    intro h; omega
  rw [if_neg h1, if_neg h2]
  simp [hx, hy]

theorem scanCell_ok_eq (keys : List KeyPoint) (x y r : ℚ) (minLevel maxLevel : Int) (bc : Bool) :
    ∀ (cell acc res : List Nat),
      scanCell keys x y r minLevel maxLevel bc cell acc = .ok res →
      res = acc ++ cell.filter (indexAccepted keys x y r minLevel maxLevel bc) := by
  intro cell
  induction cell with
  | nil => intro acc res h; simp [scanCell] at h; simp [h]
  | cons j rest ih =>
    intro acc res h
    unfold scanCell at h
    cases hk : keys[j]? with
    | none => rw [hk] at h; simp at h
    | some kp =>
      rw [hk] at h
      simp only [] at h
      by_cases ha : keyAccepted x y r minLevel maxLevel bc kp = true
      · rw [if_pos ha] at h
        have := ih _ _ h
        simp [this, List.filter_cons, indexAccepted, hk, ha]
      · rw [if_neg ha] at h
        have := ih _ _ h
        simp [this, List.filter_cons, indexAccepted, hk, ha]

theorem scanCell_total (keys : List KeyPoint) (x y r : ℚ) (minLevel maxLevel : Int) (bc : Bool) :
    ∀ (cell acc : List Nat), (∀ j ∈ cell, j < keys.length) →
      scanCell keys x y r minLevel maxLevel bc cell acc =
        .ok (acc ++ cell.filter (indexAccepted keys x y r minLevel maxLevel bc)) := by
  intro cell
  induction cell with
  | nil => intro acc _; simp [scanCell]
  | cons j rest ih =>
    intro acc hw
    have hj : j < keys.length := hw j (List.mem_cons_self _ _)
    have hr : ∀ k ∈ rest, k < keys.length := fun k hk => hw k (List.mem_cons_of_mem _ hk)
    unfold scanCell
    have hk : keys[j]? = some keys[j] := List.getElem?_eq_getElem hj
    rw [hk]
    simp only []
    by_cases ha : keyAccepted x y r minLevel maxLevel bc keys[j] = true
    · rw [if_pos ha, ih _ hr]
      simp [List.filter_cons, indexAccepted, hk, ha]
    · rw [if_neg ha, ih _ hr]
      simp [List.filter_cons, indexAccepted, hk, ha]

theorem scanCells_ok_eq (keys : List KeyPoint) (g : Grid) (x y r : ℚ) (minLevel maxLevel : Int)
    (bc : Bool) :
    ∀ (cells : List (Int × Int)) (acc res : List Nat),
      scanCells keys g x y r minLevel maxLevel bc cells acc = .ok res →
      res = acc ++ cells.flatMap
        (fun c => (g c.1 c.2).filter (indexAccepted keys x y r minLevel maxLevel bc)) := by
  intro cells
  induction cells with
  | nil => intro acc res h; simp [scanCells] at h; simp [h]
  | cons c rest ih =>
    intro acc res h
    unfold scanCells at h
    cases hc : scanCell keys x y r minLevel maxLevel bc (g c.1 c.2) acc with
    | error e => rw [hc] at h; simp at h
    | ok v =>
      rw [hc] at h
      simp only [] at h
      have h1 := scanCell_ok_eq keys x y r minLevel maxLevel bc _ _ _ hc
      have h2 := ih _ _ h
      rw [h2, h1]
      simp [List.flatMap_cons]

theorem scanCells_total (keys : List KeyPoint) (g : Grid) (x y r : ℚ) (minLevel maxLevel : Int)
    (bc : Bool) (hw : ∀ a b, ∀ j ∈ g a b, j < keys.length) :
    ∀ (cells : List (Int × Int)) (acc : List Nat),
      scanCells keys g x y r minLevel maxLevel bc cells acc =
        .ok (acc ++ cells.flatMap
          (fun c => (g c.1 c.2).filter (indexAccepted keys x y r minLevel maxLevel bc))) := by
  intro cells
  induction cells with
  | nil => intro acc; simp [scanCells]
  | cons c rest ih =>
    intro acc
    unfold scanCells
    rw [scanCell_total keys x y r minLevel maxLevel bc _ _ (hw c.1 c.2)]
    simp only []
    rw [ih]
    simp [List.flatMap_cons]

/-! ## Grid index: the claims -/

/-- C1. `GetFeaturesInArea` is sound: on every frame state and query, each returned
index `j` is the index of an undistorted keypoint with `|x_j - x| < r`, `|y_j - y| < r`
and, when its octave is non-negative, inside the requested levels.  The call returns
normally whenever every index stored in the grid is below `N`. -/
theorem GetFeaturesInArea_sound (s : FrameStatics) (mvKeysUn : List KeyPoint) (mGrid : Grid)
    (x y r : ℚ) (minLevel maxLevel : Int) :
    (∀ res, GetFeaturesInArea s mvKeysUn mGrid x y r minLevel maxLevel = .ok res →
      ∀ j ∈ res, ∃ kp, mvKeysUn[j]? = some kp ∧
        |kp.ptx - x| < r ∧ |kp.pty - y| < r ∧
        (0 ≤ kp.octave →
          (minLevel < 0 ∨ minLevel ≤ kp.octave) ∧ (maxLevel < 0 ∨ kp.octave ≤ maxLevel))) ∧
    ((∀ a b, ∀ j ∈ mGrid a b, j < mvKeysUn.length) →
      ∃ res, GetFeaturesInArea s mvKeysUn mGrid x y r minLevel maxLevel = .ok res) := by
  constructor
  · intro res h j hj
    unfold GetFeaturesInArea at h
    simp only [] at h
    split_ifs at h
    all_goals first
      | (simp only [Except.ok.injEq] at h; subst h; simp at hj)
      | skip
    have e := scanCells_ok_eq _ _ _ _ _ _ _ _ _ _ _ h
    rw [e] at hj
    simp only [List.nil_append, List.mem_flatMap, List.mem_filter] at hj
    obtain ⟨c, _, _, hacc⟩ := hj
    unfold indexAccepted at hacc
    cases hk : mvKeysUn[j]? with
    | none => rw [hk] at hacc; simp at hacc
    | some kp =>
      rw [hk] at hacc
      exact ⟨kp, rfl, keyAccepted_sound x y r minLevel maxLevel kp hacc⟩
  · intro hw
    unfold GetFeaturesInArea
    simp only []
    split_ifs
    all_goals first
      | exact ⟨_, rfl⟩
      | skip
    exact ⟨_, scanCells_total _ _ _ _ _ _ _ _ hw _ _⟩

theorem AssignFeaturesToGrid_count (s : FrameStatics) (keys : List KeyPoint) (a b : Int)
    (v : Nat) :
    (AssignFeaturesToGrid s keys emptyGrid a b).count v =
      if ∃ kp, keys[v]? = some kp ∧ PosInGrid s kp = (true, a, b) then 1 else 0 := by
  unfold AssignFeaturesToGrid
  rw [assignLoop_count]
  simp [emptyGrid]

theorem AssignFeaturesToGrid_mem (s : FrameStatics) (keys : List KeyPoint) (a b : Int)
    (v : Nat) :
    v ∈ AssignFeaturesToGrid s keys emptyGrid a b ↔
      ∃ kp, keys[v]? = some kp ∧ PosInGrid s kp = (true, a, b) := by
  rw [← List.count_pos_iff, AssignFeaturesToGrid_count]
  split_ifs with h
  · simp [h]
  · simp [h]

theorem AssignFeaturesToGrid_lt (s : FrameStatics) (keys : List KeyPoint) (a b : Int)
    (v : Nat) (h : v ∈ AssignFeaturesToGrid s keys emptyGrid a b) : v < keys.length := by
  obtain ⟨kp, hk, _⟩ := (AssignFeaturesToGrid_mem s keys a b v).mp h
  by_contra hn
  rw [List.getElem?_eq_none (by omega)] at hk
  simp at hk

theorem mem_intRange (lo hi a : Int) : a ∈ intRange lo hi ↔ lo ≤ a ∧ a ≤ hi := by
  unfold intRange
  simp only [List.mem_map, List.mem_range]
  constructor
  · rintro ⟨k, hk, rfl⟩
    omega
  · rintro ⟨h1, h2⟩
    exact ⟨(a - lo).toNat, by omega, by omega⟩

theorem nodup_intRange (lo hi : Int) : (intRange lo hi).Nodup := by
  unfold intRange
  apply List.Nodup.map _ (List.nodup_range _)
  intro i j h
  simp only [] at h
  omega

theorem sum_map_ite_of_not_mem {α : Type} [DecidableEq α] (c0 : α) (l : List α)
    (h : c0 ∉ l) : (l.map (fun c => if c = c0 then 1 else 0)).sum = 0 := by
  induction l with
  | nil => simp
  | cons c rest ih =>
    have h1 : c ≠ c0 := fun e => h (by simp [e])
    have h2 : c0 ∉ rest := fun e => h (List.mem_cons_of_mem _ e)
    simp [h1, ih h2]

theorem sum_map_ite_of_nodup {α : Type} [DecidableEq α] (c0 : α) (l : List α)
    (hn : l.Nodup) (h : c0 ∈ l) : (l.map (fun c => if c = c0 then 1 else 0)).sum = 1 := by
  induction l with
  | nil => simp at h
  | cons c rest ih =>
    rw [List.nodup_cons] at hn
    by_cases hc : c = c0
    · subst hc
      simp [sum_map_ite_of_not_mem c rest hn.1]
    · have h2 : c0 ∈ rest := by
        rcases List.mem_cons.mp h with e | e
        · exact absurd e.symm hc
        · exact e
      simp [hc, ih hn.2 h2]

theorem cellsInOrder_nodup (x0 x1 y0 y1 : Int) : (cellsInOrder x0 x1 y0 y1).Nodup := by
  have e : cellsInOrder x0 x1 y0 y1 = List.product (intRange x0 x1) (intRange y0 y1) := rfl
  rw [e]
  exact List.Nodup.product (nodup_intRange _ _) (nodup_intRange _ _)

theorem mem_cellsInOrder (x0 x1 y0 y1 a b : Int) :
    (a, b) ∈ cellsInOrder x0 x1 y0 y1 ↔ (x0 ≤ a ∧ a ≤ x1) ∧ (y0 ≤ b ∧ b ≤ y1) := by
  have e : cellsInOrder x0 x1 y0 y1 = List.product (intRange x0 x1) (intRange y0 y1) := rfl
  rw [e, List.pair_mem_product, mem_intRange, mem_intRange]

theorem stored_in_scan (s : FrameStatics) (kp : KeyPoint) (x y r : ℚ) (a b : Int)
    (hw : 0 ≤ s.mfGridElementWidthInv) (hh : 0 ≤ s.mfGridElementHeightInv)
    (hp : PosInGrid s kp = (true, a, b))
    (hx : |kp.ptx - x| < r) (hy : |kp.pty - y| < r) :
    (max 0 ⌊(x - s.mnMinX - r) * s.mfGridElementWidthInv⌋ ≤ a ∧
      a ≤ min ((s.FRAME_GRID_COLS : Int) - 1) ⌈(x - s.mnMinX + r) * s.mfGridElementWidthInv⌉) ∧
    (max 0 ⌊(y - s.mnMinY - r) * s.mfGridElementHeightInv⌋ ≤ b ∧
      b ≤ min ((s.FRAME_GRID_ROWS : Int) - 1) ⌈(y - s.mnMinY + r) * s.mfGridElementHeightInv⌉) ∧
    (0 ≤ a ∧ a < (s.FRAME_GRID_COLS : Int) ∧ 0 ≤ b ∧ b < (s.FRAME_GRID_ROWS : Int)) := by
  rw [PosInGrid_eq] at hp
  simp only [Prod.mk.injEq, decide_eq_true_eq] at hp
  obtain ⟨⟨i1, i2, i3, i4⟩, ha, hb⟩ := hp
  rw [abs_lt] at hx hy
  have ex := scan_range_covers ((x - s.mnMinX - r) * s.mfGridElementWidthInv)
    ((kp.ptx - s.mnMinX) * s.mfGridElementWidthInv)
    ((x - s.mnMinX + r) * s.mfGridElementWidthInv) s.FRAME_GRID_COLS
    (mul_le_mul_of_nonneg_right (by linarith) hw)
    (mul_le_mul_of_nonneg_right (by linarith) hw) i1 i2
  have ey := scan_range_covers ((y - s.mnMinY - r) * s.mfGridElementHeightInv)
    ((kp.pty - s.mnMinY) * s.mfGridElementHeightInv)
    ((y - s.mnMinY + r) * s.mfGridElementHeightInv) s.FRAME_GRID_ROWS
    (mul_le_mul_of_nonneg_right (by linarith) hh)
    (mul_le_mul_of_nonneg_right (by linarith) hh) i3 i4
  rw [ha] at ex i1 i2
  rw [hb] at ey i3 i4
  exact ⟨ex, ey, i1, i2, i3, i4⟩

theorem GetFeaturesInArea_total (s : FrameStatics) (mvKeysUn : List KeyPoint) (mGrid : Grid)
    (x y r : ℚ) (minLevel maxLevel : Int)
    (hw : ∀ a b, ∀ j ∈ mGrid a b, j < mvKeysUn.length) :
    ∃ res, GetFeaturesInArea s mvKeysUn mGrid x y r minLevel maxLevel = .ok res := by
  unfold GetFeaturesInArea
  simp only []
  split_ifs
  all_goals first
    | exact ⟨_, rfl⟩
    | skip
  exact ⟨_, scanCells_total _ _ _ _ _ _ _ _ hw _ _⟩

/-- C2. `GetFeaturesInArea` is complete on a grid built by `AssignFeaturesToGrid`
(non-negative cell-size inverses, octaves non-negative): the call returns, and every
index stored in some cell `(a, b)` whose keypoint lies in the window and in the
requested levels occurs exactly once in the result; the clamped scan range
`[max(0, floor((x-minX-r)*wInv)), min(COLS-1, ceil((x-minX+r)*wInv))]`, and the same
in `y`, contains that cell. -/
theorem GetFeaturesInArea_complete (s : FrameStatics) (mvKeysUn : List KeyPoint)
    (x y r : ℚ) (minLevel maxLevel : Int)
    (hw : 0 ≤ s.mfGridElementWidthInv) (hh : 0 ≤ s.mfGridElementHeightInv) :
    ∃ res, GetFeaturesInArea s mvKeysUn (AssignFeaturesToGrid s mvKeysUn emptyGrid)
        x y r minLevel maxLevel = .ok res ∧
      ∀ i kp a b, mvKeysUn[i]? = some kp →
        i ∈ AssignFeaturesToGrid s mvKeysUn emptyGrid a b →
        0 ≤ kp.octave → |kp.ptx - x| < r → |kp.pty - y| < r →
        (minLevel < 0 ∨ minLevel ≤ kp.octave) → (maxLevel < 0 ∨ kp.octave ≤ maxLevel) →
        res.count i = 1 ∧
        (max 0 ⌊(x - s.mnMinX - r) * s.mfGridElementWidthInv⌋ ≤ a ∧
          a ≤ min ((s.FRAME_GRID_COLS : Int) - 1)
            ⌈(x - s.mnMinX + r) * s.mfGridElementWidthInv⌉) ∧
        (max 0 ⌊(y - s.mnMinY - r) * s.mfGridElementHeightInv⌋ ≤ b ∧
          b ≤ min ((s.FRAME_GRID_ROWS : Int) - 1)
            ⌈(y - s.mnMinY + r) * s.mfGridElementHeightInv⌉) := by
  have wf : ∀ a b, ∀ j ∈ AssignFeaturesToGrid s mvKeysUn emptyGrid a b, j < mvKeysUn.length :=
    fun a b j hj => AssignFeaturesToGrid_lt s mvKeysUn a b j hj
  obtain ⟨res, hres⟩ := GetFeaturesInArea_total s mvKeysUn _ x y r minLevel maxLevel wf
  refine ⟨res, hres, ?_⟩
  intro i kp a b hk hi ho hx hy hmin hmax
  obtain ⟨kp', hk', hp⟩ := (AssignFeaturesToGrid_mem s mvKeysUn a b i).mp hi
  rw [hk] at hk'
  cases hk'
  obtain ⟨⟨bx0, bx1⟩, ⟨by0, by1⟩, i1, i2, i3, i4⟩ := stored_in_scan s kp x y r a b hw hh hp hx hy
  refine ⟨?_, ⟨bx0, bx1⟩, ⟨by0, by1⟩⟩
  unfold GetFeaturesInArea at hres
  simp only [] at hres
  rw [if_neg (by omega), if_neg (by omega), if_neg (by omega), if_neg (by omega)] at hres
  rw [scanCells_total _ _ _ _ _ _ _ _ wf] at hres
  simp only [Except.ok.injEq, List.nil_append] at hres
  rw [← hres, List.count_flatMap]
  have hacc : indexAccepted mvKeysUn x y r minLevel maxLevel
      (decide (minLevel > 0) || decide (maxLevel ≥ 0)) i = true := by
    unfold indexAccepted
    rw [hk]
    exact keyAccepted_complete x y r minLevel maxLevel kp ho hx hy hmin hmax
  have hf : (List.count i ∘ fun c : Int × Int =>
      (AssignFeaturesToGrid s mvKeysUn emptyGrid c.1 c.2).filter
        (indexAccepted mvKeysUn x y r minLevel maxLevel
          (decide (minLevel > 0) || decide (maxLevel ≥ 0)))) =
      fun c => if c = (a, b) then 1 else 0 := by
    funext c
    simp only [Function.comp]
    rw [List.count_filter hacc, AssignFeaturesToGrid_count]
    by_cases hc : c = (a, b)
    · subst hc
      rw [if_pos ⟨kp, hk, hp⟩, if_pos rfl]
    · rw [if_neg hc, if_neg]
      rintro ⟨kp', hk', hp'⟩
      rw [hk] at hk'
      cases hk'
      rw [hp] at hp'
      apply hc
      simp only [Prod.mk.injEq, true_and] at hp'
      exact Prod.ext hp'.1.symm hp'.2.symm
  rw [hf]
  exact sum_map_ite_of_nodup (a, b) _ (cellsInOrder_nodup _ _ _ _)
    ((mem_cellsInOrder _ _ _ _ a b).mpr ⟨⟨bx0, bx1⟩, ⟨by0, by1⟩⟩)

theorem PosInGrid_kpCentre : PosInGrid vgaStatics kpCentre = (true, 32, 24) := by
  rw [PosInGrid_eq]
  have e1 : cround ((kpCentre.ptx - vgaStatics.mnMinX) * vgaStatics.mfGridElementWidthInv) = 32 := by
    norm_num [cround, kpCentre, vgaStatics, Int.floor_eq_iff]
  have e2 : cround ((kpCentre.pty - vgaStatics.mnMinY) * vgaStatics.mfGridElementHeightInv) = 24 := by
    norm_num [cround, kpCentre, vgaStatics, Int.floor_eq_iff]
  rw [e1, e2]
  simp [vgaStatics]

theorem PosInGrid_kpNearRight : PosInGrid vgaStatics kpNearRight = (false, 64, 10) := by
  rw [PosInGrid_eq]
  have e1 : cround ((kpNearRight.ptx - vgaStatics.mnMinX) * vgaStatics.mfGridElementWidthInv) = 64 := by
    norm_num [cround, kpNearRight, vgaStatics, Int.floor_eq_iff]
  have e2 : cround ((kpNearRight.pty - vgaStatics.mnMinY) * vgaStatics.mfGridElementHeightInv) = 10 := by
    norm_num [cround, kpNearRight, vgaStatics, Int.floor_eq_iff]
  rw [e1, e2]
  simp [vgaStatics]

theorem PosInGrid_kpLeftOutside : PosInGrid vgaStatics kpLeftOutside = (true, 0, 10) := by
  rw [PosInGrid_eq]
  have e1 : cround ((kpLeftOutside.ptx - vgaStatics.mnMinX) * vgaStatics.mfGridElementWidthInv) = 0 := by
    norm_num [cround, kpLeftOutside, vgaStatics, Int.ceil_eq_iff]
  have e2 : cround ((kpLeftOutside.pty - vgaStatics.mnMinY) * vgaStatics.mfGridElementHeightInv) = 10 := by
    norm_num [cround, kpLeftOutside, vgaStatics, Int.floor_eq_iff]
  rw [e1, e2]
  simp [vgaStatics]

/-- Witness of C2 on the keypoint in the middle of the 640 × 480 image: its index is
stored in cell `(32, 24)` and the query `(320, 240, 0.5, -1, -1)` returns it once. -/
theorem GetFeaturesInArea_complete_witness :
    0 ≤ vgaStatics.mfGridElementWidthInv ∧ 0 ≤ vgaStatics.mfGridElementHeightInv ∧
    0 ∈ AssignFeaturesToGrid vgaStatics [kpCentre] emptyGrid 32 24 ∧
    ∃ res, GetFeaturesInArea vgaStatics [kpCentre]
        (AssignFeaturesToGrid vgaStatics [kpCentre] emptyGrid) 320 240 (1 / 2) (-1) (-1) =
          .ok res ∧ res.count 0 = 1 := by
  have hw : (0 : ℚ) ≤ vgaStatics.mfGridElementWidthInv := by norm_num [vgaStatics]
  have hh : (0 : ℚ) ≤ vgaStatics.mfGridElementHeightInv := by norm_num [vgaStatics]
  have hm : 0 ∈ AssignFeaturesToGrid vgaStatics [kpCentre] emptyGrid 32 24 :=
    (AssignFeaturesToGrid_mem vgaStatics [kpCentre] 32 24 0).mpr
      ⟨kpCentre, rfl, PosInGrid_kpCentre⟩
  obtain ⟨res, hres, hc⟩ := GetFeaturesInArea_complete vgaStatics [kpCentre]
    320 240 (1 / 2) (-1) (-1) hw hh
  refine ⟨hw, hh, hm, res, hres, (hc 0 kpCentre 32 24 rfl hm ?_ ?_ ?_ ?_ ?_).1⟩
  · simp [kpCentre]
  · norm_num [kpCentre]
  · norm_num [kpCentre]
  · left; decide
  · left; decide

theorem GetFeaturesInArea_of_empty (s : FrameStatics) (keys : List KeyPoint) (g : Grid)
    (x y r : ℚ) (minLevel maxLevel : Int) (hg : ∀ a b, g a b = []) :
    GetFeaturesInArea s keys g x y r minLevel maxLevel = .ok [] := by
  obtain ⟨res, hres⟩ := GetFeaturesInArea_total s keys g x y r minLevel maxLevel
    (fun a b j hj => by rw [hg] at hj; simp at hj)
  rw [hres]
  unfold GetFeaturesInArea at hres
  simp only [] at hres
  split_ifs at hres
  all_goals first
    | (simp only [Except.ok.injEq] at hres; rw [hres])
    | skip
  have e := scanCells_ok_eq _ _ _ _ _ _ _ _ _ _ _ hres
  rw [e]
  simp [hg]

/-- C3. Grid coverage fails next to the right border: the keypoint `(636, 100)` lies
strictly inside the bounds `(0, 640) × (0, 480)`, its column rounds to
`round(63.6) = 64 = FRAME_GRID_COLS`, so `AssignFeaturesToGrid` stores it nowhere and
`GetFeaturesInArea(636, 100, 0.5, -1, -1)` returns the empty list. -/
theorem coverage_fails_near_right_border :
    vgaStatics.mfGridElementWidthInv =
        (vgaStatics.FRAME_GRID_COLS : ℚ) / (vgaStatics.mnMaxX - vgaStatics.mnMinX) ∧
      vgaStatics.mfGridElementHeightInv =
        (vgaStatics.FRAME_GRID_ROWS : ℚ) / (vgaStatics.mnMaxY - vgaStatics.mnMinY) ∧
      (vgaStatics.mnMinX < kpNearRight.ptx ∧ kpNearRight.ptx < vgaStatics.mnMaxX) ∧
      (vgaStatics.mnMinY < kpNearRight.pty ∧ kpNearRight.pty < vgaStatics.mnMaxY) ∧
      [kpNearRight][0]? = some kpNearRight ∧
      PosInGrid vgaStatics kpNearRight = (false, 64, 10) ∧
      GetFeaturesInArea vgaStatics [kpNearRight]
          (AssignFeaturesToGrid vgaStatics [kpNearRight] emptyGrid)
          kpNearRight.ptx kpNearRight.pty (1 / 2) (-1) (-1) = .ok [] := by
  refine ⟨by norm_num [vgaStatics], by norm_num [vgaStatics],
    by norm_num [vgaStatics, kpNearRight], by norm_num [vgaStatics, kpNearRight], rfl,
    PosInGrid_kpNearRight, ?_⟩
  apply GetFeaturesInArea_of_empty
  intro a b
  simp [AssignFeaturesToGrid, assignLoop, PosInGrid_kpNearRight, emptyGrid]

/-- C4. A keypoint outside the bounds can be stored: `(-1, 100)` has `x < mnMinX = 0`,
its column rounds to `round(-0.1) = 0`, and `AssignFeaturesToGrid` stores its index
in cell `(0, 10)`. -/
theorem outside_keypoint_is_stored :
    kpLeftOutside.ptx < vgaStatics.mnMinX ∧
      PosInGrid vgaStatics kpLeftOutside = (true, 0, 10) ∧
      AssignFeaturesToGrid vgaStatics [kpLeftOutside] emptyGrid 0 10 = [0] := by
  have hg : AssignFeaturesToGrid vgaStatics [kpLeftOutside] emptyGrid 0 10 = [0] := by
    simp [AssignFeaturesToGrid, assignLoop, PosInGrid_kpLeftOutside, emptyGrid, gridPush]
  exact ⟨by norm_num [vgaStatics, kpLeftOutside], PosInGrid_kpLeftOutside, hg⟩

/-! ## Lemmas on the outlier pass -/

theorem pairLE_total : IsTotal (Int × Nat) pairLE :=
  ⟨fun a b => by unfold pairLE; omega⟩

theorem pairLE_trans : IsTrans (Int × Nat) pairLE :=
  ⟨fun a b c => by unfold pairLE; omega⟩

theorem sortPairs_perm (v : List (Int × Nat)) : (sortPairs v).Perm v :=
  List.perm_insertionSort pairLE v

theorem sortPairs_sorted (v : List (Int × Nat)) :
    (sortPairs v).Pairwise (fun a b => a.1 ≤ b.1) := by
  haveI := pairLE_total
  haveI := pairLE_trans
  have h : (sortPairs v).Pairwise pairLE := List.sorted_insertionSort pairLE v
  refine h.imp ?_
  intro a b hab
  unfold pairLE at hab
  omega

theorem rejectLoop_spec (thDist : ℚ) :
    ∀ (l : List (Int × Nat)) (ru dep : List ℚ),
      l.Pairwise (fun a b => b.1 ≤ a.1) →
      (∀ p ∈ l, p.2 < ru.length ∧ p.2 < dep.length) →
      ∃ ru1 dep1, rejectLoop thDist l ru dep = .ok (ru1, dep1) ∧
        ru1.length = ru.length ∧ dep1.length = dep.length ∧
        ∀ i, (ru1[i]? = if ∃ p ∈ l, p.2 = i ∧ thDist ≤ (p.1 : ℚ) then some (-1) else ru[i]?) ∧
          (dep1[i]? = if ∃ p ∈ l, p.2 = i ∧ thDist ≤ (p.1 : ℚ) then some (-1) else dep[i]?) := by
  intro l
  induction l with
  | nil =>
    intro ru dep _ _
    exact ⟨ru, dep, rfl, rfl, rfl, fun i => by simp⟩
  | cons p rest ih =>
    intro ru dep hs hv
    rw [List.pairwise_cons] at hs
    have hp := hv p (List.mem_cons_self _ _)
    unfold rejectLoop
    by_cases hlt : (p.1 : ℚ) < thDist
    · rw [if_pos hlt]
      refine ⟨ru, dep, rfl, rfl, rfl, fun i => ?_⟩
      have hno : ¬ ∃ q ∈ p :: rest, q.2 = i ∧ thDist ≤ (q.1 : ℚ) := by
        rintro ⟨q, hq, _, hq2⟩
        rcases List.mem_cons.mp hq with e | e
        · subst e; linarith
        · have : (q.1 : ℚ) ≤ (p.1 : ℚ) := by exact_mod_cast hs.1 q e
          linarith
      simp only [if_neg hno, and_self]
    · rw [if_neg hlt, if_pos hp]
      have hv2 : ∀ q ∈ rest, q.2 < (ru.set p.2 (-1)).length ∧ q.2 < (dep.set p.2 (-1)).length := by
        intro q hq
        simpa using hv q (List.mem_cons_of_mem _ hq)
      obtain ⟨ru1, dep1, hr, hl1, hl2, hi⟩ := ih (ru.set p.2 (-1)) (dep.set p.2 (-1)) hs.2 hv2
      refine ⟨ru1, dep1, hr, by simpa using hl1, by simpa using hl2, fun i => ?_⟩
      obtain ⟨h1, h2⟩ := hi i
      rw [h1, h2]
      have hth : thDist ≤ (p.1 : ℚ) := not_lt.mp hlt
      by_cases hex : ∃ q ∈ rest, q.2 = i ∧ thDist ≤ (q.1 : ℚ)
      · have hex2 : ∃ q ∈ p :: rest, q.2 = i ∧ thDist ≤ (q.1 : ℚ) := by
          obtain ⟨q, hq, hq2⟩ := hex
          exact ⟨q, List.mem_cons_of_mem _ hq, hq2⟩
        simp only [if_pos hex, if_pos hex2, and_self]
      · simp only [if_neg hex]
        by_cases hpi : p.2 = i
        · have hex2 : ∃ q ∈ p :: rest, q.2 = i ∧ thDist ≤ (q.1 : ℚ) :=
            ⟨p, List.mem_cons_self _ _, hpi, hth⟩
          simp only [if_pos hex2]
          subst hpi
          simp [List.getElem?_set, hp.1, hp.2]
        · have hex2 : ¬ ∃ q ∈ p :: rest, q.2 = i ∧ thDist ≤ (q.1 : ℚ) := by
            rintro ⟨q, hq, hq1, hq2⟩
            rcases List.mem_cons.mp hq with e | e
            · subst e; exact hpi hq1
            · exact hex ⟨q, e, hq1, hq2⟩
          simp only [if_neg hex2]
          simp [List.getElem?_set, hpi]

theorem median_independent_of_ties (v sorted : List (Int × Nat)) (hp : sorted.Perm v)
    (hs : sorted.Pairwise (fun a b => a.1 ≤ b.1)) :
    sorted.map Prod.fst = (sortPairs v).map Prod.fst := by
  apply List.eq_of_perm_of_sorted (r := fun (a b : Int) => a ≤ b)
  · exact (hp.trans (sortPairs_perm v).symm).map _
  · exact (List.pairwise_map.mpr hs)
  · exact (List.pairwise_map.mpr (sortPairs_sorted v))

theorem outlierPass_spec (v : List (Int × Nat)) (ru dep : List ℚ)
    (hne : v ≠ []) (hidx : ∀ p ∈ v, p.2 < ru.length ∧ p.2 < dep.length) :
    ∃ pm ru1 dep1, (sortPairs v)[(sortPairs v).length / 2]? = some pm ∧
      outlierPass v ru dep = .ok (ru1, dep1) ∧
      ru1.length = ru.length ∧ dep1.length = dep.length ∧
      ∀ i,
        (ru1[i]? = if ∃ p ∈ v, p.2 = i ∧ 3 / 2 * (7 / 5) * (pm.1 : ℚ) ≤ (p.1 : ℚ)
          then some (-1) else ru[i]?) ∧
        (dep1[i]? = if ∃ p ∈ v, p.2 = i ∧ 3 / 2 * (7 / 5) * (pm.1 : ℚ) ≤ (p.1 : ℚ)
          then some (-1) else dep[i]?) := by
  have hlen : (sortPairs v).length = v.length := (sortPairs_perm v).length_eq
  have hpos : 0 < v.length := List.length_pos.mpr hne
  have hlt : (sortPairs v).length / 2 < (sortPairs v).length := by
    rw [hlen]; omega
  have hget : (sortPairs v)[(sortPairs v).length / 2]? =
      some ((sortPairs v)[(sortPairs v).length / 2]) := List.getElem?_eq_getElem hlt
  have hmem : ∀ p, p ∈ (sortPairs v).reverse ↔ p ∈ v := by
    intro p
    rw [List.mem_reverse]
    exact (sortPairs_perm v).mem_iff
  have hsorted : (sortPairs v).reverse.Pairwise (fun a b => b.1 ≤ a.1) := by
    rw [List.pairwise_reverse]
    exact sortPairs_sorted v
  obtain ⟨ru1, dep1, hr, hl1, hl2, hi⟩ :=
    rejectLoop_spec (3 / 2 * (7 / 5) * (((sortPairs v)[(sortPairs v).length / 2]).1 : ℚ))
      (sortPairs v).reverse ru dep hsorted
      (fun p hp => hidx p ((hmem p).mp hp))
  refine ⟨_, ru1, dep1, hget, ?_, hl1, hl2, ?_⟩
  · unfold outlierPass
    simp only []
    rw [hget]
    exact hr
  · intro i
    have hiff : (∃ p ∈ (sortPairs v).reverse, p.2 = i ∧
        3 / 2 * (7 / 5) * (((sortPairs v)[(sortPairs v).length / 2]).1 : ℚ) ≤ (p.1 : ℚ)) ↔
        (∃ p ∈ v, p.2 = i ∧
        3 / 2 * (7 / 5) * (((sortPairs v)[(sortPairs v).length / 2]).1 : ℚ) ≤ (p.1 : ℚ)) := by
      constructor
      · rintro ⟨p, hp, h⟩; exact ⟨p, (hmem p).mp hp, h⟩
      · rintro ⟨p, hp, h⟩; exact ⟨p, (hmem p).mpr hp, h⟩
    obtain ⟨h1, h2⟩ := hi i
    rw [h1, h2]
    simp only [hiff, and_self]

/-- C7. Global SAD outlier pass: for a non-empty list of collected `(best SAD, left
index)` pairs (indices distinct and inside the two vectors), with `m` the SAD at
position `n/2` of any ascending sort of the list, the pass returns, resets `right_u`
and `depth` of a collected keypoint to `-1` when its SAD is at least `1.5*1.4*m`, and
leaves them as given otherwise; so a collected keypoint whose given values were not
both `-1` ends with both `-1` if and only if its SAD is at least `1.5*1.4*m`.
Keypoints that were not collected are untouched. -/
theorem outlierPass_rejects_above_threshold (vDistIdx : List (Int × Nat))
    (mvuRight mvDepth : List ℚ) (sorted : List (Int × Nat))
    (hne : vDistIdx ≠ [])
    (hidx : ∀ p ∈ vDistIdx, p.2 < mvuRight.length ∧ p.2 < mvDepth.length)
    (hnd : (vDistIdx.map Prod.snd).Nodup)
    (hperm : sorted.Perm vDistIdx) (hsorted : sorted.Pairwise (fun a b => a.1 ≤ b.1)) :
    ∃ pm ru1 dep1, sorted[sorted.length / 2]? = some pm ∧
      outlierPass vDistIdx mvuRight mvDepth = .ok (ru1, dep1) ∧
      ru1.length = mvuRight.length ∧ dep1.length = mvDepth.length ∧
      (∀ p ∈ vDistIdx,
        (3 / 2 * (7 / 5) * (pm.1 : ℚ) ≤ (p.1 : ℚ) →
          ru1[p.2]? = some (-1) ∧ dep1[p.2]? = some (-1)) ∧
        ((p.1 : ℚ) < 3 / 2 * (7 / 5) * (pm.1 : ℚ) →
          ru1[p.2]? = mvuRight[p.2]? ∧ dep1[p.2]? = mvDepth[p.2]?) ∧
        (¬ (mvuRight[p.2]? = some (-1) ∧ mvDepth[p.2]? = some (-1)) →
          ((ru1[p.2]? = some (-1) ∧ dep1[p.2]? = some (-1)) ↔
            3 / 2 * (7 / 5) * (pm.1 : ℚ) ≤ (p.1 : ℚ)))) ∧
      (∀ i, i ∉ vDistIdx.map Prod.snd → ru1[i]? = mvuRight[i]? ∧ dep1[i]? = mvDepth[i]?) := by
  obtain ⟨p0, ru1, dep1, hget, hout, hl1, hl2, hi⟩ := outlierPass_spec vDistIdx mvuRight mvDepth hne hidx
  have hfst := median_independent_of_ties vDistIdx sorted hperm hsorted
  have hlen : sorted.length = (sortPairs vDistIdx).length := by
    have := congrArg List.length hfst
    simpa using this
  have hpos : 0 < vDistIdx.length := List.length_pos.mpr hne
  have hlt : sorted.length / 2 < sorted.length := by
    rw [hperm.length_eq]; omega
  have hm : (sorted[sorted.length / 2]).1 = p0.1 := by
    have h1 : (sorted.map Prod.fst)[sorted.length / 2]? =
        ((sortPairs vDistIdx).map Prod.fst)[sorted.length / 2]? := by rw [hfst]
    rw [List.getElem?_map, List.getElem?_map, hlen, hget, ← hlen,
      List.getElem?_eq_getElem hlt] at h1
    simpa using h1
  have key : ∀ p ∈ vDistIdx, ((∃ q ∈ vDistIdx, q.2 = p.2 ∧
      3 / 2 * (7 / 5) * (p0.1 : ℚ) ≤ (q.1 : ℚ)) ↔ 3 / 2 * (7 / 5) * (p0.1 : ℚ) ≤ (p.1 : ℚ)) := by
    intro p hp
    constructor
    · rintro ⟨q, hq, hq1, hq2⟩
      have : q = p := by
        have hinj := List.inj_on_of_nodup_map hnd
        exact hinj hq hp hq1
      rw [← this]; exact hq2
    · intro h; exact ⟨p, hp, rfl, h⟩
  refine ⟨sorted[sorted.length / 2], ru1, dep1, List.getElem?_eq_getElem hlt, hout, hl1, hl2,
    ?_, ?_⟩
  · intro p hp
    rw [hm]
    obtain ⟨h1, h2⟩ := hi p.2
    have k := key p hp
    refine ⟨?_, ?_, ?_⟩
    · intro hge
      rw [h1, h2, if_pos (k.mpr hge), if_pos (k.mpr hge)]
      exact ⟨rfl, rfl⟩
    · intro hlt2
      have hn : ¬ ∃ q ∈ vDistIdx, q.2 = p.2 ∧ 3 / 2 * (7 / 5) * (p0.1 : ℚ) ≤ (q.1 : ℚ) :=
        fun h => absurd (k.mp h) (not_le.mpr hlt2)
      rw [h1, h2, if_neg hn, if_neg hn]
      exact ⟨rfl, rfl⟩
    · intro hgiven
      constructor
      · intro hboth
        by_contra hc
        have hn : ¬ ∃ q ∈ vDistIdx, q.2 = p.2 ∧ 3 / 2 * (7 / 5) * (p0.1 : ℚ) ≤ (q.1 : ℚ) :=
          fun h => hc (k.mp h)
        rw [h1, h2, if_neg hn, if_neg hn] at hboth
        exact hgiven hboth
      · intro hge
        rw [h1, h2, if_pos (k.mpr hge), if_pos (k.mpr hge)]
        exact ⟨rfl, rfl⟩
  · intro i hni
    obtain ⟨h1, h2⟩ := hi i
    have hn : ¬ ∃ q ∈ vDistIdx, q.2 = i ∧ 3 / 2 * (7 / 5) * (p0.1 : ℚ) ≤ (q.1 : ℚ) := by
      rintro ⟨q, hq, hq1, _⟩
      exact hni (List.mem_map.mpr ⟨q, hq, hq1⟩)
    rw [h1, h2, if_neg hn, if_neg hn]
    exact ⟨rfl, rfl⟩

theorem outlierPass_sadExample :
    outlierPass sadExample uRightExample depthExample =
      .ok ([10, 11, 12, 13, 14, -1], [1, 2, 3, 4, 5, -1]) := by
  have hs : sortPairs sadExample = sadExample := by decide
  unfold outlierPass
  simp only [hs]
  norm_num [sadExample, uRightExample, depthExample, rejectLoop]

/-- Witness of C7 on the SADs `1, 1, 1, 1, 1, 10`: the median is `1`, the threshold
`2.1`, and exactly the keypoint with SAD `10` is reset. -/
theorem outlierPass_rejects_above_threshold_witness :
    sadExample ≠ [] ∧
    (∀ p ∈ sadExample, p.2 < uRightExample.length ∧ p.2 < depthExample.length) ∧
    (sadExample.map Prod.snd).Nodup ∧
    outlierPass sadExample uRightExample depthExample =
      .ok ([10, 11, 12, 13, 14, -1], [1, 2, 3, 4, 5, -1]) ∧
    ∃ pm ru1 dep1, sadExample[sadExample.length / 2]? = some pm ∧
      outlierPass sadExample uRightExample depthExample = .ok (ru1, dep1) ∧
      ru1.length = uRightExample.length ∧ dep1.length = depthExample.length ∧
      (∀ p ∈ sadExample,
        (3 / 2 * (7 / 5) * (pm.1 : ℚ) ≤ (p.1 : ℚ) →
          ru1[p.2]? = some (-1) ∧ dep1[p.2]? = some (-1)) ∧
        ((p.1 : ℚ) < 3 / 2 * (7 / 5) * (pm.1 : ℚ) →
          ru1[p.2]? = uRightExample[p.2]? ∧ dep1[p.2]? = depthExample[p.2]?) ∧
        (¬ (uRightExample[p.2]? = some (-1) ∧ depthExample[p.2]? = some (-1)) →
          ((ru1[p.2]? = some (-1) ∧ dep1[p.2]? = some (-1)) ↔
            3 / 2 * (7 / 5) * (pm.1 : ℚ) ≤ (p.1 : ℚ)))) ∧
      (∀ i, i ∉ sadExample.map Prod.snd →
        ru1[i]? = uRightExample[i]? ∧ dep1[i]? = depthExample[i]?) :=
  ⟨by decide, by decide, by decide, outlierPass_sadExample,
    outlierPass_rejects_above_threshold sadExample uRightExample depthExample sadExample
      (by decide) (by decide) (by decide) (List.Perm.refl _) (by decide)⟩

/-! ## The depth step -/

theorem sadRefine_path (f : Frame) (minD : ℚ) (maxD : XFloat) (kpL : KeyPoint) (bestIdxR : Nat)
    (kpR0 : KeyPoint) (scaleFactor sf : ℚ) (imL imR : Image) (IL : Nat → Nat → Int)
    (bestDist bestincR : Int) (vDists : List Int)
    (h1 : f.mvKeysRight[bestIdxR]? = some kpR0)
    (h2 : listAt f.mvInvScaleFactors kpL.octave = some scaleFactor)
    (h3 : listAt f.leftPyramid kpL.octave = some imL)
    (h4 : patch imL (cround (kpL.pty * scaleFactor) - 5) (cround (kpL.pty * scaleFactor) + 5 + 1)
      (cround (kpL.ptx * scaleFactor) - 5) (cround (kpL.ptx * scaleFactor) + 5 + 1) = .ok IL)
    (h5 : ¬ cround (kpR0.ptx * scaleFactor) + 5 - 5 < 0)
    (h6 : listAt f.rightPyramid kpL.octave = some imR)
    (h7 : ¬ cround (kpR0.ptx * scaleFactor) + 5 + 5 + 1 ≥ (imR.cols : Int))
    (h8 : slideLoop IL imR (cround (kpL.pty * scaleFactor)) (cround (kpR0.ptx * scaleFactor))
      (intRange (-5) 5) (INT_MAX, 0, List.replicate 11 0) = .ok (bestDist, bestincR, vDists))
    (h9 : ¬ (bestincR = -5 ∨ bestincR = 5))
    (h10 : ¬ ((((vDists.getD (5 + bestincR - 1).toNat 0 : Int) : ℚ) -
        ((vDists.getD (5 + bestincR + 1).toNat 0 : Int) : ℚ)) /
        (2 * (((vDists.getD (5 + bestincR - 1).toNat 0 : Int) : ℚ) +
          ((vDists.getD (5 + bestincR + 1).toNat 0 : Int) : ℚ) -
          2 * ((vDists.getD (5 + bestincR).toNat 0 : Int) : ℚ))) < -1 ∨
      (((vDists.getD (5 + bestincR - 1).toNat 0 : Int) : ℚ) -
        ((vDists.getD (5 + bestincR + 1).toNat 0 : Int) : ℚ)) /
        (2 * (((vDists.getD (5 + bestincR - 1).toNat 0 : Int) : ℚ) +
          ((vDists.getD (5 + bestincR + 1).toNat 0 : Int) : ℚ) -
          2 * ((vDists.getD (5 + bestincR).toNat 0 : Int) : ℚ))) > 1))
    (h11 : listAt f.mvScaleFactors kpL.octave = some sf) :
    sadRefine f minD maxD kpL bestIdxR =
      match depthStep f.mbf minD maxD kpL.ptx
          (sf * ((cround (kpR0.ptx * scaleFactor) : ℚ) + (bestincR : ℚ) +
            (((vDists.getD (5 + bestincR - 1).toNat 0 : Int) : ℚ) -
              ((vDists.getD (5 + bestincR + 1).toNat 0 : Int) : ℚ)) /
            (2 * (((vDists.getD (5 + bestincR - 1).toNat 0 : Int) : ℚ) +
              ((vDists.getD (5 + bestincR + 1).toNat 0 : Int) : ℚ) -
              2 * ((vDists.getD (5 + bestincR).toNat 0 : Int) : ℚ))))) with
      | none => .ok none
      | some (depth, uRight) => .ok (some (depth, uRight, bestDist)) := by
  unfold sadRefine
  simp only [h1, h2, h3, h4, if_neg h5, h6, if_neg h7, h8, if_neg h9, if_neg h10, h11]

theorem matchLeft_path (f : Frame) (vRowIndices : List (List Nat)) (minD : ℚ) (maxD : XFloat)
    (thOrbDist : Int) (iL : Nat) (kpL : KeyPoint) (vCandidates : List Nat)
    (bestDist : Int) (bestIdxR : Nat)
    (h1 : listAt vRowIndices (ctrunc kpL.pty) = some vCandidates)
    (h2 : vCandidates.isEmpty = false)
    (h3 : ¬ kpL.ptx - minD < 0)
    (h4 : preselect f iL kpL.octave (XFloat.rsub kpL.ptx maxD) (kpL.ptx - minD) vCandidates
      (f.TH_HIGH, 0) = .ok (bestDist, bestIdxR))
    (h5 : bestDist < thOrbDist) :
    matchLeft f vRowIndices minD maxD thOrbDist iL kpL = sadRefine f minD maxD kpL bestIdxR := by
  unfold matchLeft
  simp only [h1, h2, if_neg h3, h4, if_pos h5]
  simp

theorem matchLeft_no_descriptor (f : Frame) (vRowIndices : List (List Nat)) (minD : ℚ)
    (maxD : XFloat) (thOrbDist : Int) (iL : Nat) (kpL : KeyPoint) (vCandidates : List Nat)
    (bestDist : Int) (bestIdxR : Nat)
    (h1 : listAt vRowIndices (ctrunc kpL.pty) = some vCandidates)
    (h2 : vCandidates.isEmpty = false)
    (h3 : ¬ kpL.ptx - minD < 0)
    (h4 : preselect f iL kpL.octave (XFloat.rsub kpL.ptx maxD) (kpL.ptx - minD) vCandidates
      (f.TH_HIGH, 0) = .ok (bestDist, bestIdxR))
    (h5 : ¬ bestDist < thOrbDist) :
    matchLeft f vRowIndices minD maxD thOrbDist iL kpL = .ok none := by
  unfold matchLeft
  simp only [h1, h2, if_neg h3, h4, if_neg h5]
  simp

theorem matchLeft_no_candidate (f : Frame) (vRowIndices : List (List Nat)) (minD : ℚ)
    (maxD : XFloat) (thOrbDist : Int) (iL : Nat) (kpL : KeyPoint)
    (h1 : listAt vRowIndices (ctrunc kpL.pty) = some []) :
    matchLeft f vRowIndices minD maxD thOrbDist iL kpL = .ok none := by
  unfold matchLeft
  simp only [h1]
  simp

theorem ComputeStereoMatches_path (f : Frame) (im0 : Image) (vRowIndices : List (List Nat))
    (ru dep : List ℚ) (vDistIdx : List (Int × Nat))
    (h1 : f.leftPyramid[0]? = some im0)
    (h2 : buildRowTable f.mvScaleFactors 0 f.mvKeysRight (List.replicate im0.rows []) =
      .ok vRowIndices)
    (h3 : matchLoop f vRowIndices 0 (XFloat.div f.mbf f.mb) ((f.TH_HIGH + f.TH_LOW).tdiv 2) 0
      f.mvKeys (List.replicate f.mvKeys.length (-1), List.replicate f.mvKeys.length (-1), []) =
      .ok (ru, dep, vDistIdx)) :
    ComputeStereoMatches f =
      match outlierPass vDistIdx ru dep with
      | .error e => .error e
      | .ok (ru1, dep1) => .ok { f with mvuRight := ru1, mvDepth := dep1 } := by
  unfold ComputeStereoMatches
  simp only [h1, h2, h3]

theorem outlierPass_nil (ru dep : List ℚ) : outlierPass [] ru dep = .error Fault.medianIndex := by
  rfl

/-! ## Evaluation of the stereo matcher on the example scenes -/

set_option maxRecDepth 100000 in
theorem rowTableAdd_200 :
    rowTableAdd 0 (intRange 198 202) (List.replicate 480 []) = .ok rowTable200 := by
  rfl

theorem buildRowTable_200 (u : ℚ) :
    buildRowTable [1] 0 [{ ptx := u, pty := 200, octave := 0 }] (List.replicate 480 []) =
      .ok rowTable200 := by
  have e1 : (⌈(200 : ℚ) + 2 * 1⌉ : Int) = 202 := by
    rw [Int.ceil_eq_iff]; norm_num
  have e2 : (⌊(200 : ℚ) - 2 * 1⌋ : Int) = 198 := by
    rw [Int.floor_eq_iff]; norm_num
  simp only [buildRowTable, listAt, le_refl, if_true, Int.toNat_zero, List.getElem?_cons_zero,
    e1, e2, rowTableAdd_200]

set_option maxRecDepth 100000 in
theorem rowTable200_at : listAt rowTable200 200 = some [0] := by
  rfl

theorem ctrunc_200 : ctrunc 200 = 200 := by
  norm_num [ctrunc]

theorem cround_natCast (n : Nat) : cround (n : ℚ) = n := by
  unfold cround
  rw [if_pos (by positivity), Int.floor_eq_iff]
  constructor
  · push_cast; linarith
  · push_cast; linarith

theorem cround_300 : cround ((300 : ℚ) * 1) = 300 := by
  have := cround_natCast 300; simpa using this

theorem cround_200 : cround ((200 : ℚ) * 1) = 200 := by
  have := cround_natCast 200; simpa using this

theorem cround_260 : cround ((260 : ℚ) * 1) = 260 := by
  have := cround_natCast 260; simpa using this

theorem slide_perfect :
    slideLoop (fun i j => (patternImage 300 0).px (195 + i) (295 + j)) (patternImage 260 0) 200 260
      (intRange (-5) 5) (INT_MAX, 0, List.replicate 11 0) =
      .ok (0, 0, [3300, 2640, 1980, 1320, 660, 0, 660, 1320, 1980, 2640, 3300]) := by
  rfl

theorem sadRefine_perfect (mb : ℚ) (maxD : XFloat) (hD : XFloat.ltX 40 maxD = true) :
    sadRefine (perfectScene mb) 0 maxD { ptx := 300, pty := 200, octave := 0 } 0 =
      .ok (some (5 / 4, 260, 0)) := by
  have e := sadRefine_path (perfectScene mb) 0 maxD { ptx := 300, pty := 200, octave := 0 } 0
    { ptx := 260, pty := 200, octave := 0 } 1 1 (patternImage 300 0) (patternImage 260 0)
    (fun i j => (patternImage 300 0).px (195 + i) (295 + j)) 0 0
    [3300, 2640, 1980, 1320, 660, 0, 660, 1320, 1980, 2640, 3300]
    rfl rfl rfl
    (by simp only [cround_300, cround_200]; rfl)
    (by simp only [cround_260]; decide)
    rfl
    (by simp only [cround_260]; decide)
    (by simp only [cround_200, cround_260]; exact slide_perfect)
    (by decide)
    (by
      have g1 : ([3300, 2640, 1980, 1320, 660, 0, 660, 1320, 1980, 2640, 3300] : List Int).getD
          ((5 : Int) + 0 - 1).toNat 0 = 660 := rfl
      have g2 : ([3300, 2640, 1980, 1320, 660, 0, 660, 1320, 1980, 2640, 3300] : List Int).getD
          ((5 : Int) + 0).toNat 0 = 0 := rfl
      have g3 : ([3300, 2640, 1980, 1320, 660, 0, 660, 1320, 1980, 2640, 3300] : List Int).getD
          ((5 : Int) + 0 + 1).toNat 0 = 660 := rfl
      simp only [g1, g2, g3]
      norm_num)
    rfl
  rw [e]
  have g1 : ([3300, 2640, 1980, 1320, 660, 0, 660, 1320, 1980, 2640, 3300] : List Int).getD
      ((5 : Int) + 0 - 1).toNat 0 = 660 := rfl
  have g2 : ([3300, 2640, 1980, 1320, 660, 0, 660, 1320, 1980, 2640, 3300] : List Int).getD
      ((5 : Int) + 0).toNat 0 = 0 := rfl
  have g3 : ([3300, 2640, 1980, 1320, 660, 0, 660, 1320, 1980, 2640, 3300] : List Int).getD
      ((5 : Int) + 0 + 1).toNat 0 = 660 := rfl
  have hb : (perfectScene mb).mbf = 50 := rfl
  simp only [g1, g2, g3, cround_260, hb]
  norm_num [depthStep, hD]

theorem matchLoop_perfect (mb : ℚ) (maxD : XFloat) (hD : XFloat.ltX 40 maxD = true)
    (hU : XFloat.geX 260 (XFloat.rsub 300 maxD) = true) :
    matchLoop (perfectScene mb) rowTable200 0 maxD 75 0
      [{ ptx := 300, pty := 200, octave := 0 }]
      ([-1], [-1], []) = .ok ([260], [5 / 4], [(0, 0)]) := by
  have hp : preselect (perfectScene mb) 0 0 (XFloat.rsub 300 maxD) (300 - 0) [0]
      (100, 0) = .ok (0, 0) := by
    have hu : XFloat.geX (KeyPoint.mk 260 200 0).ptx (XFloat.rsub 300 maxD) = true := hU
    norm_num [preselect, perfectScene, stereoScene, hu]
  have hl : matchLeft (perfectScene mb) rowTable200 0 maxD 75 0
      { ptx := 300, pty := 200, octave := 0 } = .ok (some (5 / 4, 260, 0)) := by
    rw [matchLeft_path (perfectScene mb) rowTable200 0 maxD 75 0
      { ptx := 300, pty := 200, octave := 0 } [0] 0 0
      (by simp only [ctrunc_200]; exact rowTable200_at) rfl (by norm_num) hp (by decide)]
    exact sadRefine_perfect mb maxD hD
  simp [matchLoop, hl]

theorem outlierPass_single_zero (i : Nat) (ru dep : List ℚ)
    (h1 : i < ru.length) (h2 : i < dep.length) :
    outlierPass [(0, i)] ru dep = .ok (ru.set i (-1), dep.set i (-1)) := by
  have hs : sortPairs [(0, i)] = [(0, i)] := rfl
  unfold outlierPass
  simp only [hs]
  norm_num [rejectLoop, h1, h2]

theorem ComputeStereoMatches_perfect (mb : ℚ)
    (hD : XFloat.ltX 40 (XFloat.div 50 mb) = true)
    (hU : XFloat.geX 260 (XFloat.rsub 300 (XFloat.div 50 mb)) = true) :
    ComputeStereoMatches (perfectScene mb) =
      .ok { perfectScene mb with mvuRight := [-1], mvDepth := [-1] } := by
  rw [ComputeStereoMatches_path (perfectScene mb) (patternImage 300 0) rowTable200
    [260] [5 / 4] [(0, 0)] rfl (buildRowTable_200 260)
    (matchLoop_perfect mb (XFloat.div 50 mb) hD hU)]
  rw [outlierPass_single_zero 0 [260] [5 / 4] (by simp) (by simp)]
  rfl

/-- C8. The scenario of the specification ends without depth: with `bf = 50`,
`uL = 300`, `uR = 260` and identical patches the matcher finds best SAD `0` at shift
`0` and stores `right_u = 260`, `depth = 1.25`; the outlier pass then resets both to
`-1`, because the median SAD is `0` and `0 < 1.5*1.4*0` is false.  This happens with
`mb = 0` (as the stereo constructor leaves it) and with the baseline `mb = bf/fx = 0.1`
alike. -/
theorem perfect_match_is_rejected :
    matchLoop (perfectScene 0) rowTable200 0 XFloat.posInf 75 0 (perfectScene 0).mvKeys
        ([-1], [-1], []) = .ok ([260], [5 / 4], [(0, 0)]) ∧
      outlierPass [(0, 0)] [260] [5 / 4] = .ok ([-1], [-1]) ∧
      ComputeStereoMatches (perfectScene 0) =
        .ok { perfectScene 0 with mvuRight := [-1], mvDepth := [-1] } ∧
      ComputeStereoMatches (perfectScene (1 / 10)) =
        .ok { perfectScene (1 / 10) with mvuRight := [-1], mvDepth := [-1] } := by
  refine ⟨matchLoop_perfect 0 _ rfl rfl,
    outlierPass_single_zero 0 [260] [5 / 4] (by simp) (by simp),
    ComputeStereoMatches_perfect 0 ?_ ?_, ComputeStereoMatches_perfect (1 / 10) ?_ ?_⟩
  · norm_num [XFloat.div, XFloat.ltX]
  · norm_num [XFloat.div, XFloat.rsub, XFloat.geX]
  · norm_num [XFloat.div, XFloat.ltX]
  · norm_num [XFloat.div, XFloat.rsub, XFloat.geX]

theorem stereoFrame_path (f : Frame) (s : FrameStatics) (fx : ℚ) (f2 : Frame)
    (h1 : f.mvKeys.isEmpty = false)
    (h2 : ComputeStereoMatches { f with mb := 0 } = .ok f2) :
    stereoFrame f s fx =
      .ok { f2 with mb := f2.mbf / fx,
                    mGrid := AssignFeaturesToGrid s f2.mvKeysUn f2.mGrid } := by
  unfold stereoFrame
  simp only [h1, h2]
  rfl

theorem stereoFrame_fault (f : Frame) (s : FrameStatics) (fx : ℚ) (e : Fault)
    (h1 : f.mvKeys.isEmpty = false)
    (h2 : ComputeStereoMatches { f with mb := 0 } = .error e) :
    stereoFrame f s fx = .error e := by
  unfold stereoFrame
  simp only [h1, h2]
  rfl

theorem cround_600 : cround ((600 : ℚ) * 1) = 600 := by
  have := cround_natCast 600; simpa using this

theorem cround_50 : cround ((50 : ℚ) * 1) = 50 := by
  have := cround_natCast 50; simpa using this

theorem slide_close :
    slideLoop (fun i j => (patternImage 600 0).px (195 + i) (595 + j)) (patternImage 50 1) 200 50
      (intRange (-5) 5) (INT_MAX, 0, List.replicate 11 0) =
      .ok (120, 0, [3299, 2639, 1979, 1319, 659, 120, 659, 1319, 1979, 2639, 3299]) := by
  rfl

theorem sadRefine_close (mb : ℚ) (maxD : XFloat) :
    sadRefine (closeScene mb) 0 maxD { ptx := 600, pty := 200, octave := 0 } 0 =
      match depthStep 50 0 maxD 600 50 with
      | none => .ok none
      | some (depth, uRight) => .ok (some (depth, uRight, 120)) := by
  have g1 : ([3299, 2639, 1979, 1319, 659, 120, 659, 1319, 1979, 2639, 3299] : List Int).getD
      ((5 : Int) + 0 - 1).toNat 0 = 659 := rfl
  have g2 : ([3299, 2639, 1979, 1319, 659, 120, 659, 1319, 1979, 2639, 3299] : List Int).getD
      ((5 : Int) + 0).toNat 0 = 120 := rfl
  have g3 : ([3299, 2639, 1979, 1319, 659, 120, 659, 1319, 1979, 2639, 3299] : List Int).getD
      ((5 : Int) + 0 + 1).toNat 0 = 659 := rfl
  have e := sadRefine_path (closeScene mb) 0 maxD { ptx := 600, pty := 200, octave := 0 } 0
    { ptx := 50, pty := 200, octave := 0 } 1 1 (patternImage 600 0) (patternImage 50 1)
    (fun i j => (patternImage 600 0).px (195 + i) (595 + j)) 120 0
    [3299, 2639, 1979, 1319, 659, 120, 659, 1319, 1979, 2639, 3299]
    rfl rfl rfl
    (by simp only [cround_600, cround_200]; rfl)
    (by simp only [cround_50]; decide)
    rfl
    (by simp only [cround_50]; decide)
    (by simp only [cround_200, cround_50]; exact slide_close)
    (by decide)
    (by simp only [g1, g2, g3]; norm_num)
    rfl
  rw [e]
  have hb : (closeScene mb).mbf = 50 := rfl
  simp only [g1, g2, g3, cround_50, hb]
  norm_num

theorem preselect_close (mb : ℚ) (maxD : XFloat)
    (hU : XFloat.geX 50 (XFloat.rsub 600 maxD) = true) :
    preselect (closeScene mb) 0 0 (XFloat.rsub 600 maxD) (600 - 0) [0] (100, 0) =
      .ok (0, 0) := by
  have hu : XFloat.geX (KeyPoint.mk 50 200 0).ptx (XFloat.rsub 600 maxD) = true := hU
  norm_num [preselect, closeScene, stereoScene, hu]

theorem matchLeft_close (mb : ℚ) (maxD : XFloat)
    (hU : XFloat.geX 50 (XFloat.rsub 600 maxD) = true) :
    matchLeft (closeScene mb) rowTable200 0 maxD 75 0 { ptx := 600, pty := 200, octave := 0 } =
      match depthStep 50 0 maxD 600 50 with
      | none => .ok none
      | some (depth, uRight) => .ok (some (depth, uRight, 120)) := by
  rw [matchLeft_path (closeScene mb) rowTable200 0 maxD 75 0
    { ptx := 600, pty := 200, octave := 0 } [0] 0 0
    (by simp only [ctrunc_200]; exact rowTable200_at) rfl (by norm_num)
    (preselect_close mb maxD hU) (by decide)]
  exact sadRefine_close mb maxD

theorem outlierPass_single_pos (d : Int) (i : Nat) (ru dep : List ℚ) (hd : 0 < d) :
    outlierPass [(d, i)] ru dep = .ok (ru, dep) := by
  have hs : sortPairs [(d, i)] = [(d, i)] := rfl
  have hq : (d : ℚ) < 3 / 2 * (7 / 5) * (d : ℚ) := by
    have : (0 : ℚ) < (d : ℚ) := by exact_mod_cast hd
    linarith
  have hq2 : ¬ ((21 : ℚ) / 10 * (d : ℚ) ≤ (d : ℚ)) := by linarith
  unfold outlierPass
  simp only [hs]
  norm_num [rejectLoop, hq, hq2]

theorem ComputeStereoMatches_close_mb0 :
    ComputeStereoMatches (closeScene 0) =
      .ok { closeScene 0 with mvuRight := [50], mvDepth := [1 / 11] } := by
  have hl : matchLeft (closeScene 0) rowTable200 0 XFloat.posInf 75 0
      { ptx := 600, pty := 200, octave := 0 } = .ok (some (1 / 11, 50, 120)) := by
    rw [matchLeft_close 0 XFloat.posInf rfl]
    norm_num [depthStep, XFloat.ltX]
  have hd : XFloat.div (closeScene 0).mbf (closeScene 0).mb = XFloat.posInf := by
    norm_num [XFloat.div, closeScene, stereoScene]
  have hm : matchLoop (closeScene 0) rowTable200 0
      (XFloat.div (closeScene 0).mbf (closeScene 0).mb)
      (((closeScene 0).TH_HIGH + (closeScene 0).TH_LOW).tdiv 2) 0 (closeScene 0).mvKeys
      (List.replicate (closeScene 0).mvKeys.length (-1),
        List.replicate (closeScene 0).mvKeys.length (-1), []) =
      .ok ([50], [1 / 11], [(120, 0)]) := by
    rw [hd]
    have hk : (closeScene 0).mvKeys = [{ ptx := 600, pty := 200, octave := 0 }] := rfl
    have ht : ((closeScene 0).TH_HIGH + (closeScene 0).TH_LOW).tdiv 2 = 75 := rfl
    rw [hk, ht]
    simp [matchLoop, hl]
  rw [ComputeStereoMatches_path (closeScene 0) (patternImage 600 0) rowTable200
    [50] [1 / 11] [(120, 0)] rfl (buildRowTable_200 50) hm]
  rw [outlierPass_single_pos 120 0 [50] [1 / 11] (by decide)]

theorem ComputeStereoMatches_close_baseline :
    ComputeStereoMatches (closeScene (1 / 10)) = .error Fault.medianIndex := by
  have hd : XFloat.div (closeScene (1 / 10)).mbf (closeScene (1 / 10)).mb = XFloat.fin 500 := by
    norm_num [XFloat.div, closeScene, stereoScene]
  have hp : preselect (closeScene (1 / 10)) 0 0 (XFloat.rsub 600 (XFloat.fin 500)) (600 - 0) [0]
      (100, 0) = .ok (100, 0) := by
    norm_num [preselect, closeScene, stereoScene, XFloat.rsub, XFloat.geX]
  have hl : matchLeft (closeScene (1 / 10)) rowTable200 0 (XFloat.fin 500) 75 0
      { ptx := 600, pty := 200, octave := 0 } = .ok none :=
    matchLeft_no_descriptor (closeScene (1 / 10)) rowTable200 0 (XFloat.fin 500) 75 0
      { ptx := 600, pty := 200, octave := 0 } [0] 100 0
      (by simp only [ctrunc_200]; exact rowTable200_at) rfl (by norm_num) hp (by decide)
  have hm : matchLoop (closeScene (1 / 10)) rowTable200 0
      (XFloat.div (closeScene (1 / 10)).mbf (closeScene (1 / 10)).mb)
      (((closeScene (1 / 10)).TH_HIGH + (closeScene (1 / 10)).TH_LOW).tdiv 2) 0
      (closeScene (1 / 10)).mvKeys
      (List.replicate (closeScene (1 / 10)).mvKeys.length (-1),
        List.replicate (closeScene (1 / 10)).mvKeys.length (-1), []) =
      .ok ([-1], [-1], []) := by
    rw [hd]
    have hk : (closeScene (1 / 10)).mvKeys = [{ ptx := 600, pty := 200, octave := 0 }] := rfl
    have ht : ((closeScene (1 / 10)).TH_HIGH + (closeScene (1 / 10)).TH_LOW).tdiv 2 = 75 := rfl
    rw [hk, ht]
    simp only [matchLoop, hl]
    rfl
  rw [ComputeStereoMatches_path (closeScene (1 / 10)) (patternImage 600 0) rowTable200
    [-1] [-1] [] rfl (buildRowTable_200 50) hm]
  rfl

/-- C6. The stereo constructor does not enforce the disparity limit `fx`: it runs
`ComputeStereoMatches` while `mb = 0`, so `maxD = mbf/0 = +inf`.  With `fx = 500`,
`bf = 50` (baseline `0.1`), left keypoint `(600, 200)` and right keypoint
`(50, 200)` the constructed frame keeps `right_u = 50` and `depth = 1/11`: the
stored disparity `550` is not below `fx`, and the depth is below the baseline.  Run
with `mb = bf/fx` the same match is rejected. -/
theorem stereoFrame_keeps_disparity_above_fx :
    (∃ f, stereoFrame (closeScene 0) vgaStatics 500 = .ok f ∧
      f.mvKeys = [{ ptx := 600, pty := 200, octave := 0 }] ∧
      f.mvuRight = [50] ∧ f.mvDepth = [1 / 11] ∧ f.mb = 1 / 10 ∧ f.mbf = 50) ∧
    ¬ ((600 : ℚ) - 50 < 500) ∧ (1 : ℚ) / 11 ≠ -1 ∧ (1 : ℚ) / 11 < 1 / 10 ∧
    ComputeStereoMatches (closeScene (1 / 10)) = .error Fault.medianIndex := by
  refine ⟨⟨_, stereoFrame_path (closeScene 0) vgaStatics 500 _ rfl
    ComputeStereoMatches_close_mb0, rfl, rfl, rfl, ?_, rfl⟩, by norm_num, by norm_num,
    by norm_num, ComputeStereoMatches_close_baseline⟩
  norm_num [closeScene, stereoScene]

/-- C10. A frame without any accepted match is not handled: whenever the loop over
the left keypoints ends with an empty `vDistIdx`, `ComputeStereoMatches` reads
`vDistIdx[0]` of an empty vector, which the model reports as `Fault.medianIndex`
instead of returning with all `right_u` and `depth` at `-1`. -/
theorem ComputeStereoMatches_faults_without_match (f : Frame) (im0 : Image)
    (vRowIndices : List (List Nat)) (ru dep : List ℚ)
    (h1 : f.leftPyramid[0]? = some im0)
    (h2 : buildRowTable f.mvScaleFactors 0 f.mvKeysRight (List.replicate im0.rows []) =
      .ok vRowIndices)
    (h3 : matchLoop f vRowIndices 0 (XFloat.div f.mbf f.mb) ((f.TH_HIGH + f.TH_LOW).tdiv 2) 0
      f.mvKeys (List.replicate f.mvKeys.length (-1), List.replicate f.mvKeys.length (-1), []) =
      .ok (ru, dep, [])) :
    ComputeStereoMatches f = .error Fault.medianIndex := by
  rw [ComputeStereoMatches_path f im0 vRowIndices ru dep [] h1 h2 h3, outlierPass_nil]

set_option maxRecDepth 100000 in
theorem emptyRowTable_at : listAt (List.replicate 480 ([] : List Nat)) 200 = some [] := by
  rfl

theorem matchLoop_lonely (mb : ℚ) :
    matchLoop (lonelyScene mb) (List.replicate 480 []) 0
      (XFloat.div (lonelyScene mb).mbf (lonelyScene mb).mb)
      (((lonelyScene mb).TH_HIGH + (lonelyScene mb).TH_LOW).tdiv 2) 0 (lonelyScene mb).mvKeys
      (List.replicate (lonelyScene mb).mvKeys.length (-1),
        List.replicate (lonelyScene mb).mvKeys.length (-1), []) = .ok ([-1], [-1], []) := by
  have hk : (lonelyScene mb).mvKeys = [{ ptx := 300, pty := 200, octave := 0 }] := rfl
  have hl := matchLeft_no_candidate (lonelyScene mb) (List.replicate 480 []) 0
    (XFloat.div (lonelyScene mb).mbf (lonelyScene mb).mb)
    (((lonelyScene mb).TH_HIGH + (lonelyScene mb).TH_LOW).tdiv 2) 0
    { ptx := 300, pty := 200, octave := 0 }
    (by simp only [ctrunc_200]; exact emptyRowTable_at)
  rw [hk]
  simp only [matchLoop, hl]
  rfl

/-- Witness of C10 on a frame with one left keypoint and no right keypoint: the row
table is empty, the keypoint is skipped, `vDistIdx` stays empty, and both
`ComputeStereoMatches` and the stereo constructor end in `Fault.medianIndex`. -/
theorem ComputeStereoMatches_faults_without_match_witness :
    1 ≤ (lonelyScene 0).mvKeys.length ∧
    matchLoop (lonelyScene 0) (List.replicate 480 []) 0
      (XFloat.div (lonelyScene 0).mbf (lonelyScene 0).mb)
      (((lonelyScene 0).TH_HIGH + (lonelyScene 0).TH_LOW).tdiv 2) 0 (lonelyScene 0).mvKeys
      (List.replicate (lonelyScene 0).mvKeys.length (-1),
        List.replicate (lonelyScene 0).mvKeys.length (-1), []) = .ok ([-1], [-1], []) ∧
    ComputeStereoMatches (lonelyScene 0) = .error Fault.medianIndex ∧
    stereoFrame (lonelyScene 0) vgaStatics 500 = .error Fault.medianIndex := by
  have h : ComputeStereoMatches (lonelyScene 0) = .error Fault.medianIndex :=
    ComputeStereoMatches_faults_without_match (lonelyScene 0) (patternImage 300 0)
      (List.replicate 480 []) [-1] [-1] rfl rfl (matchLoop_lonely 0)
  exact ⟨by decide, matchLoop_lonely 0, h,
    stereoFrame_fault (lonelyScene 0) vgaStatics 500 _ rfl h⟩


/-! ## Frustum test -/

/-- With a non-zero depth the reciprocal is finite. -/
theorem XFloat.div_of_ne (a b : ℚ) (hb : b ≠ 0) : XFloat.div a b = XFloat.fin (a / b) := by
  simp [XFloat.div, hb]

/-- Every `return false` of `isInFrustum` leaves the map point as it was after the
first statement `pMP->mbTrackInView = false`. -/
theorem isInFrustum_false_state (s : FrameStatics) (k : CameraStatics) (pose : Pose) (mbf : ℚ)
    (norm : Vec3 → ℚ) (pMP : MapPoint) (lim : ℚ)
    (h : (isInFrustum s k pose mbf norm pMP lim).1 = false) :
    (isInFrustum s k pose mbf norm pMP lim).2 = { pMP with mbTrackInView := false } := by
  unfold isInFrustum at h ⊢
  simp only [] at h ⊢
  split_ifs at h ⊢ <;> rfl

/-- A negative depth ends `isInFrustum` at its first test. -/
theorem isInFrustum_neg_depth (s : FrameStatics) (k : CameraStatics) (pose : Pose) (mbf : ℚ)
    (norm : Vec3 → ℚ) (pMP : MapPoint) (lim : ℚ)
    (hz : (Matrix.mulVec pose.mRcw pMP.worldPos + pose.mtcw) 2 < 0) :
    isInFrustum s k pose mbf norm pMP lim = (false, { pMP with mbTrackInView := false }) := by
  unfold isInFrustum
  simp only []
  rw [if_pos hz]

/-- The path of `isInFrustum` through all four tests, for a positive depth and a
positive distance. -/
theorem isInFrustum_path (s : FrameStatics) (k : CameraStatics) (pose : Pose) (mbf : ℚ)
    (norm : Vec3 → ℚ) (pMP : MapPoint) (lim : ℚ) (Pc : Vec3) (u v : ℚ)
    (hPc : Matrix.mulVec pose.mRcw pMP.worldPos + pose.mtcw = Pc)
    (hz : 0 < Pc 2)
    (hu : k.fx * Pc 0 * (1 / Pc 2) + k.cx = u)
    (hv : k.fy * Pc 1 * (1 / Pc 2) + k.cy = v)
    (hu1 : s.mnMinX ≤ u) (hu2 : u ≤ s.mnMaxX) (hv1 : s.mnMinY ≤ v) (hv2 : v ≤ s.mnMaxY)
    (hd0 : 0 < norm (pMP.worldPos - pose.mOw))
    (hd1 : pMP.minDistanceInvariance ≤ norm (pMP.worldPos - pose.mOw))
    (hd2 : norm (pMP.worldPos - pose.mOw) ≤ pMP.maxDistanceInvariance)
    (hcos : lim ≤ Matrix.dotProduct (pMP.worldPos - pose.mOw) pMP.normal
      / norm (pMP.worldPos - pose.mOw)) :
    isInFrustum s k pose mbf norm pMP lim =
      (true, { pMP with
        mbTrackInView := true,
        mTrackProjX := XFloat.fin u,
        mTrackProjXR := XFloat.fin (u - mbf / Pc 2),
        mTrackProjY := XFloat.fin v,
        mnTrackScaleLevel := pMP.PredictScale (norm (pMP.worldPos - pose.mOw)),
        mTrackViewCos := XFloat.fin (Matrix.dotProduct (pMP.worldPos - pose.mOw) pMP.normal
          / norm (pMP.worldPos - pose.mOw)) }) := by
  have hz0 : Pc 2 ≠ 0 := ne_of_gt hz
  have hd : norm (pMP.worldPos - pose.mOw) ≠ 0 := ne_of_gt hd0
  unfold isInFrustum
  simp only [hPc]
  rw [if_neg (not_lt.mpr (le_of_lt hz))]
  simp only [XFloat.div_of_ne _ _ hz0, XFloat.div_of_ne _ _ hd, XFloat.scale, XFloat.add,
    XFloat.sub, XFloat.neg, XFloat.ltQ, XFloat.gtQ, hu, hv]
  have e1 : (decide (u < s.mnMinX) || decide (u > s.mnMaxX)) = false := by
    rw [decide_eq_false (not_lt.mpr hu1), decide_eq_false (not_lt.mpr hu2)]; rfl
  have e2 : (decide (v < s.mnMinY) || decide (v > s.mnMaxY)) = false := by
    rw [decide_eq_false (not_lt.mpr hv1), decide_eq_false (not_lt.mpr hv2)]; rfl
  have e3 : ¬ (norm (pMP.worldPos - pose.mOw) < pMP.minDistanceInvariance ∨
      norm (pMP.worldPos - pose.mOw) > pMP.maxDistanceInvariance) := by
    rintro (h | h)
    · exact absurd hd1 (not_le.mpr h)
    · exact absurd hd2 (not_le.mpr h)
  have e4 : decide (Matrix.dotProduct (pMP.worldPos - pose.mOw) pMP.normal
      / norm (pMP.worldPos - pose.mOw) < lim) = false :=
    decide_eq_false (not_lt.mpr hcos)
  simp only [e1, e2, e4, if_neg e3, Bool.false_eq_true, if_false]
  have e5 : mbf * (1 / Pc 2) = mbf / Pc 2 := by ring
  simp only [e5, sub_eq_add_neg]


/-- With a non-zero depth and a positive distance, `isInFrustum` returns true exactly
when the four requirements hold: positive depth, projection inside the image bounds,
distance inside the invariance interval, viewing cosine at least the limit. -/
theorem isInFrustum_iff_of_nonzero (s : FrameStatics) (k : CameraStatics) (pose : Pose)
    (mbf : ℚ) (norm : Vec3 → ℚ) (pMP : MapPoint) (lim : ℚ) (Pc : Vec3)
    (hPc : Matrix.mulVec pose.mRcw pMP.worldPos + pose.mtcw = Pc)
    (hz0 : Pc 2 ≠ 0) (hd0 : 0 < norm (pMP.worldPos - pose.mOw)) :
    (isInFrustum s k pose mbf norm pMP lim).1 = true ↔
      (0 < Pc 2 ∧
       (s.mnMinX ≤ k.fx * Pc 0 / Pc 2 + k.cx ∧ k.fx * Pc 0 / Pc 2 + k.cx ≤ s.mnMaxX) ∧
       (s.mnMinY ≤ k.fy * Pc 1 / Pc 2 + k.cy ∧ k.fy * Pc 1 / Pc 2 + k.cy ≤ s.mnMaxY) ∧
       (pMP.minDistanceInvariance ≤ norm (pMP.worldPos - pose.mOw) ∧
        norm (pMP.worldPos - pose.mOw) ≤ pMP.maxDistanceInvariance) ∧
       lim ≤ Matrix.dotProduct (pMP.worldPos - pose.mOw) pMP.normal
          / norm (pMP.worldPos - pose.mOw)) := by
  have hd : norm (pMP.worldPos - pose.mOw) ≠ 0 := ne_of_gt hd0
  have eu : k.fx * Pc 0 * (1 / Pc 2) + k.cx = k.fx * Pc 0 / Pc 2 + k.cx := by ring
  have ev : k.fy * Pc 1 * (1 / Pc 2) + k.cy = k.fy * Pc 1 / Pc 2 + k.cy := by ring
  constructor
  · intro h
    unfold isInFrustum at h
    simp only [hPc, XFloat.div_of_ne _ _ hz0, XFloat.div_of_ne _ _ hd, XFloat.scale,
      XFloat.add, XFloat.ltQ, XFloat.gtQ, eu, ev] at h
    split_ifs at h with h1 h2 h3 h4 h5
    simp only [Bool.or_eq_true, decide_eq_true_eq, not_or, not_lt] at h1 h2 h3 h4 h5
    have hz : 0 < Pc 2 := lt_of_le_of_ne h1 (Ne.symm hz0)
    exact ⟨hz, h2, h3, h4, h5⟩
  · rintro ⟨hz, ⟨hu1, hu2⟩, ⟨hv1, hv2⟩, ⟨hd1, hd2⟩, hcos⟩
    rw [isInFrustum_path s k pose mbf norm pMP lim Pc _ _ hPc hz eu ev hu1 hu2 hv1 hv2 hd0
      hd1 hd2 hcos]

/-- The translation and the camera centre of the identity pose are zero. -/
theorem SetPose_one :
    (SetPose 1).mRcw = 1 ∧ (SetPose 1).mRwc = 1 ∧ (SetPose 1).mtcw = 0 ∧ (SetPose 1).mOw = 0 := by
  have hR : (SetPose 1).mRcw = 1 := by
    funext i j
    fin_cases i <;> fin_cases j <;> rfl
  have ht : (SetPose 1).mtcw = 0 := by
    funext i
    fin_cases i <;> rfl
  have e1 : (SetPose 1).mRwc = Matrix.transpose (SetPose 1).mRcw := rfl
  have e2 : (SetPose 1).mOw
      = Matrix.mulVec (-(Matrix.transpose (SetPose 1).mRcw)) (SetPose 1).mtcw := rfl
  refine ⟨hR, ?_, ht, ?_⟩
  · rw [e1, hR, Matrix.transpose_one]
  · rw [e2, ht, Matrix.mulVec_zero]


/-- C13. A map point with negative camera depth is rejected by `isInFrustum`, and
every call that returns false leaves the map point with `mbTrackInView = false` and all
its other fields, the tracking fields among them, as they were. -/
theorem isInFrustum_behind_camera (s : FrameStatics) (k : CameraStatics) (pose : Pose)
    (mbf : ℚ) (norm : Vec3 → ℚ) (pMP : MapPoint) (lim : ℚ) :
    ((Matrix.mulVec pose.mRcw pMP.worldPos + pose.mtcw) 2 < 0 →
      (isInFrustum s k pose mbf norm pMP lim).1 = false) ∧
    ((isInFrustum s k pose mbf norm pMP lim).1 = false →
      (isInFrustum s k pose mbf norm pMP lim).2 = { pMP with mbTrackInView := false } ∧
      (isInFrustum s k pose mbf norm pMP lim).2.mbTrackInView = false ∧
      (isInFrustum s k pose mbf norm pMP lim).2.mTrackProjX = pMP.mTrackProjX ∧
      (isInFrustum s k pose mbf norm pMP lim).2.mTrackProjXR = pMP.mTrackProjXR ∧
      (isInFrustum s k pose mbf norm pMP lim).2.mTrackProjY = pMP.mTrackProjY ∧
      (isInFrustum s k pose mbf norm pMP lim).2.mnTrackScaleLevel = pMP.mnTrackScaleLevel ∧
      (isInFrustum s k pose mbf norm pMP lim).2.mTrackViewCos = pMP.mTrackViewCos) := by
  constructor
  · intro hz
    rw [isInFrustum_neg_depth s k pose mbf norm pMP lim hz]
  · intro h
    rw [isInFrustum_false_state s k pose mbf norm pMP lim h]
    exact ⟨rfl, rfl, rfl, rfl, rfl, rfl, rfl⟩

/-- The point `(0, 0, -2)` has depth `-2` in the identity pose. -/
theorem depth_behind_example :
    (Matrix.mulVec (SetPose 1).mRcw (mapPointAt ![0, 0, -2] 1 10).worldPos
      + (SetPose 1).mtcw) 2 = -2 := by
  rw [SetPose_one.1, SetPose_one.2.2.1, Matrix.one_mulVec]
  simp [mapPointAt]

/-- C13 at the point `(0, 0, -2)` seen from the identity pose: the call returns false
and only clears `mbTrackInView`. -/
theorem isInFrustum_behind_camera_witness :
    (isInFrustum vgaStatics vgaCamera (SetPose 1) 50 euclidNorm
      (mapPointAt ![0, 0, -2] 1 10) (1 / 2)).1 = false :=
  (isInFrustum_behind_camera vgaStatics vgaCamera (SetPose 1) 50 euclidNorm
    (mapPointAt ![0, 0, -2] 1 10) (1 / 2)).1 (by rw [depth_behind_example]; norm_num)

/-- C15. With a first distortion coefficient equal to zero, `UndistortKeyPoints` returns
the raw keypoint list itself: same length, and every field of every keypoint
unchanged. -/
theorem UndistortKeyPoints_identity (undistortPoints : List (ℚ × ℚ) → List (ℚ × ℚ))
    (mvKeys : List CvKeyPoint) :
    UndistortKeyPoints 0 undistortPoints mvKeys = mvKeys := by
  unfold UndistortKeyPoints
  rw [if_pos rfl]

/-- C11. The point at the camera centre of the identity pose has depth 0, which is
not positive, and still `isInFrustum` returns true and marks the point for tracking,
with an undefined (NaN) projection, whenever the map point admits the distance 0. -/
theorem isInFrustum_accepts_zero_depth (s : FrameStatics) (k : CameraStatics) (mbf : ℚ)
    (norm : Vec3 → ℚ) (pMP : MapPoint) (lim : ℚ)
    (hP : pMP.worldPos = 0) (hnorm : norm 0 = 0)
    (hmin : pMP.minDistanceInvariance ≤ 0) (hmax : 0 ≤ pMP.maxDistanceInvariance) :
    ¬ (0 < (Matrix.mulVec (SetPose 1).mRcw pMP.worldPos + (SetPose 1).mtcw) 2) ∧
    (isInFrustum s k (SetPose 1) mbf norm pMP lim).1 = true ∧
    (isInFrustum s k (SetPose 1) mbf norm pMP lim).2.mbTrackInView = true ∧
    (isInFrustum s k (SetPose 1) mbf norm pMP lim).2.mTrackProjX = XFloat.nan ∧
    (isInFrustum s k (SetPose 1) mbf norm pMP lim).2.mTrackProjY = XFloat.nan := by
  have hPc : Matrix.mulVec (SetPose 1).mRcw pMP.worldPos + (SetPose 1).mtcw = 0 := by
    rw [SetPose_one.1, SetPose_one.2.2.1, Matrix.one_mulVec, hP, add_zero]
  have hPO : pMP.worldPos - (SetPose 1).mOw = 0 := by
    rw [SetPose_one.2.2.2, hP, sub_zero]
  have hd : ¬ ((0 : ℚ) < pMP.minDistanceInvariance ∨ (0 : ℚ) > pMP.maxDistanceInvariance) := by
    rintro (h | h)
    · exact absurd hmin (not_le.mpr h)
    · exact absurd hmax (not_le.mpr h)
  have hres : isInFrustum s k (SetPose 1) mbf norm pMP lim =
      (true, { pMP with
        mbTrackInView := true,
        mTrackProjX := XFloat.nan,
        mTrackProjXR := XFloat.nan,
        mTrackProjY := XFloat.nan,
        mnTrackScaleLevel := pMP.PredictScale 0,
        mTrackViewCos := XFloat.nan }) := by
    unfold isInFrustum
    simp only [hPc, hPO]
    simp only [Pi.zero_apply, lt_irrefl, if_false, mul_zero, XFloat.div, ne_eq,
      not_true_eq_false, Matrix.zero_dotProduct, hnorm, zero_lt_one, if_true, XFloat.scale,
      XFloat.add, XFloat.sub, XFloat.neg, XFloat.ltQ, XFloat.gtQ, Bool.or_self,
      Bool.false_eq_true]
    rw [if_neg hd]
  refine ⟨?_, ?_, ?_, ?_, ?_⟩
  · rw [hPc]; simp
  all_goals rw [hres]


/-- C11 at a map point placed on the camera centre of the identity pose, with the
invariance interval `[0, 0]`. -/
theorem isInFrustum_accepts_zero_depth_witness :
    ¬ (0 < (Matrix.mulVec (SetPose 1).mRcw (mapPointAt 0 0 0).worldPos
        + (SetPose 1).mtcw) 2) ∧
    (isInFrustum vgaStatics vgaCamera (SetPose 1) 50 euclidNorm
      (mapPointAt 0 0 0) (1 / 2)).1 = true :=
  have h := isInFrustum_accepts_zero_depth vgaStatics vgaCamera 50 euclidNorm
    (mapPointAt 0 0 0) (1 / 2) rfl (by simp [euclidNorm]) (le_refl 0) (le_refl 0)
  ⟨h.1, h.2.1⟩

/-- Every `return false` of `isInFrustumRounded` leaves the map point as it was after
the first statement `pMP->mbTrackInView = false`: the rounding plays no part in it. -/
theorem isInFrustumRounded_false_state (gemm : Mat3 → Vec3 → Vec3 → Vec3)
    (dot : Vec3 → Vec3 → ℚ) (norm : Vec3 → ℚ) (s : FrameStatics) (k : CameraStatics)
    (pose : Pose) (mbf : ℚ) (pMP : MapPoint) (lim : ℚ)
    (h : (isInFrustumRounded gemm dot norm s k pose mbf pMP lim).1 = false) :
    (isInFrustumRounded gemm dot norm s k pose mbf pMP lim).2
      = { pMP with mbTrackInView := false } := by
  unfold isInFrustumRounded at h ⊢
  simp only [] at h ⊢
  split_ifs at h ⊢ <;> rfl

/-- A negative computed depth ends `isInFrustumRounded` at its first test. -/
theorem isInFrustumRounded_neg_depth (gemm : Mat3 → Vec3 → Vec3 → Vec3)
    (dot : Vec3 → Vec3 → ℚ) (norm : Vec3 → ℚ) (s : FrameStatics) (k : CameraStatics)
    (pose : Pose) (mbf : ℚ) (pMP : MapPoint) (lim : ℚ)
    (hz : (gemm pose.mRcw pMP.worldPos pose.mtcw) 2 < 0) :
    isInFrustumRounded gemm dot norm s k pose mbf pMP lim
      = (false, { pMP with mbTrackInView := false }) := by
  unfold isInFrustumRounded
  simp only []
  rw [if_pos hz]

/-- A map point whose computed camera coordinates are zero passes the depth test and
the bounds tests of `isInFrustumRounded` with a NaN projection, as it does in exact
arithmetic. -/
theorem isInFrustumRounded_zero_depth (gemm : Mat3 → Vec3 → Vec3 → Vec3)
    (dot : Vec3 → Vec3 → ℚ) (norm : Vec3 → ℚ) (s : FrameStatics) (k : CameraStatics)
    (pose : Pose) (mbf : ℚ) (pMP : MapPoint) (lim : ℚ)
    (hPc : gemm pose.mRcw pMP.worldPos pose.mtcw = 0)
    (hd1 : pMP.minDistanceInvariance ≤ frustumDist norm pose pMP.worldPos)
    (hd2 : frustumDist norm pose pMP.worldPos ≤ pMP.maxDistanceInvariance)
    (hcos : XFloat.ltQ (frustumViewCos dot norm pose pMP.worldPos pMP.normal) lim = false) :
    isInFrustumRounded gemm dot norm s k pose mbf pMP lim =
      (true, { pMP with
        mbTrackInView := true,
        mTrackProjX := XFloat.nan,
        mTrackProjXR := XFloat.nan,
        mTrackProjY := XFloat.nan,
        mnTrackScaleLevel := pMP.PredictScale (frustumDist norm pose pMP.worldPos),
        mTrackViewCos := frustumViewCos dot norm pose pMP.worldPos pMP.normal }) := by
  have e3 : ¬ (frustumDist norm pose pMP.worldPos < pMP.minDistanceInvariance ∨
      frustumDist norm pose pMP.worldPos > pMP.maxDistanceInvariance) := by
    rintro (h | h)
    · exact absurd hd1 (not_le.mpr h)
    · exact absurd hd2 (not_le.mpr h)
  have hcos2 := hcos
  simp only [XFloat.ltQ] at hcos2
  unfold isInFrustumRounded
  simp only [hPc]
  simp only [Pi.zero_apply, lt_irrefl, if_false, mul_zero, XFloat.div, ne_eq,
    not_true_eq_false, zero_lt_one, if_true, roundFloat_zero, XFloat.map, XFloat.scale,
    XFloat.add, XFloat.sub, XFloat.neg, XFloat.ltQ, XFloat.gtQ, Bool.or_self,
    Bool.false_eq_true, hcos2, if_neg e3]

/-- The choice of `selectModel` when the `float` sum `s` of the scores is not zero: the
homography exactly when `SH/s` is above the midpoint `0.39999999105930328` of the two
`float`s around `0.4`. -/
theorem selectModel_finite {ρ : Type} (SH SF : ℚ) (rH rF : ρ) (s : ℚ)
    (hs : roundFloat (SH + SF) = s) (hne : s ≠ 0) :
    selectModel SH SF rH rF
      = if SH / s > 26843545 / 67108864 then (ModelChoice.fromHomography, rH)
        else (ModelChoice.fromFundamental, rF) := by
  unfold selectModel
  simp only [hs, XFloat.div_of_ne _ _ hne, XFloat.map, XFloat.gtQ]
  by_cases h : SH / s > 26843545 / 67108864
  · rw [if_pos h, decide_eq_true ((roundFloat_gt_040 _).mpr h)]
    rfl
  · rw [if_neg h, decide_eq_false (fun hc => h ((roundFloat_gt_040 _).mp hc))]
    rfl

/-- C16. `Initialize` attempts the reconstruction from the homography exactly when the
`float` quotient `RH = SH/(SH+SF)` exceeds the `double` literal `0.40`, and the one from
the fundamental matrix otherwise.  With `s` the `float` sum `SH+SF`, not zero, this is
`SH/s > 0.39999999105930328`, the midpoint of the two `float`s around `0.4`: the
quotient is rounded to a `float` before the comparison, and the `float` nearest to `0.4`
is above the `double` `0.40`.  When the sum is exact and positive, `3*SH ≥ 2*SF` is
sufficient for the homography and `67108864*SH > 26843545*(SH+SF)` is necessary.  With
`SH = SF = 0` the fundamental branch is taken. -/
theorem selectModel_ratio {ρ : Type} (SH SF : ℚ) (rH rF : ρ) :
    ((selectModel SH SF rH rF).1 = ModelChoice.fromHomography ↔
      XFloat.gtQ (XFloat.map roundFloat (XFloat.div SH (roundFloat (SH + SF))))
        (roundDouble (40 / 100)) = true) ∧
    ((selectModel SH SF rH rF).1 = ModelChoice.fromHomography →
      (selectModel SH SF rH rF).2 = rH) ∧
    ((selectModel SH SF rH rF).1 ≠ ModelChoice.fromHomography →
      (selectModel SH SF rH rF) = (ModelChoice.fromFundamental, rF)) ∧
    (roundFloat (SH + SF) ≠ 0 →
      ((selectModel SH SF rH rF).1 = ModelChoice.fromHomography ↔
        SH / roundFloat (SH + SF) > 26843545 / 67108864)) ∧
    (0 < SH + SF → roundFloat (SH + SF) = SH + SF →
      (3 * SH ≥ 2 * SF → (selectModel SH SF rH rF).1 = ModelChoice.fromHomography) ∧
      ((selectModel SH SF rH rF).1 = ModelChoice.fromHomography →
        67108864 * SH > 26843545 * (SH + SF))) ∧
    (SH = 0 → SF = 0 → (selectModel SH SF rH rF) = (ModelChoice.fromFundamental, rF)) := by
  have hsel : ∀ b : Bool,
      XFloat.gtQ (XFloat.map roundFloat (XFloat.div SH (roundFloat (SH + SF))))
        (roundDouble (40 / 100)) = b →
      selectModel SH SF rH rF
        = if b = true then (ModelChoice.fromHomography, rH)
          else (ModelChoice.fromFundamental, rF) := by
    intro b hb
    unfold selectModel
    simp only [hb]
  have hthr : ∀ s : ℚ, roundFloat (SH + SF) = s → s ≠ 0 →
      ((selectModel SH SF rH rF).1 = ModelChoice.fromHomography ↔
        SH / s > 26843545 / 67108864) := by
    intro s hs hne
    rw [selectModel_finite SH SF rH rF s hs hne]
    by_cases h : SH / s > 26843545 / 67108864
    · rw [if_pos h]
      exact ⟨fun _ => h, fun _ => rfl⟩
    · rw [if_neg h]
      exact ⟨fun hc => (by cases hc), fun hc => absurd hc h⟩
  refine ⟨?_, ?_, ?_, ?_, ?_, ?_⟩
  · cases hb : XFloat.gtQ (XFloat.map roundFloat (XFloat.div SH (roundFloat (SH + SF))))
        (roundDouble (40 / 100)) <;>
      simp [hsel _ hb]
  · cases hb : XFloat.gtQ (XFloat.map roundFloat (XFloat.div SH (roundFloat (SH + SF))))
        (roundDouble (40 / 100)) <;>
      simp [hsel _ hb]
  · cases hb : XFloat.gtQ (XFloat.map roundFloat (XFloat.div SH (roundFloat (SH + SF))))
        (roundDouble (40 / 100)) <;>
      simp [hsel _ hb]
  · intro hne
    exact hthr _ rfl hne
  · intro hpos hex
    have hne : SH + SF ≠ 0 := ne_of_gt hpos
    rw [hthr (SH + SF) hex hne]
    constructor
    · intro h3
      have : SH / (SH + SF) ≥ 40 / 100 := by
        rw [ge_iff_le, le_div_iff₀ hpos]
        linarith
      have e : (26843545 : ℚ) / 67108864 < 40 / 100 := by norm_num
      linarith
    · intro h3
      rw [gt_iff_lt, lt_div_iff₀ hpos] at h3
      linarith
  · intro h1 h2
    subst h1
    subst h2
    exact hsel false (by
      have h0 : roundFloat ((0 : ℚ) + 0) = 0 := by
        rw [add_zero]
        exact roundBinary_zero 24 (-126)
      rw [h0]
      simp [XFloat.div, XFloat.map, XFloat.gtQ])

/-- C16, counterexample to the claim as stated.  With `SH = 2` and `SF = 3` the ratio is
exactly `0.4`, which is not more than `0.40`, and `3*SH > 2*SF` is false; the quotient
rounded to `float` is `0.4000000059604645`, above the `double` `0.40`, and the
reconstruction from the homography is attempted. -/
theorem selectModel_at_two_fifths :
    selectModel (2 : ℚ) 3 true false = (ModelChoice.fromHomography, true) ∧
    roundFloat ((2 : ℚ) + 3) = 2 + 3 ∧
    roundFloat ((2 : ℚ) / (2 + 3)) = 13421773 / 33554432 ∧
    roundDouble (40 / 100) = 3602879701896397 / 9007199254740992 ∧
    ¬ ((2 : ℚ) / (2 + 3) > 40 / 100) ∧ ¬ ((3 : ℚ) * 2 > 2 * 3) := by
  have h5 : roundFloat ((2 : ℚ) + 3) = 2 + 3 := by
    norm_num
    exact roundFloat_5
  have hq : roundFloat ((2 : ℚ) / (2 + 3)) = 13421773 / 33554432 := by
    unfold roundFloat
    rw [roundBinary_near 24 (-126) (2 / (2 + 3)) (-2) 13421773 (by norm_num)
      (by rw [abs_of_pos (by norm_num)]; norm_num) (by rw [abs_of_pos (by norm_num)]; norm_num)
      (by norm_num) (by norm_num)]
    norm_num
  refine ⟨?_, h5, hq, double_040, by norm_num, by norm_num⟩
  rw [selectModel_finite 2 3 true false (2 + 3) h5 (by norm_num), if_pos (by norm_num)]

/-- The kept state when the current score is larger. -/
theorem keepBest_pos {M : Type} (st cur : Ransac M) (h : st.score < cur.score) :
    keepBest st cur = cur := by
  unfold keepBest
  rw [if_pos h]

/-- The kept state when the current score is not larger. -/
theorem keepBest_neg {M : Type} (st cur : Ransac M) (h : cur.score ≤ st.score) :
    keepBest st cur = st := by
  unfold keepBest
  rw [if_neg (not_lt.mpr h)]

/-- The score kept by `keepBest` is the larger one. -/
theorem keepBest_score {M : Type} (st cur : Ransac M) :
    (keepBest st cur).score = max st.score cur.score := by
  by_cases h : st.score < cur.score
  · rw [keepBest_pos st cur h, max_eq_right (le_of_lt h)]
  · rw [keepBest_neg st cur (not_lt.mp h), max_eq_left (not_lt.mp h)]

/-- The RANSAC loop over the iteration results `l` from the state `st`: the final
score, the final state when no iteration beats `st`, and the final state when
iteration `i` is the first one attaining the largest score. -/
theorem keepBest_foldl {M : Type} :
    ∀ (l : List (Ransac M)) (st : Ransac M),
      (l.foldl keepBest st).score = (l.map (fun c => c.score)).foldl max st.score ∧
      ((∀ c, c ∈ l → c.score ≤ st.score) → l.foldl keepBest st = st) ∧
      (∀ (i : Nat) (hi : i < l.length), st.score < l[i].score →
        (∀ (j : Nat) (hj : j < l.length), l[j].score ≤ l[i].score) →
        (∀ (j : Nat) (hj : j < l.length), j < i → l[j].score < l[i].score) →
        l.foldl keepBest st = l[i]) := by
  intro l
  induction l with
  | nil =>
    intro st
    refine ⟨rfl, fun _ => rfl, ?_⟩
    intro i hi
    simp at hi
  | cons x l ih =>
    intro st
    obtain ⟨ih1, ih2, ih3⟩ := ih (keepBest st x)
    refine ⟨?_, ?_, ?_⟩
    · simp only [List.foldl_cons, List.map_cons]
      rw [ih1, keepBest_score]
    · intro hall
      simp only [List.foldl_cons]
      rw [keepBest_neg st x (hall x (List.mem_cons_self _ _))]
      exact (ih st).2.1 (fun c hc => hall c (List.mem_cons_of_mem _ hc))
    · intro i hi hst hmax hfirst
      simp only [List.foldl_cons]
      cases i with
      | zero =>
        simp only [List.getElem_cons_zero] at hst hmax ⊢
        rw [keepBest_pos st x hst]
        apply (ih x).2.1
        intro c hc
        obtain ⟨j, hj, rfl⟩ := List.getElem_of_mem hc
        exact hmax (j + 1) (by simp; omega)
      | succ i =>
        simp only [List.getElem_cons_succ] at hst hmax hfirst ⊢
        have hi1 : i < l.length := by simpa using hi
        apply ih3 i hi1
        · rw [keepBest_score]
          exact max_lt hst (hfirst 0 (by simp) (by omega))
        · intro j hj
          exact hmax (j + 1) (by simp; omega)
        · intro j hj hji
          exact hfirst (j + 1) (by simp; omega) (by omega)


/-- The RANSAC loop over the iterations `0, ..., k-1` from the entry state `st` with
score 0: the final score is the largest of 0 and the iteration scores; when some score
is positive the final state is that of the first iteration attaining the largest score;
when none is, the final state is the entry state. -/
theorem ransac_from_zero {M : Type} (k : Nat) (iteration : Nat → Ransac M) (st : Ransac M)
    (hst : st.score = 0) :
    (((List.range k).map iteration).foldl keepBest st).score
      = ((List.range k).map (fun it => (iteration it).score)).foldl max 0 ∧
    (∀ i, i < k → 0 < (iteration i).score →
      (∀ j, j < k → (iteration j).score ≤ (iteration i).score) →
      (∀ j, j < i → (iteration j).score < (iteration i).score) →
      ((List.range k).map iteration).foldl keepBest st = iteration i) ∧
    ((∀ i, i < k → (iteration i).score ≤ 0) →
      ((List.range k).map iteration).foldl keepBest st = st) := by
  obtain ⟨h1, h2, h3⟩ := keepBest_foldl ((List.range k).map iteration) st
  refine ⟨?_, ?_, ?_⟩
  · rw [h1, hst, List.map_map]
    rfl
  · intro i hi hpos hmax hfirst
    have hlen : i < ((List.range k).map iteration).length := by simpa using hi
    have hget : ∀ (j : Nat) (hj : j < ((List.range k).map iteration).length),
        ((List.range k).map iteration)[j] = iteration j := by
      intro j hj
      simp
    have h := h3 i hlen (by rw [hget, hst]; exact hpos)
      (by
        intro j hj
        rw [hget, hget]
        exact hmax j (by simpa using hj))
      (by
        intro j hj hji
        rw [hget, hget]
        exact hfirst j hji)
    rw [h, hget]
  · intro hall
    apply h2
    intro c hc
    rw [List.mem_map] at hc
    obtain ⟨i, hi, rfl⟩ := hc
    rw [hst]
    exact hall i (List.mem_range.mp hi)

/-- C20. RANSAC keeps the best model, in `FindHomography` and in `FindFundamental`: the
returned score is the largest of 0 and the iteration scores; if iteration `i` has a
positive score and is the first one attaining the largest score, the returned model and
inlier mask are those of iteration `i`; if no iteration has a positive score, the score
is 0, the model output parameter keeps its value at entry and the mask is the initial
all-false vector. -/
theorem ransac_keeps_best {M : Type} (mvMatches12 : List (Nat × Nat))
    (vbMatchesInliers : List Bool) (k : Nat) (iteration : Nat → Ransac M) (H21 F21 : M) :
    ((FindHomography mvMatches12 k iteration H21).score
        = ((List.range k).map (fun it => (iteration it).score)).foldl max 0 ∧
      (∀ i, i < k → 0 < (iteration i).score →
        (∀ j, j < k → (iteration j).score ≤ (iteration i).score) →
        (∀ j, j < i → (iteration j).score < (iteration i).score) →
        (FindHomography mvMatches12 k iteration H21).model = (iteration i).model ∧
        (FindHomography mvMatches12 k iteration H21).vbMatchesInliers
          = (iteration i).vbMatchesInliers ∧
        (FindHomography mvMatches12 k iteration H21).score = (iteration i).score) ∧
      ((∀ i, i < k → (iteration i).score ≤ 0) →
        (FindHomography mvMatches12 k iteration H21).score = 0 ∧
        (FindHomography mvMatches12 k iteration H21).model = H21 ∧
        (FindHomography mvMatches12 k iteration H21).vbMatchesInliers
          = List.replicate mvMatches12.length false)) ∧
    ((FindFundamental vbMatchesInliers k iteration F21).score
        = ((List.range k).map (fun it => (iteration it).score)).foldl max 0 ∧
      (∀ i, i < k → 0 < (iteration i).score →
        (∀ j, j < k → (iteration j).score ≤ (iteration i).score) →
        (∀ j, j < i → (iteration j).score < (iteration i).score) →
        (FindFundamental vbMatchesInliers k iteration F21).model = (iteration i).model ∧
        (FindFundamental vbMatchesInliers k iteration F21).vbMatchesInliers
          = (iteration i).vbMatchesInliers ∧
        (FindFundamental vbMatchesInliers k iteration F21).score = (iteration i).score) ∧
      ((∀ i, i < k → (iteration i).score ≤ 0) →
        (FindFundamental vbMatchesInliers k iteration F21).score = 0 ∧
        (FindFundamental vbMatchesInliers k iteration F21).model = F21 ∧
        (FindFundamental vbMatchesInliers k iteration F21).vbMatchesInliers
          = List.replicate vbMatchesInliers.length false)) := by
  constructor
  · obtain ⟨h1, h2, h3⟩ := ransac_from_zero k iteration
      { vbMatchesInliers := List.replicate mvMatches12.length false, score := 0, model := H21 }
      rfl
    refine ⟨h1, ?_, ?_⟩
    · intro i hi hpos hmax hfirst
      have h := h2 i hi hpos hmax hfirst
      unfold FindHomography
      rw [h]
      exact ⟨rfl, rfl, rfl⟩
    · intro hall
      have h := h3 hall
      unfold FindHomography
      rw [h]
      exact ⟨rfl, rfl, rfl⟩
  · obtain ⟨h1, h2, h3⟩ := ransac_from_zero k iteration
      { vbMatchesInliers := List.replicate vbMatchesInliers.length false, score := 0,
        model := F21 } rfl
    refine ⟨h1, ?_, ?_⟩
    · intro i hi hpos hmax hfirst
      have h := h2 i hi hpos hmax hfirst
      unfold FindFundamental
      rw [h]
      exact ⟨rfl, rfl, rfl⟩
    · intro hall
      have h := h3 hall
      unfold FindFundamental
      rw [h]
      exact ⟨rfl, rfl, rfl⟩


/-! ## Initializer: minimal-set sampling -/

/-- Replace-with-last-then-pop removes exactly the element at position `r`: that
element, put in front of what is left, is a permutation of the vector. -/
theorem swap_pop_perm : ∀ (l : List Nat) (r : Nat) (hr : r < l.length) (h : l ≠ []),
    (l[r] :: (l.set r (l.getLast h)).dropLast).Perm l := by
  intro l
  induction l with
  | nil => intro r hr; simp at hr
  | cons a t ih =>
    intro r hr h
    cases t with
    | nil =>
      have hr0 : r = 0 := by simpa using hr
      subst hr0
      simp
    | cons b t =>
      have hne : b :: t ≠ [] := List.cons_ne_nil _ _
      have hlast : (a :: b :: t).getLast h = (b :: t).getLast hne := rfl
      have hperm : ((b :: t).getLast hne :: (b :: t).dropLast).Perm (b :: t) := by
        have h1 := List.dropLast_append_getLast hne
        have h2 : ((b :: t).dropLast ++ [(b :: t).getLast hne]).Perm
            ((b :: t).getLast hne :: (b :: t).dropLast) := List.perm_append_singleton _ _
        rw [h1] at h2
        exact h2.symm
      cases r with
      | zero =>
        rw [hlast]
        simp only [List.getElem_cons_zero, List.set_cons_zero]
        rw [List.dropLast_cons_of_ne_nil hne]
        exact List.Perm.cons a hperm
      | succ r =>
        have hr1 : r < (b :: t).length := by simpa using hr
        rw [hlast]
        simp only [List.getElem_cons_succ, List.set_cons_succ]
        have hne2 : (b :: t).set r ((b :: t).getLast hne) ≠ [] := by
          simp
        rw [List.dropLast_cons_of_ne_nil hne2]
        exact (List.Perm.swap a _ _).trans (List.Perm.cons a (ih r hr1 hne))

/-- Writing position `j` and taking `j + 1` elements appends the written value to the
first `j` elements. -/
theorem take_succ_set : ∀ (l : List Nat) (j x : Nat), j < l.length →
    (l.set j x).take (j + 1) = l.take j ++ [x] := by
  intro l
  induction l with
  | nil => intro j x hj; simp at hj
  | cons a t ih =>
    intro j x hj
    cases j with
    | zero => simp
    | succ j =>
      have hj1 : j < t.length := by simpa using hj
      simp only [List.set_cons_succ, List.take_succ_cons, List.cons_append]
      rw [ih j x hj1]

/-- One draw with an index inside the vector: no fault, and the drawn index moves
from the available ones to position `j` of the set. -/
theorem drawIndex_spec (N : Nat) (RandomInt : Int → Int → Int) (j : Nat)
    (set avail : List Nat)
    (hset : set.length = 8) (hj : j < 8) (hlen : avail.length + j = N)
    (hperm : (set.take j ++ avail).Perm (List.range N))
    (h0 : 0 ≤ RandomInt 0 ((avail.length : Int) - 1))
    (h1 : RandomInt 0 ((avail.length : Int) - 1) < (avail.length : Int)) :
    ∃ set1 avail1, drawIndex RandomInt j (set, avail) = .ok (set1, avail1) ∧
      set1.length = 8 ∧ avail1.length + (j + 1) = N ∧
      (set1.take (j + 1) ++ avail1).Perm (List.range N) := by
  have hrun : ∀ randi : Int, randi = RandomInt 0 ((avail.length : Int) - 1) →
      ∀ (hr : randi.toNat < avail.length) (hne : avail ≠ []),
      drawIndex RandomInt j (set, avail)
        = .ok (set.set j avail[randi.toNat],
            (avail.set randi.toNat (avail.getLast hne)).dropLast) := by
    intro randi hrandi hr hne
    have h0r : 0 ≤ randi := by rw [hrandi]; exact h0
    have h1r : randi < (avail.length : Int) := by rw [hrandi]; exact h1
    unfold drawIndex
    simp only [← hrandi]
    simp only [h0r, h1r, and_self, if_true, List.getElem?_eq_getElem hr,
      List.getLast?_eq_getLast _ hne]
  have hr : (RandomInt 0 ((avail.length : Int) - 1)).toNat < avail.length := by omega
  have hne : avail ≠ [] := by
    intro h
    rw [h] at hr
    simp at hr
  refine ⟨_, _, hrun _ rfl hr hne, ?_, ?_, ?_⟩
  · rw [List.length_set, hset]
  · rw [List.length_dropLast, List.length_set]
    omega
  · rw [take_succ_set set j _ (by omega), List.append_assoc]
    refine List.Perm.trans ?_ hperm
    exact List.Perm.append_left _ (swap_pop_perm avail _ hr hne)

/-- The inner sampling loop from `j` on: with every draw inside the current vector
it ends without a fault, and the set together with the indices still available is a
permutation of `0, ..., N-1`. -/
theorem drawLoop_spec (N : Nat) (hN : 8 ≤ N) (rand : Nat → Int → Int → Int) :
    ∀ (n j : Nat) (set avail : List Nat), j + n = 8 →
      set.length = 8 → avail.length + j = N →
      (set.take j ++ avail).Perm (List.range N) →
      (∀ i lo hi, lo ≤ hi → lo ≤ rand i lo hi ∧ rand i lo hi ≤ hi) →
      ∃ set1 avail1, drawLoop rand n j (set, avail) = .ok (set1, avail1) ∧
        set1.length = 8 ∧ (set1 ++ avail1).Perm (List.range N) := by
  intro n
  induction n with
  | zero =>
    intro j set avail hjn hset _ hperm _
    have hj : j = 8 := by omega
    subst hj
    refine ⟨set, avail, rfl, hset, ?_⟩
    rw [← hset, List.take_length] at hperm
    exact hperm
  | succ n ih =>
    intro j set avail hjn hset hlen hperm hdraws
    have hj : j < 8 := by omega
    obtain ⟨hd0, hd1⟩ := hdraws j 0 ((avail.length : Int) - 1) (by omega)
    obtain ⟨set1, avail1, hrun, hset1, hlen1, hperm1⟩ :=
      drawIndex_spec N (rand j) j set avail hset hj hlen hperm hd0 (by omega)
    obtain ⟨set2, avail2, hrun2, hset2, hperm2⟩ :=
      ih (j + 1) set1 avail1 (by omega) hset1 hlen1 hperm1 hdraws
    refine ⟨set2, avail2, ?_, hset2, hperm2⟩
    unfold drawLoop
    simp only [hrun]
    exact hrun2

/-- The outer sampling loop: one set for each iteration, each of 8 pairwise distinct
indices below `N`. -/
theorem minimalSets_spec (N : Nat) (hN : 8 ≤ N) (rand : Nat → Nat → Int → Int → Int)
    (hrand : ∀ it j lo hi, lo ≤ hi → lo ≤ rand it j lo hi ∧ rand it j lo hi ≤ hi) :
    ∀ (its : List Nat),
      ∃ sets, minimalSets rand N its = .ok sets ∧ sets.length = its.length ∧
        ∀ s, s ∈ sets → s.length = 8 ∧ s.Nodup ∧ ∀ x, x ∈ s → x < N := by
  intro its
  induction its with
  | nil =>
    exact ⟨[], rfl, rfl, fun s hs => by simp at hs⟩
  | cons it its ih =>
    obtain ⟨set1, avail1, hrun, hset1, hperm1⟩ :=
      drawLoop_spec N hN (rand it) 8 0 (List.replicate 8 0) (List.range N) rfl
        (by simp) (by simp) (by simp) (hrand it)
    obtain ⟨sets, hruns, hlen, hall⟩ := ih
    refine ⟨set1 :: sets, ?_, ?_, ?_⟩
    · unfold minimalSets
      simp only [hrun, hruns]
    · simp [hlen]
    · intro s hs
      rw [List.mem_cons] at hs
      rcases hs with rfl | hs
      · have hnd : (s ++ avail1).Nodup := (hperm1.nodup_iff).mpr (List.nodup_range N)
        refine ⟨hset1, (List.nodup_append.mp hnd).1, ?_⟩
        intro x hx
        have hx1 : x ∈ List.range N := hperm1.subset (List.mem_append_left _ hx)
        exact List.mem_range.mp hx1
      · exact hall s hs

/-- C19. Minimal-set sampling.  For `N >= 8` pairs, any `mMaxIterations` and any
`RandomInt` whose every draw lies between its two arguments, here 0 and the current
size of `vAvailableIndices` minus 1, the sampling loop of `Initialize` ends without an
out-of-range access and fills `mMaxIterations` sets, each of 8 pairwise distinct indices
in `[0, N)`. -/
theorem sampleSets_distinct (rand : Nat → Nat → Int → Int → Int) (N mMaxIterations : Nat)
    (hN : 8 ≤ N)
    (hrand : ∀ it j lo hi, lo ≤ hi → lo ≤ rand it j lo hi ∧ rand it j lo hi ≤ hi) :
    ∃ sets, sampleSets rand N mMaxIterations = .ok sets ∧
      sets.length = mMaxIterations ∧
      ∀ s, s ∈ sets → s.length = 8 ∧ s.Nodup ∧ ∀ x, x ∈ s → x < N := by
  obtain ⟨sets, hrun, hlen, hall⟩ :=
    minimalSets_spec N hN rand hrand (List.range mMaxIterations)
  exact ⟨sets, hrun, by simpa using hlen, hall⟩

/-- C19 for 9 pairs and 2 iterations, every draw being the upper bound. -/
theorem sampleSets_distinct_witness :
    ∃ sets, sampleSets (fun _ _ _ hi => hi) 9 2 = .ok sets ∧
      sets.length = 2 ∧
      ∀ s, s ∈ sets → s.length = 8 ∧ s.Nodup ∧ ∀ x, x ∈ s → x < 9 :=
  sampleSets_distinct (fun _ _ _ hi => hi) 9 2 (by decide)
    (fun _ _ _ _ h => ⟨h, le_refl _⟩)


/-! ## Initializer: acceptance of a reconstruction -/

/-- Truncation is the floor on non-negative values. -/
theorem ctrunc_of_nonneg (q : ℚ) (h : 0 ≤ q) : ctrunc q = ⌊q⌋ := by
  unfold ctrunc
  rw [if_pos h]

/-- The largest count is more than `0.7` of itself unless it is 0, and then no count
is more than `0.7` of it. -/
theorem similar_facts (n m : Nat) (h : n ≤ m) :
    (m = 0 → ¬ ((n : ℚ) > similarBound m)) ∧
    (0 < m → ((m : ℚ) > similarBound m)) := by
  constructor
  · intro hm
    subst hm
    have hn : n = 0 := by omega
    subst hn
    rw [similarBound_zero]
    norm_num
  · intro hm
    exact similarBound_lt m hm

/-- The selection of `ReconstructF` on four `CheckRT` results of which the first is
the first to attain the largest count. -/
theorem ReconstructF_first (vb : List Bool) (R1 R2 : Mat3) (t : Vec3)
    (CheckRT : Mat3 → Vec3 → CheckRTResult) (minParallax : ℚ) (minTriangulated : Int)
    (h2 : (CheckRT R2 t).nGood ≤ (CheckRT R1 t).nGood)
    (h3 : (CheckRT R1 (-t)).nGood ≤ (CheckRT R1 t).nGood)
    (h4 : (CheckRT R2 (-t)).nGood ≤ (CheckRT R1 t).nGood) :
    ReconstructF vb R1 R2 t CheckRT minParallax minTriangulated =
      if (¬ ((CheckRT R2 t).nGood : ℚ) > similarBound (CheckRT R1 t).nGood) ∧
         (¬ ((CheckRT R1 (-t)).nGood : ℚ) > similarBound (CheckRT R1 t).nGood) ∧
         (¬ ((CheckRT R2 (-t)).nGood : ℚ) > similarBound (CheckRT R1 t).nGood) ∧
         ((CheckRT R1 t).nGood : Int)
            ≥ max ⌊(9 / 10 : ℚ) * (countInliers vb : ℚ)⌋ minTriangulated ∧
         (CheckRT R1 t).parallax > minParallax then
        some { R21 := R1, t21 := t, vP3D := (CheckRT R1 t).vP3D,
               vbTriangulated := (CheckRT R1 t).vbTriangulated }
      else none := by
  have hM : max (CheckRT R1 t).nGood (max (CheckRT R2 t).nGood
      (max (CheckRT R1 (-t)).nGood (CheckRT R2 (-t)).nGood)) = (CheckRT R1 t).nGood := by
    simp only [Nat.max_def]
    split_ifs <;> omega
  have hq : (0 : ℚ) ≤ (9 / 10 : ℚ) * (countInliers vb : ℚ) := by positivity
  unfold ReconstructF
  simp only [hM, ctrunc_of_nonneg _ hq]
  generalize CheckRT R1 t = c1 at *
  generalize CheckRT R2 t = c2 at *
  generalize CheckRT R1 (-t) = c3 at *
  generalize CheckRT R2 (-t) = c4 at *
  obtain ⟨f2a, f2b⟩ := similar_facts c2.nGood c1.nGood h2
  obtain ⟨f3a, f3b⟩ := similar_facts c3.nGood c1.nGood h3
  obtain ⟨f4a, f4b⟩ := similar_facts c4.nGood c1.nGood h4
  by_cases hB : (c1.nGood : Int) ≥ max ⌊(9 / 10 : ℚ) * (countInliers vb : ℚ)⌋ minTriangulated
  · have hB1 : ¬ ((c1.nGood : Int)
        < max ⌊(9 / 10 : ℚ) * (countInliers vb : ℚ)⌋ minTriangulated) := not_lt.mpr hB
    by_cases hm : c1.nGood = 0
    · have g1 : ¬ ((c1.nGood : ℚ) > similarBound c1.nGood) := by
        rw [hm]
        exact (similar_facts 0 0 (le_refl 0)).1 rfl
      simp only [g1, f2a hm, f3a hm, f4a hm, hB, hB1, if_false, if_true, not_false_eq_true,
        true_and, false_or, gt_iff_lt, Nat.lt_irrefl, Nat.not_lt_zero, zero_add]
    · have g1 : (c1.nGood : ℚ) > similarBound c1.nGood := f2b (by omega)
      by_cases p2 : (c2.nGood : ℚ) > similarBound c1.nGood <;>
      by_cases p3 : (c3.nGood : ℚ) > similarBound c1.nGood <;>
      by_cases p4 : (c4.nGood : ℚ) > similarBound c1.nGood <;>
      simp [g1, p2, p3, p4, hB, hB1]
  · have hB1 : (c1.nGood : Int)
        < max ⌊(9 / 10 : ℚ) * (countInliers vb : ℚ)⌋ minTriangulated := not_le.mp hB
    simp only [hB1, true_or, if_true, hB, false_and, and_false, if_false]


/-- The selection of `ReconstructF` on four `CheckRT` results of which the second is
the first to attain the largest count. -/
theorem ReconstructF_second (vb : List Bool) (R1 R2 : Mat3) (t : Vec3)
    (CheckRT : Mat3 → Vec3 → CheckRTResult) (minParallax : ℚ) (minTriangulated : Int)
    (h1 : (CheckRT R1 t).nGood < (CheckRT R2 t).nGood)
    (h3 : (CheckRT R1 (-t)).nGood ≤ (CheckRT R2 t).nGood)
    (h4 : (CheckRT R2 (-t)).nGood ≤ (CheckRT R2 t).nGood) :
    ReconstructF vb R1 R2 t CheckRT minParallax minTriangulated =
      if
         (¬ ((CheckRT R1 t).nGood : ℚ) > similarBound (CheckRT R2 t).nGood) ∧
         (¬ ((CheckRT R1 (-t)).nGood : ℚ) > similarBound (CheckRT R2 t).nGood) ∧
         (¬ ((CheckRT R2 (-t)).nGood : ℚ) > similarBound (CheckRT R2 t).nGood) ∧
         ((CheckRT R2 t).nGood : Int)
            ≥ max ⌊(9 / 10 : ℚ) * (countInliers vb : ℚ)⌋ minTriangulated ∧
         (CheckRT R2 t).parallax > minParallax then
        some { R21 := R2, t21 := t, vP3D := (CheckRT R2 t).vP3D,
               vbTriangulated := (CheckRT R2 t).vbTriangulated }
      else none := by
  have hM : max (CheckRT R1 t).nGood (max (CheckRT R2 t).nGood
      (max (CheckRT R1 (-t)).nGood (CheckRT R2 (-t)).nGood)) = (CheckRT R2 t).nGood := by
    simp only [Nat.max_def]
    split_ifs <;> omega
  have hq : (0 : ℚ) ≤ (9 / 10 : ℚ) * (countInliers vb : ℚ) := by positivity
  unfold ReconstructF
  simp only [hM, ctrunc_of_nonneg _ hq]
  generalize CheckRT R1 t = c1 at *
  generalize CheckRT R2 t = c2 at *
  generalize CheckRT R1 (-t) = c3 at *
  generalize CheckRT R2 (-t) = c4 at *
  obtain ⟨f1a, f1b⟩ := similar_facts c1.nGood c2.nGood (le_of_lt h1)
  obtain ⟨f3a, f3b⟩ := similar_facts c3.nGood c2.nGood h3
  obtain ⟨f4a, f4b⟩ := similar_facts c4.nGood c2.nGood h4
  have e1 : ¬ (c2.nGood = c1.nGood) := by omega
  by_cases hB : (c2.nGood : Int) ≥ max ⌊(9 / 10 : ℚ) * (countInliers vb : ℚ)⌋ minTriangulated
  · have hB1 : ¬ ((c2.nGood : Int)
        < max ⌊(9 / 10 : ℚ) * (countInliers vb : ℚ)⌋ minTriangulated) := not_lt.mpr hB
    have hm : 0 < c2.nGood := by omega
    have g : (c2.nGood : ℚ) > similarBound c2.nGood := by
      exact f1b hm
    by_cases p1 : (c1.nGood : ℚ) > similarBound c2.nGood <;>
    by_cases p3 : (c3.nGood : ℚ) > similarBound c2.nGood <;>
    by_cases p4 : (c4.nGood : ℚ) > similarBound c2.nGood <;>
    simp [g, p1, p3, p4, hB, hB1, e1]
  · have hB1 : (c2.nGood : Int)
        < max ⌊(9 / 10 : ℚ) * (countInliers vb : ℚ)⌋ minTriangulated := not_le.mp hB
    simp only [hB1, true_or, if_true, hB, false_and, and_false, if_false]

/-- The selection of `ReconstructF` on four `CheckRT` results of which the third is
the first to attain the largest count. -/
theorem ReconstructF_third (vb : List Bool) (R1 R2 : Mat3) (t : Vec3)
    (CheckRT : Mat3 → Vec3 → CheckRTResult) (minParallax : ℚ) (minTriangulated : Int)
    (h1 : (CheckRT R1 t).nGood < (CheckRT R1 (-t)).nGood)
    (h2 : (CheckRT R2 t).nGood < (CheckRT R1 (-t)).nGood)
    (h4 : (CheckRT R2 (-t)).nGood ≤ (CheckRT R1 (-t)).nGood) :
    ReconstructF vb R1 R2 t CheckRT minParallax minTriangulated =
      if
         (¬ ((CheckRT R1 t).nGood : ℚ) > similarBound (CheckRT R1 (-t)).nGood) ∧
         (¬ ((CheckRT R2 t).nGood : ℚ) > similarBound (CheckRT R1 (-t)).nGood) ∧
         (¬ ((CheckRT R2 (-t)).nGood : ℚ) > similarBound (CheckRT R1 (-t)).nGood) ∧
         ((CheckRT R1 (-t)).nGood : Int)
            ≥ max ⌊(9 / 10 : ℚ) * (countInliers vb : ℚ)⌋ minTriangulated ∧
         (CheckRT R1 (-t)).parallax > minParallax then
        some { R21 := R1, t21 := -t, vP3D := (CheckRT R1 (-t)).vP3D,
               vbTriangulated := (CheckRT R1 (-t)).vbTriangulated }
      else none := by
  have hM : max (CheckRT R1 t).nGood (max (CheckRT R2 t).nGood
      (max (CheckRT R1 (-t)).nGood (CheckRT R2 (-t)).nGood)) = (CheckRT R1 (-t)).nGood := by
    simp only [Nat.max_def]
    split_ifs <;> omega
  have hq : (0 : ℚ) ≤ (9 / 10 : ℚ) * (countInliers vb : ℚ) := by positivity
  unfold ReconstructF
  simp only [hM, ctrunc_of_nonneg _ hq]
  generalize CheckRT R1 t = c1 at *
  generalize CheckRT R2 t = c2 at *
  generalize CheckRT R1 (-t) = c3 at *
  generalize CheckRT R2 (-t) = c4 at *
  obtain ⟨f1a, f1b⟩ := similar_facts c1.nGood c3.nGood (le_of_lt h1)
  obtain ⟨f2a, f2b⟩ := similar_facts c2.nGood c3.nGood (le_of_lt h2)
  obtain ⟨f4a, f4b⟩ := similar_facts c4.nGood c3.nGood h4
  have e1 : ¬ (c3.nGood = c1.nGood) := by omega
  have e2 : ¬ (c3.nGood = c2.nGood) := by omega
  by_cases hB : (c3.nGood : Int) ≥ max ⌊(9 / 10 : ℚ) * (countInliers vb : ℚ)⌋ minTriangulated
  · have hB1 : ¬ ((c3.nGood : Int)
        < max ⌊(9 / 10 : ℚ) * (countInliers vb : ℚ)⌋ minTriangulated) := not_lt.mpr hB
    have hm : 0 < c3.nGood := by omega
    have g : (c3.nGood : ℚ) > similarBound c3.nGood := by
      exact f1b hm
    by_cases p1 : (c1.nGood : ℚ) > similarBound c3.nGood <;>
    by_cases p2 : (c2.nGood : ℚ) > similarBound c3.nGood <;>
    by_cases p4 : (c4.nGood : ℚ) > similarBound c3.nGood <;>
    simp [g, p1, p2, p4, hB, hB1, e1, e2]
  · have hB1 : (c3.nGood : Int)
        < max ⌊(9 / 10 : ℚ) * (countInliers vb : ℚ)⌋ minTriangulated := not_le.mp hB
    simp only [hB1, true_or, if_true, hB, false_and, and_false, if_false]

/-- The selection of `ReconstructF` on four `CheckRT` results of which the fourth is
the first to attain the largest count. -/
theorem ReconstructF_fourth (vb : List Bool) (R1 R2 : Mat3) (t : Vec3)
    (CheckRT : Mat3 → Vec3 → CheckRTResult) (minParallax : ℚ) (minTriangulated : Int)
    (h1 : (CheckRT R1 t).nGood < (CheckRT R2 (-t)).nGood)
    (h2 : (CheckRT R2 t).nGood < (CheckRT R2 (-t)).nGood)
    (h3 : (CheckRT R1 (-t)).nGood < (CheckRT R2 (-t)).nGood) :
    ReconstructF vb R1 R2 t CheckRT minParallax minTriangulated =
      if
         (¬ ((CheckRT R1 t).nGood : ℚ) > similarBound (CheckRT R2 (-t)).nGood) ∧
         (¬ ((CheckRT R2 t).nGood : ℚ) > similarBound (CheckRT R2 (-t)).nGood) ∧
         (¬ ((CheckRT R1 (-t)).nGood : ℚ) > similarBound (CheckRT R2 (-t)).nGood) ∧
         ((CheckRT R2 (-t)).nGood : Int)
            ≥ max ⌊(9 / 10 : ℚ) * (countInliers vb : ℚ)⌋ minTriangulated ∧
         (CheckRT R2 (-t)).parallax > minParallax then
        some { R21 := R2, t21 := -t, vP3D := (CheckRT R2 (-t)).vP3D,
               vbTriangulated := (CheckRT R2 (-t)).vbTriangulated }
      else none := by
  have hM : max (CheckRT R1 t).nGood (max (CheckRT R2 t).nGood
      (max (CheckRT R1 (-t)).nGood (CheckRT R2 (-t)).nGood)) = (CheckRT R2 (-t)).nGood := by
    simp only [Nat.max_def]
    split_ifs <;> omega
  have hq : (0 : ℚ) ≤ (9 / 10 : ℚ) * (countInliers vb : ℚ) := by positivity
  unfold ReconstructF
  simp only [hM, ctrunc_of_nonneg _ hq]
  generalize CheckRT R1 t = c1 at *
  generalize CheckRT R2 t = c2 at *
  generalize CheckRT R1 (-t) = c3 at *
  generalize CheckRT R2 (-t) = c4 at *
  obtain ⟨f1a, f1b⟩ := similar_facts c1.nGood c4.nGood (le_of_lt h1)
  obtain ⟨f2a, f2b⟩ := similar_facts c2.nGood c4.nGood (le_of_lt h2)
  obtain ⟨f3a, f3b⟩ := similar_facts c3.nGood c4.nGood (le_of_lt h3)
  have e1 : ¬ (c4.nGood = c1.nGood) := by omega
  have e2 : ¬ (c4.nGood = c2.nGood) := by omega
  have e3 : ¬ (c4.nGood = c3.nGood) := by omega
  by_cases hB : (c4.nGood : Int) ≥ max ⌊(9 / 10 : ℚ) * (countInliers vb : ℚ)⌋ minTriangulated
  · have hB1 : ¬ ((c4.nGood : Int)
        < max ⌊(9 / 10 : ℚ) * (countInliers vb : ℚ)⌋ minTriangulated) := not_lt.mpr hB
    have hm : 0 < c4.nGood := by omega
    have g : (c4.nGood : ℚ) > similarBound c4.nGood := by
      exact f1b hm
    by_cases p1 : (c1.nGood : ℚ) > similarBound c4.nGood <;>
    by_cases p2 : (c2.nGood : ℚ) > similarBound c4.nGood <;>
    by_cases p3 : (c3.nGood : ℚ) > similarBound c4.nGood <;>
    simp [g, p1, p2, p3, hB, hB1, e1, e2, e3]
  · have hB1 : (c4.nGood : Int)
        < max ⌊(9 / 10 : ℚ) * (countInliers vb : ℚ)⌋ minTriangulated := not_le.mp hB
    simp only [hB1, true_or, if_true, hB, false_and, and_false, if_false]


/-- The four `CheckRT` results and motions of `ReconstructF` by position. -/
theorem candidatesF_at (R1 R2 : Mat3) (t : Vec3) (CheckRT : Mat3 → Vec3 → CheckRTResult) :
    candidatesF R1 R2 t CheckRT 0 = CheckRT R1 t ∧
    candidatesF R1 R2 t CheckRT 1 = CheckRT R2 t ∧
    candidatesF R1 R2 t CheckRT 2 = CheckRT R1 (-t) ∧
    candidatesF R1 R2 t CheckRT 3 = CheckRT R2 (-t) ∧
    motionsF R1 R2 t 0 = (R1, t) ∧ motionsF R1 R2 t 1 = (R2, t) ∧
    motionsF R1 R2 t 2 = (R1, -t) ∧ motionsF R1 R2 t 3 = (R2, -t) :=
  ⟨rfl, rfl, rfl, rfl, rfl, rfl, rfl, rfl⟩

/-- C17. Acceptance by `ReconstructF`.  Let candidate `i` be the first of the four to
attain the largest number `maxGood` of good points.  `ReconstructF` returns a
reconstruction if and only if (a) no other candidate has more good points than the
`double` product `0.7*maxGood` (`similarBound maxGood`, which can be below
`7*maxGood/10`), (b) `maxGood` is at least the larger of the integer part of `0.9*N` and
`minTriangulated`, and (c) the parallax of candidate `i` is greater than `minParallax`;
the reconstruction returned is then the motion, points and flags of candidate `i`. -/
theorem ReconstructF_accepts_iff (vb : List Bool) (R1 R2 : Mat3) (t : Vec3)
    (CheckRT : Mat3 → Vec3 → CheckRTResult) (minParallax : ℚ) (minTriangulated : Int)
    (i : Fin 4)
    (hmax : ∀ j, (candidatesF R1 R2 t CheckRT j).nGood ≤ (candidatesF R1 R2 t CheckRT i).nGood)
    (hfirst : ∀ j, j < i →
      (candidatesF R1 R2 t CheckRT j).nGood < (candidatesF R1 R2 t CheckRT i).nGood) :
    ((ReconstructF vb R1 R2 t CheckRT minParallax minTriangulated).isSome = true ↔
      (∀ j, j ≠ i → ¬ (((candidatesF R1 R2 t CheckRT j).nGood : ℚ)
          > similarBound (candidatesF R1 R2 t CheckRT i).nGood)) ∧
      ((candidatesF R1 R2 t CheckRT i).nGood : Int)
          ≥ max ⌊(9 / 10 : ℚ) * (countInliers vb : ℚ)⌋ minTriangulated ∧
      (candidatesF R1 R2 t CheckRT i).parallax > minParallax) ∧
    (∀ r, ReconstructF vb R1 R2 t CheckRT minParallax minTriangulated = some r →
      r = { R21 := (motionsF R1 R2 t i).1, t21 := (motionsF R1 R2 t i).2,
            vP3D := (candidatesF R1 R2 t CheckRT i).vP3D,
            vbTriangulated := (candidatesF R1 R2 t CheckRT i).vbTriangulated }) := by
  obtain ⟨e0, e1, e2, e3, m0, m1, m2, m3⟩ := candidatesF_at R1 R2 t CheckRT
  have hall : ∀ (P : Fin 4 → Prop), (∀ j, P j) ↔ (P 0 ∧ P 1 ∧ P 2 ∧ P 3) := by
    intro P
    constructor
    · intro h
      exact ⟨h 0, h 1, h 2, h 3⟩
    · rintro ⟨h0, h1, h2, h3⟩ j
      fin_cases j
      · exact h0
      · exact h1
      · exact h2
      · exact h3
  fin_cases i
  · have hi : (⟨0, by decide⟩ : Fin 4) = 0 := rfl
    have h1 := hmax 1
    have h2 := hmax 2
    have h3 := hmax 3
    simp only [hi, e0, e1, e2, e3] at h1 h2 h3
    simp only [hi, hall, e0, e1, e2, e3, m0]
    rw [ReconstructF_first vb R1 R2 t CheckRT minParallax minTriangulated h1 h2 h3]
    constructor
    · split_ifs with hc
      · simp [hc.1, hc.2.1, hc.2.2.1, hc.2.2.2.1, hc.2.2.2.2]
      · simp only [Option.isSome_none, Bool.false_eq_true, false_iff]
        rintro ⟨⟨_, a1, a2, a3⟩, b, c⟩
        exact hc ⟨a1 (by decide), a2 (by decide), a3 (by decide), b, c⟩
    · intro r hr
      split_ifs at hr with hc
      exact (Option.some.inj hr).symm
  · have hi : (⟨1, by decide⟩ : Fin 4) = 1 := rfl
    have h0 := hfirst 0 (by decide)
    have h2 := hmax 2
    have h3 := hmax 3
    simp only [hi, e0, e1, e2, e3] at h0 h2 h3
    simp only [hi, hall, e0, e1, e2, e3, m1]
    rw [ReconstructF_second vb R1 R2 t CheckRT minParallax minTriangulated h0 h2 h3]
    constructor
    · split_ifs with hc
      · simp [hc.1, hc.2.1, hc.2.2.1, hc.2.2.2.1, hc.2.2.2.2]
      · simp only [Option.isSome_none, Bool.false_eq_true, false_iff]
        rintro ⟨⟨a0, _, a2, a3⟩, b, c⟩
        exact hc ⟨a0 (by decide), a2 (by decide), a3 (by decide), b, c⟩
    · intro r hr
      split_ifs at hr with hc
      exact (Option.some.inj hr).symm
  · have hi : (⟨2, by decide⟩ : Fin 4) = 2 := rfl
    have h0 := hfirst 0 (by decide)
    have h1 := hfirst 1 (by decide)
    have h3 := hmax 3
    simp only [hi, e0, e1, e2, e3] at h0 h1 h3
    simp only [hi, hall, e0, e1, e2, e3, m2]
    rw [ReconstructF_third vb R1 R2 t CheckRT minParallax minTriangulated h0 h1 h3]
    constructor
    · split_ifs with hc
      · simp [hc.1, hc.2.1, hc.2.2.1, hc.2.2.2.1, hc.2.2.2.2]
      · simp only [Option.isSome_none, Bool.false_eq_true, false_iff]
        rintro ⟨⟨a0, a1, _, a3⟩, b, c⟩
        exact hc ⟨a0 (by decide), a1 (by decide), a3 (by decide), b, c⟩
    · intro r hr
      split_ifs at hr with hc
      exact (Option.some.inj hr).symm
  · have hi : (⟨3, by decide⟩ : Fin 4) = 3 := rfl
    have h0 := hfirst 0 (by decide)
    have h1 := hfirst 1 (by decide)
    have h2 := hfirst 2 (by decide)
    simp only [hi, e0, e1, e2, e3] at h0 h1 h2
    simp only [hi, hall, e0, e1, e2, e3, m3]
    rw [ReconstructF_fourth vb R1 R2 t CheckRT minParallax minTriangulated h0 h1 h2]
    constructor
    · split_ifs with hc
      · simp [hc.1, hc.2.1, hc.2.2.1, hc.2.2.2.1, hc.2.2.2.2]
      · simp only [Option.isSome_none, Bool.false_eq_true, false_iff]
        rintro ⟨⟨a0, a1, a2, _⟩, b, c⟩
        exact hc ⟨a0 (by decide), a1 (by decide), a2 (by decide), b, c⟩
    · intro r hr
      split_ifs at hr with hc
      exact (Option.some.inj hr).symm


/-- The number of true entries of an all-true vector is its length. -/
theorem countInliers_replicate (n : Nat) : countInliers (List.replicate n true) = n := by
  have h : ∀ (m k : Nat),
      (List.replicate m true).foldl (fun N b => if b then N + 1 else N) k = k + m := by
    intro m
    induction m with
    | zero => intro k; rfl
    | succ m ih =>
      intro k
      simp only [List.replicate_succ, List.foldl_cons, if_true]
      rw [ih, Nat.add_assoc, Nat.add_comm 1 m]
  unfold countInliers
  rw [h, Nat.zero_add]

/-- The example `CheckRT` on the four motions built from the identity, the half turn
and the unit translation along z. -/
theorem checkRTExample_at (n : Nat) (p : ℚ) :
    checkRTExample n p 1 ![0, 0, 1]
      = { nGood := n, parallax := p, vP3D := [], vbTriangulated := [] } ∧
    checkRTExample n p halfTurnZ ![0, 0, 1]
      = { nGood := 0, parallax := 0, vP3D := [], vbTriangulated := [] } ∧
    checkRTExample n p 1 (-![0, 0, 1])
      = { nGood := 0, parallax := 0, vP3D := [], vbTriangulated := [] } ∧
    checkRTExample n p halfTurnZ (-![0, 0, 1])
      = { nGood := 0, parallax := 0, vP3D := [], vbTriangulated := [] } := by
  refine ⟨?_, ?_, ?_, ?_⟩
  · simp [checkRTExample]
  · norm_num [checkRTExample, halfTurnZ]
  · norm_num [checkRTExample]
  · norm_num [checkRTExample, halfTurnZ]

/-- The example `CheckRT` with two candidates on the four motions built from the
identity, the half turn and the unit translation along z. -/
theorem checkRTPair_at (n m : Nat) (p : ℚ) :
    checkRTPair n m p 1 ![0, 0, 1]
      = { nGood := n, parallax := p, vP3D := [], vbTriangulated := [] } ∧
    checkRTPair n m p halfTurnZ ![0, 0, 1]
      = { nGood := m, parallax := p, vP3D := [], vbTriangulated := [] } ∧
    checkRTPair n m p 1 (-![0, 0, 1])
      = { nGood := 0, parallax := 0, vP3D := [], vbTriangulated := [] } ∧
    checkRTPair n m p halfTurnZ (-![0, 0, 1])
      = { nGood := 0, parallax := 0, vP3D := [], vbTriangulated := [] } := by
  refine ⟨?_, ?_, ?_, ?_⟩
  · simp [checkRTPair]
  · norm_num [checkRTPair, halfTurnZ]
  · norm_num [checkRTPair]
  · norm_num [checkRTPair, halfTurnZ]

/-- C17, counterexample to the claim as stated.  With 101 inliers, a single candidate
with 90 good points and parallax 2 is accepted although `90 < 0.9 * 101`; with 100
inliers, a single candidate with 100 good points and parallax exactly `1.0` is rejected
although it meets the three stated requirements; and with 100 inliers, candidates with
90 and 63 good points and parallax 2 are rejected although `63 > 0.7 * 90` is false,
because the `double` product `0.7*90` is `62.99999999999999`. -/
theorem ReconstructF_truncates_and_is_strict :
    ((ReconstructF (List.replicate 101 true) 1 halfTurnZ ![0, 0, 1] (checkRTExample 90 2)
        1 50).isSome = true ∧
      ¬ ((90 : ℚ) ≥ max ((9 / 10 : ℚ) * 101) 50)) ∧
    ((ReconstructF (List.replicate 100 true) 1 halfTurnZ ![0, 0, 1] (checkRTExample 100 1)
        1 50) = none ∧
      (100 : ℚ) ≥ max ((9 / 10 : ℚ) * 100) 50 ∧ (1 : ℚ) ≥ 1 ∧
      ¬ ((0 : ℚ) > (7 / 10 : ℚ) * 100)) ∧
    ((ReconstructF (List.replicate 100 true) 1 halfTurnZ ![0, 0, 1] (checkRTPair 90 63 2)
        1 50) = none ∧
      (90 : ℚ) ≥ max ((9 / 10 : ℚ) * 100) 50 ∧ (2 : ℚ) ≥ 1 ∧
      ¬ ((63 : ℚ) > (7 / 10 : ℚ) * 90) ∧ ¬ ((0 : ℚ) > (7 / 10 : ℚ) * 90) ∧
      similarBound 90 = 8866461766385663 / 140737488355328 ∧ (63 : ℚ) > similarBound 90) := by
  obtain ⟨a1, a2, a3, a4⟩ := checkRTExample_at 90 2
  obtain ⟨b1, b2, b3, b4⟩ := checkRTExample_at 100 1
  obtain ⟨c1, c2, c3, c4⟩ := checkRTPair_at 90 63 2
  refine ⟨⟨?_, ?_⟩, ⟨?_, ?_, ?_, ?_⟩, ?_, ?_, ?_, ?_, ?_, similarBound_90, ?_⟩
  · rw [ReconstructF_first _ _ _ _ _ _ _ (by rw [a1, a2]; exact Nat.zero_le _)
      (by rw [a1, a3]; exact Nat.zero_le _) (by rw [a1, a4]; exact Nat.zero_le _)]
    rw [a1, a2, a3, a4, countInliers_replicate]
    have hfl : ⌊(9 / 10 : ℚ) * ((101 : Nat) : ℚ)⌋ = 90 := by
      rw [Int.floor_eq_iff]
      norm_num
    rw [hfl]
    norm_num
    exact similarBound_nonneg 90
  · norm_num
  · rw [ReconstructF_first _ _ _ _ _ _ _ (by rw [b1, b2]; exact Nat.zero_le _)
      (by rw [b1, b3]; exact Nat.zero_le _) (by rw [b1, b4]; exact Nat.zero_le _)]
    rw [b1, b2, b3, b4]
    norm_num
  · norm_num
  · norm_num
  · norm_num
  · rw [ReconstructF_first _ _ _ _ _ _ _ (by rw [c1, c2]; decide)
      (by rw [c1, c3]; exact Nat.zero_le _) (by rw [c1, c4]; exact Nat.zero_le _)]
    rw [c1, c2, c3, c4]
    have h63 : ((63 : Nat) : ℚ) > similarBound 90 := by
      rw [similarBound_90]
      norm_num
    exact if_neg (fun h => h.1 h63)
  · norm_num
  · norm_num
  · norm_num
  · norm_num
  · rw [similarBound_90]
    norm_num


/-- The counts of the four example candidates: `n` for the first, 0 for the others. -/
theorem candidatesF_example (n : Nat) (p : ℚ) :
    (∀ j, (candidatesF 1 halfTurnZ ![0, 0, 1] (checkRTExample n p) j).nGood
      = if j = 0 then n else 0) ∧
    (candidatesF 1 halfTurnZ ![0, 0, 1] (checkRTExample n p) 0).parallax = p := by
  obtain ⟨a1, a2, a3, a4⟩ := checkRTExample_at n p
  obtain ⟨e0, e1, e2, e3, _⟩ := candidatesF_at 1 halfTurnZ ![0, 0, 1] (checkRTExample n p)
  constructor
  · intro j
    fin_cases j
    · show (candidatesF 1 halfTurnZ ![0, 0, 1] (checkRTExample n p) 0).nGood = _
      rw [e0, a1]
      rfl
    · show (candidatesF 1 halfTurnZ ![0, 0, 1] (checkRTExample n p) 1).nGood = _
      rw [e1, a2]
      rfl
    · show (candidatesF 1 halfTurnZ ![0, 0, 1] (checkRTExample n p) 2).nGood = _
      rw [e2, a3]
      rfl
    · show (candidatesF 1 halfTurnZ ![0, 0, 1] (checkRTExample n p) 3).nGood = _
      rw [e3, a4]
      rfl
  · rw [e0, a1]

/-- C17 with 100 inliers and a single candidate with 95 good points and parallax 2:
the reconstruction is returned. -/
theorem ReconstructF_accepts_iff_witness :
    (ReconstructF (List.replicate 100 true) 1 halfTurnZ ![0, 0, 1] (checkRTExample 95 2)
      1 50).isSome = true := by
  obtain ⟨hn, hp⟩ := candidatesF_example 95 2
  refine (ReconstructF_accepts_iff (List.replicate 100 true) 1 halfTurnZ ![0, 0, 1]
    (checkRTExample 95 2) 1 50 0 ?_ ?_).1.mpr ⟨?_, ?_, ?_⟩
  · intro j
    rw [hn, hn, if_pos rfl]
    split_ifs <;> omega
  · intro j hj
    exact absurd hj (by simp)
  · intro j hj
    rw [hn, hn, if_neg hj, if_pos rfl]
    norm_num
    exact similarBound_nonneg 95
  · rw [hn, if_pos rfl, countInliers_replicate]
    have hfl : ⌊(9 / 10 : ℚ) * ((100 : Nat) : ℚ)⌋ = 90 := by
      rw [Int.floor_eq_iff]
      norm_num
    rw [hfl]
    norm_num
  · rw [hp]
    norm_num


/-- The candidate loop on one more candidate. -/
theorem trackLoop_append : ∀ (l : List CheckRTResult) (i : Nat) (st : BestTrack)
    (x : CheckRTResult),
    trackLoop i (l ++ [x]) st = trackStep (trackLoop i l st) (i + l.length) x := by
  intro l
  induction l with
  | nil => intro i st x; rfl
  | cons c cs ih =>
    intro i st x
    show trackLoop (i + 1) (cs ++ [x]) (trackStep st i c)
      = trackStep (trackLoop (i + 1) cs (trackStep st i c)) (i + (cs.length + 1)) x
    rw [ih, show i + 1 + cs.length = i + (cs.length + 1) by omega]

/-- The largest count with one more candidate. -/
theorem largestGood_append (l : List CheckRTResult) (x : CheckRTResult) :
    largestGood (l ++ [x]) = max (largestGood l) x.nGood := by
  unfold largestGood
  rw [List.map_append, List.foldl_append]
  rfl

/-- Every count is at most the largest count. -/
theorem le_largestGood (l : List CheckRTResult) :
    ∀ c, c ∈ l → c.nGood ≤ largestGood l := by
  induction l using List.reverseRecOn with
  | nil => intro c hc; simp at hc
  | append_singleton l x ih =>
    intro c hc
    rw [largestGood_append]
    rw [List.mem_append, List.mem_singleton] at hc
    rcases hc with hc | rfl
    · exact le_trans (ih c hc) (le_max_left _ _)
    · exact le_max_right _ _

/-- The end of the candidate loop of `ReconstructH` on the `CheckRT` results `l`:
`bestGood` is the largest count; with all counts 0 no variable has changed; otherwise
the best index is the first one attaining the largest count, `secondBestGood` is the
largest count of the other candidates, and parallax, points and flags are those of the
best candidate. -/
theorem trackLoop_inv (l : List CheckRTResult) :
    (trackLoop 0 l BestTrack.init).bestGood = largestGood l ∧
    (largestGood l = 0 → trackLoop 0 l BestTrack.init = BestTrack.init) ∧
    (0 < largestGood l → ∃ (i : Nat) (c : CheckRTResult), l[i]? = some c ∧
      (trackLoop 0 l BestTrack.init).bestSolutionIdx = (i : Int) ∧
      c.nGood = largestGood l ∧
      (∀ (j : Nat) (c1 : CheckRTResult), j < i → l[j]? = some c1 →
        c1.nGood < largestGood l) ∧
      (trackLoop 0 l BestTrack.init).secondBestGood = largestGood (l.eraseIdx i) ∧
      (trackLoop 0 l BestTrack.init).bestParallax = c.parallax ∧
      (trackLoop 0 l BestTrack.init).bestP3D = c.vP3D ∧
      (trackLoop 0 l BestTrack.init).bestTriangulated = c.vbTriangulated) := by
  induction l using List.reverseRecOn with
  | nil =>
    refine ⟨rfl, fun _ => rfl, ?_⟩
    intro h
    exact absurd h (by simp [largestGood])
  | append_singleton l x ih =>
    obtain ⟨ih1, ih2, ih3⟩ := ih
    rw [trackLoop_append, largestGood_append, Nat.zero_add]
    generalize hst : trackLoop 0 l BestTrack.init = st at ih1 ih2 ih3 ⊢
    by_cases hx : x.nGood > st.bestGood
    · have hstep : trackStep st l.length x =
          { secondBestGood := st.bestGood, bestGood := x.nGood,
            bestSolutionIdx := (l.length : Int), bestParallax := x.parallax,
            bestP3D := x.vP3D, bestTriangulated := x.vbTriangulated } := by
        unfold trackStep
        rw [if_pos hx]
      have hmax : max (largestGood l) x.nGood = x.nGood := by
        rw [← ih1]
        exact max_eq_right (le_of_lt hx)
      rw [hstep, hmax]
      refine ⟨rfl, ?_, ?_⟩
      · intro h0
        omega
      · intro _
        refine ⟨l.length, x, List.getElem?_concat_length l x, rfl, rfl, ?_, ?_, rfl, rfl, rfl⟩
        · intro j c1 hj hc1
          rw [List.getElem?_append_left hj] at hc1
          have := le_largestGood l c1 (List.getElem?_mem hc1)
          omega
        · rw [List.eraseIdx_append_of_length_le (le_refl _)]
          simp [ih1]
    · have hle : x.nGood ≤ largestGood l := by omega
      have hmax : max (largestGood l) x.nGood = largestGood l := max_eq_left hle
      rw [hmax]
      by_cases hx2 : x.nGood > st.secondBestGood
      · have hstep : trackStep st l.length x = { st with secondBestGood := x.nGood } := by
          unfold trackStep
          rw [if_neg hx, if_pos hx2]
        have hpos : 0 < largestGood l := by omega
        obtain ⟨i, c, hc, hidx, hcn, hfirst, hsec, hp, hP, hT⟩ := ih3 hpos
        have hi : i < l.length := (List.getElem?_eq_some.mp hc).1
        rw [hstep]
        refine ⟨ih1, fun h0 => absurd h0 (by omega), fun _ => ?_⟩
        refine ⟨i, c, ?_, hidx, hcn, ?_, ?_, hp, hP, hT⟩
        · rw [List.getElem?_append_left hi]
          exact hc
        · intro j c1 hj hc1
          rw [List.getElem?_append_left (by omega)] at hc1
          exact hfirst j c1 hj hc1
        · rw [List.eraseIdx_append_of_lt_length hi, largestGood_append, ← hsec]
          exact (max_eq_right (le_of_lt hx2)).symm
      · have hstep : trackStep st l.length x = st := by
          unfold trackStep
          rw [if_neg hx, if_neg hx2]
        rw [hstep]
        refine ⟨ih1, ih2, fun hpos => ?_⟩
        obtain ⟨i, c, hc, hidx, hcn, hfirst, hsec, hp, hP, hT⟩ := ih3 hpos
        have hi : i < l.length := (List.getElem?_eq_some.mp hc).1
        refine ⟨i, c, ?_, hidx, hcn, ?_, ?_, hp, hP, hT⟩
        · rw [List.getElem?_append_left hi]
          exact hc
        · intro j c1 hj hc1
          rw [List.getElem?_append_left (by omega)] at hc1
          exact hfirst j c1 hj hc1
        · rw [List.eraseIdx_append_of_lt_length hi, largestGood_append, ← hsec]
          exact (max_eq_left (not_lt.mp hx2)).symm


/-- The return of `ReconstructH` when the singular-value test passes and the four
acceptance conditions hold with a best index `i`. -/
theorem ReconstructH_accept (vb : List Bool) (d1 d2 d3 : ℚ)
    (vR : Fin 8 → Mat3) (vt : Fin 8 → Vec3) (CheckRT : Mat3 → Vec3 → CheckRTResult)
    (minParallax : ℚ) (minTriangulated : Int) (st : BestTrack)
    (hst : st = trackLoop 0 (List.ofFn (fun i : Fin 8 => CheckRT (vR i) (vt i)))
      BestTrack.init)
    (hsv : (XFloat.ltQ (XFloat.div d1 d2) (100001 / 100000)
      || XFloat.ltQ (XFloat.div d2 d3) (100001 / 100000)) = false)
    (i : Fin 8) (hidx : st.bestSolutionIdx = ((i : Nat) : Int))
    (hcond : (st.secondBestGood : ℚ) < (75 / 100 : ℚ) * (st.bestGood : ℚ) ∧
        st.bestParallax ≥ minParallax ∧
        (st.bestGood : Int) > minTriangulated ∧
        (st.bestGood : ℚ) > (9 / 10 : ℚ) * (countInliers vb : ℚ)) :
    ReconstructH vb d1 d2 d3 vR vt CheckRT minParallax minTriangulated
      = .ok (some { R21 := vR i, t21 := vt i, vP3D := st.bestP3D,
                    vbTriangulated := st.bestTriangulated }) := by
  have hv : 0 ≤ st.bestSolutionIdx ∧ st.bestSolutionIdx < 8 := by
    rw [hidx]
    have := i.isLt
    omega
  have hfin : (⟨st.bestSolutionIdx.toNat, by omega⟩ : Fin 8) = i := by
    apply Fin.ext
    simp [hidx]
  unfold ReconstructH
  simp only [hsv, Bool.false_eq_true, if_false, ← hst]
  rw [if_pos hcond, dif_pos hv, hfin]

/-- The return of `ReconstructH` when the singular-value test passes and one of the
four acceptance conditions fails. -/
theorem ReconstructH_reject (vb : List Bool) (d1 d2 d3 : ℚ)
    (vR : Fin 8 → Mat3) (vt : Fin 8 → Vec3) (CheckRT : Mat3 → Vec3 → CheckRTResult)
    (minParallax : ℚ) (minTriangulated : Int) (st : BestTrack)
    (hst : st = trackLoop 0 (List.ofFn (fun i : Fin 8 => CheckRT (vR i) (vt i)))
      BestTrack.init)
    (hsv : (XFloat.ltQ (XFloat.div d1 d2) (100001 / 100000)
      || XFloat.ltQ (XFloat.div d2 d3) (100001 / 100000)) = false)
    (hcond : ¬ ((st.secondBestGood : ℚ) < (75 / 100 : ℚ) * (st.bestGood : ℚ) ∧
        st.bestParallax ≥ minParallax ∧
        (st.bestGood : Int) > minTriangulated ∧
        (st.bestGood : ℚ) > (9 / 10 : ℚ) * (countInliers vb : ℚ))) :
    ReconstructH vb d1 d2 d3 vR vt CheckRT minParallax minTriangulated = .ok none := by
  unfold ReconstructH
  simp only [hsv, Bool.false_eq_true, if_false, ← hst]
  rw [if_neg hcond]

/-- The end of the candidate loop of `ReconstructH` on its eight candidates, with the
best candidate as an index in `[0, 8)`. -/
theorem trackLoop_eight (vR : Fin 8 → Mat3) (vt : Fin 8 → Vec3)
    (CheckRT : Mat3 → Vec3 → CheckRTResult) (cands : List CheckRTResult) (st : BestTrack)
    (hc : cands = List.ofFn (fun i : Fin 8 => CheckRT (vR i) (vt i)))
    (hst : st = trackLoop 0 cands BestTrack.init) (hpos : 0 < largestGood cands) :
    ∃ i : Fin 8, st.bestSolutionIdx = ((i : Nat) : Int) ∧
      (CheckRT (vR i) (vt i)).nGood = largestGood cands ∧
      (∀ j : Fin 8, j < i → (CheckRT (vR j) (vt j)).nGood < largestGood cands) ∧
      st.secondBestGood = largestGood (cands.eraseIdx i) ∧
      st.bestParallax = (CheckRT (vR i) (vt i)).parallax ∧
      st.bestP3D = (CheckRT (vR i) (vt i)).vP3D ∧
      st.bestTriangulated = (CheckRT (vR i) (vt i)).vbTriangulated := by
  obtain ⟨i, c, hci, hidx, hcn, hfirst, hsec, hp, hP, hT⟩ := (trackLoop_inv cands).2.2 hpos
  rw [← hst] at hidx hsec hp hP hT
  have hget : ∀ (j : Nat) (hj : j < 8), cands[j]? = some (CheckRT (vR ⟨j, hj⟩) (vt ⟨j, hj⟩)) := by
    intro j hj
    rw [hc, List.getElem?_eq_getElem (by simpa using hj), List.getElem_ofFn]
  have hi : i < 8 := by
    have := (List.getElem?_eq_some.mp hci).1
    rw [hc, List.length_ofFn] at this
    exact this
  have hceq : c = CheckRT (vR ⟨i, hi⟩) (vt ⟨i, hi⟩) := by
    have := hget i hi
    rw [hci] at this
    exact Option.some.inj this
  refine ⟨⟨i, hi⟩, hidx, ?_, ?_, hsec, ?_, ?_, ?_⟩
  · rw [← hceq]; exact hcn
  · intro j hj
    exact hfirst j _ hj (hget j j.isLt)
  · rw [← hceq]; exact hp
  · rw [← hceq]; exact hP
  · rw [← hceq]; exact hT


/-- C18. Acceptance by `ReconstructH` once the singular-value test passes.  On the
`CheckRT` results of the eight candidates the loop ends with `bestGood` the largest
count; with all counts 0 it ends with `bestSolutionIdx = -1` and `secondBestGood = 0`;
otherwise `bestSolutionIdx` is the first index attaining the largest count, and
`secondBestGood` is the largest count among the other candidates (the second-largest of
the multiset, equal to `bestGood` on a tie).  `ReconstructH` returns true if and only if
`bestGood > 0.9*N`, `secondBestGood < 0.75*bestGood`, `bestParallax >= minParallax` and
`bestGood > minTriangulated`; it then outputs the motion, points and flags of candidate
`bestSolutionIdx`, an index in `[0, 8)`; otherwise it returns false without a fault. -/
theorem ReconstructH_accepts_iff (vb : List Bool) (d1 d2 d3 : ℚ)
    (vR : Fin 8 → Mat3) (vt : Fin 8 → Vec3) (CheckRT : Mat3 → Vec3 → CheckRTResult)
    (minParallax : ℚ) (minTriangulated : Int)
    (cands : List CheckRTResult) (st : BestTrack)
    (hc : cands = List.ofFn (fun i : Fin 8 => CheckRT (vR i) (vt i)))
    (hst : st = trackLoop 0 cands BestTrack.init)
    (hsv : (XFloat.ltQ (XFloat.div d1 d2) (100001 / 100000)
      || XFloat.ltQ (XFloat.div d2 d3) (100001 / 100000)) = false) :
    st.bestGood = largestGood cands ∧
    (largestGood cands = 0 → st.bestSolutionIdx = -1 ∧ st.secondBestGood = 0) ∧
    (0 < largestGood cands → ∃ i : Fin 8, st.bestSolutionIdx = ((i : Nat) : Int) ∧
      (CheckRT (vR i) (vt i)).nGood = largestGood cands ∧
      (∀ j : Fin 8, j < i → (CheckRT (vR j) (vt j)).nGood < largestGood cands) ∧
      st.secondBestGood = largestGood (cands.eraseIdx i) ∧
      st.bestParallax = (CheckRT (vR i) (vt i)).parallax) ∧
    ((∃ r, ReconstructH vb d1 d2 d3 vR vt CheckRT minParallax minTriangulated = .ok (some r)) ↔
      ((st.bestGood : ℚ) > (9 / 10 : ℚ) * (countInliers vb : ℚ) ∧
       (st.secondBestGood : ℚ) < (75 / 100 : ℚ) * (st.bestGood : ℚ) ∧
       st.bestParallax ≥ minParallax ∧
       (st.bestGood : Int) > minTriangulated)) ∧
    (ReconstructH vb d1 d2 d3 vR vt CheckRT minParallax minTriangulated ≠ .ok none →
      ∃ i : Fin 8, st.bestSolutionIdx = ((i : Nat) : Int) ∧
        (CheckRT (vR i) (vt i)).nGood = largestGood cands ∧
        (∀ j : Fin 8, j < i → (CheckRT (vR j) (vt j)).nGood < largestGood cands) ∧
        ReconstructH vb d1 d2 d3 vR vt CheckRT minParallax minTriangulated
          = .ok (some { R21 := vR i, t21 := vt i,
                        vP3D := (CheckRT (vR i) (vt i)).vP3D,
                        vbTriangulated := (CheckRT (vR i) (vt i)).vbTriangulated })) := by
  have hst1 : st = trackLoop 0 (List.ofFn (fun i : Fin 8 => CheckRT (vR i) (vt i)))
      BestTrack.init := by rw [hst, hc]
  obtain ⟨inv1, inv2, _⟩ := trackLoop_inv cands
  rw [← hst] at inv1 inv2
  have hpos_of : ((st.secondBestGood : ℚ) < (75 / 100 : ℚ) * (st.bestGood : ℚ) ∧
        st.bestParallax ≥ minParallax ∧
        (st.bestGood : Int) > minTriangulated ∧
        (st.bestGood : ℚ) > (9 / 10 : ℚ) * (countInliers vb : ℚ)) → 0 < largestGood cands := by
    rintro ⟨_, _, _, h⟩
    have h0 : (0 : ℚ) ≤ (9 / 10 : ℚ) * (countInliers vb : ℚ) := by positivity
    have h1 : (0 : ℚ) < (st.bestGood : ℚ) := lt_of_le_of_lt h0 h
    rw [← inv1]
    exact_mod_cast h1
  have hsome : ((st.secondBestGood : ℚ) < (75 / 100 : ℚ) * (st.bestGood : ℚ) ∧
        st.bestParallax ≥ minParallax ∧
        (st.bestGood : Int) > minTriangulated ∧
        (st.bestGood : ℚ) > (9 / 10 : ℚ) * (countInliers vb : ℚ)) →
      ∃ i : Fin 8, st.bestSolutionIdx = ((i : Nat) : Int) ∧
        (CheckRT (vR i) (vt i)).nGood = largestGood cands ∧
        (∀ j : Fin 8, j < i → (CheckRT (vR j) (vt j)).nGood < largestGood cands) ∧
        ReconstructH vb d1 d2 d3 vR vt CheckRT minParallax minTriangulated
          = .ok (some { R21 := vR i, t21 := vt i,
                        vP3D := (CheckRT (vR i) (vt i)).vP3D,
                        vbTriangulated := (CheckRT (vR i) (vt i)).vbTriangulated }) := by
    intro hcond
    obtain ⟨i, hidx, hn, hfirst, _, _, hP, hT⟩ :=
      trackLoop_eight vR vt CheckRT cands st hc hst (hpos_of hcond)
    refine ⟨i, hidx, hn, hfirst, ?_⟩
    rw [ReconstructH_accept vb d1 d2 d3 vR vt CheckRT minParallax minTriangulated st hst1 hsv
      i hidx hcond, hP, hT]
  refine ⟨inv1, ?_, ?_, ?_, ?_⟩
  · intro h0
    rw [inv2 h0]
    exact ⟨rfl, rfl⟩
  · intro hpos
    obtain ⟨i, hidx, hn, hfirst, hsec, hp, _, _⟩ :=
      trackLoop_eight vR vt CheckRT cands st hc hst hpos
    exact ⟨i, hidx, hn, hfirst, hsec, hp⟩
  · constructor
    · rintro ⟨r, hr⟩
      by_contra hcond
      have hnot : ¬ ((st.secondBestGood : ℚ) < (75 / 100 : ℚ) * (st.bestGood : ℚ) ∧
          st.bestParallax ≥ minParallax ∧
          (st.bestGood : Int) > minTriangulated ∧
          (st.bestGood : ℚ) > (9 / 10 : ℚ) * (countInliers vb : ℚ)) :=
        fun h => hcond ⟨h.2.2.2, h.1, h.2.1, h.2.2.1⟩
      rw [ReconstructH_reject vb d1 d2 d3 vR vt CheckRT minParallax minTriangulated st hst1
        hsv hnot] at hr
      cases hr
    · rintro ⟨h1, h2, h3, h4⟩
      obtain ⟨i, _, _, _, hrun⟩ := hsome ⟨h2, h3, h4, h1⟩
      exact ⟨_, hrun⟩
  · intro hne
    by_cases hcond : ((st.secondBestGood : ℚ) < (75 / 100 : ℚ) * (st.bestGood : ℚ) ∧
        st.bestParallax ≥ minParallax ∧
        (st.bestGood : Int) > minTriangulated ∧
        (st.bestGood : ℚ) > (9 / 10 : ℚ) * (countInliers vb : ℚ))
    · exact hsome hcond
    · exact absurd (ReconstructH_reject vb d1 d2 d3 vR vt CheckRT minParallax
        minTriangulated st hst1 hsv hcond) hne

/-- C18, counterexample to the claim as stated.  When none of the eight candidates
has a good point, index 0 attains the largest count (0), yet the loop ends with
`bestSolutionIdx = -1`. -/
theorem bestSolutionIdx_stays_unset :
    (trackLoop 0 (List.replicate 8 noGoodPoint) BestTrack.init).bestSolutionIdx = -1 ∧
    (List.replicate 8 noGoodPoint)[0]?.map (fun c => c.nGood)
      = some (largestGood (List.replicate 8 noGoodPoint)) := by
  constructor <;> rfl


/-- The `CheckRT` results of the eight example candidates: 95 good points with
parallax 2 for the third, none for the others. -/
theorem example_candidates :
    List.ofFn (fun i : Fin 8 => checkRTExample 95 2 (exampleRotations i) ![0, 0, 1])
      = [noGoodPoint, noGoodPoint,
         { nGood := 95, parallax := 2, vP3D := [], vbTriangulated := [] },
         noGoodPoint, noGoodPoint, noGoodPoint, noGoodPoint, noGoodPoint] := by
  obtain ⟨a1, a2, _, _⟩ := checkRTExample_at 95 2
  have h2 : exampleRotations 2 = 1 := rfl
  have hne : ∀ i : Fin 8, i ≠ 2 → exampleRotations i = halfTurnZ := by
    intro i hi
    unfold exampleRotations
    rw [if_neg hi]
  have e : ∀ (n : Nat) (hn : n < 8), n ≠ 2 →
      checkRTExample 95 2 (exampleRotations ⟨n, hn⟩) ![0, 0, 1] = noGoodPoint := by
    intro n hn hi
    rw [hne ⟨n, hn⟩ (fun h => hi (congrArg Fin.val h)), a2]
    rfl
  have e2 : checkRTExample 95 2 (exampleRotations 2) ![0, 0, 1]
      = { nGood := 95, parallax := 2, vP3D := [], vbTriangulated := [] } := by
    rw [h2, a1]
  apply List.ext_getElem
  · simp
  · intro n h1 h2
    rw [List.getElem_ofFn]
    have hn : n < 8 := by simpa using h1
    interval_cases n
    · exact e _ _ (by decide)
    · exact e _ _ (by decide)
    · exact e2
    · exact e _ _ (by decide)
    · exact e _ _ (by decide)
    · exact e _ _ (by decide)
    · exact e _ _ (by decide)
    · exact e _ _ (by decide)

/-- C18 with 100 inliers, singular values 3, 2, 1 and eight candidates of which only
the third has good points, 95 with parallax 2: that candidate is returned. -/
theorem ReconstructH_accepts_iff_witness :
    ∃ r, ReconstructH (List.replicate 100 true) 3 2 1 exampleRotations (fun _ => ![0, 0, 1])
      (checkRTExample 95 2) 1 50 = .ok (some r) := by
  have hst : trackLoop 0
      (List.ofFn (fun i : Fin 8 => checkRTExample 95 2 (exampleRotations i) ![0, 0, 1]))
      BestTrack.init
      = { bestGood := 95, secondBestGood := 0, bestSolutionIdx := 2, bestParallax := 2,
          bestP3D := [], bestTriangulated := [] } := by
    rw [example_candidates]
    rfl
  have h := (ReconstructH_accepts_iff (List.replicate 100 true) 3 2 1 exampleRotations
    (fun _ => ![0, 0, 1]) (checkRTExample 95 2) 1 50 _ _ rfl rfl
    (by norm_num [XFloat.div, XFloat.ltQ])).2.2.2.1
  rw [hst, countInliers_replicate] at h
  exact h.mpr (by norm_num)

/-! ## Image bounds -/

/-- C30. `ComputeImageBounds` with a non-zero first distortion coefficient sets `minX`
to the smaller x of the two undistorted left corners, `maxX` to the larger x of the two
right corners, `minY` to the smaller y of the two top corners and `maxY` to the larger y
of the two bottom corners; with `k1 = 0` the bounds are `(0, width, 0, height)`. -/
theorem ComputeImageBounds_eq (k1 : ℚ)
    (undistortCorners : (Fin 4 → ℚ × ℚ) → (Fin 4 → ℚ × ℚ)) (cols rows : Nat) :
    (k1 ≠ 0 →
      ComputeImageBounds k1 undistortCorners cols rows =
        (min (undistortCorners ![(0, 0), ((cols : ℚ), 0), (0, (rows : ℚ)),
                ((cols : ℚ), (rows : ℚ))] 0).1
             (undistortCorners ![(0, 0), ((cols : ℚ), 0), (0, (rows : ℚ)),
                ((cols : ℚ), (rows : ℚ))] 2).1,
         max (undistortCorners ![(0, 0), ((cols : ℚ), 0), (0, (rows : ℚ)),
                ((cols : ℚ), (rows : ℚ))] 1).1
             (undistortCorners ![(0, 0), ((cols : ℚ), 0), (0, (rows : ℚ)),
                ((cols : ℚ), (rows : ℚ))] 3).1,
         min (undistortCorners ![(0, 0), ((cols : ℚ), 0), (0, (rows : ℚ)),
                ((cols : ℚ), (rows : ℚ))] 0).2
             (undistortCorners ![(0, 0), ((cols : ℚ), 0), (0, (rows : ℚ)),
                ((cols : ℚ), (rows : ℚ))] 1).2,
         max (undistortCorners ![(0, 0), ((cols : ℚ), 0), (0, (rows : ℚ)),
                ((cols : ℚ), (rows : ℚ))] 2).2
             (undistortCorners ![(0, 0), ((cols : ℚ), 0), (0, (rows : ℚ)),
                ((cols : ℚ), (rows : ℚ))] 3).2)) ∧
    (k1 = 0 →
      ComputeImageBounds k1 undistortCorners cols rows = (0, (cols : ℚ), 0, (rows : ℚ))) := by
  constructor
  · intro h
    unfold ComputeImageBounds
    rw [if_pos h]
  · intro h
    unfold ComputeImageBounds
    rw [if_neg (not_not.mpr h)]

/-- C30, counterexample to the claim as stated.  When the undistorted top right corner
is at `x = -5` and the left corners at `x = 0`, `minX` is 0: it is not the minimum of
the four x coordinates, and the top right corner lies outside the bounds. -/
theorem bounds_miss_a_corner :
    ComputeImageBounds 1 foldedCorners 640 480 = (0, 640, 0, 480) ∧
    (foldedCorners ![(0, 0), (640, 0), (0, 480), (640, 480)] 1).1 = -5 ∧
    (foldedCorners ![(0, 0), (640, 0), (0, 480), (640, 480)] 1).1
      < (ComputeImageBounds 1 foldedCorners 640 480).1 := by
  have h : ComputeImageBounds 1 foldedCorners 640 480 = (0, 640, 0, 480) := by
    unfold ComputeImageBounds
    rw [if_pos one_ne_zero]
    norm_num [foldedCorners]
  refine ⟨h, rfl, ?_⟩
  rw [h]
  norm_num [foldedCorners]

/-! ## Initializer: the two-view geometry -/

/-- A product of two matrices with orthonormal columns has orthonormal columns. -/
theorem orth_mul (A B : Mat3) (hA : Matrix.transpose A * A = 1)
    (hB : Matrix.transpose B * B = 1) :
    Matrix.transpose (A * B) * (A * B) = 1 := by
  rw [Matrix.transpose_mul, Matrix.mul_assoc, ← Matrix.mul_assoc (Matrix.transpose A),
    hA, Matrix.one_mul, hB]

/-- The determinant of an orthogonal matrix squares to 1. -/
theorem det_sq_of_orth (A : Mat3) (hA : Matrix.transpose A * A = 1) :
    Matrix.det A * Matrix.det A = 1 := by
  have h := congrArg Matrix.det hA
  rw [Matrix.det_mul, Matrix.det_transpose, Matrix.det_one] at h
  exact h

/-- The sign correction of `DecomposeE` turns an orthogonal matrix into a proper
rotation. -/
theorem sign_fix_rotation (A : Mat3) (hA : Matrix.transpose A * A = 1) :
    Matrix.transpose (if Matrix.det A < 0 then -A else A)
        * (if Matrix.det A < 0 then -A else A) = 1 ∧
    Matrix.det (if Matrix.det A < 0 then -A else A) = 1 := by
  have hsq := det_sq_of_orth A hA
  by_cases h : Matrix.det A < 0
  · rw [if_pos h]
    constructor
    · rw [Matrix.transpose_neg, neg_mul_neg, hA]
    · rw [Matrix.det_neg]
      simp only [Fintype.card_fin]
      have h1 : Matrix.det A = -1 := by nlinarith
      rw [h1]
      norm_num
  · rw [if_neg h]
    refine ⟨hA, ?_⟩
    have h0 : 0 ≤ Matrix.det A := not_lt.mp h
    nlinarith

/-- The quarter turn `W` is orthogonal, and so is its transpose. -/
theorem quarterTurnZ_orth :
    Matrix.transpose quarterTurnZ * quarterTurnZ = 1 ∧
    Matrix.transpose (Matrix.transpose quarterTurnZ) * Matrix.transpose quarterTurnZ = 1 := by
  have ht : Matrix.transpose quarterTurnZ = !![0, 1, 0; -1, 0, 0; 0, 0, 1] := by
    ext i j
    fin_cases i <;> fin_cases j <;> rfl
  rw [Matrix.transpose_transpose, ht]
  unfold quarterTurnZ
  constructor
  · ext i j
    fin_cases i <;> fin_cases j <;>
      simp [Matrix.mul_apply, Fin.sum_univ_three, Matrix.one_apply, Matrix.vecHead,
        Matrix.vecTail]
  · ext i j
    fin_cases i <;> fin_cases j <;>
      simp [Matrix.mul_apply, Fin.sum_univ_three, Matrix.one_apply, Matrix.vecHead,
        Matrix.vecTail]

/-- C28. `DecomposeE` yields proper rotations.  The matrices returned are
`R1 = ±u*W*vt` and `R2 = ±u*W^T*vt`, with the minus sign exactly when the determinant of
the product is negative.  When the decomposition returns orthogonal `u` and `vt`, and
`cv::norm` returns the Euclidean norm of the third column of `u` (a non-negative number
whose square is the sum of the squares), `R1` and `R2` are orthogonal with determinant
`+1`, and the returned `t` is the third column of `u`, a vector of norm 1. -/
theorem DecomposeE_rotations (SVDcompute : Mat3 → Mat3 × Vec3 × Mat3) (norm : Vec3 → ℚ)
    (E : Mat3)
    (hu : Matrix.transpose (SVDcompute E).1 * (SVDcompute E).1 = 1)
    (hv : Matrix.transpose (SVDcompute E).2.2 * (SVDcompute E).2.2 = 1)
    (hnorm : 0 ≤ norm (fun i => (SVDcompute E).1 i 2) ∧
      norm (fun i => (SVDcompute E).1 i 2) * norm (fun i => (SVDcompute E).1 i 2)
        = Matrix.dotProduct (fun i => (SVDcompute E).1 i 2) (fun i => (SVDcompute E).1 i 2)) :
    (DecomposeE SVDcompute norm E).1
      = (if Matrix.det ((SVDcompute E).1 * quarterTurnZ * (SVDcompute E).2.2) < 0
          then -((SVDcompute E).1 * quarterTurnZ * (SVDcompute E).2.2)
          else (SVDcompute E).1 * quarterTurnZ * (SVDcompute E).2.2) ∧
    (DecomposeE SVDcompute norm E).2.1
      = (if Matrix.det ((SVDcompute E).1 * Matrix.transpose quarterTurnZ
            * (SVDcompute E).2.2) < 0
          then -((SVDcompute E).1 * Matrix.transpose quarterTurnZ * (SVDcompute E).2.2)
          else (SVDcompute E).1 * Matrix.transpose quarterTurnZ * (SVDcompute E).2.2) ∧
    Matrix.transpose (DecomposeE SVDcompute norm E).1 * (DecomposeE SVDcompute norm E).1 = 1 ∧
    Matrix.det (DecomposeE SVDcompute norm E).1 = 1 ∧
    Matrix.transpose (DecomposeE SVDcompute norm E).2.1
      * (DecomposeE SVDcompute norm E).2.1 = 1 ∧
    Matrix.det (DecomposeE SVDcompute norm E).2.1 = 1 ∧
    (∀ i, (DecomposeE SVDcompute norm E).2.2 i = XFloat.fin ((SVDcompute E).1 i 2)) ∧
    norm (fun i => (SVDcompute E).1 i 2) = 1 ∧
    Matrix.dotProduct (fun i => (SVDcompute E).1 i 2) (fun i => (SVDcompute E).1 i 2) = 1 := by
  obtain ⟨hW, hWt⟩ := quarterTurnZ_orth
  have hcol : Matrix.dotProduct (fun i => (SVDcompute E).1 i 2)
      (fun i => (SVDcompute E).1 i 2) = 1 := by
    have h := congrFun (congrFun hu 2) 2
    simp only [Matrix.mul_apply, Matrix.transpose_apply, Matrix.one_apply_eq] at h
    exact h
  have hn1 : norm (fun i => (SVDcompute E).1 i 2) = 1 := by
    have h := hnorm.2
    rw [hcol] at h
    nlinarith [hnorm.1]
  have h1 := sign_fix_rotation ((SVDcompute E).1 * quarterTurnZ * (SVDcompute E).2.2)
    (orth_mul _ _ (orth_mul _ _ hu hW) hv)
  have h2 := sign_fix_rotation
    ((SVDcompute E).1 * Matrix.transpose quarterTurnZ * (SVDcompute E).2.2)
    (orth_mul _ _ (orth_mul _ _ hu hWt) hv)
  refine ⟨rfl, rfl, h1.1, h1.2, h2.1, h2.2, ?_, hn1, hcol⟩
  intro i
  show XFloat.div ((SVDcompute E).1 i 2) (norm (fun i => (SVDcompute E).1 i 2)) = _
  rw [hn1]
  simp [XFloat.div]

/-- The Euclidean norm of the unit vector along z is 1. -/
theorem euclidNorm_unit_z : euclidNorm (fun i => (1 : Mat3) i 2) = 1 := by
  have h : (fun i => (1 : Mat3) i 2) 0 * (fun i => (1 : Mat3) i 2) 0
      + (fun i => (1 : Mat3) i 2) 1 * (fun i => (1 : Mat3) i 2) 1
      + (fun i => (1 : Mat3) i 2) 2 * (fun i => (1 : Mat3) i 2) 2 = 1 * 1 := by
    simp [Matrix.one_apply]
  unfold euclidNorm
  rw [h, Rat.sqrt_eq]
  norm_num

/-- The determinant of the quarter turn and of its transpose is 1. -/
theorem quarterTurnZ_det :
    Matrix.det quarterTurnZ = 1 ∧ Matrix.det (Matrix.transpose quarterTurnZ) = 1 := by
  have h : Matrix.det quarterTurnZ = 1 := by
    simp [Matrix.det_fin_three, quarterTurnZ]
  exact ⟨h, by rw [Matrix.det_transpose, h]⟩

/-- C28 for a decomposition with identity factors and the Euclidean norm: the
rotations returned are the quarter turn `W` about z and its transpose, both proper. -/
theorem DecomposeE_rotations_witness :
    (DecomposeE (fun _ => (1, ![1, 1, 0], 1)) euclidNorm 0).1 = quarterTurnZ ∧
    (DecomposeE (fun _ => (1, ![1, 1, 0], 1)) euclidNorm 0).2.1
      = Matrix.transpose quarterTurnZ ∧
    Matrix.det (DecomposeE (fun _ => (1, ![1, 1, 0], 1)) euclidNorm 0).1 = 1 ∧
    Matrix.det (DecomposeE (fun _ => (1, ![1, 1, 0], 1)) euclidNorm 0).2.1 = 1 := by
  have h := DecomposeE_rotations (fun _ => (1, ![1, 1, 0], 1)) euclidNorm 0
    (by simp) (by simp)
    ⟨by rw [euclidNorm_unit_z]; norm_num,
     by rw [euclidNorm_unit_z]; simp [Matrix.dotProduct, Fin.sum_univ_three, Matrix.one_apply]⟩
  refine ⟨?_, ?_, h.2.2.2.1, h.2.2.2.2.2.1⟩
  · rw [h.1]
    simp only [Matrix.one_mul, Matrix.mul_one]
    rw [if_neg (by rw [quarterTurnZ_det.1]; norm_num)]
  · rw [h.2.1]
    simp only [Matrix.one_mul, Matrix.mul_one]
    rw [if_neg (by rw [quarterTurnZ_det.2]; norm_num)]

/-- The matrix built by `Triangulate` annihilates the homogeneous coordinates of a
point that projects exactly onto the two keypoints. -/
theorem triangulationMatrix_null (P1 P2 : Mat34) (X : Vec3) (kp1 kp2 : KeyPoint)
    (hw1 : Matrix.mulVec P1 ![X 0, X 1, X 2, 1] 2 ≠ 0)
    (hw2 : Matrix.mulVec P2 ![X 0, X 1, X 2, 1] 2 ≠ 0)
    (hx1 : kp1.ptx = Matrix.mulVec P1 ![X 0, X 1, X 2, 1] 0
      / Matrix.mulVec P1 ![X 0, X 1, X 2, 1] 2)
    (hy1 : kp1.pty = Matrix.mulVec P1 ![X 0, X 1, X 2, 1] 1
      / Matrix.mulVec P1 ![X 0, X 1, X 2, 1] 2)
    (hx2 : kp2.ptx = Matrix.mulVec P2 ![X 0, X 1, X 2, 1] 0
      / Matrix.mulVec P2 ![X 0, X 1, X 2, 1] 2)
    (hy2 : kp2.pty = Matrix.mulVec P2 ![X 0, X 1, X 2, 1] 1
      / Matrix.mulVec P2 ![X 0, X 1, X 2, 1] 2) :
    Matrix.mulVec (triangulationMatrix kp1 kp2 P1 P2) ![X 0, X 1, X 2, 1] = 0 := by
  have key : ∀ (P : Mat34) (a : ℚ) (r : Fin 3),
      Matrix.mulVec P ![X 0, X 1, X 2, 1] 2 ≠ 0 →
      a = Matrix.mulVec P ![X 0, X 1, X 2, 1] r / Matrix.mulVec P ![X 0, X 1, X 2, 1] 2 →
      Matrix.dotProduct (fun j => a * P 2 j - P r j) ![X 0, X 1, X 2, 1] = 0 := by
    intro P a r hw ha
    have e : Matrix.dotProduct (fun j => a * P 2 j - P r j) ![X 0, X 1, X 2, 1]
        = a * Matrix.mulVec P ![X 0, X 1, X 2, 1] 2 - Matrix.mulVec P ![X 0, X 1, X 2, 1] r := by
      simp only [Matrix.mulVec, Matrix.dotProduct, Fin.sum_univ_four]
      ring
    rw [e, ha]
    field_simp
  funext i
  fin_cases i
  · exact key P1 kp1.ptx 0 hw1 hx1
  · exact key P1 kp1.pty 1 hw1 hy1
  · exact key P2 kp2.ptx 0 hw2 hx2
  · exact key P2 kp2.pty 1 hw2 hy2

/-- C26. Triangulation round trip.  Let `X` have non-zero projective depth in both
views and let `kp1`, `kp2` be its exact projections.  Then the matrix `A` built by
`Triangulate` satisfies `A*(X,1) = 0`; and whenever the null space of `A` is the line
through `(X,1)` and the decomposition returns a non-zero null vector of `A` as last row
of `vt`, the point returned by `Triangulate` is `X`. -/
theorem Triangulate_round_trip (P1 P2 : Mat34) (X : Vec3) (kp1 kp2 : KeyPoint)
    (hw1 : Matrix.mulVec P1 ![X 0, X 1, X 2, 1] 2 ≠ 0)
    (hw2 : Matrix.mulVec P2 ![X 0, X 1, X 2, 1] 2 ≠ 0)
    (hx1 : kp1.ptx = Matrix.mulVec P1 ![X 0, X 1, X 2, 1] 0
      / Matrix.mulVec P1 ![X 0, X 1, X 2, 1] 2)
    (hy1 : kp1.pty = Matrix.mulVec P1 ![X 0, X 1, X 2, 1] 1
      / Matrix.mulVec P1 ![X 0, X 1, X 2, 1] 2)
    (hx2 : kp2.ptx = Matrix.mulVec P2 ![X 0, X 1, X 2, 1] 0
      / Matrix.mulVec P2 ![X 0, X 1, X 2, 1] 2)
    (hy2 : kp2.pty = Matrix.mulVec P2 ![X 0, X 1, X 2, 1] 1
      / Matrix.mulVec P2 ![X 0, X 1, X 2, 1] 2) :
    Matrix.mulVec (triangulationMatrix kp1 kp2 P1 P2) ![X 0, X 1, X 2, 1] = 0 ∧
    ∀ (SVDcompute : Mat4 → Mat4),
      (∀ y : Fin 4 → ℚ, Matrix.mulVec (triangulationMatrix kp1 kp2 P1 P2) y = 0 →
        ∃ c : ℚ, y = c • ![X 0, X 1, X 2, 1]) →
      Matrix.mulVec (triangulationMatrix kp1 kp2 P1 P2)
        (fun j => SVDcompute (triangulationMatrix kp1 kp2 P1 P2) 3 j) = 0 →
      (fun j => SVDcompute (triangulationMatrix kp1 kp2 P1 P2) 3 j) ≠ 0 →
      ∀ i, Triangulate SVDcompute kp1 kp2 P1 P2 i = XFloat.fin (X i) := by
  refine ⟨triangulationMatrix_null P1 P2 X kp1 kp2 hw1 hw2 hx1 hy1 hx2 hy2, ?_⟩
  intro SVDcompute hnull hv hv0 i
  obtain ⟨c, hc⟩ := hnull _ hv
  have hc0 : c ≠ 0 := by
    intro h0
    apply hv0
    rw [hc, h0, zero_smul]
  have h3 : SVDcompute (triangulationMatrix kp1 kp2 P1 P2) 3 3 = c := by
    have := congrFun hc 3
    simpa using this
  have hi : SVDcompute (triangulationMatrix kp1 kp2 P1 P2) 3 (Fin.castSucc i) = c * X i := by
    have := congrFun hc (Fin.castSucc i)
    fin_cases i <;> simpa using this
  show XFloat.div (SVDcompute (triangulationMatrix kp1 kp2 P1 P2) 3 (Fin.castSucc i))
    (SVDcompute (triangulationMatrix kp1 kp2 P1 P2) 3 3) = _
  rw [h3, hi, XFloat.div_of_ne _ _ hc0]
  congr 1
  field_simp

/-- The matrix `A` of the example: keypoints `(0, 0)` and `(1, 0)` seen through
`[I | 0]` and `[I | (1, 0, 0)]`. -/
theorem triangulationMatrix_example :
    triangulationMatrix { ptx := 0, pty := 0, octave := 0 } { ptx := 1, pty := 0, octave := 0 }
      canonicalP shiftedP
      = !![-1, 0, 0, 0; 0, -1, 0, 0; -1, 0, 1, -1; 0, -1, 0, 0] := by
  ext i j
  fin_cases i <;> fin_cases j <;> simp [triangulationMatrix, canonicalP, shiftedP]

/-- C26 for the point `(0, 0, 1)` seen through `[I | 0]` and `[I | (1, 0, 0)]`, with a
decomposition that returns the null vector `(0, 0, 2, 2)`: the point is recovered. -/
theorem Triangulate_round_trip_witness :
    Triangulate svdExample { ptx := 0, pty := 0, octave := 0 }
        { ptx := 1, pty := 0, octave := 0 } canonicalP shiftedP 0 = XFloat.fin 0 ∧
    Triangulate svdExample { ptx := 0, pty := 0, octave := 0 }
        { ptx := 1, pty := 0, octave := 0 } canonicalP shiftedP 1 = XFloat.fin 0 ∧
    Triangulate svdExample { ptx := 0, pty := 0, octave := 0 }
        { ptx := 1, pty := 0, octave := 0 } canonicalP shiftedP 2 = XFloat.fin 1 := by
  suffices hall : ∀ i, Triangulate svdExample { ptx := 0, pty := 0, octave := 0 }
      { ptx := 1, pty := 0, octave := 0 } canonicalP shiftedP i
        = XFloat.fin ((![0, 0, 1] : Vec3) i) from ⟨hall 0, hall 1, hall 2⟩
  have h := (Triangulate_round_trip canonicalP shiftedP ![0, 0, 1]
    { ptx := 0, pty := 0, octave := 0 } { ptx := 1, pty := 0, octave := 0 }
    (by simp [canonicalP, Matrix.mulVec, Matrix.dotProduct, Fin.sum_univ_four])
    (by simp [shiftedP, Matrix.mulVec, Matrix.dotProduct, Fin.sum_univ_four])
    (by simp [canonicalP, Matrix.mulVec, Matrix.dotProduct, Fin.sum_univ_four])
    (by simp [canonicalP, Matrix.mulVec, Matrix.dotProduct, Fin.sum_univ_four])
    (by simp [shiftedP, Matrix.mulVec, Matrix.dotProduct, Fin.sum_univ_four])
    (by simp [shiftedP, Matrix.mulVec, Matrix.dotProduct, Fin.sum_univ_four])).2 svdExample
  rw [triangulationMatrix_example] at h
  apply h
  · intro y hy
    have h0 := congrFun hy 0
    have h1 := congrFun hy 1
    have h2 := congrFun hy 2
    simp [Matrix.mulVec, Matrix.dotProduct, Fin.sum_univ_four] at h0 h1 h2
    refine ⟨y 3, ?_⟩
    funext j
    fin_cases j
    · simpa using h0
    · simpa using h1
    · simp; linarith
    · simp
  · funext j
    fin_cases j <;> simp [svdExample, Matrix.mulVec, Matrix.dotProduct, Fin.sum_univ_four]
  · intro h0
    have := congrFun h0 3
    simp [svdExample] at this

/-- With a non-zero `sigma` and a non-zero projective denominator the transfer
statistic is the squared transfer distance divided by `sigma^2`. -/
theorem transferChiSquare_fin (h : Mat3) (sigma u0 v0 u v : ℚ) (hs : sigma ≠ 0)
    (hden : h 2 0 * u + h 2 1 * v + h 2 2 ≠ 0) :
    transferChiSquare h (XFloat.div 1 (sigma * sigma)) u0 v0 u v
      = XFloat.fin (transferDist2 h u0 v0 u v / sigma ^ 2) := by
  have hs2 : sigma * sigma ≠ 0 := mul_ne_zero hs hs
  unfold transferChiSquare transferDist2
  simp only [XFloat.div_of_ne _ _ hden, XFloat.div_of_ne _ _ hs2, XFloat.scale, XFloat.rsub,
    XFloat.mul, XFloat.add]
  congr 1
  field_simp
  ring

/-- With a non-zero `sigma` and an epipolar line not at infinity the epipolar
statistic is the squared point-to-line distance divided by `sigma^2`. -/
theorem epipolarChiSquare_fin (F : Mat3) (sigma u v u0 v0 : ℚ) (hs : sigma ≠ 0)
    (hline : (F 0 0 * u + F 0 1 * v + F 0 2) * (F 0 0 * u + F 0 1 * v + F 0 2)
      + (F 1 0 * u + F 1 1 * v + F 1 2) * (F 1 0 * u + F 1 1 * v + F 1 2) ≠ 0) :
    epipolarChiSquare F (XFloat.div 1 (sigma * sigma)) u v u0 v0
      = XFloat.fin (epipolarDist2 F u v u0 v0 / sigma ^ 2) := by
  have hs2 : sigma * sigma ≠ 0 := mul_ne_zero hs hs
  have hline2 : (F 0 0 * u + F 0 1 * v + F 0 2) ^ 2 + (F 1 0 * u + F 1 1 * v + F 1 2) ^ 2 ≠ 0 := by
    rw [pow_two, pow_two]
    exact hline
  unfold epipolarChiSquare epipolarDist2
  simp only [XFloat.div_of_ne _ _ hline, XFloat.div_of_ne _ _ hs2, XFloat.scale, XFloat.mul]
  congr 1
  field_simp
  ring

/-- The test of one direction on finite values. -/
theorem scoreDirection_fin (th thScore c s : ℚ) (b : Bool) :
    scoreDirection th thScore (XFloat.fin c) (XFloat.fin s, b)
      = (XFloat.fin (s + directionScore th thScore c), b && decide (c ≤ th)) := by
  unfold scoreDirection directionScore
  by_cases h : c ≤ th
  · have hg : XFloat.gtQ (XFloat.fin c) th = false := by
      simp [XFloat.gtQ, h]
    simp [hg, h, XFloat.add, XFloat.rsub]
  · have hg : XFloat.gtQ (XFloat.fin c) th = true := by
      simp only [XFloat.gtQ, decide_eq_true_eq]
      exact not_le.mp h
    simp [hg, h]

/-- The scoring loop on matches whose keypoints exist and whose two statistics are
the finite values `c1` and `c2`: the score grows by the contributions of the accepted
directions, and each pair is flagged exactly when both directions are accepted. -/
theorem scoreLoop_fin (th thScore : ℚ) (chi1 chi2 : KeyPoint → KeyPoint → XFloat)
    (c1 c2 : KeyPoint → KeyPoint → ℚ) (mvKeys1 mvKeys2 : List KeyPoint) :
    ∀ (mvMatches12 : List (Nat × Nat)) (pairs : List (KeyPoint × KeyPoint)),
      List.Forall₂ (fun (m : Nat × Nat) (p : KeyPoint × KeyPoint) =>
        mvKeys1[m.1]? = some p.1 ∧ mvKeys2[m.2]? = some p.2) mvMatches12 pairs →
      (∀ p, p ∈ pairs → chi1 p.1 p.2 = XFloat.fin (c1 p.1 p.2) ∧
        chi2 p.1 p.2 = XFloat.fin (c2 p.1 p.2)) →
      ∀ (s : ℚ) (flags : List Bool),
        scoreLoop th thScore chi1 chi2 mvKeys1 mvKeys2 mvMatches12 (XFloat.fin s, flags)
          = .ok (XFloat.fin (s + (pairs.map (fun p =>
                directionScore th thScore (c1 p.1 p.2)
                  + directionScore th thScore (c2 p.1 p.2))).sum),
              flags ++ pairs.map (fun p =>
                decide (c1 p.1 p.2 ≤ th) && decide (c2 p.1 p.2 ≤ th))) := by
  intro mvMatches12 pairs hp
  induction hp with
  | nil =>
    intro _ s flags
    simp [scoreLoop]
  | @cons m p ms ps hmp _ ih =>
    intro hfin s flags
    obtain ⟨hc1, hc2⟩ := hfin p (List.mem_cons_self _ _)
    unfold scoreLoop
    simp only [hmp.1, hmp.2, hc1, hc2, scoreDirection_fin]
    rw [ih (fun q hq => hfin q (List.mem_cons_of_mem _ hq))]
    simp only [List.map_cons, List.sum_cons, Bool.true_and, List.append_assoc,
      List.singleton_append]
    congr 3
    ring

/-- The entries of the identity matrix. -/
theorem one_entries :
    (1 : Mat3) 0 0 = 1 ∧ (1 : Mat3) 0 1 = 0 ∧ (1 : Mat3) 0 2 = 0 ∧
    (1 : Mat3) 1 0 = 0 ∧ (1 : Mat3) 1 1 = 1 ∧ (1 : Mat3) 1 2 = 0 ∧
    (1 : Mat3) 2 0 = 0 ∧ (1 : Mat3) 2 1 = 0 ∧ (1 : Mat3) 2 2 = 1 :=
  ⟨Matrix.one_apply_eq 0, Matrix.one_apply_ne (by decide), Matrix.one_apply_ne (by decide),
   Matrix.one_apply_ne (by decide), Matrix.one_apply_eq 1, Matrix.one_apply_ne (by decide),
   Matrix.one_apply_ne (by decide), Matrix.one_apply_ne (by decide), Matrix.one_apply_eq 2⟩

/-- The entries of the example fundamental matrix and of its transpose. -/
theorem translationF_entries :
    (translationF 0 0 = 0 ∧ translationF 0 1 = 0 ∧ translationF 0 2 = 0 ∧
     translationF 1 0 = 0 ∧ translationF 1 1 = 0 ∧ translationF 1 2 = -1 ∧
     translationF 2 0 = 0 ∧ translationF 2 1 = 1 ∧ translationF 2 2 = 0) ∧
    (Matrix.transpose translationF 0 0 = 0 ∧ Matrix.transpose translationF 0 1 = 0 ∧
     Matrix.transpose translationF 0 2 = 0 ∧ Matrix.transpose translationF 1 0 = 0 ∧
     Matrix.transpose translationF 1 1 = 0 ∧ Matrix.transpose translationF 1 2 = 1 ∧
     Matrix.transpose translationF 2 0 = 0 ∧ Matrix.transpose translationF 2 1 = -1 ∧
     Matrix.transpose translationF 2 2 = 0) :=
  ⟨⟨rfl, rfl, rfl, rfl, rfl, rfl, rfl, rfl, rfl⟩, ⟨rfl, rfl, rfl, rfl, rfl, rfl, rfl, rfl, rfl⟩⟩

/-- One pass of the scoring loop when both keypoints exist. -/
theorem scoreLoop_cons_some (th thScore : ℚ) (chi1 chi2 : KeyPoint → KeyPoint → XFloat)
    (mvKeys1 mvKeys2 : List KeyPoint) (m : Nat × Nat) (rest : List (Nat × Nat))
    (score : XFloat) (flags : List Bool) (kp1 kp2 : KeyPoint)
    (h1 : mvKeys1[m.1]? = some kp1) (h2 : mvKeys2[m.2]? = some kp2) :
    scoreLoop th thScore chi1 chi2 mvKeys1 mvKeys2 (m :: rest) (score, flags)
      = scoreLoop th thScore chi1 chi2 mvKeys1 mvKeys2 rest
          ((scoreDirection th thScore (chi2 kp1 kp2)
              (scoreDirection th thScore (chi1 kp1 kp2) (score, true))).1,
           flags ++ [(scoreDirection th thScore (chi2 kp1 kp2)
              (scoreDirection th thScore (chi1 kp1 kp2) (score, true))).2]) := by
  simp only [scoreLoop, h1, h2]

/-- One pass of the scoring loop when a keypoint index is out of range. -/
theorem scoreLoop_cons_none (th thScore : ℚ) (chi1 chi2 : KeyPoint → KeyPoint → XFloat)
    (mvKeys1 mvKeys2 : List KeyPoint) (m : Nat × Nat) (rest : List (Nat × Nat))
    (st : XFloat × List Bool)
    (h : mvKeys1[m.1]? = none ∨ mvKeys2[m.2]? = none) :
    scoreLoop th thScore chi1 chi2 mvKeys1 mvKeys2 (m :: rest) st
      = .error Fault.keypointIndex := by
  obtain ⟨score, flags⟩ := st
  rcases h with h | h
  · simp only [scoreLoop, h]
  · cases h1 : mvKeys1[m.1]? <;> simp only [scoreLoop, h, h1]

/-- The scoring loop over a concatenation runs over the first part and then over the
second. -/
theorem scoreLoop_append (th thScore : ℚ) (chi1 chi2 : KeyPoint → KeyPoint → XFloat)
    (mvKeys1 mvKeys2 : List KeyPoint) :
    ∀ (l1 l2 : List (Nat × Nat)) (st : XFloat × List Bool),
      scoreLoop th thScore chi1 chi2 mvKeys1 mvKeys2 (l1 ++ l2) st
        = match scoreLoop th thScore chi1 chi2 mvKeys1 mvKeys2 l1 st with
          | .ok st1 => scoreLoop th thScore chi1 chi2 mvKeys1 mvKeys2 l2 st1
          | .error e => .error e := by
  intro l1
  induction l1 with
  | nil => intro l2 st; rfl
  | cons m rest ih =>
    intro l2 st
    obtain ⟨score, flags⟩ := st
    simp only [List.cons_append]
    cases h1 : mvKeys1[m.1]? with
    | none =>
      rw [scoreLoop_cons_none _ _ _ _ _ _ _ _ _ (Or.inl h1),
        scoreLoop_cons_none _ _ _ _ _ _ _ _ _ (Or.inl h1)]
    | some kp1 =>
      cases h2 : mvKeys2[m.2]? with
      | none =>
        rw [scoreLoop_cons_none _ _ _ _ _ _ _ _ _ (Or.inr h2),
          scoreLoop_cons_none _ _ _ _ _ _ _ _ _ (Or.inr h2)]
      | some kp2 =>
        rw [scoreLoop_cons_some _ _ _ _ _ _ _ _ _ _ kp1 kp2 h1 h2,
          scoreLoop_cons_some _ _ _ _ _ _ _ _ _ _ kp1 kp2 h1 h2]
        exact ih l2 _

/-- The score returned by the scoring loop does not depend on the flags already
written. -/
theorem scoreLoop_score_indep (th thScore : ℚ) (chi1 chi2 : KeyPoint → KeyPoint → XFloat)
    (mvKeys1 mvKeys2 : List KeyPoint) :
    ∀ (l : List (Nat × Nat)) (s : XFloat) (fl1 fl2 : List Bool),
      Except.map Prod.fst (scoreLoop th thScore chi1 chi2 mvKeys1 mvKeys2 l (s, fl1))
        = Except.map Prod.fst (scoreLoop th thScore chi1 chi2 mvKeys1 mvKeys2 l (s, fl2)) := by
  intro l
  induction l with
  | nil => intro s fl1 fl2; rfl
  | cons m rest ih =>
    intro s fl1 fl2
    cases h1 : mvKeys1[m.1]? with
    | none =>
      rw [scoreLoop_cons_none _ _ _ _ _ _ _ _ _ (Or.inl h1),
        scoreLoop_cons_none _ _ _ _ _ _ _ _ _ (Or.inl h1)]
    | some kp1 =>
      cases h2 : mvKeys2[m.2]? with
      | none =>
        rw [scoreLoop_cons_none _ _ _ _ _ _ _ _ _ (Or.inr h2),
          scoreLoop_cons_none _ _ _ _ _ _ _ _ _ (Or.inr h2)]
      | some kp2 =>
        rw [scoreLoop_cons_some _ _ _ _ _ _ _ _ _ _ kp1 kp2 h1 h2,
          scoreLoop_cons_some _ _ _ _ _ _ _ _ _ _ kp1 kp2 h1 h2]
        exact ih _ _ _

/-- The scoring loop over matches that are rejected in both directions leaves the
score as it is and flags every one of them as outlier. -/
theorem scoreLoop_outliers (th thScore : ℚ) (chi1 chi2 : KeyPoint → KeyPoint → XFloat)
    (mvKeys1 mvKeys2 : List KeyPoint) :
    ∀ (out : List (Nat × Nat)),
      (∀ m, m ∈ out → ∃ kp1 kp2, mvKeys1[m.1]? = some kp1 ∧ mvKeys2[m.2]? = some kp2 ∧
        XFloat.gtQ (chi1 kp1 kp2) th = true ∧ XFloat.gtQ (chi2 kp1 kp2) th = true) →
      ∀ (s : XFloat) (flags : List Bool),
        scoreLoop th thScore chi1 chi2 mvKeys1 mvKeys2 out (s, flags)
          = .ok (s, flags ++ List.replicate out.length false) := by
  intro out
  induction out with
  | nil => intro _ s flags; simp [scoreLoop]
  | cons m rest ih =>
    intro hout s flags
    obtain ⟨kp1, kp2, h1, h2, g1, g2⟩ := hout m (List.mem_cons_self _ _)
    rw [scoreLoop_cons_some _ _ _ _ _ _ _ _ _ _ kp1 kp2 h1 h2]
    simp only [scoreDirection, g1, g2, if_true]
    rw [ih (fun q hq => hout q (List.mem_cons_of_mem _ hq))]
    simp [List.replicate_succ]

/-- Injecting matches that are rejected in both directions anywhere into the match
list leaves the score of the scoring loop unchanged. -/
theorem scoreLoop_inject (th thScore : ℚ) (chi1 chi2 : KeyPoint → KeyPoint → XFloat)
    (mvKeys1 mvKeys2 : List KeyPoint) (l1 out l2 : List (Nat × Nat))
    (hout : ∀ m, m ∈ out → ∃ kp1 kp2, mvKeys1[m.1]? = some kp1 ∧ mvKeys2[m.2]? = some kp2 ∧
      XFloat.gtQ (chi1 kp1 kp2) th = true ∧ XFloat.gtQ (chi2 kp1 kp2) th = true)
    (st : XFloat × List Bool) :
    Except.map Prod.fst
        (scoreLoop th thScore chi1 chi2 mvKeys1 mvKeys2 (l1 ++ out ++ l2) st)
      = Except.map Prod.fst (scoreLoop th thScore chi1 chi2 mvKeys1 mvKeys2 (l1 ++ l2) st) := by
  rw [List.append_assoc, scoreLoop_append, scoreLoop_append _ _ _ _ _ _ l1 l2]
  cases h : scoreLoop th thScore chi1 chi2 mvKeys1 mvKeys2 l1 st with
  | error e => rfl
  | ok st1 =>
    obtain ⟨s1, fl1⟩ := st1
    simp only []
    rw [scoreLoop_append, scoreLoop_outliers th thScore chi1 chi2 mvKeys1 mvKeys2 out hout]
    simp only []
    exact scoreLoop_score_indep th thScore chi1 chi2 mvKeys1 mvKeys2 l2 s1 _ _

/-- C23. Injecting outliers does not change the score.  For a fixed model, injecting
any number of correspondences whose statistics exceed the threshold in both directions
anywhere into a match list leaves the score returned by `CheckHomography` and the score
returned by `CheckFundamental` exactly as they were: a rejected direction adds nothing
to the score. -/
theorem outliers_leave_score (H21 H12 F21 : Mat3) (sigma : ℚ)
    (mvKeys1 mvKeys2 : List KeyPoint) (l1 out l2 : List (Nat × Nat))
    (houtH : ∀ m, m ∈ out → ∃ kp1 kp2, mvKeys1[m.1]? = some kp1 ∧ mvKeys2[m.2]? = some kp2 ∧
      XFloat.gtQ (transferChiSquare H12 (XFloat.div 1 (sigma * sigma))
        kp1.ptx kp1.pty kp2.ptx kp2.pty) (5991 / 1000) = true ∧
      XFloat.gtQ (transferChiSquare H21 (XFloat.div 1 (sigma * sigma))
        kp2.ptx kp2.pty kp1.ptx kp1.pty) (5991 / 1000) = true)
    (houtF : ∀ m, m ∈ out → ∃ kp1 kp2, mvKeys1[m.1]? = some kp1 ∧ mvKeys2[m.2]? = some kp2 ∧
      XFloat.gtQ (epipolarChiSquare F21 (XFloat.div 1 (sigma * sigma))
        kp1.ptx kp1.pty kp2.ptx kp2.pty) (3841 / 1000) = true ∧
      XFloat.gtQ (epipolarChiSquare (Matrix.transpose F21) (XFloat.div 1 (sigma * sigma))
        kp2.ptx kp2.pty kp1.ptx kp1.pty) (3841 / 1000) = true) :
    Except.map Prod.fst (CheckHomography H21 H12 mvKeys1 mvKeys2 (l1 ++ out ++ l2) sigma)
      = Except.map Prod.fst (CheckHomography H21 H12 mvKeys1 mvKeys2 (l1 ++ l2) sigma) ∧
    Except.map Prod.fst (CheckFundamental F21 mvKeys1 mvKeys2 (l1 ++ out ++ l2) sigma)
      = Except.map Prod.fst (CheckFundamental F21 mvKeys1 mvKeys2 (l1 ++ l2) sigma) := by
  constructor
  · unfold CheckHomography
    exact scoreLoop_inject _ _ _ _ mvKeys1 mvKeys2 l1 out l2 houtH _
  · unfold CheckFundamental
    exact scoreLoop_inject _ _ _ _ mvKeys1 mvKeys2 l1 out l2 houtF _

/-- The two statistics of the example pairs under the identity homography with
`sigma = 1`: the squared distance between the two points. -/
theorem transferChiSquare_example (u0 v0 u v : ℚ) :
    transferChiSquare 1 (XFloat.div 1 (1 * 1)) u0 v0 u v
      = XFloat.fin ((u0 - u) ^ 2 + (v0 - v) ^ 2) := by
  obtain ⟨e00, e01, e02, e10, e11, e12, e20, e21, e22⟩ := one_entries
  rw [transferChiSquare_fin 1 1 u0 v0 u v one_ne_zero (by simp [e20, e21, e22])]
  simp [transferDist2, e00, e01, e02, e10, e11, e12, e20, e21, e22]

/-- The two statistics of a pair under the example fundamental matrix with
`sigma = 1`: the squared difference of the rows. -/
theorem epipolarChiSquare_example (u v u0 v0 : ℚ) :
    epipolarChiSquare translationF (XFloat.div 1 (1 * 1)) u v u0 v0
      = XFloat.fin ((v - v0) ^ 2) ∧
    epipolarChiSquare (Matrix.transpose translationF) (XFloat.div 1 (1 * 1)) u0 v0 u v
      = XFloat.fin ((v - v0) ^ 2) := by
  obtain ⟨⟨e00, e01, e02, e10, e11, e12, e20, e21, e22⟩,
    ⟨t00, t01, t02, t10, t11, t12, t20, t21, t22⟩⟩ := translationF_entries
  constructor
  · rw [epipolarChiSquare_fin translationF 1 u v u0 v0 one_ne_zero
      (by simp only [e00, e01, e02, e10, e11, e12]; norm_num)]
    simp only [epipolarDist2, e00, e01, e02, e10, e11, e12, e20, e21, e22]
    congr 1
    ring
  · rw [epipolarChiSquare_fin (Matrix.transpose translationF) 1 u0 v0 u v one_ne_zero
      (by simp only [t00, t01, t02, t10, t11, t12]; norm_num)]
    simp only [epipolarDist2, t00, t01, t02, t10, t11, t12, t20, t21, t22]
    congr 1
    ring

/-- C23 on the match list `[(0,0)]` with the second pair, 10 pixels apart, injected
after it: the scores of both models are the same with and without the injected pair. -/
theorem outliers_leave_score_witness :
    Except.map Prod.fst (CheckHomography 1 1
        [{ ptx := 0, pty := 0, octave := 0 }, { ptx := 0, pty := 0, octave := 0 }]
        [{ ptx := 0, pty := 1, octave := 0 }, { ptx := 0, pty := 10, octave := 0 }]
        ([(0, 0)] ++ [(1, 1)] ++ []) 1)
      = Except.map Prod.fst (CheckHomography 1 1
        [{ ptx := 0, pty := 0, octave := 0 }, { ptx := 0, pty := 0, octave := 0 }]
        [{ ptx := 0, pty := 1, octave := 0 }, { ptx := 0, pty := 10, octave := 0 }]
        ([(0, 0)] ++ []) 1) ∧
    Except.map Prod.fst (CheckFundamental translationF
        [{ ptx := 0, pty := 0, octave := 0 }, { ptx := 0, pty := 0, octave := 0 }]
        [{ ptx := 0, pty := 1, octave := 0 }, { ptx := 0, pty := 10, octave := 0 }]
        ([(0, 0)] ++ [(1, 1)] ++ []) 1)
      = Except.map Prod.fst (CheckFundamental translationF
        [{ ptx := 0, pty := 0, octave := 0 }, { ptx := 0, pty := 0, octave := 0 }]
        [{ ptx := 0, pty := 1, octave := 0 }, { ptx := 0, pty := 10, octave := 0 }]
        ([(0, 0)] ++ []) 1) :=
  outliers_leave_score 1 1 translationF 1
    [{ ptx := 0, pty := 0, octave := 0 }, { ptx := 0, pty := 0, octave := 0 }]
    [{ ptx := 0, pty := 1, octave := 0 }, { ptx := 0, pty := 10, octave := 0 }]
    [(0, 0)] [(1, 1)] []
    (by
      intro m hm
      rw [List.mem_singleton] at hm
      subst hm
      refine ⟨{ ptx := 0, pty := 0, octave := 0 }, { ptx := 0, pty := 10, octave := 0 },
        rfl, rfl, ?_, ?_⟩
      · rw [transferChiSquare_example]
        norm_num [XFloat.gtQ]
      · rw [transferChiSquare_example]
        norm_num [XFloat.gtQ])
    (by
      intro m hm
      rw [List.mem_singleton] at hm
      subst hm
      refine ⟨{ ptx := 0, pty := 0, octave := 0 }, { ptx := 0, pty := 10, octave := 0 },
        rfl, rfl, ?_, ?_⟩
      · rw [(epipolarChiSquare_example 0 0 0 10).1]
        norm_num [XFloat.gtQ]
      · rw [(epipolarChiSquare_example 0 0 0 10).2]
        norm_num [XFloat.gtQ])

/-- C23, counterexample to the claim as stated.  Under the identity homography with
`sigma = 1`, the single inlier pair one pixel apart scores `2*(5.991 - 1)`; injecting a
pair 10 pixels apart, rejected in both directions, gives the same score `2*(5.991 - 1)`,
not a smaller one. -/
theorem injected_outlier_keeps_score :
    CheckHomography 1 1
        [{ ptx := 0, pty := 0, octave := 0 }, { ptx := 0, pty := 0, octave := 0 }]
        [{ ptx := 0, pty := 1, octave := 0 }, { ptx := 0, pty := 10, octave := 0 }]
        [(0, 0)] 1
      = .ok (XFloat.fin (9982 / 1000), [true]) ∧
    CheckHomography 1 1
        [{ ptx := 0, pty := 0, octave := 0 }, { ptx := 0, pty := 0, octave := 0 }]
        [{ ptx := 0, pty := 1, octave := 0 }, { ptx := 0, pty := 10, octave := 0 }]
        [(0, 0), (1, 1)] 1
      = .ok (XFloat.fin (9982 / 1000), [true, false]) ∧
    ¬ ((9982 / 1000 : ℚ) < 9982 / 1000) := by
  refine ⟨?_, ?_, lt_irrefl _⟩
  · unfold CheckHomography
    rw [scoreLoop_fin _ _ _ _ (fun kp1 kp2 => (kp1.ptx - kp2.ptx) ^ 2 + (kp1.pty - kp2.pty) ^ 2)
      (fun kp1 kp2 => (kp2.ptx - kp1.ptx) ^ 2 + (kp2.pty - kp1.pty) ^ 2) _ _ _
      [({ ptx := 0, pty := 0, octave := 0 }, { ptx := 0, pty := 1, octave := 0 })]
      (List.Forall₂.cons ⟨rfl, rfl⟩ List.Forall₂.nil)
      (fun p _ => ⟨transferChiSquare_example _ _ _ _, transferChiSquare_example _ _ _ _⟩)]
    norm_num [directionScore]
  · unfold CheckHomography
    rw [scoreLoop_fin _ _ _ _ (fun kp1 kp2 => (kp1.ptx - kp2.ptx) ^ 2 + (kp1.pty - kp2.pty) ^ 2)
      (fun kp1 kp2 => (kp2.ptx - kp1.ptx) ^ 2 + (kp2.pty - kp1.pty) ^ 2) _ _ _
      [({ ptx := 0, pty := 0, octave := 0 }, { ptx := 0, pty := 1, octave := 0 }),
       ({ ptx := 0, pty := 0, octave := 0 }, { ptx := 0, pty := 10, octave := 0 })]
      (List.Forall₂.cons ⟨rfl, rfl⟩ (List.Forall₂.cons ⟨rfl, rfl⟩ List.Forall₂.nil))
      (fun p _ => ⟨transferChiSquare_example _ _ _ _, transferChiSquare_example _ _ _ _⟩)]
    norm_num [directionScore]

/-! ## Initializer: cheirality test -/

/-- The body of the loop of `CheckRT` for a match flagged inlier whose keypoints exist
and whose triangulated point has the finite coordinates `(x, y, z)`: the four tests in
the order of the source. -/
theorem checkRTMatch_finite (SVDcompute : Mat4 → Mat4) (norm : Vec3 → ℚ) (R : Mat3)
    (t : Vec3) (vKeys1 vKeys2 : List KeyPoint) (vbMatchesInliers : List Bool) (K : Mat3)
    (th2 : ℚ) (i : Nat) (m : Nat × Nat) (st : CheckRTState) (kp1 kp2 : KeyPoint)
    (x y z : ℚ)
    (hin : vbMatchesInliers[i]? = some true)
    (hk1 : vKeys1[m.1]? = some kp1) (hk2 : vKeys2[m.2]? = some kp2)
    (h0 : Triangulate SVDcompute kp1 kp2 (projectionOne K) (projectionTwo K R t) 0
      = XFloat.fin x)
    (h1 : Triangulate SVDcompute kp1 kp2 (projectionOne K) (projectionTwo K R t) 1
      = XFloat.fin y)
    (h2 : Triangulate SVDcompute kp1 kp2 (projectionOne K) (projectionTwo K R t) 2
      = XFloat.fin z) :
    checkRTMatch SVDcompute norm R t vKeys1 vKeys2 vbMatchesInliers K th2 i m st =
      if z ≤ 0 ∧ XFloat.ltQ (cosParallaxOf norm 0 (Matrix.mulVec (-(Matrix.transpose R)) t)
          ![x, y, z]) (99998 / 100000) = true then .ok st
      else if (Matrix.mulVec R ![x, y, z] + t) 2 ≤ 0 ∧
          XFloat.ltQ (cosParallaxOf norm 0 (Matrix.mulVec (-(Matrix.transpose R)) t)
            ![x, y, z]) (99998 / 100000) = true then .ok st
      else if XFloat.gtQ (squareReprojError (K 0 0) (K 1 1) (K 0 2) (K 1 2) ![x, y, z] kp1)
          th2 = true then .ok st
      else if XFloat.gtQ (squareReprojError (K 0 0) (K 1 1) (K 0 2) (K 1 2)
          (Matrix.mulVec R ![x, y, z] + t) kp2) th2 = true then .ok st
      else .ok { nGood := st.nGood + 1,
                 vP3D := st.vP3D.set m.1 ![x, y, z],
                 vbGood :=
                   if XFloat.ltQ (cosParallaxOf norm 0
                       (Matrix.mulVec (-(Matrix.transpose R)) t) ![x, y, z])
                       (99998 / 100000) = true then
                     st.vbGood.set m.1 true
                   else st.vbGood,
                 vCosParallax := st.vCosParallax ++
                   [cosParallaxOf norm 0 (Matrix.mulVec (-(Matrix.transpose R)) t)
                     ![x, y, z]] } := by
  unfold checkRTMatch
  simp only [hin, hk1, hk2, h0, h1, h2]
  rfl

/-- The body of the loop of `CheckRT` for a match flagged inlier whose triangulated
point has a coordinate that is not finite: only `vbGood` is written. -/
theorem checkRTMatch_not_finite (SVDcompute : Mat4 → Mat4) (norm : Vec3 → ℚ) (R : Mat3)
    (t : Vec3) (vKeys1 vKeys2 : List KeyPoint) (vbMatchesInliers : List Bool) (K : Mat3)
    (th2 : ℚ) (i : Nat) (m : Nat × Nat) (st : CheckRTState) (kp1 kp2 : KeyPoint)
    (hin : vbMatchesInliers[i]? = some true)
    (hk1 : vKeys1[m.1]? = some kp1) (hk2 : vKeys2[m.2]? = some kp2)
    (hnf : ¬ ∃ x y z,
      Triangulate SVDcompute kp1 kp2 (projectionOne K) (projectionTwo K R t) 0 = XFloat.fin x ∧
      Triangulate SVDcompute kp1 kp2 (projectionOne K) (projectionTwo K R t) 1 = XFloat.fin y ∧
      Triangulate SVDcompute kp1 kp2 (projectionOne K) (projectionTwo K R t) 2 = XFloat.fin z) :
    checkRTMatch SVDcompute norm R t vKeys1 vKeys2 vbMatchesInliers K th2 i m st
      = .ok { st with vbGood := st.vbGood.set m.1 false } := by
  unfold checkRTMatch
  simp only [hin, hk1, hk2]
  cases h0 : Triangulate SVDcompute kp1 kp2 (projectionOne K) (projectionTwo K R t) 0 <;>
  cases h1 : Triangulate SVDcompute kp1 kp2 (projectionOne K) (projectionTwo K R t) 1 <;>
  cases h2 : Triangulate SVDcompute kp1 kp2 (projectionOne K) (projectionTwo K R t) 2 <;>
  first
    | rfl
    | exact absurd ⟨_, _, _, h0, h1, h2⟩ hnf

/-- The squared reprojection error is a number when the depth is not zero. -/
theorem squareReprojError_fin (fx fy cx cy : ℚ) (p : Vec3) (kp : KeyPoint) (hz : p 2 ≠ 0) :
    squareReprojError fx fy cx cy p kp
      = XFloat.fin ((fx * p 0 * (1 / p 2) + cx - kp.ptx) * (fx * p 0 * (1 / p 2) + cx - kp.ptx)
          + (fy * p 1 * (1 / p 2) + cy - kp.pty) * (fy * p 1 * (1 / p 2) + cy - kp.pty)) := by
  unfold squareReprojError
  rw [XFloat.div_of_ne 1 (p 2) hz]
  simp only [XFloat.scale, XFloat.add, XFloat.sub, XFloat.neg, XFloat.mul]
  congr 1
  ring

/-- The cosine of the parallax is a number when neither distance is zero. -/
theorem cosParallaxOf_fin (norm : Vec3 → ℚ) (O1 O2 p : Vec3)
    (hd : norm (p - O1) * norm (p - O2) ≠ 0) :
    cosParallaxOf norm O1 O2 p
      = XFloat.fin (Matrix.dotProduct (p - O1) (p - O2) / (norm (p - O1) * norm (p - O2))) := by
  unfold cosParallaxOf
  exact XFloat.div_of_ne _ _ hd

/-- The Euclidean norm of a vector whose squared length is the square of `r ≥ 0`. -/
theorem euclidNorm_of_sq (v : Vec3) (r : ℚ) (hr : 0 ≤ r)
    (h : v 0 * v 0 + v 1 * v 1 + v 2 * v 2 = r * r) : euclidNorm v = r := by
  unfold euclidNorm
  rw [h, Rat.sqrt_eq, abs_of_nonneg hr]

/-- C24. One pass of the loop of `CheckRT` over a match whose keypoints exist.  A match
not flagged inlier changes nothing; a triangulated point with a coordinate that is not
finite only clears `vbGood` at the reference keypoint; and for a finite point
`X = (x, y, z)` whose two depths are not zero and which lies on neither camera centre,
the cosine and the two squared errors are numbers and the match is counted (`nGood`
grows by one, `X` is stored at the reference keypoint index, the cosine is appended)
exactly when `(z > 0` or `cos ≥ 0.99998)`, `((R X + t).z > 0` or `cos ≥ 0.99998)` and
both squared errors are `≤ th2`; `vbGood` is set for a counted match exactly when
`cos < 0.99998`. -/
theorem checkRTMatch_counts (SVDcompute : Mat4 → Mat4) (norm : Vec3 → ℚ) (R : Mat3)
    (t : Vec3) (vKeys1 vKeys2 : List KeyPoint) (vbMatchesInliers : List Bool) (K : Mat3)
    (th2 : ℚ) (i : Nat) (m : Nat × Nat) (st : CheckRTState) (kp1 kp2 : KeyPoint)
    (b : Bool)
    (hin : vbMatchesInliers[i]? = some b)
    (hk1 : vKeys1[m.1]? = some kp1) (hk2 : vKeys2[m.2]? = some kp2) :
    (b = false →
      checkRTMatch SVDcompute norm R t vKeys1 vKeys2 vbMatchesInliers K th2 i m st
        = .ok st) ∧
    (b = true →
      (¬ ∃ x y z,
        Triangulate SVDcompute kp1 kp2 (projectionOne K) (projectionTwo K R t) 0
          = XFloat.fin x ∧
        Triangulate SVDcompute kp1 kp2 (projectionOne K) (projectionTwo K R t) 1
          = XFloat.fin y ∧
        Triangulate SVDcompute kp1 kp2 (projectionOne K) (projectionTwo K R t) 2
          = XFloat.fin z) →
      checkRTMatch SVDcompute norm R t vKeys1 vKeys2 vbMatchesInliers K th2 i m st
        = .ok { st with vbGood := st.vbGood.set m.1 false }) ∧
    (b = true → ∀ x y z : ℚ,
      Triangulate SVDcompute kp1 kp2 (projectionOne K) (projectionTwo K R t) 0
        = XFloat.fin x →
      Triangulate SVDcompute kp1 kp2 (projectionOne K) (projectionTwo K R t) 1
        = XFloat.fin y →
      Triangulate SVDcompute kp1 kp2 (projectionOne K) (projectionTwo K R t) 2
        = XFloat.fin z →
      z ≠ 0 → (Matrix.mulVec R ![x, y, z] + t) 2 ≠ 0 →
      norm ![x, y, z] * norm (![x, y, z] - Matrix.mulVec (-(Matrix.transpose R)) t) ≠ 0 →
      ∃ cosP e1 e2 : ℚ,
        cosParallaxOf norm 0 (Matrix.mulVec (-(Matrix.transpose R)) t) ![x, y, z]
          = XFloat.fin cosP ∧
        squareReprojError (K 0 0) (K 1 1) (K 0 2) (K 1 2) ![x, y, z] kp1 = XFloat.fin e1 ∧
        squareReprojError (K 0 0) (K 1 1) (K 0 2) (K 1 2) (Matrix.mulVec R ![x, y, z] + t) kp2
          = XFloat.fin e2 ∧
        checkRTMatch SVDcompute norm R t vKeys1 vKeys2 vbMatchesInliers K th2 i m st
          = .ok (if (0 < z ∨ 99998 / 100000 ≤ cosP) ∧
                    (0 < (Matrix.mulVec R ![x, y, z] + t) 2 ∨ 99998 / 100000 ≤ cosP) ∧
                    e1 ≤ th2 ∧ e2 ≤ th2 then
                  { nGood := st.nGood + 1,
                    vP3D := st.vP3D.set m.1 ![x, y, z],
                    vbGood :=
                      if cosP < 99998 / 100000 then st.vbGood.set m.1 true else st.vbGood,
                    vCosParallax := st.vCosParallax ++ [XFloat.fin cosP] }
                else st)) := by
  refine ⟨?_, ?_, ?_⟩
  · intro hb
    subst hb
    unfold checkRTMatch
    simp only [hin]
  · intro hb hnf
    subst hb
    exact checkRTMatch_not_finite SVDcompute norm R t vKeys1 vKeys2 vbMatchesInliers K th2 i m
      st kp1 kp2 hin hk1 hk2 hnf
  · intro hb x y z h0 h1 h2 hz hz2 hd
    subst hb
    have hd0 : norm (![x, y, z] - 0) *
        norm (![x, y, z] - Matrix.mulVec (-(Matrix.transpose R)) t) ≠ 0 := by
      rw [sub_zero]
      exact hd
    have hzz : (![x, y, z] : Vec3) 2 ≠ 0 := by
      simpa using hz
    have hc := cosParallaxOf_fin norm 0 (Matrix.mulVec (-(Matrix.transpose R)) t) ![x, y, z] hd0
    have he1 := squareReprojError_fin (K 0 0) (K 1 1) (K 0 2) (K 1 2) ![x, y, z] kp1 hzz
    have he2 := squareReprojError_fin (K 0 0) (K 1 1) (K 0 2) (K 1 2)
      (Matrix.mulVec R ![x, y, z] + t) kp2 hz2
    refine ⟨_, _, _, hc, he1, he2, ?_⟩
    rw [checkRTMatch_finite SVDcompute norm R t vKeys1 vKeys2 vbMatchesInliers K th2 i m st
      kp1 kp2 x y z hin hk1 hk2 h0 h1 h2, hc, he1, he2]
    generalize Matrix.dotProduct (![x, y, z] - 0)
      (![x, y, z] - Matrix.mulVec (-(Matrix.transpose R)) t) /
        (norm (![x, y, z] - 0) *
          norm (![x, y, z] - Matrix.mulVec (-(Matrix.transpose R)) t)) = cosP
    generalize (K 0 0 * (![x, y, z] : Vec3) 0 * (1 / (![x, y, z] : Vec3) 2) + K 0 2 - kp1.ptx) *
      (K 0 0 * (![x, y, z] : Vec3) 0 * (1 / (![x, y, z] : Vec3) 2) + K 0 2 - kp1.ptx) +
      (K 1 1 * (![x, y, z] : Vec3) 1 * (1 / (![x, y, z] : Vec3) 2) + K 1 2 - kp1.pty) *
      (K 1 1 * (![x, y, z] : Vec3) 1 * (1 / (![x, y, z] : Vec3) 2) + K 1 2 - kp1.pty) = e1
    generalize (K 0 0 * (Matrix.mulVec R ![x, y, z] + t) 0 *
        (1 / (Matrix.mulVec R ![x, y, z] + t) 2) + K 0 2 - kp2.ptx) *
      (K 0 0 * (Matrix.mulVec R ![x, y, z] + t) 0 *
        (1 / (Matrix.mulVec R ![x, y, z] + t) 2) + K 0 2 - kp2.ptx) +
      (K 1 1 * (Matrix.mulVec R ![x, y, z] + t) 1 *
        (1 / (Matrix.mulVec R ![x, y, z] + t) 2) + K 1 2 - kp2.pty) *
      (K 1 1 * (Matrix.mulVec R ![x, y, z] + t) 1 *
        (1 / (Matrix.mulVec R ![x, y, z] + t) 2) + K 1 2 - kp2.pty) = e2
    generalize (Matrix.mulVec R ![x, y, z] + t) 2 = z2
    simp only [XFloat.ltQ, XFloat.gtQ, decide_eq_true_eq]
    by_cases hcl : cosP < 99998 / 100000
    · have hnc : ¬ (99998 / 100000 ≤ cosP) := not_le.mpr hcl
      by_cases hzp : 0 < z
      · by_cases hz2p : 0 < z2
        · by_cases ha1 : e1 ≤ th2
          · by_cases ha2 : e2 ≤ th2
            · simp [hcl, hnc, hzp, hz2p, ha1, ha2, not_le.mpr hzp, not_le.mpr hz2p,
                not_lt.mpr ha1, not_lt.mpr ha2]
            · simp [hcl, hnc, hzp, hz2p, ha1, ha2, not_le.mpr hzp, not_le.mpr hz2p,
                not_lt.mpr ha1, not_le.mp ha2]
          · simp [hcl, hnc, hzp, hz2p, ha1, not_le.mpr hzp, not_le.mpr hz2p, not_le.mp ha1]
        · simp [hcl, hnc, hzp, hz2p, not_le.mpr hzp, not_lt.mp hz2p]
      · simp [hcl, hnc, hzp, not_lt.mp hzp]
    · have hcg : 99998 / 100000 ≤ cosP := not_lt.mp hcl
      by_cases ha1 : e1 ≤ th2
      · by_cases ha2 : e2 ≤ th2
        · simp [hcl, hcg, ha1, ha2, not_lt.mpr ha1, not_lt.mpr ha2]
        · simp [hcl, hcg, ha1, ha2, not_lt.mpr ha1, not_le.mp ha2]
      · simp [hcl, hcg, ha1, not_le.mp ha1]

/-- The centre of the second camera of the example: `O2 = -Rᵀ t = (-3, 0, 0)`. -/
theorem checkRT_example_centre :
    Matrix.mulVec (-(Matrix.transpose (1 : Mat3))) (![3, 0, 0] : Vec3) = ![-3, 0, 0] := by
  rw [Matrix.transpose_one, Matrix.neg_mulVec, Matrix.one_mulVec]
  funext j
  fin_cases j <;> simp

/-- The point of the example in the frame of the second camera: `R X + t = (3, 0, 4)`. -/
theorem checkRT_example_second :
    Matrix.mulVec (1 : Mat3) (![0, 0, 4] : Vec3) + ![3, 0, 0] = ![3, 0, 4] := by
  rw [Matrix.one_mulVec]
  funext j
  fin_cases j <;> simp

/-- The two distances of the example are 4 and 5. -/
theorem checkRT_example_dist :
    euclidNorm (![0, 0, 4] : Vec3) = 4 ∧
    euclidNorm ((![0, 0, 4] : Vec3) - ![-3, 0, 0]) = 5 := by
  constructor
  · apply euclidNorm_of_sq _ 4 (by norm_num)
    norm_num [Matrix.cons_val_two]
  · apply euclidNorm_of_sq _ 5 (by norm_num)
    norm_num [Matrix.cons_val_two]

/-- The coordinates that `Triangulate` returns in the example. -/
theorem checkRT_example_point (kp1 kp2 : KeyPoint) (P1 P2 : Mat34) :
    Triangulate svdDepthFour kp1 kp2 P1 P2 0 = XFloat.fin 0 ∧
    Triangulate svdDepthFour kp1 kp2 P1 P2 1 = XFloat.fin 0 ∧
    Triangulate svdDepthFour kp1 kp2 P1 P2 2 = XFloat.fin 4 := by
  refine ⟨?_, ?_, ?_⟩
  · norm_num [Triangulate, svdDepthFour, XFloat.div]
  · norm_num [Triangulate, svdDepthFour, XFloat.div]
  · norm_num [Triangulate, svdDepthFour, XFloat.div]
    rfl

/-- C24 on a point at depth 4 on the optical axis of the first camera, seen by a second
camera displaced by `t = (3, 0, 0)` with `K = R = I`: the cosine is `4/5`, both errors
are zero, and the match is counted with `vbGood` set. -/
theorem checkRTMatch_counts_witness :
    checkRTMatch svdDepthFour euclidNorm 1 ![3, 0, 0]
        [{ ptx := 0, pty := 0, octave := 0 }] [{ ptx := 3 / 4, pty := 0, octave := 0 }]
        [true] 1 4 0 (0, 0)
        { nGood := 0, vP3D := [0], vbGood := [false], vCosParallax := [] }
      = .ok { nGood := 1, vP3D := [![0, 0, 4]], vbGood := [true],
              vCosParallax := [XFloat.fin (4 / 5)] } := by
  obtain ⟨h00, _, h02, _, h11, h12, _, _, _⟩ := one_entries
  have hp := checkRT_example_point { ptx := 0, pty := 0, octave := 0 }
    { ptx := 3 / 4, pty := 0, octave := 0 } (projectionOne 1) (projectionTwo 1 1 ![3, 0, 0])
  have hz2 : (Matrix.mulVec (1 : Mat3) (![0, 0, 4] : Vec3) + ![3, 0, 0] : Vec3) 2 ≠ 0 := by
    rw [checkRT_example_second]
    norm_num [Matrix.cons_val_two]
  have hd : euclidNorm (![0, 0, 4] : Vec3) *
      euclidNorm ((![0, 0, 4] : Vec3) -
        Matrix.mulVec (-(Matrix.transpose (1 : Mat3))) (![3, 0, 0] : Vec3)) ≠ 0 := by
    rw [checkRT_example_centre, checkRT_example_dist.1, checkRT_example_dist.2]
    norm_num
  obtain ⟨cosP, e1, e2, hc, he1, he2, hstep⟩ :=
    (checkRTMatch_counts svdDepthFour euclidNorm 1 ![3, 0, 0]
      [{ ptx := 0, pty := 0, octave := 0 }] [{ ptx := 3 / 4, pty := 0, octave := 0 }]
      [true] 1 4 0 (0, 0)
      { nGood := 0, vP3D := [0], vbGood := [false], vCosParallax := [] }
      { ptx := 0, pty := 0, octave := 0 } { ptx := 3 / 4, pty := 0, octave := 0 } true
      rfl rfl rfl).2.2 rfl 0 0 4 hp.1 hp.2.1 hp.2.2 (by norm_num) hz2 hd
  have hcv : cosP = 4 / 5 := by
    have h := cosParallaxOf_fin euclidNorm 0
      (Matrix.mulVec (-(Matrix.transpose (1 : Mat3))) (![3, 0, 0] : Vec3)) ![0, 0, 4]
      (by rw [sub_zero]; exact hd)
    rw [hc] at h
    have h1 := XFloat.fin.inj h
    rw [h1, sub_zero, checkRT_example_centre, checkRT_example_dist.1, checkRT_example_dist.2]
    norm_num [Matrix.dotProduct, Fin.sum_univ_three, Matrix.cons_val_two]
  have he1v : e1 = 0 := by
    have h := squareReprojError_fin ((1 : Mat3) 0 0) ((1 : Mat3) 1 1) ((1 : Mat3) 0 2)
      ((1 : Mat3) 1 2) ![0, 0, 4] { ptx := 0, pty := 0, octave := 0 }
      (by norm_num [Matrix.cons_val_two])
    rw [he1] at h
    rw [XFloat.fin.inj h, h00, h02, h11, h12]
    norm_num [Matrix.cons_val_two]
  have he2v : e2 = 0 := by
    have h := squareReprojError_fin ((1 : Mat3) 0 0) ((1 : Mat3) 1 1) ((1 : Mat3) 0 2)
      ((1 : Mat3) 1 2) (Matrix.mulVec (1 : Mat3) (![0, 0, 4] : Vec3) + ![3, 0, 0])
      { ptx := 3 / 4, pty := 0, octave := 0 } hz2
    rw [he2] at h
    rw [XFloat.fin.inj h, checkRT_example_second, h00, h02, h11, h12]
    norm_num [Matrix.cons_val_two]
  rw [hstep, hcv, he1v, he2v, checkRT_example_second]
  norm_num [Matrix.cons_val_two]

/-- The coordinates that `Triangulate` returns when the null vector is `(0, 0, 0, 1)`. -/
theorem checkRT_epipole_point (kp1 kp2 : KeyPoint) (P1 P2 : Mat34) :
    Triangulate svdEpipole kp1 kp2 P1 P2 0 = XFloat.fin 0 ∧
    Triangulate svdEpipole kp1 kp2 P1 P2 1 = XFloat.fin 0 ∧
    Triangulate svdEpipole kp1 kp2 P1 P2 2 = XFloat.fin 0 := by
  refine ⟨?_, ?_, ?_⟩
  · norm_num [Triangulate, svdEpipole, XFloat.div]
  · norm_num [Triangulate, svdEpipole, XFloat.div]
  · norm_num [Triangulate, svdEpipole, XFloat.div]
    rfl

/-- The cameras of the example: `K[I|0] = [I|0]` and `K[R|t] = [I|(0, 0, 1)]` for
`K = R = I`. -/
theorem checkRT_epipole_cameras :
    projectionOne 1 = canonicalP ∧
    projectionTwo 1 1 ![0, 0, 1] = !![1, 0, 0, 0; 0, 1, 0, 0; 0, 0, 1, 1] := by
  constructor
  · ext i j
    fin_cases i <;> fin_cases j <;>
      simp [projectionOne, canonicalP, Matrix.one_apply, Matrix.vecHead, Matrix.vecTail]
  · unfold projectionTwo
    rw [Matrix.one_mul]
    ext i j
    fin_cases i <;> fin_cases j <;>
      simp [Matrix.one_apply, Matrix.vecHead, Matrix.vecTail]

/-- The kernel of the matrix `A` that `Triangulate` builds for the keypoints `(5, 7)`
and `(0, 0)` and the cameras `[I | 0]` and `[I | (0, 0, 1)]` is the line through
`(0, 0, 0, 1)`, the last row that `svdEpipole` returns. -/
theorem checkRT_epipole_kernel (v : Fin 4 → ℚ) :
    Matrix.mulVec (triangulationMatrix { ptx := 5, pty := 7, octave := 0 }
      { ptx := 0, pty := 0, octave := 0 } (projectionOne 1) (projectionTwo 1 1 ![0, 0, 1])) v = 0
      ↔ v = fun j => v 3 * (![0, 0, 0, 1] : Fin 4 → ℚ) j := by
  rw [checkRT_epipole_cameras.1, checkRT_epipole_cameras.2]
  constructor
  · intro h
    have r0 := congrFun h 0
    have r1 := congrFun h 1
    have r2 := congrFun h 2
    have r3 := congrFun h 3
    simp [triangulationMatrix, canonicalP, Matrix.mulVec, Matrix.dotProduct,
      Fin.sum_univ_four] at r0 r1 r2 r3
    funext j
    fin_cases j
    · simpa using r2
    · simpa using r3
    · simp
      linarith
    · simp
  · intro h
    have h0 : v 0 = 0 := by
      have := congrFun h 0
      simpa using this
    have h1 : v 1 = 0 := by
      have := congrFun h 1
      simpa using this
    have h2 : v 2 = 0 := by
      have := congrFun h 2
      simpa using this
    funext i
    fin_cases i <;>
      simp [triangulationMatrix, canonicalP, Matrix.mulVec, Matrix.dotProduct,
        Fin.sum_univ_four, h0, h1, h2]

/-- C24, counterexample.  With `K = R = I`, `t = (0, 0, 1)` and the keypoints `(5, 7)`
and `(0, 0)`, the triangulated point is the centre `(0, 0, 0)` of the first camera:
its depth is not positive, the cosine of the parallax is `0/0`, not a number, so
`cos ≥ 0.99998` is false, and the squared error in the first image is not a number
either, so `squareError1 ≤ th2` is false; `CheckRT` counts the match all the same
and returns `nGood = 1`. -/
theorem CheckRT_counts_camera_centre :
    (∀ acosDeg : XFloat → XFloat,
      CheckRT svdEpipole euclidNorm acosDeg 1 ![0, 0, 1]
          [{ ptx := 5, pty := 7, octave := 0 }] [{ ptx := 0, pty := 0, octave := 0 }]
          [(0, 0)] [true] 1 [] 4
        = .ok (1, [![0, 0, 0]], [false], acosDeg XFloat.nan)) ∧
    Triangulate svdEpipole { ptx := 5, pty := 7, octave := 0 }
        { ptx := 0, pty := 0, octave := 0 } (projectionOne 1) (projectionTwo 1 1 ![0, 0, 1]) 2
      = XFloat.fin 0 ∧
    cosParallaxOf euclidNorm 0 (Matrix.mulVec (-(Matrix.transpose (1 : Mat3))) ![0, 0, 1])
        ![0, 0, 0] = XFloat.nan ∧
    squareReprojError ((1 : Mat3) 0 0) ((1 : Mat3) 1 1) ((1 : Mat3) 0 2) ((1 : Mat3) 1 2)
        ![0, 0, 0] { ptx := 5, pty := 7, octave := 0 } = XFloat.nan := by
  obtain ⟨h00, _, h02, _, h11, h12, _, _, _⟩ := one_entries
  have hp := checkRT_epipole_point { ptx := 5, pty := 7, octave := 0 }
    { ptx := 0, pty := 0, octave := 0 } (projectionOne 1) (projectionTwo 1 1 ![0, 0, 1])
  have hn : euclidNorm ((![0, 0, 0] : Vec3) - 0) = 0 := by
    apply euclidNorm_of_sq _ 0 (le_refl 0)
    norm_num
  have hcos : cosParallaxOf euclidNorm 0
      (Matrix.mulVec (-(Matrix.transpose (1 : Mat3))) ![0, 0, 1]) ![0, 0, 0] = XFloat.nan := by
    unfold cosParallaxOf
    simp only [hn]
    norm_num [XFloat.div, Matrix.dotProduct, Fin.sum_univ_three]
  have he1 : squareReprojError ((1 : Mat3) 0 0) ((1 : Mat3) 1 1) ((1 : Mat3) 0 2)
      ((1 : Mat3) 1 2) ![0, 0, 0] { ptx := 5, pty := 7, octave := 0 } = XFloat.nan := by
    rw [h00, h02, h11, h12]
    norm_num [squareReprojError, XFloat.div, XFloat.scale, XFloat.add, XFloat.sub,
      XFloat.neg, XFloat.mul, Matrix.cons_val_two]
  have hsec : (Matrix.mulVec (1 : Mat3) (![0, 0, 0] : Vec3) + ![0, 0, 1] : Vec3)
      = ![0, 0, 1] := by
    rw [Matrix.one_mulVec]
    funext j
    fin_cases j <;> simp
  have he2 : squareReprojError ((1 : Mat3) 0 0) ((1 : Mat3) 1 1) ((1 : Mat3) 0 2)
      ((1 : Mat3) 1 2) (Matrix.mulVec (1 : Mat3) (![0, 0, 0] : Vec3) + ![0, 0, 1])
      { ptx := 0, pty := 0, octave := 0 } = XFloat.fin 0 := by
    rw [hsec, squareReprojError_fin _ _ _ _ _ _ (by norm_num [Matrix.cons_val_two]),
      h00, h02, h11, h12]
    norm_num [Matrix.cons_val_two]
  refine ⟨?_, hp.2.2, hcos, he1⟩
  have hstep := checkRTMatch_finite svdEpipole euclidNorm 1 ![0, 0, 1]
    [{ ptx := 5, pty := 7, octave := 0 }] [{ ptx := 0, pty := 0, octave := 0 }]
    [true] 1 4 0 (0, 0)
    { nGood := 0, vP3D := [0], vbGood := [false], vCosParallax := [] }
    { ptx := 5, pty := 7, octave := 0 } { ptx := 0, pty := 0, octave := 0 } 0 0 0
    rfl rfl rfl hp.1 hp.2.1 hp.2.2
  rw [hcos, he1, he2, hsec] at hstep
  simp only [XFloat.ltQ, XFloat.gtQ] at hstep
  norm_num [Matrix.cons_val_two, -Prod.mk_zero_zero] at hstep
  intro acosDeg
  unfold CheckRT
  simp only [List.length_cons, List.length_nil, List.replicate, Nat.sub_zero, List.nil_append,
    List.take, checkRTLoop, hstep]
  simp [selectParallax, sortCos, listAt]

/-! ## Initializer: the parallax that `CheckRT` returns -/

/-- The order of `sortCos` is total. -/
theorem sortLE_total (a b : XFloat) : XFloat.sortLE a b = true ∨ XFloat.sortLE b a = true := by
  cases a <;> cases b <;> simp [XFloat.sortLE]
  exact le_total _ _

/-- The order of `sortCos` is transitive. -/
theorem sortLE_trans (a b c : XFloat) (hab : XFloat.sortLE a b = true)
    (hbc : XFloat.sortLE b c = true) : XFloat.sortLE a c = true := by
  cases a <;> cases b <;> cases c <;> simp_all [XFloat.sortLE]
  exact le_trans hab hbc

/-- The sorted cosines are the cosines, rearranged. -/
theorem sortCos_perm (vCosParallax : List XFloat) :
    List.Perm (sortCos vCosParallax) vCosParallax :=
  List.perm_insertionSort _ _

/-- The sorted cosines ascend. -/
theorem sortCos_sorted (vCosParallax : List XFloat) :
    List.Sorted (fun a b => XFloat.sortLE a b = true) (sortCos vCosParallax) := by
  haveI : IsTotal XFloat (fun a b => XFloat.sortLE a b = true) := ⟨sortLE_total⟩
  haveI : IsTrans XFloat (fun a b => XFloat.sortLE a b = true) := ⟨sortLE_trans⟩
  exact List.sorted_insertionSort _ _

/-- Sorting keeps the number of cosines. -/
theorem sortCos_length (vCosParallax : List XFloat) :
    (sortCos vCosParallax).length = vCosParallax.length :=
  List.length_insertionSort _ _

/-- The last element of an ascending list is the largest. -/
theorem sorted_getLast_max (l : List XFloat) (c : XFloat)
    (hs : List.Sorted (fun a b => XFloat.sortLE a b = true) l)
    (hl : l.getLast? = some c) : ∀ d ∈ l, XFloat.sortLE d c = true := by
  induction l with
  | nil => intro d hd; cases hd
  | cons a rest ih =>
    intro d hd
    rw [List.sorted_cons] at hs
    cases rest with
    | nil =>
      simp at hl hd
      subst hl
      subst hd
      cases d <;> simp [XFloat.sortLE]
    | cons b rest2 =>
      have hl2 : (b :: rest2).getLast? = some c := by
        simpa [List.getLast?_cons_cons] using hl
      have hc : c ∈ b :: rest2 := List.mem_of_getLast?_eq_some hl2
      rcases List.mem_cons.mp hd with h | h
      · subst h
        exact hs.1 c hc
      · exact ih hs.2 hl2 d h

/-- One pass of the loop of `CheckRT` keeps as many cosines as points counted. -/
theorem checkRTMatch_length (SVDcompute : Mat4 → Mat4) (norm : Vec3 → ℚ) (R : Mat3)
    (t : Vec3) (vKeys1 vKeys2 : List KeyPoint) (vbMatchesInliers : List Bool) (K : Mat3)
    (th2 : ℚ) (i : Nat) (m : Nat × Nat) (st st1 : CheckRTState)
    (h : checkRTMatch SVDcompute norm R t vKeys1 vKeys2 vbMatchesInliers K th2 i m st
      = .ok st1)
    (hl : st.vCosParallax.length = st.nGood) :
    st1.vCosParallax.length = st1.nGood := by
  unfold checkRTMatch at h
  simp only [] at h
  repeat' split at h
  all_goals first
    | (injection h with h
       subst h
       first
         | exact hl
         | simp [hl])
    | cases h

/-- The loop of `CheckRT` keeps as many cosines as points counted. -/
theorem checkRTLoop_length (SVDcompute : Mat4 → Mat4) (norm : Vec3 → ℚ) (R : Mat3)
    (t : Vec3) (vKeys1 vKeys2 : List KeyPoint) (vbMatchesInliers : List Bool) (K : Mat3)
    (th2 : ℚ) (ms : List (Nat × Nat)) :
    ∀ (i : Nat) (st st1 : CheckRTState),
      checkRTLoop SVDcompute norm R t vKeys1 vKeys2 vbMatchesInliers K th2 i ms st = .ok st1 →
      st.vCosParallax.length = st.nGood → st1.vCosParallax.length = st1.nGood := by
  induction ms with
  | nil =>
    intro i st st1 h hl
    simp only [checkRTLoop] at h
    injection h with h
    subst h
    exact hl
  | cons m rest ih =>
    intro i st st1 h hl
    simp only [checkRTLoop] at h
    cases hstep : checkRTMatch SVDcompute norm R t vKeys1 vKeys2 vbMatchesInliers K th2 i m st with
    | error e =>
      rw [hstep] at h
      cases h
    | ok st2 =>
      rw [hstep] at h
      exact ih (i + 1) st2 st1 h
        (checkRTMatch_length SVDcompute norm R t vKeys1 vKeys2 vbMatchesInliers K th2 i m st st2
          hstep hl)

/-- C25. Parallax selection at the end of `CheckRT`, for `nGood` passing points with
their `nGood` cosines.  The cosines are sorted ascending (`sortCos` rearranges them and
the result ascends).  With `nGood = 0` the parallax is 0; with `1 ≤ nGood ≤ 50` it is
the angle of the last cosine of the sorted vector, which is the largest; and with
`nGood ≥ 51` it is the angle of the cosine at index 50 of the sorted vector, that is
the 51st smallest, where the comment in the source and the specification name the
50th smallest. -/
theorem selectParallax_spec (acosDeg : XFloat → XFloat) (nGood : Nat)
    (vCosParallax : List XFloat) (hlen : vCosParallax.length = nGood) :
    List.Perm (sortCos vCosParallax) vCosParallax ∧
    List.Sorted (fun a b => XFloat.sortLE a b = true) (sortCos vCosParallax) ∧
    (nGood = 0 → selectParallax acosDeg nGood vCosParallax = .ok (XFloat.fin 0)) ∧
    (0 < nGood → nGood ≤ 50 →
      ∃ c, (sortCos vCosParallax).getLast? = some c ∧
        (∀ d ∈ vCosParallax, XFloat.sortLE d c = true) ∧
        selectParallax acosDeg nGood vCosParallax = .ok (acosDeg c)) ∧
    (51 ≤ nGood →
      ∃ c, (sortCos vCosParallax)[50]? = some c ∧
        selectParallax acosDeg nGood vCosParallax = .ok (acosDeg c)) := by
  have hsl := sortCos_length vCosParallax
  refine ⟨sortCos_perm vCosParallax, sortCos_sorted vCosParallax, ?_, ?_, ?_⟩
  · intro h0
    subst h0
    simp [selectParallax]
  · intro hpos h50
    have hne : (sortCos vCosParallax).length - 1 < (sortCos vCosParallax).length := by
      omega
    have hlast : (sortCos vCosParallax).getLast?
        = some ((sortCos vCosParallax).get ⟨(sortCos vCosParallax).length - 1, hne⟩) := by
      rw [List.getLast?_eq_getElem?, List.getElem?_eq_getElem hne]
      rfl
    refine ⟨_, hlast, ?_, ?_⟩
    · intro d hd
      exact sorted_getLast_max _ _ (sortCos_sorted vCosParallax) hlast d
        ((sortCos_perm vCosParallax).mem_iff.mpr hd)
    · have hidx : min (50 : Int) (((sortCos vCosParallax).length : Int) - 1)
          = (((sortCos vCosParallax).length - 1 : Nat) : Int) := by
        omega
      unfold selectParallax
      simp only [gt_iff_lt, hpos, if_true, hidx]
      unfold listAt
      simp only [Int.natCast_nonneg, if_true, Int.toNat_ofNat, List.getElem?_eq_getElem hne]
      rfl
  · intro h51
    have hlt : 50 < (sortCos vCosParallax).length := by
      omega
    refine ⟨(sortCos vCosParallax).get ⟨50, hlt⟩, ?_, ?_⟩
    · rw [List.getElem?_eq_getElem hlt]
      rfl
    · have hidx : min (50 : Int) (((sortCos vCosParallax).length : Int) - 1) = ((50 : Nat) : Int) := by
        omega
      have hpos : 0 < nGood := by
        omega
      unfold selectParallax
      simp only [gt_iff_lt, hpos, if_true, hidx]
      unfold listAt
      simp only [Int.natCast_nonneg, if_true, Int.toNat_ofNat, List.getElem?_eq_getElem hlt]
      rfl

/-- The ramp of cosines ascends, so sorting leaves it as it is. -/
theorem sortCos_cosineRamp : sortCos cosineRamp = cosineRamp := by
  unfold sortCos
  apply List.Sorted.insertionSort_eq
  unfold cosineRamp
  rw [List.Sorted, List.pairwise_map]
  refine List.Pairwise.imp ?_ (List.pairwise_lt_range 51)
  intro a b hab
  simp only [XFloat.sortLE, decide_eq_true_eq]
  have h : (a : ℚ) < (b : ℚ) := by
    exact_mod_cast hab
  apply le_of_lt
  exact div_lt_div_of_pos_right h (by norm_num)

/-- C25 on three cosines, with the identity in the place of the angle function so that
the result shows the cosine selected: it is the largest, `1/2`. -/
theorem selectParallax_spec_witness :
    selectParallax (fun c => c) 3 [XFloat.fin (1 / 2), XFloat.fin (1 / 4), XFloat.fin (1 / 3)]
      = .ok (XFloat.fin (1 / 2)) := by
  obtain ⟨c, hc, _, hsel⟩ :=
    (selectParallax_spec (fun c => c) 3
      [XFloat.fin (1 / 2), XFloat.fin (1 / 4), XFloat.fin (1 / 3)]
      rfl).2.2.2.1 (by decide) (by decide)
  have hs : sortCos [XFloat.fin (1 / 2), XFloat.fin (1 / 4), XFloat.fin (1 / 3)]
      = [XFloat.fin (1 / 4), XFloat.fin (1 / 3), XFloat.fin (1 / 2)] := by
    norm_num [sortCos, List.insertionSort, List.orderedInsert, XFloat.sortLE]
  rw [hs] at hc
  have hc2 : XFloat.fin (1 / 2) = c := by
    simpa using hc
  rw [hsel, ← hc2]

/-- C25 on the 51 passing cosines `0, 1/100, ..., 50/100`: the 50th smallest is
`49/100`, at index 49 of the sorted vector, but the parallax returned is the angle of
`50/100`, the 51st smallest. -/
theorem selectParallax_takes_51st :
    cosineRamp.length = 51 ∧
    (sortCos cosineRamp)[49]? = some (XFloat.fin (49 / 100)) ∧
    ∀ acosDeg : XFloat → XFloat,
      selectParallax acosDeg 51 cosineRamp = .ok (acosDeg (XFloat.fin (50 / 100))) := by
  have hlen : cosineRamp.length = 51 := by
    simp [cosineRamp]
  have h49 : cosineRamp[49]? = some (XFloat.fin (49 / 100)) := by
    simp [cosineRamp, List.getElem?_map, List.getElem?_range]
  have h50 : cosineRamp[50]? = some (XFloat.fin (50 / 100)) := by
    simp [cosineRamp, List.getElem?_map, List.getElem?_range]
  refine ⟨hlen, ?_, ?_⟩
  · rw [sortCos_cosineRamp]
    exact h49
  · intro acosDeg
    unfold selectParallax
    simp only [sortCos_cosineRamp, hlen]
    have hidx : min (50 : Int) (((51 : Nat) : Int) - 1) = ((50 : Nat) : Int) := by
      decide
    simp only [hidx]
    unfold listAt
    simp only [Int.natCast_nonneg, if_true, Int.toNat_ofNat, h50]
    simp

/-! ## Initializer: the homography estimate -/

/-- The rows that `ComputeH21` builds from exact correspondences under `H` are all
built, two for each point, and each of them is orthogonal to the row-major vector of
`H`. -/
theorem rowsOfH_null (H : Mat3) (vP2 : List (ℚ × ℚ)) :
    ∀ (vP1 : List (ℚ × ℚ)) (i : Nat),
      (∀ (k : Nat) (p1 : ℚ × ℚ), vP1[k]? = some p1 →
        H 2 0 * p1.1 + H 2 1 * p1.2 + H 2 2 ≠ 0 ∧ vP2[i + k]? = some (imageUnder H p1)) →
      ∃ rows, rowsOfH vP2 i vP1 = .ok rows ∧ rows.length = 2 * vP1.length ∧
        ∀ r, r ∈ rows → Matrix.dotProduct r (rowMajor H) = 0 := by
  intro vP1
  induction vP1 with
  | nil =>
    intro i _
    exact ⟨[], rfl, rfl, fun r hr => by cases hr⟩
  | cons p1 rest ih =>
    intro i h
    obtain ⟨hden, h2⟩ := h 0 p1 (by simp)
    obtain ⟨rows, hrows, hlen, hnull⟩ := ih (i + 1) (by
      intro k q hq
      have := h (k + 1) q (by simpa using hq)
      rw [show i + 1 + k = i + (k + 1) by omega]
      exact this)
    rw [Nat.add_zero] at h2
    refine ⟨![0, 0, 0, -p1.1, -p1.2, -1, (imageUnder H p1).2 * p1.1,
        (imageUnder H p1).2 * p1.2, (imageUnder H p1).2]
      :: ![p1.1, p1.2, 1, 0, 0, 0, -(imageUnder H p1).1 * p1.1,
        -(imageUnder H p1).1 * p1.2, -(imageUnder H p1).1] :: rows, ?_, ?_, ?_⟩
    · simp only [rowsOfH, h2, hrows]
    · simp only [List.length_cons, hlen]
      omega
    · intro r hr
      rcases List.mem_cons.mp hr with h0 | hr
      · subst h0
        simp only [Matrix.dotProduct, Fin.sum_univ_succ, Fin.sum_univ_zero, rowMajor, imageUnder]
        simp
        field_simp
        ring
      · rcases List.mem_cons.mp hr with h1 | hr
        · subst h1
          simp only [Matrix.dotProduct, Fin.sum_univ_succ, Fin.sum_univ_zero, rowMajor,
            imageUnder]
          simp
          field_simp
          ring
        · exact hnull r hr

/-- The reshaping of the row-major vector gives the matrix back. -/
theorem rowMajor_at (H : Mat3) (i j : Fin 3) :
    rowMajor H (Fin.mk (3 * i.val + j.val) (by omega)) = H i j := by
  fin_cases i <;> fin_cases j <;> rfl

/-- C33. Homography DLT rows.  For every `H` and every list of correspondences in
which the point of `vP2` is the exact image under `H` of the point of `vP1` (third
homogeneous coordinate not zero), the `2N × 9` matrix `A` that `ComputeH21` builds is
built in full and satisfies `A*h = 0` for `h` the row-major vector of `H`;
`ComputeH21` returns the last row of the `vt` computed from this `A`, reshaped; and
whenever the null space of `A` is the line through `h` and that last row is in the
null space, the matrix returned is a multiple of `H`. -/
theorem ComputeH21_null_space (SVDecomp : List (Fin 9 → ℚ) → Matrix (Fin 9) (Fin 9) ℚ)
    (H : Mat3) (vP1 vP2 : List (ℚ × ℚ))
    (hex : ∀ (k : Nat) (p1 : ℚ × ℚ), vP1[k]? = some p1 →
      H 2 0 * p1.1 + H 2 1 * p1.2 + H 2 2 ≠ 0 ∧ vP2[k]? = some (imageUnder H p1)) :
    ∃ A, rowsOfH vP2 0 vP1 = .ok A ∧ A.length = 2 * vP1.length ∧
      (∀ r, r ∈ A → Matrix.dotProduct r (rowMajor H) = 0) ∧
      ComputeH21 SVDecomp vP1 vP2
        = .ok (fun i j => SVDecomp A 8 (Fin.mk (3 * i.val + j.val) (by omega))) ∧
      ((∀ y : Fin 9 → ℚ, (∀ r, r ∈ A → Matrix.dotProduct r y = 0) →
          ∃ c : ℚ, y = c • rowMajor H) →
        (∀ r, r ∈ A → Matrix.dotProduct r (SVDecomp A 8) = 0) →
        ∃ c : ℚ, ComputeH21 SVDecomp vP1 vP2 = .ok (c • H)) := by
  obtain ⟨A, hA, hlen, hnull⟩ := rowsOfH_null H vP2 vP1 0 (by
    intro k p1 hk
    rw [Nat.zero_add]
    exact hex k p1 hk)
  have hres : ComputeH21 SVDecomp vP1 vP2
      = .ok (fun i j => SVDecomp A 8 (Fin.mk (3 * i.val + j.val) (by omega))) := by
    unfold ComputeH21
    simp only [hA]
  refine ⟨A, hA, hlen, hnull, hres, ?_⟩
  intro hline hlast
  obtain ⟨c, hc⟩ := hline (SVDecomp A 8) hlast
  refine ⟨c, ?_⟩
  rw [hres]
  congr 1
  funext i j
  rw [hc]
  show c * rowMajor H (Fin.mk (3 * i.val + j.val) (by omega)) = c * H i j
  rw [rowMajor_at]

/-- The entries of the translation by `(3, 5)`. -/
theorem shiftH_entries :
    shiftH 0 0 = 1 ∧ shiftH 0 1 = 0 ∧ shiftH 0 2 = 3 ∧
    shiftH 1 0 = 0 ∧ shiftH 1 1 = 1 ∧ shiftH 1 2 = 5 ∧
    shiftH 2 0 = 0 ∧ shiftH 2 1 = 0 ∧ shiftH 2 2 = 1 :=
  ⟨rfl, rfl, rfl, rfl, rfl, rfl, rfl, rfl, rfl⟩

/-- The rows built for the corners of the unit square. -/
theorem rowsOfH_unitSquare :
    rowsOfH [(3, 5), (4, 5), (3, 6), (4, 6)] 0 [(0, 0), (1, 0), (0, 1), (1, 1)]
      = .ok unitSquareRows := by
  norm_num [rowsOfH, unitSquareRows]

/-- The null space of the rows built for the unit square is the line through the
row-major vector of the translation. -/
theorem unitSquareRows_kernel (y : Fin 9 → ℚ)
    (hy : ∀ r, r ∈ unitSquareRows → Matrix.dotProduct r y = 0) :
    ∃ c : ℚ, y = c • rowMajor shiftH := by
  unfold unitSquareRows at hy
  simp only [List.forall_mem_cons, List.not_mem_nil, false_imp_iff, forall_const] at hy
  obtain ⟨r0, r1, r2, r3, r4, r5, r6, r7, _⟩ := hy
  simp [Matrix.dotProduct, Fin.sum_univ_succ] at r0 r1 r2 r3 r4 r5 r6 r7
  have s0 : -y 5 + 5 * y 8 = 0 := r0
  have s1 : y 2 + -(3 * y 8) = 0 := r1
  have s2 : -y 3 + (-y 5 + (5 * y 6 + 5 * y 8)) = 0 := r2
  have s3 : y 0 + (y 2 + (-(4 * y 6) + -(4 * y 8))) = 0 := r3
  have s4 : -y 4 + (-y 5 + (6 * y 7 + 6 * y 8)) = 0 := r4
  have s5 : y 1 + (y 2 + (-(3 * y 7) + -(3 * y 8))) = 0 := r5
  have s6 : -y 3 + (-y 4 + (-y 5 + (6 * y 6 + (6 * y 7 + 6 * y 8)))) = 0 := r6
  have s7 : y 0 + (y 1 + (y 2 + (-(4 * y 6) + (-(4 * y 7) + -(4 * y 8))))) = 0 := r7
  refine ⟨y 8, ?_⟩
  funext j
  fin_cases j
  · show y 0 = y 8 * 1
    linarith
  · show y 1 = y 8 * 0
    linarith
  · show y 2 = y 8 * 3
    linarith
  · show y 3 = y 8 * 0
    linarith
  · show y 4 = y 8 * 1
    linarith
  · show y 5 = y 8 * 5
    linarith
  · show y 6 = y 8 * 0
    linarith
  · show y 7 = y 8 * 0
    linarith
  · show y 8 = y 8 * 1
    linarith

/-- The last row that `svdShift` returns is in the null space of the rows built for
the unit square. -/
theorem unitSquareRows_last :
    ∀ r, r ∈ unitSquareRows → Matrix.dotProduct r (svdShift unitSquareRows 8) = 0 := by
  have hv : svdShift unitSquareRows 8 = ![2, 0, 6, 0, 2, 10, 0, 0, 2] := by
    funext j
    simp [svdShift]
  rw [hv]
  unfold unitSquareRows
  simp only [List.forall_mem_cons, List.not_mem_nil, false_imp_iff, forall_const]
  simp [Matrix.dotProduct, Fin.sum_univ_succ]
  norm_num

/-- C33 on the four corners of the unit square and their images under the translation
by `(3, 5)`, with a decomposition that returns the null vector
`(2, 0, 6, 0, 2, 10, 0, 0, 2)`: the null space of `A` is the line through `h`, and
`ComputeH21` returns twice the translation. -/
theorem ComputeH21_null_space_witness :
    ComputeH21 svdShift [(0, 0), (1, 0), (0, 1), (1, 1)] [(3, 5), (4, 5), (3, 6), (4, 6)]
      = .ok ((2 : ℚ) • shiftH) := by
  obtain ⟨h00, h01, h02, h10, h11, h12, h20, h21, h22⟩ := shiftH_entries
  have hex : ∀ (k : Nat) (p1 : ℚ × ℚ),
      ([(0, 0), (1, 0), (0, 1), (1, 1)] : List (ℚ × ℚ))[k]? = some p1 →
      shiftH 2 0 * p1.1 + shiftH 2 1 * p1.2 + shiftH 2 2 ≠ 0 ∧
      ([(3, 5), (4, 5), (3, 6), (4, 6)] : List (ℚ × ℚ))[k]? = some (imageUnder shiftH p1) := by
    intro k p1 hk
    rcases k with _ | _ | _ | _ | k <;> simp at hk <;> subst hk <;>
      norm_num [imageUnder, h00, h01, h02, h10, h11, h12, h20, h21, h22]
  obtain ⟨A, hA, _, _, hres, hline⟩ := ComputeH21_null_space svdShift shiftH
    [(0, 0), (1, 0), (0, 1), (1, 1)] [(3, 5), (4, 5), (3, 6), (4, 6)] hex
  have hAv : A = unitSquareRows := by
    rw [rowsOfH_unitSquare] at hA
    exact (Except.ok.inj hA).symm
  subst hAv
  obtain ⟨c, hc⟩ := hline unitSquareRows_kernel unitSquareRows_last
  have hc2 : c = 2 := by
    rw [hres] at hc
    have h := congrFun (congrFun (Except.ok.inj hc) 2) 2
    have hl : svdShift unitSquareRows 8 (Fin.mk (3 * (2 : Fin 3).val + (2 : Fin 3).val)
        (by decide)) = 2 := by
      simp [svdShift]
      rfl
    have hr : (c • shiftH) 2 2 = c * shiftH 2 2 := rfl
    rw [hr, h22] at h
    rw [hl] at h
    linarith
  rw [hc, hc2]

/-! ## Initializer: the motion hypotheses of a homography -/

/-- When at most one of four counts is above the `double` product `0.7*M` and
candidate `i` attains `M > 0`, no other candidate is above that product and no other
candidate attains `M`. -/
theorem winner_alone (cand : Fin 4 → CheckRTResult) (M : Nat) (i : Fin 4)
    (hM : (cand i).nGood = M) (hpos : 0 < M)
    (hsim : (Finset.univ.filter
      (fun j : Fin 4 => ((cand j).nGood : ℚ) > similarBound M)).card ≤ 1) :
    (∀ j, j ≠ i → ¬ (((cand j).nGood : ℚ) > similarBound M)) ∧
    (∀ j, (cand j).nGood = M → j = i) := by
  have hMq : (0 : ℚ) < (M : ℚ) := by exact_mod_cast hpos
  have habove : ∀ j, (cand j).nGood = M → ((cand j).nGood : ℚ) > similarBound M := by
    intro j hj
    rw [hj]
    exact similarBound_lt M hpos
  rw [Finset.card_le_one] at hsim
  have hmem : ∀ j, j ∈ Finset.univ.filter
      (fun j : Fin 4 => ((cand j).nGood : ℚ) > similarBound M) ↔
      ((cand j).nGood : ℚ) > similarBound M := by
    intro j
    simp
  constructor
  · intro j hj hab
    exact hj (hsim j ((hmem j).mpr hab) i ((hmem i).mpr (habove i hM)))
  · intro j hj
    exact hsim j ((hmem j).mpr (habove j hj)) i ((hmem i).mpr (habove i hM))

/-- C36. `ReconstructF` has a unique winner.  With `minTriangulated > 0`, whenever the
count checks pass (`maxGood ≥ nMinGood`, and at most one candidate above the `double`
product `0.7*maxGood`), exactly one of the four candidates attains `maxGood`; `ReconstructF`
returns a reconstruction exactly when the parallax of that candidate is above
`minParallax`, and the motion, the points and the flags returned are those of that
candidate among `(R1,t)`, `(R2,t)`, `(R1,-t)`, `(R2,-t)`. -/
theorem ReconstructF_unique_winner (vb : List Bool) (R1 R2 : Mat3) (t : Vec3)
    (CheckRT : Mat3 → Vec3 → CheckRTResult) (minParallax : ℚ) (minTriangulated : Int)
    (hmin : 0 < minTriangulated)
    (hcount : (maxGoodF R1 R2 t CheckRT : Int)
      ≥ max ⌊(9 / 10 : ℚ) * (countInliers vb : ℚ)⌋ minTriangulated)
    (hsim : (Finset.univ.filter (fun j : Fin 4 =>
      ((candidatesF R1 R2 t CheckRT j).nGood : ℚ)
        > similarBound (maxGoodF R1 R2 t CheckRT))).card ≤ 1) :
    ∃ i : Fin 4,
      (candidatesF R1 R2 t CheckRT i).nGood = maxGoodF R1 R2 t CheckRT ∧
      (∀ j, (candidatesF R1 R2 t CheckRT j).nGood = maxGoodF R1 R2 t CheckRT → j = i) ∧
      ReconstructF vb R1 R2 t CheckRT minParallax minTriangulated =
        if (candidatesF R1 R2 t CheckRT i).parallax > minParallax then
          some { R21 := (motionsF R1 R2 t i).1, t21 := (motionsF R1 R2 t i).2,
                 vP3D := (candidatesF R1 R2 t CheckRT i).vP3D,
                 vbTriangulated := (candidatesF R1 R2 t CheckRT i).vbTriangulated }
        else none := by
  obtain ⟨e0, e1, e2, e3, m0, m1, m2, m3⟩ := candidatesF_at R1 R2 t CheckRT
  have hpos : 0 < maxGoodF R1 R2 t CheckRT := by
    have : minTriangulated ≤ (maxGoodF R1 R2 t CheckRT : Int) :=
      le_trans (le_max_right _ _) hcount
    omega
  have hcases :
      ((CheckRT R2 t).nGood ≤ (CheckRT R1 t).nGood ∧
        (CheckRT R1 (-t)).nGood ≤ (CheckRT R1 t).nGood ∧
        (CheckRT R2 (-t)).nGood ≤ (CheckRT R1 t).nGood) ∨
      ((CheckRT R1 t).nGood < (CheckRT R2 t).nGood ∧
        (CheckRT R1 (-t)).nGood ≤ (CheckRT R2 t).nGood ∧
        (CheckRT R2 (-t)).nGood ≤ (CheckRT R2 t).nGood) ∨
      ((CheckRT R1 t).nGood < (CheckRT R1 (-t)).nGood ∧
        (CheckRT R2 t).nGood < (CheckRT R1 (-t)).nGood ∧
        (CheckRT R2 (-t)).nGood ≤ (CheckRT R1 (-t)).nGood) ∨
      ((CheckRT R1 t).nGood < (CheckRT R2 (-t)).nGood ∧
        (CheckRT R2 t).nGood < (CheckRT R2 (-t)).nGood ∧
        (CheckRT R1 (-t)).nGood < (CheckRT R2 (-t)).nGood) := by
    omega
  rcases hcases with ⟨h1, h2, h3⟩ | ⟨h0, h2, h3⟩ | ⟨h0, h1, h3⟩ | ⟨h0, h1, h2⟩
  · have hM : maxGoodF R1 R2 t CheckRT = (CheckRT R1 t).nGood := by
      unfold maxGoodF
      simp only [Nat.max_def]
      split_ifs <;> omega
    obtain ⟨hothers, huniq⟩ := winner_alone (candidatesF R1 R2 t CheckRT)
      (maxGoodF R1 R2 t CheckRT) 0 (by rw [e0, hM]) hpos hsim
    have a1 := hothers 1 (by decide)
    have a2 := hothers 2 (by decide)
    have a3 := hothers 3 (by decide)
    rw [hM] at hcount
    rw [e1, hM] at a1
    rw [e2, hM] at a2
    rw [e3, hM] at a3
    refine ⟨0, by rw [e0, hM], huniq, ?_⟩
    rw [ReconstructF_first vb R1 R2 t CheckRT minParallax minTriangulated h1 h2 h3, e0, m0]
    by_cases hp : (CheckRT R1 t).parallax > minParallax
    · rw [if_pos ⟨a1, a2, a3, hcount, hp⟩, if_pos hp]
    · rw [if_neg (fun h => hp h.2.2.2.2), if_neg hp]
  · have hM : maxGoodF R1 R2 t CheckRT = (CheckRT R2 t).nGood := by
      unfold maxGoodF
      simp only [Nat.max_def]
      split_ifs <;> omega
    obtain ⟨hothers, huniq⟩ := winner_alone (candidatesF R1 R2 t CheckRT)
      (maxGoodF R1 R2 t CheckRT) 1 (by rw [e1, hM]) hpos hsim
    have a0 := hothers 0 (by decide)
    have a2 := hothers 2 (by decide)
    have a3 := hothers 3 (by decide)
    rw [hM] at hcount
    rw [e0, hM] at a0
    rw [e2, hM] at a2
    rw [e3, hM] at a3
    refine ⟨1, by rw [e1, hM], huniq, ?_⟩
    rw [ReconstructF_second vb R1 R2 t CheckRT minParallax minTriangulated h0 h2 h3, e1, m1]
    by_cases hp : (CheckRT R2 t).parallax > minParallax
    · rw [if_pos ⟨a0, a2, a3, hcount, hp⟩, if_pos hp]
    · rw [if_neg (fun h => hp h.2.2.2.2), if_neg hp]
  · have hM : maxGoodF R1 R2 t CheckRT = (CheckRT R1 (-t)).nGood := by
      unfold maxGoodF
      simp only [Nat.max_def]
      split_ifs <;> omega
    obtain ⟨hothers, huniq⟩ := winner_alone (candidatesF R1 R2 t CheckRT)
      (maxGoodF R1 R2 t CheckRT) 2 (by rw [e2, hM]) hpos hsim
    have a0 := hothers 0 (by decide)
    have a1 := hothers 1 (by decide)
    have a3 := hothers 3 (by decide)
    rw [hM] at hcount
    rw [e0, hM] at a0
    rw [e1, hM] at a1
    rw [e3, hM] at a3
    refine ⟨2, by rw [e2, hM], huniq, ?_⟩
    rw [ReconstructF_third vb R1 R2 t CheckRT minParallax minTriangulated h0 h1 h3, e2, m2]
    by_cases hp : (CheckRT R1 (-t)).parallax > minParallax
    · rw [if_pos ⟨a0, a1, a3, hcount, hp⟩, if_pos hp]
    · rw [if_neg (fun h => hp h.2.2.2.2), if_neg hp]
  · have hM : maxGoodF R1 R2 t CheckRT = (CheckRT R2 (-t)).nGood := by
      unfold maxGoodF
      simp only [Nat.max_def]
      split_ifs <;> omega
    obtain ⟨hothers, huniq⟩ := winner_alone (candidatesF R1 R2 t CheckRT)
      (maxGoodF R1 R2 t CheckRT) 3 (by rw [e3, hM]) hpos hsim
    have a0 := hothers 0 (by decide)
    have a1 := hothers 1 (by decide)
    have a2 := hothers 2 (by decide)
    rw [hM] at hcount
    rw [e0, hM] at a0
    rw [e1, hM] at a1
    rw [e2, hM] at a2
    refine ⟨3, by rw [e3, hM], huniq, ?_⟩
    rw [ReconstructF_fourth vb R1 R2 t CheckRT minParallax minTriangulated h0 h1 h2, e3, m3]
    by_cases hp : (CheckRT R2 (-t)).parallax > minParallax
    · rw [if_pos ⟨a0, a1, a2, hcount, hp⟩, if_pos hp]
    · rw [if_neg (fun h => hp h.2.2.2.2), if_neg hp]

/-- The largest count of the example is that of its single good candidate. -/
theorem maxGoodF_example (n : Nat) (p : ℚ) :
    maxGoodF 1 halfTurnZ ![0, 0, 1] (checkRTExample n p) = n := by
  obtain ⟨a1, a2, a3, a4⟩ := checkRTExample_at n p
  unfold maxGoodF
  rw [a1, a2, a3, a4]
  simp

/-- C36 with 100 inliers and a single candidate with 95 good points and parallax 2:
the first motion wins and is returned. -/
theorem ReconstructF_unique_winner_witness :
    ReconstructF (List.replicate 100 true) 1 halfTurnZ ![0, 0, 1] (checkRTExample 95 2) 1 50
      = some { R21 := 1, t21 := ![0, 0, 1], vP3D := [], vbTriangulated := [] } := by
  obtain ⟨hn, hp⟩ := candidatesF_example 95 2
  obtain ⟨a1, _, _, _⟩ := checkRTExample_at 95 2
  obtain ⟨e0, _, _, _, m0, _, _, _⟩ := candidatesF_at 1 halfTurnZ ![0, 0, 1] (checkRTExample 95 2)
  have hM := maxGoodF_example 95 2
  obtain ⟨i, _, huniq, hres⟩ := ReconstructF_unique_winner (List.replicate 100 true) 1
    halfTurnZ ![0, 0, 1] (checkRTExample 95 2) 1 50 (by decide)
    (by
      rw [hM, countInliers_replicate]
      have hf : ⌊(9 / 10 : ℚ) * ((100 : Nat) : ℚ)⌋ = 90 := by
        rw [Int.floor_eq_iff]
        norm_num
      rw [hf]
      decide)
    (by
      rw [Finset.card_le_one]
      intro a ha b hb
      simp only [Finset.mem_filter, Finset.mem_univ, true_and, hn, hM] at ha hb
      have ha0 : a = 0 := by
        by_contra h
        rw [if_neg h] at ha
        norm_num at ha
        exact absurd (similarBound_nonneg 95) (not_le.mpr ha)
      have hb0 : b = 0 := by
        by_contra h
        rw [if_neg h] at hb
        norm_num at hb
        exact absurd (similarBound_nonneg 95) (not_le.mpr hb)
      rw [ha0, hb0])
  have hi : i = 0 := (huniq 0 (by rw [hn, hM]; rfl)).symm
  subst hi
  rw [hres, hp, m0, e0, a1]
  norm_num

/-! ## Initializer: the length of the inlier masks -/

/-- The flags that the scoring loop returns: those it started with and one for each
match. -/
theorem scoreLoop_mask_length (th thScore : ℚ) (chi1 chi2 : KeyPoint → KeyPoint → XFloat)
    (mvKeys1 mvKeys2 : List KeyPoint) :
    ∀ (l : List (Nat × Nat)) (st res : XFloat × List Bool),
      scoreLoop th thScore chi1 chi2 mvKeys1 mvKeys2 l st = .ok res →
      res.2.length = st.2.length + l.length := by
  intro l
  induction l with
  | nil =>
    intro st res h
    simp only [scoreLoop] at h
    rw [← Except.ok.inj h]
    rfl
  | cons m rest ih =>
    intro st res h
    obtain ⟨score, flags⟩ := st
    cases h1 : mvKeys1[m.1]? with
    | none =>
      rw [scoreLoop_cons_none _ _ _ _ _ _ _ _ _ (Or.inl h1)] at h
      cases h
    | some kp1 =>
      cases h2 : mvKeys2[m.2]? with
      | none =>
        rw [scoreLoop_cons_none _ _ _ _ _ _ _ _ _ (Or.inr h2)] at h
        cases h
      | some kp2 =>
        rw [scoreLoop_cons_some _ _ _ _ _ _ _ _ _ _ kp1 kp2 h1 h2] at h
        have := ih _ _ h
        simp only [List.length_append, List.length_cons, List.length_nil] at this ⊢
        omega

/-- The mask that `CheckHomography` or `CheckFundamental` returns has one flag for each
match. -/
theorem Check_mask_length (H21 H12 F21 : Mat3) (mvKeys1 mvKeys2 : List KeyPoint)
    (mvMatches12 : List (Nat × Nat)) (sigma : ℚ) (res : XFloat × List Bool) :
    (CheckHomography H21 H12 mvKeys1 mvKeys2 mvMatches12 sigma = .ok res →
      res.2.length = mvMatches12.length) ∧
    (CheckFundamental F21 mvKeys1 mvKeys2 mvMatches12 sigma = .ok res →
      res.2.length = mvMatches12.length) := by
  constructor
  · intro h
    have := scoreLoop_mask_length _ _ _ _ _ _ _ _ _ h
    simpa using this
  · intro h
    have := scoreLoop_mask_length _ _ _ _ _ _ _ _ _ h
    simpa using this

/-- The state kept by a RANSAC loop is the entry state or one of the iterations, and
its score is at least every score seen. -/
theorem keepBest_foldl_mem {M : Type} :
    ∀ (l : List (Ransac M)) (st : Ransac M),
      (l.foldl keepBest st = st ∨ l.foldl keepBest st ∈ l) ∧
      st.score ≤ (l.foldl keepBest st).score ∧
      ∀ c, c ∈ l → c.score ≤ (l.foldl keepBest st).score := by
  intro l
  induction l with
  | nil =>
    intro st
    exact ⟨Or.inl rfl, le_refl _, fun c hc => by cases hc⟩
  | cons x l ih =>
    intro st
    obtain ⟨h1, h2, h3⟩ := ih (keepBest st x)
    have hs : st.score ≤ (keepBest st x).score ∧ x.score ≤ (keepBest st x).score := by
      rw [keepBest_score]
      exact ⟨le_max_left _ _, le_max_right _ _⟩
    simp only [List.foldl_cons]
    refine ⟨?_, le_trans hs.1 h2, ?_⟩
    · rcases h1 with h | h
      · rw [h]
        by_cases hx : st.score < x.score
        · rw [keepBest_pos st x hx]
          exact Or.inr (List.mem_cons_self _ _)
        · rw [keepBest_neg st x (not_lt.mp hx)]
          exact Or.inl rfl
      · exact Or.inr (List.mem_cons_of_mem _ h)
    · intro c hc
      rcases List.mem_cons.mp hc with h | h
      · rw [h]
        exact le_trans hs.2 h2
      · exact h3 c h

/-- `CheckRT` on a non-empty match list with an empty inlier mask reads
`vbMatchesInliers[0]` outside the vector. -/
theorem CheckRT_empty_mask (SVDcompute : Mat4 → Mat4) (norm : Vec3 → ℚ)
    (acosDeg : XFloat → XFloat) (R : Mat3) (t : Vec3) (vKeys1 vKeys2 : List KeyPoint)
    (m : Nat × Nat) (rest : List (Nat × Nat)) (K : Mat3) (vP3D : List Vec3) (th2 : ℚ) :
    CheckRT SVDcompute norm acosDeg R t vKeys1 vKeys2 (m :: rest) [] K vP3D th2
      = .error Fault.maskIndex := by
  have hstep : ∀ st, checkRTMatch SVDcompute norm R t vKeys1 vKeys2 [] K th2 0 m st
      = .error Fault.maskIndex := by
    intro st
    unfold checkRTMatch
    simp
  unfold CheckRT
  simp only [checkRTLoop, hstep]

/-- C35. Length of the inlier masks.  Each iteration writes a mask with one flag for
each match (`CheckHomography` and `CheckFundamental` resize it).  The mask returned by
`FindHomography` then has one entry for each match, for every number of iterations.
`FindFundamental` takes its `N` from the size of its output vector, which `Initialize`
passes empty: its mask has one entry for each match when some iteration has a positive
score, and is empty when none has (in particular for `mMaxIterations = 0`); `CheckRT`
then reads `vbMatchesInliers[0]` outside the vector. -/
theorem inlier_mask_lengths {M : Type} (mvMatches12 : List (Nat × Nat))
    (mMaxIterations : Nat) (iterationH iterationF : Nat → Ransac M) (H21 F21 : M)
    (hH : ∀ it, (iterationH it).vbMatchesInliers.length = mvMatches12.length)
    (hF : ∀ it, (iterationF it).vbMatchesInliers.length = mvMatches12.length) :
    (FindHomography mvMatches12 mMaxIterations iterationH H21).vbMatchesInliers.length
      = mvMatches12.length ∧
    ((∃ it, it < mMaxIterations ∧ 0 < (iterationF it).score) →
      (FindFundamental [] mMaxIterations iterationF F21).vbMatchesInliers.length
        = mvMatches12.length) ∧
    ((∀ it, it < mMaxIterations → (iterationF it).score ≤ 0) →
      (FindFundamental [] mMaxIterations iterationF F21).vbMatchesInliers = []) ∧
    (∀ (SVDcompute : Mat4 → Mat4) (norm : Vec3 → ℚ) (acosDeg : XFloat → XFloat) (R : Mat3)
      (t : Vec3) (vKeys1 vKeys2 : List KeyPoint) (K : Mat3) (vP3D : List Vec3) (th2 : ℚ),
      mvMatches12 ≠ [] →
      CheckRT SVDcompute norm acosDeg R t vKeys1 vKeys2 mvMatches12 [] K vP3D th2
        = .error Fault.maskIndex) := by
  refine ⟨?_, ?_, ?_, ?_⟩
  · unfold FindHomography
    obtain ⟨h1, _, _⟩ := keepBest_foldl_mem ((List.range mMaxIterations).map iterationH)
      { vbMatchesInliers := List.replicate mvMatches12.length false, score := 0, model := H21 }
    rcases h1 with h | h
    · simp only [h, List.length_replicate]
    · obtain ⟨it, _, hit⟩ := List.mem_map.mp h
      rw [← hit]
      exact hH it
  · rintro ⟨it, hlt, hpos⟩
    unfold FindFundamental
    obtain ⟨h1, _, h3⟩ := keepBest_foldl_mem ((List.range mMaxIterations).map iterationF)
      { vbMatchesInliers := List.replicate ([] : List Bool).length false, score := 0,
        model := F21 }
    rcases h1 with h | h
    · have hle := h3 (iterationF it) (List.mem_map.mpr ⟨it, List.mem_range.mpr hlt, rfl⟩)
      rw [h] at hle
      exact absurd hle (not_le.mpr hpos)
    · obtain ⟨j, _, hj⟩ := List.mem_map.mp h
      rw [← hj]
      exact hF j
  · intro hall
    unfold FindFundamental
    rw [(keepBest_foldl ((List.range mMaxIterations).map iterationF)
      { vbMatchesInliers := List.replicate ([] : List Bool).length false, score := 0,
        model := F21 }).2.1 (by
        intro c hc
        obtain ⟨it, hit, hc⟩ := List.mem_map.mp hc
        rw [← hc]
        exact hall it (List.mem_range.mp hit))]
    rfl
  · intro SVDcompute norm acosDeg R t vKeys1 vKeys2 K vP3D th2 hne
    cases mvMatches12 with
    | nil => exact absurd rfl hne
    | cons m rest => exact CheckRT_empty_mask _ _ _ _ _ _ _ m rest _ _ _

/-- C35 on a single match and 200 iterations none of which has a positive score: the
mask of `FindHomography` has one entry, the mask of `FindFundamental` is empty, and
`CheckRT` on the match list with that mask reads outside the vector. -/
theorem inlier_mask_lengths_witness :
    (FindHomography [(0, 0)] 200 noInlierIteration (0 : Mat3)).vbMatchesInliers.length = 1 ∧
    (FindFundamental [] 200 noInlierIteration (0 : Mat3)).vbMatchesInliers = [] ∧
    CheckRT svdEpipole euclidNorm (fun c => c) 1 ![0, 0, 1]
        [{ ptx := 5, pty := 7, octave := 0 }] [{ ptx := 0, pty := 0, octave := 0 }]
        [(0, 0)] (FindFundamental [] 200 noInlierIteration (0 : Mat3)).vbMatchesInliers
        1 [] 4
      = .error Fault.maskIndex := by
  have h := inlier_mask_lengths [(0, 0)] 200 noInlierIteration noInlierIteration
    (0 : Mat3) (0 : Mat3) (fun _ => rfl) (fun _ => rfl)
  have hempty := h.2.2.1 (fun _ _ => le_refl _)
  refine ⟨h.1, hempty, ?_⟩
  rw [hempty]
  exact h.2.2.2 svdEpipole euclidNorm (fun c => c) 1 ![0, 0, 1]
    [{ ptx := 5, pty := 7, octave := 0 }] [{ ptx := 0, pty := 0, octave := 0 }] 1 [] 4
    (by simp)

/-! ## Stereo matcher: the parabola fit -/

/-- When the sliding-window loop ends normally, its result is the fold of `slideStep`
over the shifts, with the distances `sadAt`. -/
theorem slideLoop_eq_foldl (IL : Nat → Nat → Int) (imR : Image) (scaledvL scaleduR0 : Int) :
    ∀ (l : List Int) (st res : Int × Int × List Int),
      slideLoop IL imR scaledvL scaleduR0 l st = .ok res →
      res = l.foldl (slideStep (sadAt IL imR scaledvL scaleduR0)) st := by
  intro l
  induction l with
  | nil =>
    intro st res h
    simp only [slideLoop] at h
    exact (Except.ok.inj h).symm
  | cons incR rest ih =>
    intro st res h
    obtain ⟨bestDist, bestincR, vDists⟩ := st
    unfold slideLoop at h
    unfold patch at h
    split_ifs at h with hc
    · simp only [] at h
      rw [List.foldl_cons]
      split_ifs at h with hd
      · have := ih _ _ h
        rw [this]
        congr 1
        simp only [slideStep, sadAt]
        rw [if_pos hd]
      · have := ih _ _ h
        rw [this]
        congr 1
        simp only [slideStep, sadAt]
        rw [if_neg hd]

/-- The fold of `slideStep`: the best distance is at most the entry one and at most
every distance seen, and either nothing was updated or the best shift is one of the
shifts seen, with the best distance as its distance, below the entry one. -/
theorem slideStep_foldl (d : Int → Int) :
    ∀ (l : List Int) (st : Int × Int × List Int),
      (l.foldl (slideStep d) st).1 ≤ st.1 ∧
      (∀ r, r ∈ l → (l.foldl (slideStep d) st).1 ≤ d r) ∧
      (((l.foldl (slideStep d) st).1 = st.1 ∧ (l.foldl (slideStep d) st).2.1 = st.2.1) ∨
        ((l.foldl (slideStep d) st).2.1 ∈ l ∧
          d (l.foldl (slideStep d) st).2.1 = (l.foldl (slideStep d) st).1 ∧
          (l.foldl (slideStep d) st).1 < st.1)) ∧
      (l.foldl (slideStep d) st).2.2
        = l.foldl (fun vd r => vd.set (5 + r).toNat (d r)) st.2.2 := by
  intro l
  induction l with
  | nil =>
    intro st
    exact ⟨le_refl _, (fun r hr => by cases hr), Or.inl ⟨rfl, rfl⟩, rfl⟩
  | cons r rest ih =>
    intro st
    obtain ⟨h1, h2, h3, h4⟩ := ih (slideStep d st r)
    simp only [List.foldl_cons]
    by_cases hd : d r < st.1
    · have hs : slideStep d st r = (d r, r, st.2.2.set (5 + r).toNat (d r)) := by
        unfold slideStep
        rw [if_pos hd]
      rw [hs] at h1 h2 h3 h4 ⊢
      simp only [] at h1 h2 h3 h4
      refine ⟨le_trans h1 (le_of_lt hd), ?_, ?_, h4⟩
      · intro q hq
        rcases List.mem_cons.mp hq with e | e
        · rw [e]
          exact h1
        · exact h2 q e
      · right
        rcases h3 with ⟨e1, e2⟩ | ⟨e1, e2, e3⟩
        · refine ⟨?_, ?_, ?_⟩
          · rw [e2]
            exact List.mem_cons_self _ _
          · rw [e2, e1]
          · rw [e1]
            exact hd
        · exact ⟨List.mem_cons_of_mem _ e1, e2, lt_trans e3 hd⟩
    · have hs : slideStep d st r = (st.1, st.2.1, st.2.2.set (5 + r).toNat (d r)) := by
        unfold slideStep
        rw [if_neg hd]
      rw [hs] at h1 h2 h3 h4 ⊢
      simp only [] at h1 h2 h3 h4
      refine ⟨h1, ?_, ?_, h4⟩
      · intro q hq
        rcases List.mem_cons.mp hq with e | e
        · rw [e]
          exact le_trans h1 (not_lt.mp hd)
        · exact h2 q e
      · rcases h3 with ⟨e1, e2⟩ | ⟨e1, e2, e3⟩
        · exact Or.inl ⟨e1, e2⟩
        · exact Or.inr ⟨List.mem_cons_of_mem _ e1, e2, e3⟩

/-- The best shift of a run of the sliding window over `L1 ++ L2`, when it is not one
of the shifts of `L1` although some distance over `L1` is below the entry distance:
its distance is the best distance, it is below every distance over `L1` and at most
every distance of the run. -/
theorem slide_split (d : Int → Int) (L1 L2 : List Int) (st : Int × Int × List Int)
    (b : Int)
    (hlow : ∃ r, r ∈ L1 ∧ d r < st.1)
    (hb : ((L1 ++ L2).foldl (slideStep d) st).2.1 = b)
    (hnot : b ∉ L1) :
    d b = ((L1 ++ L2).foldl (slideStep d) st).1 ∧
    (∀ r, r ∈ L1 → d b < d r) ∧
    (∀ r, r ∈ L1 ++ L2 → d b ≤ d r) := by
  obtain ⟨_, a2, a3, _⟩ := slideStep_foldl d L1 st
  obtain ⟨_, _, c3, _⟩ := slideStep_foldl d L2 (L1.foldl (slideStep d) st)
  obtain ⟨_, w2, _, _⟩ := slideStep_foldl d (L1 ++ L2) st
  rw [List.foldl_append] at hb w2 ⊢
  obtain ⟨r0, hr0, hlt⟩ := hlow
  have hin : (L1.foldl (slideStep d) st).2.1 ∈ L1 := by
    rcases a3 with ⟨e1, _⟩ | ⟨e1, _, _⟩
    · have := a2 r0 hr0
      omega
    · exact e1
  rcases c3 with ⟨_, e2⟩ | ⟨_, e2, e3⟩
  · rw [hb] at e2
    rw [e2] at hnot
    exact absurd hin hnot
  · rw [hb] at e2
    refine ⟨e2, ?_, ?_⟩
    · intro r hr
      have := a2 r hr
      omega
    · intro r hr
      rw [e2]
      exact w2 r hr

/-- The sliding-window loop of `ComputeStereoMatches` as a function of the eleven
distances `d (-5), ..., d 5`, when the first of them is below `INT_MAX` and the best
shift `b` is not at an end of the range: the vector `vDists` holds the eleven
distances, and the distance at `b` is below the one at `b - 1` and at most the one at
`b + 1`. -/
theorem slide_interior (d : Int → Int) (b : Int) (hfirst : d (-5) < INT_MAX)
    (hb : ((intRange (-5) 5).foldl (slideStep d) (INT_MAX, 0, List.replicate 11 0)).2.1 = b)
    (hint : ¬ (b = -5 ∨ b = 5)) :
    ((intRange (-5) 5).foldl (slideStep d) (INT_MAX, 0, List.replicate 11 0)).2.2
      = [d (-5), d (-4), d (-3), d (-2), d (-1), d 0, d 1, d 2, d 3, d 4, d 5] ∧
    (-5 < b ∧ b < 5) ∧
    d b < d (b - 1) ∧ d b ≤ d (b + 1) := by
  obtain ⟨_, f2, f3, f4⟩ := slideStep_foldl d (intRange (-5) 5) (INT_MAX, 0, List.replicate 11 0)
  have hrange : -5 < b ∧ b < 5 := by
    rcases f3 with ⟨e1, _⟩ | ⟨e1, _, _⟩
    · have := f2 (-5) ((mem_intRange _ _ _).mpr (by omega))
      simp only [] at e1
      omega
    · rw [hb, mem_intRange] at e1
      omega
  have hsplit : intRange (-5) 5 = intRange (-5) (b - 1) ++ intRange b 5 := by
    obtain ⟨h1, h2⟩ := hrange
    interval_cases b <;> rfl
  refine ⟨?_, hrange, ?_⟩
  · rw [f4]
    rfl
  · rw [hsplit] at hb
    obtain ⟨_, g2, g3⟩ := slide_split d (intRange (-5) (b - 1)) (intRange b 5)
      (INT_MAX, 0, List.replicate 11 0) b
      ⟨-5, (mem_intRange _ _ _).mpr (by omega), hfirst⟩ hb
      (by rw [mem_intRange]; omega)
    refine ⟨g2 (b - 1) ((mem_intRange _ _ _).mpr (by omega)), ?_⟩
    apply g3 (b + 1)
    rw [← hsplit, mem_intRange]
    omega

/-- The sum of absolute differences of two 11 × 11 windows of 8-bit pixels, each
centred on its middle pixel, is at most `121 * 510`. -/
theorem normL1_le (IL IR : Nat → Nat → Int)
    (hL : ∀ i j, 0 ≤ IL i j ∧ IL i j ≤ 255) (hR : ∀ i j, 0 ≤ IR i j ∧ IR i j ≤ 255) :
    normL1 5 IL IR ≤ 61710 := by
  have hterm : ∀ i j, |(IL i j - IL 5 5) - (IR i j - IR 5 5)| ≤ 510 := by
    intro i j
    have a := hL i j
    have b := hL 5 5
    have c := hR i j
    have e := hR 5 5
    rw [abs_le]
    constructor <;> omega
  have hinner : ∀ i, ((List.range (2 * 5 + 1)).map (fun j =>
      |(IL i j - IL 5 5) - (IR i j - IR 5 5)|)).sum ≤ 5610 := by
    intro i
    have h := List.sum_le_card_nsmul ((List.range (2 * 5 + 1)).map (fun j =>
      |(IL i j - IL 5 5) - (IR i j - IR 5 5)|)) 510 (by
        intro x hx
        obtain ⟨j, _, hj⟩ := List.mem_map.mp hx
        rw [← hj]
        exact hterm i j)
    simpa using h
  have houter := List.sum_le_card_nsmul ((List.range (2 * 5 + 1)).map (fun i =>
    ((List.range (2 * 5 + 1)).map (fun j =>
      |(IL i j - IL 5 5) - (IR i j - IR 5 5)|)).sum)) 5610 (by
      intro x hx
      obtain ⟨i, _, hi⟩ := List.mem_map.mp hx
      rw [← hi]
      exact hinner i)
  unfold normL1
  simpa using houter

/-- The parabola fit on three values with `d2 < d1` and `d2 ≤ d3`: the denominator is
positive and the correction is at most `1/2` in absolute value. -/
theorem parabola_bounded (d1 d2 d3 : ℚ) (h1 : d2 < d1) (h3 : d2 ≤ d3) :
    0 < 2 * (d1 + d3 - 2 * d2) ∧
    |(d1 - d3) / (2 * (d1 + d3 - 2 * d2))| ≤ 1 / 2 := by
  have hden : 0 < 2 * (d1 + d3 - 2 * d2) := by linarith
  refine ⟨hden, ?_⟩
  rw [abs_le]
  constructor
  · rw [le_div_iff₀ hden]
    linarith
  · rw [div_le_iff₀ hden]
    linarith

/-- The entries of `vDists` around an interior best shift. -/
theorem vDists_around (d : Int → Int) (b : Int) (h1 : -5 < b) (h2 : b < 5) :
    ([d (-5), d (-4), d (-3), d (-2), d (-1), d 0, d 1, d 2, d 3, d 4, d 5] : List Int).getD
        (5 + b - 1).toNat 0 = d (b - 1) ∧
    ([d (-5), d (-4), d (-3), d (-2), d (-1), d 0, d 1, d 2, d 3, d 4, d 5] : List Int).getD
        (5 + b).toNat 0 = d b ∧
    ([d (-5), d (-4), d (-3), d (-2), d (-1), d 0, d 1, d 2, d 3, d 4, d 5] : List Int).getD
        (5 + b + 1).toNat 0 = d (b + 1) := by
  interval_cases b <;> exact ⟨rfl, rfl, rfl⟩

/-- C34. The sub-pixel correction is bounded.  Let the SAD refinement of a left
keypoint reach the parabola fit on two 8-bit pyramid images: every window lies
inside the right image and the best shift `bestincR` is neither `-L` nor `+L`.  Then the
three distances `dist1, dist2, dist3` around the best shift satisfy `dist2 < dist1`
and `dist2 ≤ dist3`, the denominator `2*(dist1 + dist3 - 2*dist2)` is positive,
`|deltaR| ≤ 1/2`, and the rejection test `deltaR<-1 || deltaR>1` does not fire: the
result is that of the depth step. -/
theorem subpixel_bounded (f : Frame) (minD : ℚ) (maxD : XFloat) (kpL : KeyPoint)
    (bestIdxR : Nat) (kpR0 : KeyPoint) (scaleFactor sf : ℚ) (imL imR : Image)
    (IL : Nat → Nat → Int) (bestDist bestincR : Int) (vDists : List Int)
    (dist1 dist2 dist3 : ℚ)
    (h1 : f.mvKeysRight[bestIdxR]? = some kpR0)
    (h2 : listAt f.mvInvScaleFactors kpL.octave = some scaleFactor)
    (h3 : listAt f.leftPyramid kpL.octave = some imL)
    (h4 : patch imL (cround (kpL.pty * scaleFactor) - 5) (cround (kpL.pty * scaleFactor) + 5 + 1)
      (cround (kpL.ptx * scaleFactor) - 5) (cround (kpL.ptx * scaleFactor) + 5 + 1) = .ok IL)
    (h5 : ¬ cround (kpR0.ptx * scaleFactor) + 5 - 5 < 0)
    (h6 : listAt f.rightPyramid kpL.octave = some imR)
    (h7 : ¬ cround (kpR0.ptx * scaleFactor) + 5 + 5 + 1 ≥ (imR.cols : Int))
    (h8 : slideLoop IL imR (cround (kpL.pty * scaleFactor)) (cround (kpR0.ptx * scaleFactor))
      (intRange (-5) 5) (INT_MAX, 0, List.replicate 11 0) = .ok (bestDist, bestincR, vDists))
    (h9 : ¬ (bestincR = -5 ∨ bestincR = 5))
    (h11 : listAt f.mvScaleFactors kpL.octave = some sf)
    (hpxL : ∀ r c, 0 ≤ imL.px r c ∧ imL.px r c ≤ 255)
    (hpxR : ∀ r c, 0 ≤ imR.px r c ∧ imR.px r c ≤ 255)
    (hd1 : dist1 = ((vDists.getD (5 + bestincR - 1).toNat 0 : Int) : ℚ))
    (hd2 : dist2 = ((vDists.getD (5 + bestincR).toNat 0 : Int) : ℚ))
    (hd3 : dist3 = ((vDists.getD (5 + bestincR + 1).toNat 0 : Int) : ℚ)) :
    dist2 < dist1 ∧ dist2 ≤ dist3 ∧
    0 < 2 * (dist1 + dist3 - 2 * dist2) ∧
    |(dist1 - dist3) / (2 * (dist1 + dist3 - 2 * dist2))| ≤ 1 / 2 ∧
    sadRefine f minD maxD kpL bestIdxR =
      match depthStep f.mbf minD maxD kpL.ptx
          (sf * ((cround (kpR0.ptx * scaleFactor) : ℚ) + (bestincR : ℚ) +
            (dist1 - dist3) / (2 * (dist1 + dist3 - 2 * dist2)))) with
      | none => .ok none
      | some (depth, uRight) => .ok (some (depth, uRight, bestDist)) := by
  have hIL : ∀ i j, 0 ≤ IL i j ∧ IL i j ≤ 255 := by
    unfold patch at h4
    split_ifs at h4 with hc
    have := Except.ok.inj h4
    intro i j
    rw [← this]
    exact hpxL _ _
  have hfold := slideLoop_eq_foldl IL imR _ _ _ _ _ h8
  have hb : ((intRange (-5) 5).foldl
      (slideStep (sadAt IL imR (cround (kpL.pty * scaleFactor))
        (cround (kpR0.ptx * scaleFactor)))) (INT_MAX, 0, List.replicate 11 0)).2.1
      = bestincR := by
    rw [← hfold]
  have hfirst : sadAt IL imR (cround (kpL.pty * scaleFactor))
      (cround (kpR0.ptx * scaleFactor)) (-5) < INT_MAX := by
    have := normL1_le IL (fun i j => imR.px ((cround (kpL.pty * scaleFactor) - 5).toNat + i)
      ((cround (kpR0.ptx * scaleFactor) + (-5) - 5).toNat + j)) hIL (fun i j => hpxR _ _)
    unfold sadAt INT_MAX
    omega
  obtain ⟨hv, ⟨hlo, hhi⟩, hlt, hle⟩ := slide_interior _ bestincR hfirst hb h9
  rw [← hfold] at hv
  simp only [] at hv
  obtain ⟨g1, g2, g3⟩ := vDists_around (sadAt IL imR (cround (kpL.pty * scaleFactor))
    (cround (kpR0.ptx * scaleFactor))) bestincR hlo hhi
  rw [← hv] at g1 g2 g3
  have e1 : dist2 < dist1 := by
    rw [hd1, hd2, g1, g2]
    exact_mod_cast hlt
  have e3 : dist2 ≤ dist3 := by
    rw [hd2, hd3, g2, g3]
    exact_mod_cast hle
  obtain ⟨hden, habs⟩ := parabola_bounded dist1 dist2 dist3 e1 e3
  refine ⟨e1, e3, hden, habs, ?_⟩
  have hno : ¬ ((dist1 - dist3) / (2 * (dist1 + dist3 - 2 * dist2)) < -1 ∨
      (dist1 - dist3) / (2 * (dist1 + dist3 - 2 * dist2)) > 1) := by
    rw [abs_le] at habs
    rintro (h | h) <;> linarith [habs.1, habs.2]
  rw [hd1, hd2, hd3] at hno ⊢
  exact sadRefine_path f minD maxD kpL bestIdxR kpR0 scaleFactor sf imL imR IL bestDist
    bestincR vDists h1 h2 h3 h4 h5 h6 h7 h8 h9 hno h11

/-- The pattern images without bump are 8-bit images. -/
theorem patternImage_8bit (c0 : Int) :
    ∀ r c, 0 ≤ (patternImage c0 0).px r c ∧ (patternImage c0 0).px r c ≤ 255 := by
  intro r c
  simp only [patternImage, add_zero, ite_self]
  constructor
  · exact le_min (by decide) (sq_nonneg _)
  · exact min_le_left _ _

/-- C34 on the scenario of the specification (left keypoint `(300, 200)`, right
keypoint `(260, 200)`, identical patches): the distances around the best shift 0 are
`660, 0, 660`, the correction is 0 and the depth step stores depth `5/4`. -/
theorem subpixel_bounded_witness :
    (0 : ℚ) < 660 ∧ (0 : ℚ) ≤ 660 ∧
    (0 : ℚ) < 2 * (660 + 660 - 2 * 0) ∧
    |((660 : ℚ) - 660) / (2 * (660 + 660 - 2 * 0))| ≤ 1 / 2 ∧
    sadRefine (perfectScene (1 / 10)) 0 (XFloat.fin 500)
        { ptx := 300, pty := 200, octave := 0 } 0
      = .ok (some (5 / 4, 260, 0)) := by
  have g1 : ([3300, 2640, 1980, 1320, 660, 0, 660, 1320, 1980, 2640, 3300] : List Int).getD
      ((5 : Int) + 0 - 1).toNat 0 = 660 := rfl
  have g2 : ([3300, 2640, 1980, 1320, 660, 0, 660, 1320, 1980, 2640, 3300] : List Int).getD
      ((5 : Int) + 0).toNat 0 = 0 := rfl
  have g3 : ([3300, 2640, 1980, 1320, 660, 0, 660, 1320, 1980, 2640, 3300] : List Int).getD
      ((5 : Int) + 0 + 1).toNat 0 = 660 := rfl
  obtain ⟨a1, a2, a3, a4, a5⟩ := subpixel_bounded (perfectScene (1 / 10)) 0 (XFloat.fin 500)
    { ptx := 300, pty := 200, octave := 0 } 0
    { ptx := 260, pty := 200, octave := 0 } 1 1 (patternImage 300 0) (patternImage 260 0)
    (fun i j => (patternImage 300 0).px (195 + i) (295 + j)) 0 0
    [3300, 2640, 1980, 1320, 660, 0, 660, 1320, 1980, 2640, 3300] 660 0 660
    rfl rfl rfl
    (by simp only [cround_300, cround_200]; rfl)
    (by simp only [cround_260]; decide)
    rfl
    (by simp only [cround_260]; decide)
    (by simp only [cround_200, cround_260]; exact slide_perfect)
    (by decide)
    rfl
    (patternImage_8bit 300) (patternImage_8bit 260)
    (by rw [g1]; norm_num) (by rw [g2]; norm_num) (by rw [g3]; norm_num)
  refine ⟨a1, a2, a3, a4, ?_⟩
  rw [a5]
  have hb : (perfectScene (1 / 10)).mbf = 50 := rfl
  simp only [cround_260, hb]
  norm_num [depthStep, XFloat.ltX]

/-! ## Stereo matcher: the sliding window and the image border -/

/-- The first pass of the sliding-window loop asks for the columns from
`scaleduR0 - 10` on: when `scaleduR0 < 10` the range assertion of OpenCV fails. -/
theorem slideLoop_first_outside (IL : Nat → Nat → Int) (imR : Image)
    (scaledvL scaleduR0 : Int) (st : Int × Int × List Int) (h : scaleduR0 < 10) :
    slideLoop IL imR scaledvL scaleduR0 (intRange (-5) 5) st = .error Fault.patchRange := by
  have hr : intRange (-5) 5 = -5 :: intRange (-4) 5 := rfl
  obtain ⟨bestDist, bestincR, vDists⟩ := st
  have hp : patch imR (scaledvL - 5) (scaledvL + 5 + 1) (scaleduR0 + -5 - 5)
      (scaleduR0 + -5 + 5 + 1) = .error Fault.patchRange := by
    unfold patch
    rw [if_neg]
    intro hc
    omega
  rw [hr]
  simp only [slideLoop, hp]

/-- C31. The SAD window and the image border.  Let a candidate pass the bounds check
of `ComputeStereoMatches` as the source writes it (`iniu = scaleduR0+L-w ≥ 0` and
`endu = scaleduR0+L+w+1 < cols`).  Then the column ranges
`[scaleduR0 + incR - w, scaleduR0 + incR + w + 1)` of all shifts `incR` in `[-L, L]` lie
inside `[0, cols)` exactly when `scaleduR0 ≥ L + w = 10`; and when `scaleduR0 < 10` the
first window starts left of the image and the range assertion of `colRange` fails. -/
theorem sadRefine_window_leaves_image (f : Frame) (minD : ℚ) (maxD : XFloat)
    (kpL : KeyPoint) (bestIdxR : Nat) (kpR0 : KeyPoint) (scaleFactor : ℚ) (imL imR : Image)
    (IL : Nat → Nat → Int)
    (h1 : f.mvKeysRight[bestIdxR]? = some kpR0)
    (h2 : listAt f.mvInvScaleFactors kpL.octave = some scaleFactor)
    (h3 : listAt f.leftPyramid kpL.octave = some imL)
    (h4 : patch imL (cround (kpL.pty * scaleFactor) - 5) (cround (kpL.pty * scaleFactor) + 5 + 1)
      (cround (kpL.ptx * scaleFactor) - 5) (cround (kpL.ptx * scaleFactor) + 5 + 1) = .ok IL)
    (h5 : ¬ cround (kpR0.ptx * scaleFactor) + 5 - 5 < 0)
    (h6 : listAt f.rightPyramid kpL.octave = some imR)
    (h7 : ¬ cround (kpR0.ptx * scaleFactor) + 5 + 5 + 1 ≥ (imR.cols : Int)) :
    ((∀ incR : Int, -5 ≤ incR → incR ≤ 5 →
        0 ≤ cround (kpR0.ptx * scaleFactor) + incR - 5 ∧
        cround (kpR0.ptx * scaleFactor) + incR + 5 + 1 ≤ (imR.cols : Int))
      ↔ 10 ≤ cround (kpR0.ptx * scaleFactor)) ∧
    (cround (kpR0.ptx * scaleFactor) < 10 →
      sadRefine f minD maxD kpL bestIdxR = .error Fault.patchRange) := by
  constructor
  · constructor
    · intro h
      have := (h (-5) (by decide) (by decide)).1
      omega
    · intro h incR hlo hhi
      omega
  · intro hlt
    unfold sadRefine
    simp only [h1, h2, h3, h4, if_neg h5, h6, if_neg h7,
      slideLoop_first_outside IL imR _ _ _ hlt]

/-- The rounding of the coordinate 5. -/
theorem cround_5 : cround ((5 : ℚ) * 1) = 5 := by
  have := cround_natCast 5; simpa using this

/-- C31 on a right keypoint 5 pixels from the left border of a 640 × 480 image: the
bounds check passes (`iniu = 5`, `endu = 16`), the first window would start at column
`-5`, and `ComputeStereoMatches` ends on the failed range assertion. -/
theorem sadRefine_window_leaves_image_witness :
    ComputeStereoMatches (edgeScene (1 / 10)) = .error Fault.patchRange := by
  have hs : sadRefine (edgeScene (1 / 10)) 0 (XFloat.fin 500)
      { ptx := 300, pty := 200, octave := 0 } 0 = .error Fault.patchRange :=
    (sadRefine_window_leaves_image (edgeScene (1 / 10)) 0 (XFloat.fin 500)
      { ptx := 300, pty := 200, octave := 0 } 0 { ptx := 5, pty := 200, octave := 0 } 1
      (patternImage 300 0) (patternImage 5 0)
      (fun i j => (patternImage 300 0).px (195 + i) (295 + j))
      rfl rfl rfl
      (by simp only [cround_300, cround_200]; rfl)
      (by simp only [cround_5]; decide)
      rfl
      (by simp only [cround_5]; decide)).2 (by simp only [cround_5]; decide)
  have hp : preselect (edgeScene (1 / 10)) 0 0 (XFloat.rsub 300 (XFloat.fin 500)) (300 - 0) [0]
      (100, 0) = .ok (0, 0) := by
    norm_num [preselect, edgeScene, stereoScene, XFloat.rsub, XFloat.geX]
  have hl : matchLeft (edgeScene (1 / 10)) rowTable200 0 (XFloat.fin 500) 75 0
      { ptx := 300, pty := 200, octave := 0 } = .error Fault.patchRange := by
    rw [matchLeft_path (edgeScene (1 / 10)) rowTable200 0 (XFloat.fin 500) 75 0
      { ptx := 300, pty := 200, octave := 0 } [0] 0 0
      (by simp only [ctrunc_200]; exact rowTable200_at) rfl (by norm_num) hp (by decide)]
    exact hs
  have hD : XFloat.div 50 (1 / 10) = XFloat.fin 500 := by
    norm_num [XFloat.div]
  have h1 : (edgeScene (1 / 10)).leftPyramid[0]? = some (patternImage 300 0) := rfl
  have h2 : buildRowTable (edgeScene (1 / 10)).mvScaleFactors 0 (edgeScene (1 / 10)).mvKeysRight
      (List.replicate (patternImage 300 0).rows []) = .ok rowTable200 := buildRowTable_200 5
  have h3 : matchLoop (edgeScene (1 / 10)) rowTable200 0 (XFloat.fin 500) 75 0
      (edgeScene (1 / 10)).mvKeys
      (List.replicate (edgeScene (1 / 10)).mvKeys.length (-1),
        List.replicate (edgeScene (1 / 10)).mvKeys.length (-1), [])
      = .error Fault.patchRange := by
    show matchLoop (edgeScene (1 / 10)) rowTable200 0 (XFloat.fin 500) 75 0
      [{ ptx := 300, pty := 200, octave := 0 }] ([-1], [-1], []) = _
    simp only [matchLoop, hl]
  have hmbf : (edgeScene (1 / 10)).mbf = 50 := rfl
  have hmb : (edgeScene (1 / 10)).mb = 1 / 10 := rfl
  have hth : ((edgeScene (1 / 10)).TH_HIGH + (edgeScene (1 / 10)).TH_LOW).tdiv 2 = 75 := by
    decide
  unfold ComputeStereoMatches
  simp only [h1, h2, hmbf, hmb, hD, hth, h3]

/-! ## Stereo matcher: the descriptor pre-selection -/

/-- The pre-selection loop over candidates that all exist is the fold of `keepCloser`
over the eligible candidates. -/
theorem preselect_eq_foldl (f : Frame) (iL : Nat) (levelL : Int) (minU : XFloat) (maxU : ℚ) :
    ∀ (vCandidates : List Nat) (best : Int × Nat),
      (∀ iR, iR ∈ vCandidates → iR < f.mvKeysRight.length) →
      preselect f iL levelL minU maxU vCandidates best
        = .ok ((eligibleCandidates f levelL minU maxU vCandidates).foldl
            (keepCloser (f.DescriptorDistance iL)) best) := by
  intro vCandidates
  induction vCandidates with
  | nil =>
    intro best _
    rfl
  | cons iR rest ih =>
    intro best hall
    obtain ⟨bestDist, bestIdxR⟩ := best
    have hlt : iR < f.mvKeysRight.length := hall iR (List.mem_cons_self _ _)
    have hget : f.mvKeysRight[iR]? = some f.mvKeysRight[iR] := List.getElem?_eq_getElem hlt
    have hrest : ∀ q, q ∈ rest → q < f.mvKeysRight.length :=
      fun q hq => hall q (List.mem_cons_of_mem _ hq)
    unfold preselect
    simp only [hget]
    unfold eligibleCandidates
    rw [List.filter_cons]
    simp only [hget]
    by_cases ho : f.mvKeysRight[iR].octave < levelL - 1 ∨ f.mvKeysRight[iR].octave > levelL + 1
    · simp only [ho, if_true, not_true_eq_false, decide_False, Bool.false_and,
        Bool.false_eq_true, if_false]
      exact ih _ hrest
    · by_cases hu : XFloat.geX f.mvKeysRight[iR].ptx minU = true ∧ f.mvKeysRight[iR].ptx ≤ maxU
      · simp only [ho, hu, if_false, if_true, not_false_eq_true, decide_True, Bool.and_self,
          and_self, List.foldl_cons]
        by_cases hd : f.DescriptorDistance iL iR < bestDist
        · rw [if_pos hd, ih _ hrest]
          unfold eligibleCandidates keepCloser
          rw [if_pos hd]
        · rw [if_neg hd, ih _ hrest]
          unfold eligibleCandidates keepCloser
          rw [if_neg hd]
      · simp only [ho, hu, if_false, not_false_eq_true, decide_True, decide_False,
          Bool.and_false, Bool.false_eq_true]
        exact ih _ hrest

/-- The fold of `keepCloser`: when no distance is below the entry distance the entry
state is kept; otherwise the candidate kept is the first one that attains the smallest
distance, and that distance is below the entry one. -/
theorem keepCloser_foldl (d : Nat → Int) :
    ∀ (l : List Nat) (best : Int × Nat),
      ((∀ x, x ∈ l → best.1 ≤ d x) → l.foldl (keepCloser d) best = best) ∧
      ((∃ x, x ∈ l ∧ d x < best.1) →
        ∃ pre post, l = pre ++ (l.foldl (keepCloser d) best).2 :: post ∧
          d (l.foldl (keepCloser d) best).2 = (l.foldl (keepCloser d) best).1 ∧
          (l.foldl (keepCloser d) best).1 < best.1 ∧
          (∀ x, x ∈ pre → (l.foldl (keepCloser d) best).1 < d x) ∧
          (∀ x, x ∈ post → (l.foldl (keepCloser d) best).1 ≤ d x)) := by
  intro l
  induction l with
  | nil =>
    intro best
    refine ⟨fun _ => rfl, ?_⟩
    rintro ⟨x, hx, _⟩
    cases hx
  | cons x rest ih =>
    intro best
    constructor
    · intro hall
      have hx : ¬ d x < best.1 := not_lt.mpr (hall x (List.mem_cons_self _ _))
      have hs : keepCloser d best x = best := by
        unfold keepCloser
        rw [if_neg hx]
      rw [List.foldl_cons, hs]
      exact (ih best).1 (fun y hy => hall y (List.mem_cons_of_mem _ hy))
    · rintro ⟨y, hy, hyd⟩
      rw [List.foldl_cons]
      by_cases hx : d x < best.1
      · have hs : keepCloser d best x = (d x, x) := by
          unfold keepCloser
          rw [if_pos hx]
        rw [hs]
        by_cases hrest : ∀ z, z ∈ rest → d x ≤ d z
        · rw [(ih (d x, x)).1 hrest]
          exact ⟨[], rest, rfl, rfl, hx, (fun z hz => by cases hz), hrest⟩
        · push_neg at hrest
          obtain ⟨pre, post, e1, e2, e3, e4, e5⟩ := (ih (d x, x)).2 hrest
          refine ⟨x :: pre, post, ?_, e2, lt_trans e3 hx, ?_, e5⟩
          · rw [List.cons_append, ← e1]
          · intro z hz
            rcases List.mem_cons.mp hz with h | h
            · rw [h]
              exact e3
            · exact e4 z h
      · have hs : keepCloser d best x = best := by
          unfold keepCloser
          rw [if_neg hx]
        rw [hs]
        have hyr : y ∈ rest := by
          rcases List.mem_cons.mp hy with h | h
          · rw [h] at hyd
            exact absurd hyd hx
          · exact h
        obtain ⟨pre, post, e1, e2, e3, e4, e5⟩ := (ih best).2 ⟨y, hyr, hyd⟩
        refine ⟨x :: pre, post, ?_, e2, e3, ?_, e5⟩
        · rw [List.cons_append, ← e1]
        · intro z hz
          rcases List.mem_cons.mp hz with h | h
          · rw [h]
            exact lt_of_lt_of_le e3 (not_lt.mp hx)
          · exact e4 z h

/-- C32. Descriptor pre-selection for the left keypoint `iL`, whose row of the table
exists and lists existing right keypoints, with `uL ≥ minD` and a refinement threshold
`thOrbDist = (TH_HIGH+TH_LOW)/2` that is at most `TH_HIGH`.  Among the candidates of
the row whose octave is in `[levelL-1, levelL+1]` and whose `u` lies in `[minU, maxU]`:
when the smallest descriptor distance is below `TH_HIGH`, the candidate kept in
`bestIdxR` is the first one that attains it, and the SAD refinement is run on that
candidate exactly when the smallest distance is below `thOrbDist`; when no distance is
below `TH_HIGH` the refinement is not run.  Where it is not run the loop goes on to the
next keypoint without writing `mvuRight[iL]` or `mvDepth[iL]`, which stay `-1`. -/
theorem preselection_spec (f : Frame) (vRowIndices : List (List Nat)) (minD : ℚ)
    (maxD : XFloat) (thOrbDist : Int) (iL : Nat) (kpL : KeyPoint) (vCandidates : List Nat)
    (hrow : listAt vRowIndices (ctrunc kpL.pty) = some vCandidates)
    (hvalid : ∀ iR, iR ∈ vCandidates → iR < f.mvKeysRight.length)
    (hU : ¬ kpL.ptx - minD < 0)
    (hth : thOrbDist ≤ f.TH_HIGH) :
    ((∃ x, x ∈ eligibleCandidates f kpL.octave (XFloat.rsub kpL.ptx maxD) (kpL.ptx - minD)
          vCandidates ∧ f.DescriptorDistance iL x < f.TH_HIGH) →
      ∃ bestIdxR pre post,
        eligibleCandidates f kpL.octave (XFloat.rsub kpL.ptx maxD) (kpL.ptx - minD) vCandidates
          = pre ++ bestIdxR :: post ∧
        (∀ x, x ∈ pre → f.DescriptorDistance iL bestIdxR < f.DescriptorDistance iL x) ∧
        (∀ x, x ∈ post → f.DescriptorDistance iL bestIdxR ≤ f.DescriptorDistance iL x) ∧
        f.DescriptorDistance iL bestIdxR < f.TH_HIGH ∧
        preselect f iL kpL.octave (XFloat.rsub kpL.ptx maxD) (kpL.ptx - minD) vCandidates
          (f.TH_HIGH, 0) = .ok (f.DescriptorDistance iL bestIdxR, bestIdxR) ∧
        matchLeft f vRowIndices minD maxD thOrbDist iL kpL
          = if f.DescriptorDistance iL bestIdxR < thOrbDist then
              sadRefine f minD maxD kpL bestIdxR
            else .ok none) ∧
    ((∀ x, x ∈ eligibleCandidates f kpL.octave (XFloat.rsub kpL.ptx maxD) (kpL.ptx - minD)
          vCandidates → f.TH_HIGH ≤ f.DescriptorDistance iL x) →
      matchLeft f vRowIndices minD maxD thOrbDist iL kpL = .ok none) ∧
    (matchLeft f vRowIndices minD maxD thOrbDist iL kpL = .ok none →
      ∀ (rest : List KeyPoint) (st : List ℚ × List ℚ × List (Int × Nat)),
        matchLoop f vRowIndices minD maxD thOrbDist iL (kpL :: rest) st
          = matchLoop f vRowIndices minD maxD thOrbDist (iL + 1) rest st) := by
  have hpre := preselect_eq_foldl f iL kpL.octave (XFloat.rsub kpL.ptx maxD) (kpL.ptx - minD)
    vCandidates (f.TH_HIGH, 0) hvalid
  obtain ⟨hkeep, hfirst⟩ := keepCloser_foldl (f.DescriptorDistance iL)
    (eligibleCandidates f kpL.octave (XFloat.rsub kpL.ptx maxD) (kpL.ptx - minD) vCandidates)
    (f.TH_HIGH, 0)
  refine ⟨?_, ?_, ?_⟩
  · intro hex
    obtain ⟨pre, post, e1, e2, e3, e4, e5⟩ := hfirst hex
    have hres : preselect f iL kpL.octave (XFloat.rsub kpL.ptx maxD) (kpL.ptx - minD)
        vCandidates (f.TH_HIGH, 0)
        = .ok (f.DescriptorDistance iL
            ((eligibleCandidates f kpL.octave (XFloat.rsub kpL.ptx maxD) (kpL.ptx - minD)
              vCandidates).foldl (keepCloser (f.DescriptorDistance iL)) (f.TH_HIGH, 0)).2,
          ((eligibleCandidates f kpL.octave (XFloat.rsub kpL.ptx maxD) (kpL.ptx - minD)
              vCandidates).foldl (keepCloser (f.DescriptorDistance iL)) (f.TH_HIGH, 0)).2) := by
      rw [hpre, e2]
    have hne : vCandidates.isEmpty = false := by
      cases vCandidates with
      | nil =>
        obtain ⟨x, hx, _⟩ := hex
        simp [eligibleCandidates] at hx
      | cons a l => rfl
    refine ⟨_, pre, post, e1, ?_, ?_, ?_, hres, ?_⟩
    · intro x hx
      rw [e2]
      exact e4 x hx
    · intro x hx
      rw [e2]
      exact e5 x hx
    · rw [e2]
      exact e3
    · by_cases hd : f.DescriptorDistance iL
          ((eligibleCandidates f kpL.octave (XFloat.rsub kpL.ptx maxD) (kpL.ptx - minD)
            vCandidates).foldl (keepCloser (f.DescriptorDistance iL)) (f.TH_HIGH, 0)).2
          < thOrbDist
      · rw [if_pos hd]
        exact matchLeft_path f vRowIndices minD maxD thOrbDist iL kpL vCandidates _ _
          hrow hne hU hres hd
      · rw [if_neg hd]
        exact matchLeft_no_descriptor f vRowIndices minD maxD thOrbDist iL kpL vCandidates _ _
          hrow hne hU hres hd
  · intro hall
    have hres : preselect f iL kpL.octave (XFloat.rsub kpL.ptx maxD) (kpL.ptx - minD)
        vCandidates (f.TH_HIGH, 0) = .ok (f.TH_HIGH, 0) := by
      rw [hpre, hkeep hall]
    cases hc : vCandidates with
    | nil =>
      rw [hc] at hrow
      exact matchLeft_no_candidate f vRowIndices minD maxD thOrbDist iL kpL hrow
    | cons a l =>
      have hne : vCandidates.isEmpty = false := by
        rw [hc]
        rfl
      exact matchLeft_no_descriptor f vRowIndices minD maxD thOrbDist iL kpL vCandidates _ _
        hrow hne hU hres (not_lt.mpr hth)
  · intro hnone rest st
    obtain ⟨ru, dep, vd⟩ := st
    simp only [matchLoop, hnone]

/-- C32 on the scenario of the specification: the single right keypoint is eligible,
its descriptor distance 0 is below `TH_HIGH = 100` and below `thOrbDist = 75`, it is
kept in `bestIdxR` and the SAD refinement runs on it. -/
theorem preselection_spec_witness :
    preselect (perfectScene (1 / 10)) 0 0 (XFloat.rsub 300 (XFloat.fin 500)) (300 - 0) [0]
        (100, 0) = .ok (0, 0) ∧
    matchLeft (perfectScene (1 / 10)) rowTable200 0 (XFloat.fin 500) 75 0
        { ptx := 300, pty := 200, octave := 0 }
      = .ok (some (5 / 4, 260, 0)) := by
  have hE : eligibleCandidates (perfectScene (1 / 10)) 0 (XFloat.rsub 300 (XFloat.fin 500))
      (300 - 0) [0] = [0] := by
    norm_num [eligibleCandidates, perfectScene, stereoScene, XFloat.rsub, XFloat.geX]
  obtain ⟨bestIdxR, pre, post, e1, _, _, _, hres, hm⟩ :=
    (preselection_spec (perfectScene (1 / 10)) rowTable200 0 (XFloat.fin 500) 75 0
      { ptx := 300, pty := 200, octave := 0 } [0]
      (by simp only [ctrunc_200]; exact rowTable200_at)
      (by
        intro iR hiR
        rw [List.mem_singleton] at hiR
        rw [hiR]
        decide)
      (by norm_num)
      (by decide)).1 ⟨0, by rw [hE]; exact List.mem_singleton.mpr rfl, by decide⟩
  have hb : bestIdxR = 0 := by
    rw [hE] at e1
    cases pre with
    | nil =>
      have := List.cons.inj e1
      exact this.1.symm
    | cons a l =>
      have := (List.cons.inj e1).2
      cases l <;> cases this
  subst hb
  refine ⟨hres, ?_⟩
  rw [hm]
  have hd : (perfectScene (1 / 10)).DescriptorDistance 0 0 = 0 := rfl
  rw [hd, if_pos (by decide)]
  exact sadRefine_perfect (1 / 10) (XFloat.fin 500) (by norm_num [XFloat.ltX])

/-! ## Initializer: the points that `CheckRT` flags -/

/-- The match list that `Initialize` builds has distinct reference indices, none
below the start index. -/
theorem collectMatches_nodup :
    ∀ (l : List Int) (i : Nat),
      ((collectMatches i l).map Prod.fst).Nodup ∧
      ∀ m, m ∈ collectMatches i l → i ≤ m.1 := by
  intro l
  induction l with
  | nil =>
    intro i
    exact ⟨List.nodup_nil, fun m hm => by cases hm⟩
  | cons v rest ih =>
    intro i
    obtain ⟨h1, h2⟩ := ih (i + 1)
    unfold collectMatches
    split_ifs with hv
    · constructor
      · rw [List.map_cons, List.nodup_cons]
        refine ⟨?_, h1⟩
        intro hmem
        obtain ⟨m, hm, hmi⟩ := List.mem_map.mp hmem
        have := h2 m hm
        simp only [] at hmi
        omega
      · intro m hm
        rcases List.mem_cons.mp hm with h | h
        · rw [h]
        · have := h2 m h
          omega
    · refine ⟨h1, ?_⟩
      intro m hm
      have := h2 m hm
      omega

/-- The possible results of one pass of the loop of `CheckRT`: the state is left as
it was; or the match is flagged inlier and only `vbGood` at the reference index is
cleared; or the match is flagged inlier, the triangulated point `X` is finite and
passes the four tests, and the match is counted. -/
theorem checkRTMatch_cases (SVDcompute : Mat4 → Mat4) (norm : Vec3 → ℚ) (R : Mat3)
    (t : Vec3) (vKeys1 vKeys2 : List KeyPoint) (vbMatchesInliers : List Bool) (K : Mat3)
    (th2 : ℚ) (i : Nat) (m : Nat × Nat) (st st1 : CheckRTState)
    (h : checkRTMatch SVDcompute norm R t vKeys1 vKeys2 vbMatchesInliers K th2 i m st
      = .ok st1) :
    st1 = st ∨
    (vbMatchesInliers[i]? = some true ∧
      st1 = { st with vbGood := st.vbGood.set m.1 false }) ∨
    (vbMatchesInliers[i]? = some true ∧
      ∃ kp1 kp2 X cosParallax, vKeys1[m.1]? = some kp1 ∧ vKeys2[m.2]? = some kp2 ∧
        ¬ (X 2 ≤ 0 ∧ XFloat.ltQ cosParallax (99998 / 100000) = true) ∧
        ¬ ((Matrix.mulVec R X + t) 2 ≤ 0 ∧ XFloat.ltQ cosParallax (99998 / 100000) = true) ∧
        ¬ (XFloat.gtQ (squareReprojError (K 0 0) (K 1 1) (K 0 2) (K 1 2) X kp1) th2 = true) ∧
        ¬ (XFloat.gtQ (squareReprojError (K 0 0) (K 1 1) (K 0 2) (K 1 2)
          (Matrix.mulVec R X + t) kp2) th2 = true) ∧
        st1 = { nGood := st.nGood + 1,
                vP3D := st.vP3D.set m.1 X,
                vbGood :=
                  if XFloat.ltQ cosParallax (99998 / 100000) = true then
                    st.vbGood.set m.1 true
                  else st.vbGood,
                vCosParallax := st.vCosParallax ++ [cosParallax] }) := by
  unfold checkRTMatch at h
  simp only [] at h
  split at h
  · cases h
  · exact Or.inl (Except.ok.inj h).symm
  · rename_i hin
    split at h
    · rename_i kp1 kp2 hk1 hk2
      split at h
      · rename_i x y z h0 h1 h2
        split_ifs at h with c1 c2 c3 c4 c5
        · exact Or.inl (Except.ok.inj h).symm
        · exact Or.inl (Except.ok.inj h).symm
        · exact Or.inl (Except.ok.inj h).symm
        · exact Or.inl (Except.ok.inj h).symm
        · exact Or.inr (Or.inr ⟨hin, kp1, kp2, ![x, y, z], _, hk1, hk2, c1, c2, c3, c4,
            by rw [if_pos c5]; exact (Except.ok.inj h).symm⟩)
        · exact Or.inr (Or.inr ⟨hin, kp1, kp2, ![x, y, z], _, hk1, hk2, c1, c2, c3, c4,
            by rw [if_neg c5]; exact (Except.ok.inj h).symm⟩)
      · exact Or.inr (Or.inl ⟨hin, (Except.ok.inj h).symm⟩)
    · cases h

/-- Writing one flag raises the number of true flags by at most one, and writing
`false` does not raise it. -/
theorem count_set_le (l : List Bool) :
    ∀ (k : Nat) (b : Bool),
      (l.set k b).count true ≤ l.count true + 1 ∧
      (l.set k false).count true ≤ l.count true := by
  induction l with
  | nil =>
    intro k b
    simp
  | cons a rest ih =>
    intro k b
    cases k with
    | zero =>
      simp only [List.set_cons_zero, List.count_cons]
      cases a
      · cases b
        · simp
        · simp
      · cases b
        · simp
          omega
        · simp
    | succ k =>
      obtain ⟨h1, h2⟩ := ih k b
      simp only [List.set_cons_succ, List.count_cons]
      constructor <;> omega

/-- The number of true flags among the first `n + 1` entries of a mask. -/
theorem count_take_succ (l : List Bool) (n : Nat) :
    (l.take (n + 1)).count true
      = (l.take n).count true + (if l[n]? = some true then 1 else 0) := by
  rw [List.take_succ, List.count_append]
  congr 1
  cases h : l[n]? with
  | none => simp
  | some b => cases b <;> simp

/-- The two tests of `CheckRT` on a point with cosine below the threshold leave a
positive depth, and a point of non-zero depth has a squared reprojection error that is
a number. -/
theorem passes_to_good (K R : Mat3) (t : Vec3) (th2 : ℚ) (kp1 kp2 : KeyPoint) (X : Vec3)
    (cosParallax : XFloat)
    (hcos : XFloat.ltQ cosParallax (99998 / 100000) = true)
    (c1 : ¬ (X 2 ≤ 0 ∧ XFloat.ltQ cosParallax (99998 / 100000) = true))
    (c2 : ¬ ((Matrix.mulVec R X + t) 2 ≤ 0 ∧ XFloat.ltQ cosParallax (99998 / 100000) = true))
    (c3 : ¬ (XFloat.gtQ (squareReprojError (K 0 0) (K 1 1) (K 0 2) (K 1 2) X kp1) th2 = true))
    (c4 : ¬ (XFloat.gtQ (squareReprojError (K 0 0) (K 1 1) (K 0 2) (K 1 2)
      (Matrix.mulVec R X + t) kp2) th2 = true)) :
    wellTriangulated K R t th2 kp1 kp2 X := by
  have hz : 0 < X 2 := by
    by_contra h
    exact c1 ⟨not_lt.mp h, hcos⟩
  have hz2 : 0 < (Matrix.mulVec R X + t) 2 := by
    by_contra h
    exact c2 ⟨not_lt.mp h, hcos⟩
  refine ⟨hz, hz2, ?_, ?_⟩
  · rw [squareReprojError_fin _ _ _ _ _ _ (ne_of_gt hz)] at c3 ⊢
    refine ⟨_, rfl, ?_⟩
    simp only [XFloat.gtQ, decide_eq_true_eq] at c3
    exact not_lt.mp c3
  · rw [squareReprojError_fin _ _ _ _ _ _ (ne_of_gt hz2)] at c4 ⊢
    refine ⟨_, rfl, ?_⟩
    simp only [XFloat.gtQ, decide_eq_true_eq] at c4
    exact not_lt.mp c4

/-- One pass of the loop of `CheckRT` over a match whose reference index has not been
visited keeps the facts of `CheckRTInv`. -/
theorem checkRTMatch_keeps_inv (SVDcompute : Mat4 → Mat4) (norm : Vec3 → ℚ) (R : Mat3)
    (t : Vec3) (vKeys1 vKeys2 : List KeyPoint) (vbMatchesInliers : List Bool) (K : Mat3)
    (th2 : ℚ) (done : List (Nat × Nat)) (m : Nat × Nat) (st st1 : CheckRTState)
    (hinv : CheckRTInv K R t th2 vKeys1 vKeys2 vbMatchesInliers done st)
    (hnew : ∀ m', m' ∈ done → m'.1 ≠ m.1)
    (h : checkRTMatch SVDcompute norm R t vKeys1 vKeys2 vbMatchesInliers K th2 done.length m st
      = .ok st1) :
    CheckRTInv K R t th2 vKeys1 vKeys2 vbMatchesInliers (done ++ [m]) st1 := by
  obtain ⟨i1, i2, i3, i4, i5, i6⟩ := hinv
  have hlen : (done ++ [m]).length = done.length + 1 := by simp
  have htake := count_take_succ vbMatchesInliers done.length
  have hmono : ∀ k : Nat, st.vbGood[k]? = some true →
      ∃ (X : Vec3) (m0 : Nat × Nat) (kp1 kp2 : KeyPoint),
        st.vP3D[k]? = some X ∧ m0 ∈ done ++ [m] ∧ m0.1 = k ∧
        vKeys1[m0.1]? = some kp1 ∧ vKeys2[m0.2]? = some kp2 ∧
        wellTriangulated K R t th2 kp1 kp2 X := by
    intro k hk
    obtain ⟨X, m0, kp1, kp2, a1, a2, a3, a4, a5, a6⟩ := i3 k hk
    exact ⟨X, m0, kp1, kp2, a1, List.mem_append_left _ a2, a3, a4, a5, a6⟩
  rcases checkRTMatch_cases SVDcompute norm R t vKeys1 vKeys2 vbMatchesInliers K th2
    done.length m st st1 h with hs | ⟨hin, hs⟩ | ⟨hin, kp1, kp2, X, cosP, hk1, hk2, c1, c2, c3, c4, hs⟩
  · rw [hs]
    refine ⟨i1, i2, hmono, i4, ?_, i6⟩
    rw [hlen, htake]
    omega
  · rw [hs]
    refine ⟨i1, ?_, ?_, ?_, ?_, i6⟩
    · simp only [List.length_set]
      exact i2
    · intro k hk
      simp only [List.getElem?_set] at hk
      by_cases hmk : m.1 = k
      · rw [if_pos hmk] at hk
        split_ifs at hk
        cases hk
      · rw [if_neg hmk] at hk
        exact hmono k hk
    · exact le_trans (count_set_le st.vbGood m.1 false).2 i4
    · simp only []
      rw [hlen, htake]
      omega
  · rw [hs]
    have hm1 : m.1 < vKeys1.length := by
      by_contra hge
      rw [List.getElem?_eq_none (not_lt.mp hge)] at hk1
      cases hk1
    refine ⟨?_, ?_, ?_, ?_, ?_, ?_⟩
    · simp only [List.length_set]
      exact i1
    · simp only []
      split_ifs
      · rw [List.length_set]
        exact i2
      · exact i2
    · intro k hk
      simp only [] at hk ⊢
      by_cases hmk : m.1 = k
      · by_cases hcos : XFloat.ltQ cosP (99998 / 100000) = true
        · refine ⟨X, m, kp1, kp2, ?_, List.mem_append_right _ (List.mem_singleton.mpr rfl), hmk,
            hk1, hk2, passes_to_good K R t th2 kp1 kp2 X cosP hcos c1 c2 c3 c4⟩
          rw [← hmk]
          exact List.getElem?_set_self (by rw [i1]; exact hm1)
        · rw [if_neg hcos] at hk
          obtain ⟨_, m0, _, _, _, a2, a3, _⟩ := i3 k hk
          exact absurd (a3.trans hmk.symm) (hnew m0 a2)
      · have hk0 : st.vbGood[k]? = some true := by
          split_ifs at hk
          · rw [List.getElem?_set_ne hmk] at hk
            exact hk
          · exact hk
        obtain ⟨X0, m0, q1, q2, a1, a2, a3, a4, a5, a6⟩ := hmono k hk0
        refine ⟨X0, m0, q1, q2, ?_, a2, a3, a4, a5, a6⟩
        rw [List.getElem?_set_ne hmk]
        exact a1
    · simp only []
      split_ifs
      · exact le_trans (count_set_le st.vbGood m.1 true).1 (by omega)
      · omega
    · simp only []
      rw [hlen, htake, if_pos hin]
      omega
    · simp only [List.length_append, List.length_singleton]
      omega

/-- The loop of `CheckRT` over matches with distinct reference indices keeps the facts
of `CheckRTInv`. -/
theorem checkRTLoop_keeps_inv (SVDcompute : Mat4 → Mat4) (norm : Vec3 → ℚ) (R : Mat3)
    (t : Vec3) (vKeys1 vKeys2 : List KeyPoint) (vbMatchesInliers : List Bool) (K : Mat3)
    (th2 : ℚ) :
    ∀ (rest done : List (Nat × Nat)) (st res : CheckRTState),
      ((done ++ rest).map Prod.fst).Nodup →
      CheckRTInv K R t th2 vKeys1 vKeys2 vbMatchesInliers done st →
      checkRTLoop SVDcompute norm R t vKeys1 vKeys2 vbMatchesInliers K th2 done.length rest st
        = .ok res →
      CheckRTInv K R t th2 vKeys1 vKeys2 vbMatchesInliers (done ++ rest) res := by
  intro rest
  induction rest with
  | nil =>
    intro done st res _ hinv h
    simp only [checkRTLoop] at h
    rw [List.append_nil, ← Except.ok.inj h]
    exact hinv
  | cons m rest ih =>
    intro done st res hnd hinv h
    simp only [checkRTLoop] at h
    cases hstep : checkRTMatch SVDcompute norm R t vKeys1 vKeys2 vbMatchesInliers K th2
        done.length m st with
    | error e =>
      rw [hstep] at h
      cases h
    | ok st1 =>
      rw [hstep] at h
      have hnew : ∀ m', m' ∈ done → m'.1 ≠ m.1 := by
        intro m' hm' heq
        rw [List.map_append, List.map_cons, List.nodup_append] at hnd
        exact hnd.2.2 (List.mem_map.mpr ⟨m', hm', rfl⟩)
          (by rw [heq]; exact List.mem_cons_self _ _)
      have hinv1 := checkRTMatch_keeps_inv SVDcompute norm R t vKeys1 vKeys2 vbMatchesInliers
        K th2 done m st st1 hinv hnew hstep
      have hl : (done ++ [m]).length = done.length + 1 := by simp
      have := ih (done ++ [m]) st1 res (by
        rw [List.append_assoc]
        exact hnd) hinv1 (by rw [hl]; exact h)
      rw [List.append_assoc] at this
      exact this

/-- One pass of the loop of `CheckRT` ends normally when the mask has a flag for the
match and both keypoints exist. -/
theorem checkRTMatch_total (SVDcompute : Mat4 → Mat4) (norm : Vec3 → ℚ) (R : Mat3)
    (t : Vec3) (vKeys1 vKeys2 : List KeyPoint) (vbMatchesInliers : List Bool) (K : Mat3)
    (th2 : ℚ) (i : Nat) (m : Nat × Nat) (st : CheckRTState)
    (hi : i < vbMatchesInliers.length) (h1 : m.1 < vKeys1.length) (h2 : m.2 < vKeys2.length) :
    ∃ st1, checkRTMatch SVDcompute norm R t vKeys1 vKeys2 vbMatchesInliers K th2 i m st
      = .ok st1 := by
  have e0 : vbMatchesInliers[i]? = some vbMatchesInliers[i] := List.getElem?_eq_getElem hi
  have e1 : vKeys1[m.1]? = some vKeys1[m.1] := List.getElem?_eq_getElem h1
  have e2 : vKeys2[m.2]? = some vKeys2[m.2] := List.getElem?_eq_getElem h2
  unfold checkRTMatch
  simp only [e0, e1, e2]
  cases vbMatchesInliers[i] with
  | false => exact ⟨_, rfl⟩
  | true =>
    simp only []
    split
    · split_ifs <;> exact ⟨_, rfl⟩
    · exact ⟨_, rfl⟩

/-- The loop of `CheckRT` ends normally when the mask has a flag for every match and
all keypoints exist. -/
theorem checkRTLoop_total (SVDcompute : Mat4 → Mat4) (norm : Vec3 → ℚ) (R : Mat3)
    (t : Vec3) (vKeys1 vKeys2 : List KeyPoint) (vbMatchesInliers : List Bool) (K : Mat3)
    (th2 : ℚ) :
    ∀ (rest : List (Nat × Nat)) (i : Nat) (st : CheckRTState),
      i + rest.length ≤ vbMatchesInliers.length →
      (∀ m, m ∈ rest → m.1 < vKeys1.length ∧ m.2 < vKeys2.length) →
      ∃ res, checkRTLoop SVDcompute norm R t vKeys1 vKeys2 vbMatchesInliers K th2 i rest st
        = .ok res := by
  intro rest
  induction rest with
  | nil =>
    intro i st _ _
    exact ⟨st, rfl⟩
  | cons m rest ih =>
    intro i st hlen hkeys
    simp only [List.length_cons] at hlen
    obtain ⟨st1, hst1⟩ := checkRTMatch_total SVDcompute norm R t vKeys1 vKeys2
      vbMatchesInliers K th2 i m st (by omega) (hkeys m (List.mem_cons_self _ _)).1
      (hkeys m (List.mem_cons_self _ _)).2
    obtain ⟨res, hres⟩ := ih (i + 1) st1 (by omega)
      (fun q hq => hkeys q (List.mem_cons_of_mem _ hq))
    refine ⟨res, ?_⟩
    simp only [checkRTLoop, hst1]
    exact hres

/-- The end of `CheckRT` gives a parallax when there are as many cosines as counted
points. -/
theorem selectParallax_total (acosDeg : XFloat → XFloat) (nGood : Nat)
    (vCosParallax : List XFloat) (hlen : vCosParallax.length = nGood) :
    ∃ parallax, selectParallax acosDeg nGood vCosParallax = .ok parallax := by
  unfold selectParallax
  by_cases h0 : nGood > 0
  · rw [if_pos h0]
    have hs := sortCos_length vCosParallax
    have hidx : 0 ≤ min (50 : Int) (((sortCos vCosParallax).length : Int) - 1) ∧
        (min (50 : Int) (((sortCos vCosParallax).length : Int) - 1)).toNat
          < (sortCos vCosParallax).length := by
      omega
    simp only [listAt, if_pos hidx.1, List.getElem?_eq_getElem hidx.2]
    exact ⟨_, rfl⟩
  · rw [if_neg h0]
    exact ⟨_, rfl⟩

/-- C38. Triangulated points are in front of both cameras.  The match list that
`Initialize` builds has distinct reference indices.  For such a list, a mask with a
flag for every match and keypoint indices in range, `CheckRT` returns; for every
reference keypoint `k` flagged true in the returned `vbGood` there is a match with
reference index `k` whose stored point `X = vP3D[k]` has `X.z > 0`, `(R*X + t).z > 0`
and a squared reprojection error `≤ th2` in both images; the number of true flags is
at most `nGood`, and `nGood` is at most the number of matches flagged inlier. -/
theorem CheckRT_flags_good (SVDcompute : Mat4 → Mat4) (norm : Vec3 → ℚ)
    (acosDeg : XFloat → XFloat) (R : Mat3) (t : Vec3) (vKeys1 vKeys2 : List KeyPoint)
    (vMatches12 : List (Nat × Nat)) (vbMatchesInliers : List Bool) (K : Mat3)
    (vP3D : List Vec3) (th2 : ℚ)
    (hnodup : (vMatches12.map Prod.fst).Nodup)
    (hmask : vMatches12.length ≤ vbMatchesInliers.length)
    (hkeys : ∀ m, m ∈ vMatches12 → m.1 < vKeys1.length ∧ m.2 < vKeys2.length) :
    (∀ v : List Int, ((collectMatches 0 v).map Prod.fst).Nodup) ∧
    ∃ (nGood : Nat) (P : List Vec3) (G : List Bool) (parallax : XFloat),
      CheckRT SVDcompute norm acosDeg R t vKeys1 vKeys2 vMatches12 vbMatchesInliers K vP3D th2
        = .ok (nGood, P, G, parallax) ∧
      (∀ k : Nat, G[k]? = some true →
        ∃ (X : Vec3) (m : Nat × Nat) (kp1 kp2 : KeyPoint),
          P[k]? = some X ∧ m ∈ vMatches12 ∧ m.1 = k ∧
          vKeys1[m.1]? = some kp1 ∧ vKeys2[m.2]? = some kp2 ∧
          wellTriangulated K R t th2 kp1 kp2 X) ∧
      G.count true ≤ nGood ∧
      nGood ≤ (vbMatchesInliers.take vMatches12.length).count true := by
  refine ⟨fun v => (collectMatches_nodup v 0).1, ?_⟩
  obtain ⟨res, hres⟩ := checkRTLoop_total SVDcompute norm R t vKeys1 vKeys2 vbMatchesInliers
    K th2 vMatches12 0
    { nGood := 0,
      vP3D := (vP3D ++ List.replicate (vKeys1.length - vP3D.length) 0).take vKeys1.length,
      vbGood := List.replicate vKeys1.length false, vCosParallax := [] }
    (by omega) hkeys
  have hinit : CheckRTInv K R t th2 vKeys1 vKeys2 vbMatchesInliers []
      { nGood := 0,
        vP3D := (vP3D ++ List.replicate (vKeys1.length - vP3D.length) 0).take vKeys1.length,
        vbGood := List.replicate vKeys1.length false, vCosParallax := [] } := by
    refine ⟨?_, ?_, ?_, ?_, ?_, rfl⟩
    · simp only [List.length_take, List.length_append, List.length_replicate]
      omega
    · simp
    · intro k hk
      simp only [List.getElem?_replicate] at hk
      split_ifs at hk
      cases hk
    · simp [List.count_replicate]
    · simp
  have hinv := checkRTLoop_keeps_inv SVDcompute norm R t vKeys1 vKeys2 vbMatchesInliers K th2
    vMatches12 [] _ res (by simpa using hnodup) hinit hres
  rw [List.nil_append] at hinv
  obtain ⟨_, _, i3, i4, i5, i6⟩ := hinv
  obtain ⟨parallax, hpar⟩ := selectParallax_total acosDeg res.nGood res.vCosParallax i6
  refine ⟨res.nGood, res.vP3D, res.vbGood, parallax, ?_, i3, i4, i5⟩
  unfold CheckRT
  simp only [hres, hpar]

/-- `CheckRT` on the point at depth 4 on the optical axis of the first camera, seen by
a second camera displaced by `t = (3, 0, 0)` with `K = R = I`; the identity stands in
for the angle function, so that the parallax shows the cosine selected. -/
theorem CheckRT_depthFour :
    CheckRT svdDepthFour euclidNorm (fun c => c) 1 ![3, 0, 0]
        [{ ptx := 0, pty := 0, octave := 0 }] [{ ptx := 3 / 4, pty := 0, octave := 0 }]
        [(0, 0)] [true] 1 [] 4
      = .ok (1, [![0, 0, 4]], [true], XFloat.fin (4 / 5)) := by
  obtain ⟨h00, _, h02, _, h11, h12, _, _, _⟩ := one_entries
  have hp := checkRT_example_point { ptx := 0, pty := 0, octave := 0 }
    { ptx := 3 / 4, pty := 0, octave := 0 } (projectionOne 1) (projectionTwo 1 1 ![3, 0, 0])
  have hz2 : (Matrix.mulVec (1 : Mat3) (![0, 0, 4] : Vec3) + ![3, 0, 0] : Vec3) 2 ≠ 0 := by
    rw [checkRT_example_second]
    norm_num [Matrix.cons_val_two]
  have hcos : cosParallaxOf euclidNorm 0
      (Matrix.mulVec (-(Matrix.transpose (1 : Mat3))) (![3, 0, 0] : Vec3)) ![0, 0, 4]
      = XFloat.fin (4 / 5) := by
    rw [cosParallaxOf_fin _ _ _ _ (by
      rw [sub_zero, checkRT_example_centre, checkRT_example_dist.1, checkRT_example_dist.2]
      norm_num)]
    rw [sub_zero, checkRT_example_centre, checkRT_example_dist.1, checkRT_example_dist.2]
    norm_num [Matrix.dotProduct, Fin.sum_univ_three, Matrix.cons_val_two]
  have he1 : squareReprojError ((1 : Mat3) 0 0) ((1 : Mat3) 1 1) ((1 : Mat3) 0 2)
      ((1 : Mat3) 1 2) ![0, 0, 4] { ptx := 0, pty := 0, octave := 0 } = XFloat.fin 0 := by
    rw [squareReprojError_fin _ _ _ _ _ _ (by norm_num [Matrix.cons_val_two]),
      h00, h02, h11, h12]
    norm_num [Matrix.cons_val_two]
  have he2 : squareReprojError ((1 : Mat3) 0 0) ((1 : Mat3) 1 1) ((1 : Mat3) 0 2)
      ((1 : Mat3) 1 2) (Matrix.mulVec (1 : Mat3) (![0, 0, 4] : Vec3) + ![3, 0, 0])
      { ptx := 3 / 4, pty := 0, octave := 0 } = XFloat.fin 0 := by
    rw [squareReprojError_fin _ _ _ _ _ _ hz2, checkRT_example_second, h00, h02, h11, h12]
    norm_num [Matrix.cons_val_two]
  have hstep := checkRTMatch_finite svdDepthFour euclidNorm 1 ![3, 0, 0]
    [{ ptx := 0, pty := 0, octave := 0 }] [{ ptx := 3 / 4, pty := 0, octave := 0 }]
    [true] 1 4 0 (0, 0)
    { nGood := 0, vP3D := [0], vbGood := [false], vCosParallax := [] }
    { ptx := 0, pty := 0, octave := 0 } { ptx := 3 / 4, pty := 0, octave := 0 } 0 0 4
    rfl rfl rfl hp.1 hp.2.1 hp.2.2
  rw [hcos, he1, he2, checkRT_example_second] at hstep
  simp only [XFloat.ltQ, XFloat.gtQ] at hstep
  norm_num [Matrix.cons_val_two, -Prod.mk_zero_zero] at hstep
  unfold CheckRT
  simp only [List.length_cons, List.length_nil, List.replicate, Nat.sub_zero, List.nil_append,
    List.take, checkRTLoop, hstep]
  simp [selectParallax, sortCos, listAt]

/-- C38 on the point at depth 4 of `CheckRT_depthFour`: its keypoint is the only one
flagged, and the stored point `(0, 0, 4)` is well triangulated for its match. -/
theorem CheckRT_flags_good_witness :
    CheckRT svdDepthFour euclidNorm (fun c => c) 1 ![3, 0, 0]
        [{ ptx := 0, pty := 0, octave := 0 }] [{ ptx := 3 / 4, pty := 0, octave := 0 }]
        [(0, 0)] [true] 1 [] 4
      = .ok (1, [![0, 0, 4]], [true], XFloat.fin (4 / 5)) ∧
    wellTriangulated 1 1 ![3, 0, 0] 4 { ptx := 0, pty := 0, octave := 0 }
      { ptx := 3 / 4, pty := 0, octave := 0 } ![0, 0, 4] := by
  obtain ⟨_, nGood, P, G, parallax, hres, hflags, _, _⟩ :=
    CheckRT_flags_good svdDepthFour euclidNorm (fun c => c) 1 ![3, 0, 0]
      [{ ptx := 0, pty := 0, octave := 0 }] [{ ptx := 3 / 4, pty := 0, octave := 0 }]
      [(0, 0)] [true] 1 [] 4 (by simp) (by simp)
      (by
        intro m hm
        rw [List.mem_singleton] at hm
        rw [hm]
        exact ⟨by decide, by decide⟩)
  rw [CheckRT_depthFour] at hres
  have hinj := Except.ok.inj hres
  have hP : P = [![0, 0, 4]] := (congrArg (fun r => r.2.1) hinj).symm
  have hG : G = [true] := (congrArg (fun r => r.2.2.1) hinj).symm
  subst hP
  subst hG
  refine ⟨CheckRT_depthFour, ?_⟩
  obtain ⟨X, m, kp1, kp2, a1, a2, _, a4, a5, a6⟩ := hflags 0 rfl
  rw [List.mem_singleton] at a2
  subst a2
  have hX : X = ![0, 0, 4] := (Option.some.inj a1).symm
  have hk1 : kp1 = { ptx := 0, pty := 0, octave := 0 } := (Option.some.inj a4).symm
  have hk2 : kp2 = { ptx := 3 / 4, pty := 0, octave := 0 } := (Option.some.inj a5).symm
  rw [hX, hk1, hk2] at a6
  exact a6

end ORB_SLAM2
